import Mathlib

/-!
# Malamute: a shallow embedding of the fuzzing pipeline

The Go sources embedded here are `data/data.go`, `session/session.go`,
`config/config.go`, `arggen/arggen.go`, `arggen/firefox.go`,
`arggen/chrome.go`, `resultproc/savefile.go`, `monitor/exitcode.go`,
`mutate/radamsa.go`, `mutate/nop.go`, `manage/manage.go` and
`bin/mfuzz/main.go`.

Conventions.
* A Go `int` is an `Int`; the counters of the program only ever move by one
  per test case, so 64-bit wrap-around is out of reach and is not modelled.
* A Go `map[string]int` is an association list read at the first entry of a
  key (`GoMap`); a nil map is `none`.
* A Go `string` is a `String`, a sequence of Unicode characters, except in
  the models of `session.json` and `bugdesc.json`, where it is its bytes
  (`GoBytes`): `encoding/json` is where the program treats bytes that are not
  valid UTF-8 differently from the others.
* A channel is the list of values sent on it, in order.
* Every interaction with the operating system (files, child processes, the
  clock) is answered by an explicit oracle structure passed to the model.
* A loop that the source does not bound takes a fuel argument and returns
  `none` when the fuel runs out before the loop ends.
-/

namespace Malamute

/-! ## Go maps -/

/-- A Go `map[string]int`: association list, a key is read at its first entry. -/
abbrev GoMap := List (String × Int)

/-- The two-valued lookup `v, ok := m[key]`. -/
def GoMap.get? : GoMap → String → Option Int
  | [], _ => none
  | (k, v) :: m, key => if k = key then some v else GoMap.get? m key

/-- The one-valued lookup `m[key]`, the zero value when the key is absent. -/
def GoMap.getD (m : GoMap) (key : String) : Int :=
  (GoMap.get? m key).getD 0

/-- The assignment `m[key] = v`. -/
def GoMap.set : GoMap → String → Int → GoMap
  | [], key, v => [(key, v)]
  | (k, w) :: m, key, v =>
    if k = key then (k, v) :: m else (k, w) :: GoMap.set m key v

/-- The sum of all the values stored in a map. -/
def GoMap.sum (m : GoMap) : Int :=
  (m.map Prod.snd).sum

/-! ## Go path functions (`path/filepath` on Unix) -/

/-- Splits a path at every `/`; there is always at least one piece. -/
def splitSlash : List Char → List (List Char)
  | [] => [[]]
  | c :: cs =>
    match splitSlash cs with
    | [] => [[]]
    | w :: ws => if c = '/' then [] :: w :: ws else (c :: w) :: ws

/-- One element of `filepath.Clean`: `out` is the stack of kept elements,
innermost first. Empty and `.` elements are dropped, `..` removes the
previous element when there is one to remove. -/
def cleanStep (rooted : Bool) (out : List (List Char)) (comp : List Char) :
    List (List Char) :=
  if comp = [] ∨ comp = ['.'] then out
  else if comp = ['.', '.'] then
    match out with
    | [] => if rooted then [] else [comp]
    | top :: rest => if top = ['.', '.'] then comp :: out else rest
  else comp :: out

/-- Go `filepath.Clean`. -/
def filepathClean (path : String) : String :=
  if path.data = [] then "."
  else
    let rooted := path.data.head? = some '/'
    let comps := (splitSlash path.data).foldl (cleanStep rooted) []
    let body := String.intercalate "/" (comps.reverse.map String.mk)
    if rooted then "/" ++ body else if body = "" then "." else body

/-- Go `filepath.Join` of two elements. -/
def filepathJoin (a b : String) : String :=
  if a ≠ "" then filepathClean (a ++ "/" ++ b)
  else if b ≠ "" then filepathClean b
  else ""

/-- Drops the trailing `/` characters of a reversed path. -/
def dropSlashes : List Char → List Char
  | [] => []
  | c :: cs => if c = '/' then dropSlashes cs else c :: cs

/-- Go `filepath.Base`. -/
def filepathBase (path : String) : String :=
  if path = "" then "."
  else
    let stripped := dropSlashes path.data.reverse
    let last := (stripped.takeWhile (fun c => c ≠ '/')).reverse
    if last = [] then "/" else String.mk last

/-- Go `filepath.Dir`. -/
def filepathDir (path : String) : String :=
  filepathClean (String.mk (path.data.reverse.dropWhile (fun c => c ≠ '/')).reverse)

/-- Go `strconv.Itoa`. -/
def itoa (n : Int) : String := toString n

/-! ## `data/data.go` -/

/-- The unit that flows through the pipeline (`data.TestCase`). -/
structure TestCase where
  SeedFilePaths : List String
  FuzzFilePath : String
  SeedFuzzCounts : Option GoMap
  TotalFuzzCount : Int
  ApplicationPath : String
  ApplicationEnv : List String
  TestTimedOut : Bool
  ExeSeconds : Int
  ExitCode : Int
  RunStdout : List String
  RunStderr : List String
  BugFound : Bool
  PreservationDir : String
deriving DecidableEq, Repr

/-- The zero value `data.TestCase{}`: every field zero, the map nil. -/
def TestCase.zero : TestCase :=
  { SeedFilePaths := [], FuzzFilePath := "", SeedFuzzCounts := none,
    TotalFuzzCount := 0, ApplicationPath := "", ApplicationEnv := [],
    TestTimedOut := false, ExeSeconds := 0, ExitCode := 0, RunStdout := [],
    RunStderr := [], BugFound := false, PreservationDir := "" }

/-- `data.NewTestCase`: the zero value with an allocated, empty map. -/
def NewTestCase : TestCase :=
  { TestCase.zero with SeedFuzzCounts := some [] }

/-! ## `session/session.go` -/

/-- Cumulative statistics of a session (`session.Stats`). -/
structure Stats where
  CrashCount : Int
  TestCasesProcessed : Int
  TimedOutTests : Int
  ExitCodeCounts : GoMap
  TestCasesProcessedPerSeed : GoMap
deriving DecidableEq, Repr

/-- The stats `session.Create` starts from. -/
def Stats.empty : Stats :=
  { CrashCount := 0, TestCasesProcessed := 0, TimedOutTests := 0,
    ExitCodeCounts := [], TestCasesProcessedPerSeed := [] }

/-- `Stats.AddTestCaseForSeed`. -/
def Stats.AddTestCaseForSeed (s : Stats) (seed : String) : Stats :=
  match GoMap.get? s.TestCasesProcessedPerSeed seed with
  | some v =>
    { s with TestCasesProcessedPerSeed :=
        GoMap.set s.TestCasesProcessedPerSeed seed (v + 1) }
  | none =>
    { s with TestCasesProcessedPerSeed :=
        GoMap.set s.TestCasesProcessedPerSeed seed 1 }

/-- `Stats.AddExitCode`. -/
def Stats.AddExitCode (s : Stats) (exitCode : Int) : Stats :=
  let exitCodeStr := itoa exitCode
  match GoMap.get? s.ExitCodeCounts exitCodeStr with
  | some v =>
    { s with ExitCodeCounts := GoMap.set s.ExitCodeCounts exitCodeStr (v + 1) }
  | none =>
    { s with ExitCodeCounts := GoMap.set s.ExitCodeCounts exitCodeStr 1 }

/-! ## `config/config.go` (the data only) -/

/-- The `General` section of `config.Config`. -/
structure GeneralConfig where
  Seed : Int
  EnableDebugLog : Bool
deriving DecidableEq, Repr

/-- The `SeedTests` section of `config.Config`. -/
structure SeedTestsConfig where
  Dir : String
  ValidExts : List String
  ListFile : String
deriving DecidableEq, Repr

/-- The type `config.TestProcessingConfig`. -/
structure TestProcessingConfig where
  Fuzzer : String
  MultiFileFuzzerSeedCountMin : Int
  MultiFileFuzzerSeedCountMax : Int
  BatchSize : Int
  TestCount : Int
  Mode : String
  GenerateTestsInPlace : Bool
deriving DecidableEq, Repr

/-- The `Radamsa` section of `config.Config`. -/
structure RadamsaConfig where
  Mutations : String
deriving DecidableEq, Repr

/-- The `Interpreter` section of `config.Config`. -/
structure InterpreterConfig where
  Path : String
  Args : String
  ArgGen : String
  TestCaseRootDir : String
  Timeout : Int
deriving DecidableEq, Repr

/-- The type `config.Config`. -/
structure Config where
  General : GeneralConfig
  SeedTests : SeedTestsConfig
  TestProcessing : TestProcessingConfig
  Radamsa : RadamsaConfig
  Interpreter : InterpreterConfig
deriving DecidableEq, Repr

def FUZZER_RADAMSA_MULTIFILE : String := "radamsa_multifile"
def FUZZER_RADAMSA : String := "radamsa"
def FUZZER_NOP : String := "nop"
def RUNMODE_COVER_ALL_ONCE : String := "cover_all_once"
def RUNMODE_INFINITE_RANDOM : String := "infinite_random"
def INTERPRETER_ARGS_FUZZ_FILE_MARKER : String := "XXX_FUZZFILE_XXX"
def INTERPRETER_ARGS_FUZZ_FILE_DIR_MARKER : String := "XXX_FUZZFILEDIR_XXX"

/-! ## `monitor/exitcode.go` -/

def ASAN_EXITCODE : Int := 57

/-- The loop of `scanToChannel`: `lines` is what the scanner still has to
deliver, `data` what has been kept; a line is appended while
`len(data) <= 200`. -/
def scanLoop : List String → List String → List String
  | [], data => data
  | line :: rest, data =>
    if data.length ≤ 200 then scanLoop rest (data ++ [line]) else data

/-- `scanToChannel`: the slice sent on `out` for a stream of lines. -/
def scanToChannel (lines : List String) : List String :=
  scanLoop lines []

/-- Go `strings.Replace(s, pat, rep, -1)` for a non-empty `pat`, on characters:
`skip` is the number of characters of a match still to be passed over. -/
def replaceAux (pat rep : List Char) : Nat → List Char → List Char
  | _, [] => []
  | skip + 1, _ :: cs => replaceAux pat rep skip cs
  | 0, c :: cs =>
    if pat.isPrefixOf (c :: cs) then rep ++ replaceAux pat rep (pat.length - 1) cs
    else c :: replaceAux pat rep 0 cs

/-- Go `strings.Replace(s, pat, rep, -1)` for a non-empty `pat`. -/
def stringsReplaceAll (s pat rep : String) : String :=
  String.mk (replaceAux pat.data rep.data 0 s.data)

/-- What `cmd.Wait()` reported. -/
inductive WaitResult
  | ok
  | exitStatus (status : Int)
  | exitErrorNoStatus
  | otherError (msg : String)
deriving DecidableEq, Repr

/-- Which arm of the `select` on the timer and on `done` was taken. -/
inductive ChildRun
  | timedOut (killOk : Bool)
  | finished (waitErr : WaitResult) (exeSeconds : Int)
deriving DecidableEq, Repr

/-- An argument generator (`arggen.GenFunc`). -/
abbrev GenFunc := String → String → Except String String

/-- The answers of the operating system while one test case is monitored. -/
structure MonitorWorld where
  now : Int
  readFileOk : Bool
  backupWriteOk : Bool
  shellSplit : String → Option (List String)
  stdoutPipeOk : Bool
  stderrPipeOk : Bool
  startOk : Bool
  run : ChildRun
  stdoutLines : List String
  stderrLines : List String
  restoreWriteOk : Bool
  removeAllOk : Bool
  osError : String

/-- What one iteration of the monitor loop did: the case sent on `out`, if
any, and the errors sent on `errOut`. -/
structure MonitorStep where
  emitted : Option TestCase
  errors : List String
deriving DecidableEq, Repr

def asanEnvMod : String :=
  "ASAN_OPTIONS=" ++ ("exitcode=" ++ itoa ASAN_EXITCODE ++ ":" ++ "allocator_may_return_null=1")

def mallocCheckEnvMod : String := "MALLOC_CHECK_=2"

/-- The argument string of one case: the template with both markers
replaced, or the generator's result. -/
def monitorArgs (cfg : Config) (argGen : Option GenFunc) (fuzzFile dir : String) :
    Except String String :=
  match argGen with
  | none =>
    let argsStr := stringsReplaceAll cfg.Interpreter.Args
      INTERPRETER_ARGS_FUZZ_FILE_MARKER fuzzFile
    .ok (stringsReplaceAll argsStr INTERPRETER_ARGS_FUZZ_FILE_DIR_MARKER dir)
  | some gen => gen cfg.Interpreter.TestCaseRootDir fuzzFile

/-- One iteration of the loop of `ExitCode` on a case that is not the
sentinel (`len(testCase.SeedFilePaths) != 0`). -/
def monitorCase (cfg : Config) (argGen : Option GenFunc) (w : MonitorWorld)
    (tc : TestCase) : MonitorStep :=
  let testCase := { tc with
    ApplicationEnv := tc.ApplicationEnv ++ [asanEnvMod] ++ [mallocCheckEnvMod],
    ApplicationPath := cfg.Interpreter.Path }
  let fuzzFile := testCase.FuzzFilePath
  let base := filepathBase fuzzFile
  let dir := filepathDir fuzzFile
  let backupDirPath := filepathJoin dir (itoa w.now ++ "_" ++ base)
  if !w.readFileOk then
    ⟨none, ["Could not read the fuzz file " ++ fuzzFile ++ ". Error " ++ w.osError]⟩
  else
  let backupPath := filepathJoin backupDirPath base
  if !w.backupWriteOk then
    ⟨none, ["Could not write " ++ fuzzFile ++ " to " ++ backupPath ++ ". Error "
      ++ w.osError]⟩
  else
  match monitorArgs cfg argGen fuzzFile dir with
  | .error err => ⟨none, [err]⟩
  | .ok argsStr =>
  match w.shellSplit argsStr with
  | none => ⟨none, ["Failed to parse target arguments : " ++ argsStr]⟩
  | some _ =>
  if !w.stdoutPipeOk then
    ⟨none, ["Error " ++ w.osError ++ " accessing stdout of command"]⟩
  else if !w.stderrPipeOk then
    ⟨none, ["Error " ++ w.osError ++ " accessing stderr of command"]⟩
  else if !w.startOk then
    ⟨none, ["Error " ++ w.osError ++ " running " ++ cfg.Interpreter.Path ++ " on "
      ++ fuzzFile]⟩
  else
  match w.run with
  | .timedOut _ =>
    let testCase := { testCase with TestTimedOut := true }
    if !w.removeAllOk then ⟨some testCase, [w.osError]⟩ else ⟨some testCase, []⟩
  | .finished waitErr exeSeconds =>
    let testCase := { testCase with TestTimedOut := false, ExeSeconds := exeSeconds }
    let stdoutData := scanToChannel w.stdoutLines
    let stderrData := scanToChannel w.stderrLines
    if !w.restoreWriteOk then
      ⟨none, ["Could not write " ++ fuzzFile ++ ". Error " ++ w.osError]⟩
    else
    match waitErr with
    | .exitStatus status =>
      ⟨some { testCase with
                ExitCode := status, RunStdout := stdoutData,
                RunStderr := stderrData }, []⟩
    | .exitErrorNoStatus =>
      ⟨none, ["Could not translate error code resulting from executing file "
        ++ fuzzFile]⟩
    | .otherError msg =>
      ⟨none, ["Error " ++ msg ++ " executing " ++ cfg.Interpreter.Path ++ " on "
        ++ fuzzFile]⟩
    | .ok => ⟨some { testCase with ExitCode := 0 }, []⟩

/-- One iteration of the loop of `ExitCode`: `none` when the case is the
sentinel, which is forwarded and ends the loop. -/
def monitorIter (cfg : Config) (argGen : Option GenFunc) (w : MonitorWorld)
    (tc : TestCase) : Option MonitorStep :=
  if tc.SeedFilePaths.length = 0 then none else some (monitorCase cfg argGen w tc)

/-! ## `resultproc/savefile.go` -/

def SIGILL : Int := 128 + 4
def SIGABRT : Int := 128 + 6
def SIGFPE : Int := 128 + 8
def SIGKILL : Int := 128 + 9
def SIGSEGV : Int := 128 + 11
def SIGTERM : Int := 128 + 15

def BUG_DESC_NAME : String := "bugdesc.json"
def STDOUT_NAME : String := "stdout.data"
def STDERR_NAME : String := "stderr.data"

/-- The record stored next to a preserved crash (`BugDescriptor`). -/
structure BugDescriptor where
  TriggerFileName : String
  SeedFileNames : List String
  OriginalSeedPaths : List String
  ApplicationPath : String
  ApplicationEnv : List String
  RunExitCode : Int
  RunExeSeconds : Int
  RunStdoutPath : String
  RunStderrPath : String
  OverallTestCaseCount : Int
  SeedFileTestCaseCounts : Option GoMap
deriving DecidableEq, Repr

/-- `NewBugDescriptor`. -/
def NewBugDescriptor (testCase : TestCase) : BugDescriptor :=
  { TriggerFileName := "", SeedFileNames := [], RunStdoutPath := "",
    RunStderrPath := "",
    SeedFileTestCaseCounts := testCase.SeedFuzzCounts,
    OverallTestCaseCount := testCase.TotalFuzzCount,
    RunExeSeconds := testCase.ExeSeconds,
    RunExitCode := testCase.ExitCode,
    ApplicationEnv := testCase.ApplicationEnv,
    ApplicationPath := testCase.ApplicationPath,
    OriginalSeedPaths := testCase.SeedFilePaths }

/-- The exit codes of the `case` list of the `switch` in `LogFile`. -/
def bugExitCodes : List Int :=
  [SIGABRT, SIGFPE, SIGKILL, SIGSEGV, SIGTERM, SIGILL, ASAN_EXITCODE]

/-- The answers of the file system while one case is logged. -/
structure ResultWorld where
  now : Int
  mkdirOk : String → Bool
  readFileOk : String → Bool
  writeFileOk : String → Bool
  renameOk : String → String → Bool
  createOk : String → Bool
  marshalOk : Bool
  descWriteOk : Bool
  removeOk : String → Bool
  osError : String

/-- A change `LogFile` made to the file system. -/
inductive FsAction
  | mkdir (path : String)
  | writeFile (path : String) (source : String)
  | rename (src dst : String)
  | writeLines (path : String) (lines : List String)
  | writeDescriptor (path : String) (desc : BugDescriptor)
  | remove (path : String)
deriving DecidableEq, Repr

/-- What one iteration of the loop of `LogFile` did: the value of the local
`testCase` when the iteration ended, whether it was sent on `out`, the errors
sent on `errOut` and the changes made to the file system. -/
structure LogFileStep where
  testCase : TestCase
  emitted : Bool
  errors : List String
  actions : List FsAction
deriving DecidableEq, Repr

/-- The name under which a seed is stored: every `/` of its path becomes `_`. -/
def seedStorageName (seedFilePath : String) : String :=
  String.mk (seedFilePath.data.map (fun c => if c = '/' then '_' else c))

/-- The loop of `LogFile` that stores the original files; the accumulator is
the names appended to `bugDesc.SeedFileNames`, the errors and the writes. -/
def storeSeeds (w : ResultWorld) (crashDirPath fuzzFilePath : String) :
    List String → List String × List String × List FsAction →
    List String × List String × List FsAction
  | [], acc => acc
  | seedFilePath :: rest, (names, errs, acts) =>
    let origPathWithUScores := seedStorageName seedFilePath
    let storagePathForOrig := filepathJoin crashDirPath origPathWithUScores
    if !w.readFileOk seedFilePath then
      storeSeeds w crashDirPath fuzzFilePath rest
        (names, errs ++ ["Could not read the original file " ++ seedFilePath ++
          "for the crash file " ++ fuzzFilePath ++ ". Error " ++ w.osError], acts)
    else if !w.writeFileOk storagePathForOrig then
      storeSeeds w crashDirPath fuzzFilePath rest
        (names, errs ++ ["Could not move the file " ++ seedFilePath ++ " to " ++
          storagePathForOrig ++ ". Error " ++ w.osError], acts)
    else
      storeSeeds w crashDirPath fuzzFilePath rest
        (names ++ [origPathWithUScores], errs,
          acts ++ [FsAction.writeFile storagePathForOrig seedFilePath])

/-- One iteration of the loop of `LogFile` on a case that is not the sentinel
(`len(testCase.SeedFilePaths) != 0`). -/
def logFileCase (preserveDir : String) (w : ResultWorld) (tc : TestCase) :
    LogFileStep :=
  if tc.ExitCode ∈ bugExitCodes then
    let testCase := { tc with BugFound := true }
    let bugDesc := NewBugDescriptor testCase
    let fuzzFileBase := filepathBase testCase.FuzzFilePath
    let crashDirName := itoa w.now ++ "_" ++ fuzzFileBase
    let crashDirPath := filepathJoin preserveDir crashDirName
    if !w.mkdirOk crashDirPath then
      ⟨testCase, false,
        ["Could not create output directory " ++ crashDirPath ++
          "for the crash file " ++ testCase.FuzzFilePath], []⟩
    else
    let testCase := { testCase with PreservationDir := crashDirPath }
    let stored := storeSeeds w crashDirPath testCase.FuzzFilePath
      testCase.SeedFilePaths ([], [], [FsAction.mkdir crashDirPath])
    let bugDesc := { bugDesc with SeedFileNames := bugDesc.SeedFileNames ++ stored.1 }
    let errs := stored.2.1
    let acts := stored.2.2
    let fileBase := filepathBase testCase.FuzzFilePath
    let newPath := filepathJoin crashDirPath fileBase
    if !w.renameOk testCase.FuzzFilePath newPath then
      ⟨testCase, false,
        errs ++ ["Could not move the fuzz file " ++ testCase.FuzzFilePath ++ " to "
          ++ newPath ++ ". Error " ++ w.osError], acts⟩
    else
    let acts := acts ++ [FsAction.rename testCase.FuzzFilePath newPath]
    let bugDesc := { bugDesc with TriggerFileName := fileBase }
    let stdoutPath := filepathJoin crashDirPath STDOUT_NAME
    let errs := if !w.createOk stdoutPath then errs ++ [w.osError] else errs
    let acts := if w.createOk stdoutPath
      then acts ++ [FsAction.writeLines stdoutPath testCase.RunStdout] else acts
    let bugDesc := { bugDesc with RunStdoutPath := stdoutPath }
    let stderrPath := filepathJoin crashDirPath STDERR_NAME
    let errs := if !w.createOk stderrPath then errs ++ [w.osError] else errs
    let acts := if w.createOk stderrPath
      then acts ++ [FsAction.writeLines stderrPath testCase.RunStderr] else acts
    let bugDesc := { bugDesc with RunStderrPath := stderrPath }
    let bugDescPath := filepathJoin crashDirPath BUG_DESC_NAME
    if !w.createOk bugDescPath then
      ⟨testCase, false,
        errs ++ ["Failed to create file " ++ bugDescPath ++ ": " ++ w.osError], acts⟩
    else if !w.marshalOk then
      ⟨testCase, false, errs ++ ["Error marshalling data: " ++ w.osError], acts⟩
    else if !w.descWriteOk then
      ⟨testCase, false,
        errs ++ ["Failed to write bug descriptor: " ++ w.osError], acts⟩
    else
      ⟨testCase, true, errs, acts ++ [FsAction.writeDescriptor bugDescPath bugDesc]⟩
  else
    let testCase := { tc with BugFound := false }
    let acts := if w.removeOk testCase.FuzzFilePath
      then [FsAction.remove testCase.FuzzFilePath] else []
    ⟨testCase, true, [], acts⟩

/-- One iteration of the loop of `LogFile`: `none` when the case is the
sentinel, on which `out` is closed and the loop ends. -/
def logFileIter (preserveDir : String) (w : ResultWorld) (tc : TestCase) :
    Option LogFileStep :=
  if tc.SeedFilePaths.length = 0 then none else some (logFileCase preserveDir w tc)

/-! ## `mutate/radamsa.go`, `mutate/nop.go` -/

/-- The type `mutate.Request`: the files to mutate and the number of mutants
wanted. Its fields are those the callers fill in and the mutators read. -/
structure Request where
  SourceFiles : List String
  Count : Int
deriving DecidableEq, Repr

/-- The local variables a mutator keeps across requests. -/
structure MutatorState where
  seedInc : Int
  testCasesGenerated : Int
  testCasesPerSeed : GoMap
deriving DecidableEq, Repr

/-- The locals at the start of `Run`. -/
def MutatorState.init : MutatorState :=
  { seedInc := 1, testCasesGenerated := 0, testCasesPerSeed := [] }

/-- What a mutator does that the rest of the program can see. -/
inductive MutatorEvent
  | out (tc : TestCase)
  | errOut (msg : String)
  | closeOut
  | fatal (msg : String)
  | panic (msg : String)
deriving DecidableEq, Repr

/-- The answers of the operating system to a mutator; `reqNo` counts the
requests received so far, so an answer may change from request to request. -/
structure MutatorWorld where
  cmdRunOk : Nat → List String → Bool
  statOk : Nat → String → Bool
  readFileOk : Nat → String → Bool
  osError : String

/-- The cases a mutator sent on `out`, in order. -/
def emittedCases : List MutatorEvent → List TestCase
  | [] => []
  | .out tc :: rest => tc :: emittedCases rest
  | _ :: rest => emittedCases rest

/-- The assignment `testCase.SeedFuzzCounts[key] = v`; `none` is the panic of
an assignment to an entry of a nil map. -/
def TestCase.setSeedFuzzCount (tc : TestCase) (key : String) (v : Int) :
    Option TestCase :=
  match tc.SeedFuzzCounts with
  | none => none
  | some m => some { tc with SeedFuzzCounts := some (GoMap.set m key v) }

/-- The read `testCase.SeedFuzzCounts[key]`. -/
def TestCase.seedFuzzCount (tc : TestCase) (key : String) : Int :=
  match tc.SeedFuzzCounts with
  | none => 0
  | some m => GoMap.getD m key

/-- The statement `m[key]++`. -/
def GoMap.incr (m : GoMap) (key : String) : GoMap :=
  GoMap.set m key (GoMap.getD m key + 1)

/-- The statement `if _, ok := m[key]; !ok { m[key] = 0 }`. -/
def GoMap.initZero (m : GoMap) (key : String) : GoMap :=
  match GoMap.get? m key with
  | some _ => m
  | none => GoMap.set m key 0

/-- The command line handed to radamsa. -/
def radamsaCmdList (cfg : Config) (seedStr countStr outputFilePath : String)
    (sources : List String) : List String :=
  (if cfg.Radamsa.Mutations.length ≠ 0 then ["-m", cfg.Radamsa.Mutations] else [])
    ++ ["--seed", seedStr, "-n", countStr, "-o", outputFilePath] ++ sources

/-- The loop `for i := 0; i < req.Count; i++` of `Radamsa.Run`: `n` iterations
are left and the loop variable is `i`. The state is `none` after a panic. -/
def radamsaLoop (w : MutatorWorld) (reqNo : Nat) (req : Request)
    (workingDir fileName sourceFile : String) :
    Nat → Int → MutatorState → Option MutatorState × List MutatorEvent
  | 0, _, st => (some st, [])
  | n + 1, i, st =>
    let expectedFileName := itoa (i + 1) ++ "_" ++ fileName
    let expectedFilePath := filepathJoin workingDir expectedFileName
    if !w.statOk reqNo expectedFilePath then
      let r := radamsaLoop w reqNo req workingDir fileName sourceFile n (i + 1) st
      (r.1, .errOut ("Fuzz file " ++ expectedFilePath ++ " was not generated") :: r.2)
    else
      let st := { st with
        testCasesGenerated := st.testCasesGenerated + 1,
        testCasesPerSeed := GoMap.incr st.testCasesPerSeed sourceFile }
      let testCase := { NewTestCase with
        FuzzFilePath := expectedFilePath, SeedFilePaths := req.SourceFiles }
      match testCase.setSeedFuzzCount sourceFile
          (GoMap.getD st.testCasesPerSeed sourceFile) with
      | none => (none, [.panic "assignment to entry in nil map"])
      | some testCase =>
        let testCase := { testCase with TotalFuzzCount := st.testCasesGenerated }
        let r := radamsaLoop w reqNo req workingDir fileName sourceFile n (i + 1) st
        (r.1, .out testCase :: r.2)

/-- The method `Radamsa.Run` on the requests that arrive on `in`, the first
of them being request number `reqNo`; when the list ends the mutator waits. -/
def radamsaRun (cfg : Config) (testCasesDir : String) (w : MutatorWorld) :
    List Request → Nat → MutatorState → List MutatorEvent
  | [], _, _ => []
  | req :: rest, reqNo, st =>
    if req.SourceFiles.length = 0 then [.closeOut]
    else if req.SourceFiles.length > 1 then
      [.fatal "For multiple source files use RadamsaMultiFile, not Radamsa"]
    else
      let sourceFile := req.SourceFiles.headD ""
      let fileName := filepathBase sourceFile
      let outputFileName := "%n_" ++ fileName
      let workingDir :=
        if cfg.TestProcessing.GenerateTestsInPlace then filepathDir sourceFile
        else testCasesDir
      let outputFilePath := filepathJoin workingDir outputFileName
      let countStr := itoa req.Count
      let seedStr := itoa (cfg.General.Seed + st.seedInc)
      let st := { st with seedInc := st.seedInc + 1 }
      let cmdList := radamsaCmdList cfg seedStr countStr outputFilePath [sourceFile]
      if !w.cmdRunOk reqNo cmdList then
        .errOut ("Error running radamsa: " ++ w.osError)
          :: radamsaRun cfg testCasesDir w rest (reqNo + 1) st
      else
        let st := { st with
          testCasesPerSeed := GoMap.initZero st.testCasesPerSeed sourceFile }
        let r := radamsaLoop w reqNo req workingDir fileName sourceFile
          req.Count.toNat 0 st
        match r.1 with
        | none => r.2
        | some st => r.2 ++ radamsaRun cfg testCasesDir w rest (reqNo + 1) st

/-- The loop `for _, f := range req.SourceFiles` that assigns
`testCase.SeedFuzzCounts[f] = testCasesPerSeed[f]`; `none` is the panic of an
assignment into a nil map. -/
def copySeedCounts (perSeed : GoMap) : List String → TestCase → Option TestCase
  | [], tc => some tc
  | f :: fs, tc =>
    match tc.setSeedFuzzCount f (GoMap.getD perSeed f) with
    | none => none
    | some tc => copySeedCounts perSeed fs tc

/-- The loop `for i := 0; i < req.Count; i++` of `RadamsaMultiFile.Run`. -/
def radamsaMultiLoop (w : MutatorWorld) (reqNo : Nat) (req : Request)
    (workingDir fileName : String) :
    Nat → Int → MutatorState → Option MutatorState × List MutatorEvent
  | 0, _, st => (some st, [])
  | n + 1, i, st =>
    let expectedFileName := itoa (i + 1) ++ "_" ++ fileName
    let expectedFilePath := filepathJoin workingDir expectedFileName
    if !w.statOk reqNo expectedFilePath then
      let r := radamsaMultiLoop w reqNo req workingDir fileName n (i + 1) st
      (r.1, .errOut ("Fuzz file " ++ expectedFilePath ++ " was not generated") :: r.2)
    else
      let testCase := NewTestCase
      let st := { st with
        testCasesPerSeed := req.SourceFiles.foldl GoMap.incr st.testCasesPerSeed }
      match copySeedCounts st.testCasesPerSeed req.SourceFiles testCase with
      | none => (none, [.panic "assignment to entry in nil map"])
      | some testCase =>
        let st := { st with testCasesGenerated := st.testCasesGenerated + 1 }
        let testCase := { testCase with TotalFuzzCount := testCase.TotalFuzzCount + 1 }
        let testCase := { testCase with
          FuzzFilePath := expectedFilePath, SeedFilePaths := req.SourceFiles }
        let r := radamsaMultiLoop w reqNo req workingDir fileName n (i + 1) st
        (r.1, .out testCase :: r.2)

/-- The method `RadamsaMultiFile.Run` on the requests that arrive on `in`. -/
def radamsaMultiRun (cfg : Config) (testCasesDir : String) (w : MutatorWorld) :
    List Request → Nat → MutatorState → List MutatorEvent
  | [], _, _ => []
  | req :: rest, reqNo, st =>
    if req.SourceFiles.length = 0 then [.closeOut]
    else
      let fileName := filepathBase (req.SourceFiles.headD "")
      let outputFileName := "%n_" ++ fileName
      let workingDir :=
        if cfg.TestProcessing.GenerateTestsInPlace
        then filepathDir (req.SourceFiles.headD "")
        else testCasesDir
      let outputFilePath := filepathJoin workingDir outputFileName
      let countStr := itoa req.Count
      let seedStr := itoa (cfg.General.Seed + st.seedInc)
      let st := { st with seedInc := st.seedInc + 1 }
      let cmdList := radamsaCmdList cfg seedStr countStr outputFilePath req.SourceFiles
      if !w.cmdRunOk reqNo cmdList then
        .errOut ("Error running radamsa: " ++ w.osError)
          :: radamsaMultiRun cfg testCasesDir w rest (reqNo + 1) st
      else
        let st := { st with
          testCasesPerSeed := req.SourceFiles.foldl GoMap.initZero st.testCasesPerSeed }
        let r := radamsaMultiLoop w reqNo req workingDir fileName req.Count.toNat 0 st
        match r.1 with
        | none => r.2
        | some st => r.2 ++ radamsaMultiRun cfg testCasesDir w rest (reqNo + 1) st

/-- The method `Nop.Run` on the requests that arrive on `in`; it has no
`seedInc`, which stays untouched. -/
def nopRun (workingDir : String) (w : MutatorWorld) :
    List Request → Nat → MutatorState → List MutatorEvent
  | [], _, _ => []
  | req :: rest, reqNo, st =>
    if req.SourceFiles.length = 0 then [.closeOut]
    else
      let sourceFile := req.SourceFiles.headD ""
      let fileName := filepathBase sourceFile
      let outputFilePath := filepathJoin workingDir fileName
      if !w.readFileOk reqNo sourceFile then
        .errOut w.osError :: nopRun workingDir w rest (reqNo + 1) st
      else
        let st := { st with
          testCasesPerSeed := GoMap.initZero st.testCasesPerSeed sourceFile }
        let st := { st with
          testCasesGenerated := st.testCasesGenerated + 1,
          testCasesPerSeed := GoMap.incr st.testCasesPerSeed sourceFile }
        let testCase := { TestCase.zero with
          FuzzFilePath := outputFilePath, SeedFilePaths := [sourceFile] }
        match testCase.setSeedFuzzCount sourceFile
            (GoMap.getD st.testCasesPerSeed sourceFile) with
        | none => [.panic "assignment to entry in nil map"]
        | some testCase =>
          let testCase := { testCase with TotalFuzzCount := st.testCasesGenerated }
          .out testCase :: nopRun workingDir w rest (reqNo + 1) st

/-! ## `manage/manage.go` -/

def REQ_THRESHOLD : Int := 2

/-- A run-time panic of the Go program. -/
inductive Fault
  | divideByZero
  | indexOutOfRange
  | makechanSize
deriving DecidableEq, Repr

/-- The variables of the manager, with the two things it cannot see but that
decide what it will receive: the requests it has sent on `mutatorIn` (oldest
first) and the finalized cases the pipeline has yet to deliver on
`resultprocOut`. `randCalls` counts the calls of `rand.Int` made so far. -/
structure ManagerState where
  seedFiles : List String
  fuzzFilesRequested : Int
  stats : Stats
  requests : List Request
  inFlight : List TestCase
  randCalls : Nat
deriving DecidableEq, Repr

/-- What the `select` of one iteration receives: a finalized case (the one at
position `pick` among those in flight, so that every order of arrival is
covered) together with the outcome of `Save` and of `LogSummary`, or an error
on `errChan`. -/
inductive LoopEvent
  | testCase (pick : Nat) (saveOk summaryOk : Bool)
  | error
deriving DecidableEq, Repr

/-- Where a manager stands after a list of events. -/
inductive LoopExit
  | running (st : ManagerState)
  | completed (st : ManagerState)
  | aborted (st : ManagerState)
  | panicked (f : Fault)
  | notStarted
  | impossible
deriving DecidableEq, Repr

/-- The manager state a result carries, if any. -/
def LoopExit.state? : LoopExit → Option ManagerState
  | .running st => some st
  | .completed st => some st
  | .aborted st => some st
  | _ => none

/-- The check of `startMutator`: the fuzzer selector names a mutator. -/
def startMutatorOk (cfg : Config) : Bool :=
  cfg.TestProcessing.Fuzzer = FUZZER_RADAMSA ∨
  cfg.TestProcessing.Fuzzer = FUZZER_RADAMSA_MULTIFILE ∨
  cfg.TestProcessing.Fuzzer = FUZZER_NOP

/-- The statistics update both manager loops make for a received case. -/
def recordTestCase (stats : Stats) (tc : TestCase) : Stats :=
  let s := if tc.BugFound then { stats with CrashCount := stats.CrashCount + 1 } else stats
  let s := { s with TestCasesProcessed := s.TestCasesProcessed + 1 }
  let s := tc.SeedFilePaths.foldl Stats.AddTestCaseForSeed s
  if tc.TestTimedOut then { s with TimedOutTests := s.TimedOutTests + 1 }
  else s.AddExitCode tc.ExitCode

/-- The removal of `CoverAllSeedsOnce`: `seedFiles[idx] = seedFiles[len-1]`
followed by `seedFiles = seedFiles[0 : len-1]`. -/
def swapRemove (seedFiles : List String) (idx : Nat) : List String :=
  (seedFiles.set idx (seedFiles.getLastD "")).dropLast

/-- The selection of the next seed by `CoverAllSeedsOnce` and the request it
sends; `pipe k req` is what the pipeline will deliver for `req`, the `k`-th
request. The caller has checked that `seedFiles` is not empty. -/
def selectSeed (batchSize : Int) (rng : Nat → Nat)
    (pipe : Nat → Request → List TestCase) (st : ManagerState) : ManagerState :=
  let idx := rng st.randCalls % st.seedFiles.length
  let seedFile := st.seedFiles.getD idx ""
  let req : Request := { SourceFiles := [seedFile], Count := batchSize }
  { st with
    seedFiles := swapRemove st.seedFiles idx,
    requests := st.requests ++ [req],
    inFlight := st.inFlight ++ pipe st.requests.length req,
    fuzzFilesRequested := st.fuzzFilesRequested + batchSize,
    randCalls := st.randCalls + 1 }

/-- The `case tc = <-resultprocOut` arm up to the call of `Save`: the case at
position `i` among those in flight arrives and the statistics are updated. -/
def receiveCase (st : ManagerState) (i : Nat) : ManagerState :=
  { st with
    stats := recordTestCase st.stats (st.inFlight.getD i TestCase.zero),
    inFlight := st.inFlight.eraseIdx i }

/-- One iteration of the `ManageLoop` of `CoverAllSeedsOnce`. -/
def coverAllStep (batchSize : Int) (rng : Nat → Nat)
    (pipe : Nat → Request → List TestCase) (st : ManagerState) :
    LoopEvent → LoopExit
  | .error => .aborted st
  | .testCase pick saveOk summaryOk =>
    if st.inFlight.length = 0 then .impossible
    else
      let st := receiveCase st (pick % st.inFlight.length)
      if !saveOk then .aborted st
      else if batchSize = 0 then .panicked .divideByZero
      else if Int.tmod st.stats.TestCasesProcessed batchSize = 0 ∧ !summaryOk then
        .aborted st
      else if st.fuzzFilesRequested - st.stats.TestCasesProcessed
          ≤ Int.tdiv batchSize REQ_THRESHOLD then
        if st.seedFiles.length = 0 then
          if st.fuzzFilesRequested = st.stats.TestCasesProcessed then .completed st
          else .running st
        else .running (selectSeed batchSize rng pipe st)
      else .running st

/-- The `ManageLoop` of `CoverAllSeedsOnce` over a list of events. -/
def coverAllLoop (batchSize : Int) (rng : Nat → Nat)
    (pipe : Nat → Request → List TestCase) :
    ManagerState → List LoopEvent → LoopExit
  | st, [] => .running st
  | st, ev :: evs =>
    match coverAllStep batchSize rng pipe st ev with
    | .running st' => coverAllLoop batchSize rng pipe st' evs
    | r => r

/-- The function `CoverAllSeedsOnce`: `stats` are those of the session,
`rng k` is the `k`-th value `rand.Int` returns after the seeding. A negative
batch size makes `make(chan data.TestCase, batchSize)` panic before anything
is started. The first selection, made before the loop, leaves
`fuzzFilesRequested = batchSize`. -/
def CoverAllSeedsOnce (cfg : Config) (stats : Stats) (seedFiles : List String)
    (rng : Nat → Nat) (pipe : Nat → Request → List TestCase)
    (events : List LoopEvent) : LoopExit :=
  let batchSize := cfg.TestProcessing.BatchSize
  if batchSize < 0 then .panicked .makechanSize
  else if !startMutatorOk cfg then .notStarted
  else if seedFiles.length = 0 then .panicked .divideByZero
  else
    let st0 : ManagerState :=
      { seedFiles := seedFiles, fuzzFilesRequested := 0, stats := stats,
        requests := [], inFlight := [], randCalls := 0 }
    coverAllLoop batchSize rng pipe (selectSeed batchSize rng pipe st0) events

/-- A pipeline in which every stage succeeds: a request for `Count` mutants of
its source files comes back as `Count` finalized cases carrying those files. -/
def idealPipe (_k : Nat) (req : Request) : List TestCase :=
  List.replicate req.Count.toNat { NewTestCase with SeedFilePaths := req.SourceFiles }

/-- The pipeline assumption of the cover-all-once claims: every request comes
back as exactly `Count` finalized cases, each carrying the request's files. -/
def PipeDelivers (pipe : Nat → Request → List TestCase) : Prop :=
  ∀ k req, (pipe k req).length = req.Count.toNat ∧
    ∀ tc ∈ pipe k req, tc.SeedFilePaths = req.SourceFiles

/-! ## `bin/mfuzz/main.go` -/

/-- `filterSeeds`: the loop appends a seed when it has no entry in
`TestCasesProcessedPerSeed` or its count is below `BatchSize`. -/
def filterSeeds (stats : Stats) (batchSize : Int) (seeds : List String) :
    List String :=
  seeds.foldl
    (fun filtered path =>
      match GoMap.get? stats.TestCasesProcessedPerSeed path with
      | none => filtered ++ [path]
      | some testCount =>
        if testCount < batchSize then filtered ++ [path] else filtered)
    []

/-! ## `arggen/arggen.go`, `arggen/firefox.go`, `arggen/chrome.go` -/

def FF_JSREFTEST_IONEAGER : String := "FfJsRefTest_IonEager"
def FF_JSREFTEST : String := "FfJsRefTest"
def D8_JSREFTEST : String := "D8JsRefTest"

/-- Go `filepath.HasPrefix` on Unix, which is `strings.HasPrefix`: `pre` is an
initial segment of the characters of `s`. -/
def filepathHasPrefix (s pre : String) : Bool :=
  pre.data.isPrefixOf s.data

/-- An argument generator as the registry holds it: besides the two paths
of `arggen.GenFunc` it takes the fuel of the directory walk and the answers of
`os.Stat`; `none` means that the walk did not end within the fuel. -/
abbrev ArgGenerator := Nat → (String → Bool) → String → String → Option (Except String String)

/-- The loop `for subDir != testBaseDir` of `get_shelljs_paths`: the result is
the value of `subDir` and of `args` when the loop ends. -/
def shellWalk (fileExists : String → Bool) (testBaseDir : String) :
    Nat → String → List String → Option (String × List String)
  | 0, _, _ => none
  | fuel + 1, subDir, args =>
    if subDir = testBaseDir then some (subDir, args)
    else
      let shellPath := filepathJoin subDir "shell.js"
      let subDir' := filepathClean (filepathJoin subDir "../")
      if !fileExists shellPath then shellWalk fileExists testBaseDir fuel subDir' args
      else shellWalk fileExists testBaseDir fuel subDir' (args ++ [shellPath])

/-- The function `get_shelljs_paths`. -/
def get_shelljs_paths (fuel : Nat) (fileExists : String → Bool)
    (testBaseDir testPath : String) : Option (Except String (List String)) :=
  let testBaseDir := filepathClean testBaseDir
  let testPath := filepathClean testPath
  if !filepathHasPrefix testPath testBaseDir then
    some (.error ("The test at " ++ testPath ++ " does not have the provided " ++
      "base directory " ++ testBaseDir ++ " as a prefix"))
  else
    match shellWalk fileExists testBaseDir fuel (filepathDir testPath) [] with
    | none => none
    | some (subDir, args) =>
      let shellPath := filepathJoin subDir "shell.js"
      if fileExists shellPath then some (.ok (args ++ [shellPath]))
      else some (.error (shellPath ++ " should exist, but doesn't"))

/-- The loop `for i := len(args) - 1; i >= 0; i--` that writes one piece for
each collected path into the buffer, last path first. -/
def writeArgs (piece : String → String) (argBuf : String) (args : List String) : String :=
  args.reverse.foldl (fun buf arg => buf ++ piece arg) argBuf

/-- The function `FFJsRefTest_IonEager`. -/
def FFJsRefTest_IonEager : ArgGenerator := fun fuel fileExists testBaseDir testPath =>
  match get_shelljs_paths fuel fileExists testBaseDir testPath with
  | none => none
  | some (.error err) => some (.error err)
  | some (.ok args) =>
    let argBuf := "--fuzzing-safe --ion-eager "
    let argBuf := writeArgs (fun arg => "-f " ++ arg ++ " ") argBuf args
    some (.ok (argBuf ++ ("-f " ++ testPath)))

/-- The function `FFJsRefTest`. -/
def FFJsRefTest : ArgGenerator := fun fuel fileExists testBaseDir testPath =>
  match get_shelljs_paths fuel fileExists testBaseDir testPath with
  | none => none
  | some (.error err) => some (.error err)
  | some (.ok args) =>
    let argBuf := "--fuzzing-safe "
    let argBuf := writeArgs (fun arg => "-f " ++ arg ++ " ") argBuf args
    some (.ok (argBuf ++ ("-f " ++ testPath)))

/-- The function `D8JsRefTest`; `path.Join` is `filepath.Join` on Unix. -/
def D8JsRefTest : ArgGenerator := fun fuel fileExists testBaseDir testPath =>
  match get_shelljs_paths fuel fileExists testBaseDir testPath with
  | none => none
  | some (.error err) => some (.error err)
  | some (.ok args) =>
    let argBuf := "--expose_gc "
    let argBuf := argBuf ++ "--harmony "
    let argBuf := argBuf ++ filepathJoin testBaseDir "ffshellfuncs.js "
    let argBuf := writeArgs (fun arg => arg ++ " ") argBuf args
    some (.ok (argBuf ++ testPath))

/-- The function `GetGenerator`. -/
def GetGenerator (genName : String) : Except String ArgGenerator :=
  if genName = FF_JSREFTEST then .ok FFJsRefTest
  else if genName = FF_JSREFTEST_IONEAGER then .ok FFJsRefTest_IonEager
  else if genName = D8_JSREFTEST then .ok D8JsRefTest
  else .error ("Unknown generator : " ++ genName)

/-- The start of `monitor.ExitCode`, before its loop: the generator is looked
up when the configured argument string is empty, and a failed lookup is
reported on `errOut` and ends the monitor. -/
def monitorGenerator (cfg : Config) : Except String (Option ArgGenerator) :=
  if cfg.Interpreter.Args.length = 0 then
    match GetGenerator cfg.Interpreter.ArgGen with
    | .error err => .error ("Failed to get argument generator: " ++ err)
    | .ok argGen => .ok (some argGen)
  else .ok none

/-! ## `config/config.go`: `errorCheck` -/

/-- Go `strings.Contains`. -/
def stringsContains (s substr : String) : Bool :=
  s.data.tails.any (fun t => substr.data.isPrefixOf t)

/-- What `errorCheck` takes from outside the program: `strings.ToLower` and
whether `os.Stat` succeeds on a path. -/
structure ConfigWorld where
  toLower : String → String
  statOk : String → Bool
  osError : String

/-- The part of `errorCheck` under the comment `// General`: the error it
returns, if any. -/
def checkGeneral (cfg : Config) : Option String :=
  if cfg.General.Seed = 0 then
    some "Please use a seed other than 0, so we know you've purposefully set it"
  else none

/-- The part of `errorCheck` under the comment `// SeedTests`. -/
def checkSeedTests (cfg : Config) : Option String :=
  if cfg.SeedTests.Dir.length = 0 ∧ cfg.SeedTests.ListFile.length = 0 then
    some "Seed tests must be specified via a directory or list file"
  else if cfg.SeedTests.Dir.length ≠ 0 ∧ cfg.SeedTests.ListFile.length ≠ 0 then
    some "You cannot specify both a tests directory and file"
  else if cfg.SeedTests.ValidExts.length = 0 ∧ cfg.SeedTests.Dir.length ≠ 0 then
    some "One or more valid test extensions must be provided"
  else if cfg.SeedTests.ValidExts.length ≠ 0 ∧ cfg.SeedTests.ListFile.length ≠ 0 then
    some ("It is not useful to specify the valid extensions along with a tests file. "
      ++ "All tests in the file will be used.")
  else none

/-- The part of `errorCheck` under the comment `// TestProcessing`, on the
section itself: the error, or the section with fuzzer and mode in lower case. -/
def checkTestProcessing (w : ConfigWorld) (tp : TestProcessingConfig) :
    Except String TestProcessingConfig :=
  let tp := { tp with Fuzzer := w.toLower tp.Fuzzer }
  if tp.Fuzzer ≠ FUZZER_RADAMSA ∧ tp.Fuzzer ≠ FUZZER_RADAMSA_MULTIFILE ∧
      tp.Fuzzer ≠ FUZZER_NOP then
    .error ("Invalid fuzzer selector " ++ tp.Fuzzer)
  else if tp.Fuzzer = FUZZER_RADAMSA_MULTIFILE ∧
      (tp.MultiFileFuzzerSeedCountMin = 0 ∨ tp.MultiFileFuzzerSeedCountMax = 0) then
    .error "The MultiFileFuzzerSeedCounts must be greater than 0"
  else if tp.BatchSize = 0 then
    .error "Set the batch size to something greater than 0"
  else
    let tp := { tp with Mode := w.toLower tp.Mode }
    if tp.Mode ≠ RUNMODE_COVER_ALL_ONCE ∧ tp.Mode ≠ RUNMODE_INFINITE_RANDOM then
      .error ("Invalid mode " ++ tp.Mode)
    else .ok tp

/-- The part of `errorCheck` under the comment `// Interpreter`, on the
section itself. -/
def checkInterpreter (w : ConfigWorld) (ic : InterpreterConfig) : Option String :=
  if ic.Path.length = 0 then
    some "You must specify an interpreter path"
  else
    let usingArgs : Bool := ic.Args.length ≠ 0
    let usingArgGen : Bool := ic.ArgGen.length ≠ 0
    if !usingArgs ∧ !usingArgGen then
      some "An interpreter arguments string XOR an argument generator must be provided"
    else if usingArgs ∧ usingArgGen then
      some "An interpreter arguments string XOR an argument generator must be provided"
    else if usingArgs ∧ !stringsContains ic.Args INTERPRETER_ARGS_FUZZ_FILE_MARKER then
      some ("The provided interpreter arguments string (" ++ ic.Args ++
        ") does not contain the correct fuzz file marker")
    else if usingArgGen ∧ !(ic.ArgGen = FF_JSREFTEST ∨ ic.ArgGen = FF_JSREFTEST_IONEAGER ∨
        ic.ArgGen = D8_JSREFTEST) then
      some ("Invalid argument generator: " ++ ic.ArgGen)
    else if usingArgGen ∧ ic.TestCaseRootDir.length = 0 then
      some "You must specify the test case root directory"
    else if usingArgGen ∧ !w.statOk ic.TestCaseRootDir then
      some ("Error reading " ++ ic.TestCaseRootDir ++ ", " ++ w.osError)
    else if ic.Timeout = 0 then
      some "You must specify the interpreter timeout"
    else none

/-- The function `errorCheck`, its four parts in the order of the source: the
error it returns or, when it returns nil, the configuration as it leaves it
(fuzzer and mode in lower case). -/
def errorCheck (w : ConfigWorld) (cfg : Config) : Except String Config :=
  match checkGeneral cfg with
  | some err => .error err
  | none =>
    match checkSeedTests cfg with
    | some err => .error err
    | none =>
      match checkTestProcessing w cfg.TestProcessing with
      | .error err => .error err
      | .ok tp =>
        match checkInterpreter w cfg.Interpreter with
        | some err => .error err
        | none => .ok { cfg with TestProcessing := tp }

/-! ## `manage/manage.go`: `getMutationRequest` -/

/-- The function `isMultiFileMutator`. -/
def isMultiFileMutator (mutator : String) : Bool :=
  mutator = FUZZER_RADAMSA_MULTIFILE

/-- The loop `for i := 0; i < seedsToUse; i++` of `getMutationRequest`: `n`
iterations are left, `randCalls` values of `rand.Int` have been used. The
index expression `rand.Int() % len(seeds)` panics on an empty seed list. -/
def pickSources (seeds : List String) (rng : Nat → Nat) :
    Nat → Nat → List String → Except Fault (List String × Nat)
  | 0, randCalls, sources => .ok (sources, randCalls)
  | n + 1, randCalls, sources =>
    if seeds.length = 0 then .error .divideByZero
    else
      let idx := rng randCalls % seeds.length
      pickSources seeds rng n (randCalls + 1) (sources ++ [seeds.getD idx ""])

/-- The function `getMutationRequest`: the request and the number of values
of `rand.Int` used so far, or the run-time panic. `rng k` is the `k`-th value
`rand.Int` returns, a non-negative number. -/
def getMutationRequest (cfg : TestProcessingConfig) (seeds : List String)
    (batchSize : Int) (rng : Nat → Nat) (randCalls : Nat) :
    Except Fault (Request × Nat) :=
  if !isMultiFileMutator cfg.Fuzzer then
    if seeds.length = 0 then .error .divideByZero
    else
      let idx := rng randCalls % seeds.length
      let seedFile := seeds.getD idx ""
      .ok ({ SourceFiles := [seedFile], Count := batchSize }, randCalls + 1)
  else
    let gap := cfg.MultiFileFuzzerSeedCountMax - cfg.MultiFileFuzzerSeedCountMin
    if gap + 1 = 0 then .error .divideByZero
    else
      let seedsToUse := cfg.MultiFileFuzzerSeedCountMin
        + Int.tmod (rng randCalls : Int) (gap + 1)
      match pickSources seeds rng seedsToUse.toNat (randCalls + 1) [] with
      | .error f => .error f
      | .ok (sources, randCalls) =>
        .ok ({ SourceFiles := sources, Count := batchSize }, randCalls)

/-! ## `session/session.go`: saving and resuming

The text of `session.json` is not modelled: the model works on the JSON value
that the text denotes. `marshal*` follows `json.Marshal` on the types of the
session (a struct is an object with one member per field, under the field's
name and in declaration order; a map is an object with one member per key, the
keys sorted; a nil pointer is `null`), `decode*` follows `json.Unmarshal`
(members are matched to fields by name, exactly or else up to the case of
ASCII letters, unknown members are skipped, a later member overrides an
earlier one, `null` leaves a string, number, boolean or struct as it is and
empties a slice, map or pointer, any other mismatch is an error).

A Go `string` is a sequence of bytes and a JSON string is a sequence of Unicode
characters. `json.Marshal` reads the bytes as UTF-8 and writes U+FFFD for
every byte that does not start a well-formed encoding; `json.Unmarshal`
stores the UTF-8 encoding of the characters it reads. The types of the
session and of the bug descriptor are therefore modelled here with every
string as its bytes. -/

/-- A JSON value; the numbers are the integers `json.Marshal` writes for an
`int`. -/
inductive Json where
  | null : Json
  | bool : Bool → Json
  | num : Int → Json
  | str : String → Json
  | arr : List Json → Json
  | obj : List (String × Json) → Json

def marshalGeneral (g : GeneralConfig) : Json :=
  .obj [("Seed", .num g.Seed), ("EnableDebugLog", .bool g.EnableDebugLog)]

def decodeInt (j : Json) (cur : Int) : Option Int :=
  match j with
  | .null => some cur
  | .num n => some n
  | _ => none

def decodeBool (j : Json) (cur : Bool) : Option Bool :=
  match j with
  | .null => some cur
  | .bool b => some b
  | _ => none

/-- The field a member name selects: the field of that name, or else the
first field equal to it up to the case of ASCII letters. -/
def findField (fields : List String) (key : String) : Option String :=
  match fields.find? (fun f => f = key) with
  | some f => some f
  | none => fields.find? (fun f => f.map Char.toLower = key.map Char.toLower)

/-- A JSON object into a struct: `setField` decodes one member into the field
it selects; members that select no field are skipped. -/
def decodeStruct {α : Type} (fields : List String) (setField : String → Json → α → Option α)
    (j : Json) (cur : α) : Option α :=
  match j with
  | .null => some cur
  | .obj members =>
    members.foldlM (fun acc kv =>
      match findField fields kv.1 with
      | none => some acc
      | some f => setField f kv.2 acc) cur
  | _ => none

def decodeGeneral : Json → GeneralConfig → Option GeneralConfig :=
  decodeStruct ["Seed", "EnableDebugLog"] (fun f j g =>
    if f = "Seed" then (decodeInt j g.Seed).map (fun v => { g with Seed := v })
    else (decodeBool j g.EnableDebugLog).map (fun v => { g with EnableDebugLog := v }))

/-- A Go `string`: its bytes, as numbers below 256. -/
abbrev GoBytes := List Nat

/-- Go `utf8.DecodeRune` at the start of a non-empty byte string: the rune and
the number of bytes it takes, `none` where Go returns `(RuneError, 1)`. The
second byte is held to the range `acceptRanges` gives the first one. -/
def decodeRune : GoBytes → Option (Nat × Nat)
  | [] => none
  | s0 :: rest =>
    if s0 < 0x80 then some (s0, 1)
    else if s0 < 0xC2 then none
    else if s0 < 0xE0 then
      match rest with
      | s1 :: _ =>
        if 0x80 ≤ s1 ∧ s1 ≤ 0xBF then some (s0 % 32 * 64 + s1 % 64, 2) else none
      | _ => none
    else if s0 < 0xF0 then
      match rest with
      | s1 :: s2 :: _ =>
        if (if s0 = 0xE0 then 0xA0 else 0x80) ≤ s1 ∧ s1 ≤ (if s0 = 0xED then 0x9F else 0xBF)
            ∧ 0x80 ≤ s2 ∧ s2 ≤ 0xBF then
          some (s0 % 16 * 4096 + s1 % 64 * 64 + s2 % 64, 3)
        else none
      | _ => none
    else if s0 < 0xF5 then
      match rest with
      | s1 :: s2 :: s3 :: _ =>
        if (if s0 = 0xF0 then 0x90 else 0x80) ≤ s1 ∧ s1 ≤ (if s0 = 0xF4 then 0x8F else 0xBF)
            ∧ 0x80 ≤ s2 ∧ s2 ≤ 0xBF ∧ 0x80 ≤ s3 ∧ s3 ≤ 0xBF then
          some (s0 % 8 * 262144 + s1 % 64 * 4096 + s2 % 64 * 64 + s3 % 64, 4)
        else none
      | _ => none
    else none

/-- The characters `json.Marshal` writes for a byte string: each well-formed
encoding gives its character, any other byte gives U+FFFD; `skip` is the
number of bytes of an encoding still to be passed over. -/
def utf8LossyAux : Nat → GoBytes → List Char
  | _, [] => []
  | skip + 1, _ :: bs => utf8LossyAux skip bs
  | 0, b :: bs =>
    match decodeRune (b :: bs) with
    | none => Char.ofNat 0xFFFD :: utf8LossyAux 0 bs
    | some (r, size) => Char.ofNat r :: utf8LossyAux (size - 1) bs

/-- The JSON string `json.Marshal` writes for a Go string. -/
def utf8Lossy (b : GoBytes) : String :=
  String.mk (utf8LossyAux 0 b)

/-- Go `utf8.EncodeRune`: the UTF-8 encoding of a character. -/
def encodeRune (c : Char) : GoBytes :=
  if c.toNat < 0x80 then [c.toNat]
  else if c.toNat < 0x800 then [0xC0 + c.toNat / 64, 0x80 + c.toNat % 64]
  else if c.toNat < 0x10000 then
    [0xE0 + c.toNat / 4096, 0x80 + c.toNat / 64 % 64, 0x80 + c.toNat % 64]
  else
    [0xF0 + c.toNat / 262144, 0x80 + c.toNat / 4096 % 64, 0x80 + c.toNat / 64 % 64,
      0x80 + c.toNat % 64]

def utf8BytesAux : List Char → GoBytes
  | [] => []
  | c :: cs => encodeRune c ++ utf8BytesAux cs

/-- The Go string `json.Unmarshal` stores for a JSON string: the UTF-8
encoding of its characters. -/
def utf8Bytes (s : String) : GoBytes :=
  utf8BytesAux s.data

/-- A Go string after it has been written by `json.Marshal` and read back by
`json.Unmarshal`. -/
def jsonCoerce (b : GoBytes) : GoBytes :=
  utf8Bytes (utf8Lossy b)

/-- A byte string is valid UTF-8 when it is the encoding of a sequence of
Unicode characters. -/
def ValidUTF8 (b : GoBytes) : Prop :=
  ∃ s : String, b = utf8Bytes s

/-- A Go `map[string]int` with its keys as bytes: association list, a key is
read at its first entry. -/
abbrev RawMap := List (GoBytes × Int)

def RawMap.get? : RawMap → GoBytes → Option Int
  | [], _ => none
  | (k, v) :: m, key => if k = key then some v else RawMap.get? m key

def RawMap.getD (m : RawMap) (key : GoBytes) : Int :=
  (RawMap.get? m key).getD 0

def RawMap.set : RawMap → GoBytes → Int → RawMap
  | [], key, v => [(key, v)]
  | (k, w) :: m, key, v =>
    if k = key then (k, v) :: m else (k, w) :: RawMap.set m key v

/-- The order of Go strings: byte by byte, a proper initial segment first. -/
def bytesLe : GoBytes → GoBytes → Bool
  | [], _ => true
  | _ :: _, [] => false
  | x :: xs, y :: ys =>
    if x < y then true
    else if x = y then bytesLe xs ys
    else false

/-- The keys of a map in the order `json.Marshal` writes them: each key once,
sorted. -/
def sortedRawKeys (m : RawMap) : List GoBytes :=
  List.insertionSort (fun a b : GoBytes => bytesLe a b = true) (m.map Prod.fst).dedup

def marshalBytes (b : GoBytes) : Json :=
  .str (utf8Lossy b)

def marshalBytesList (l : List GoBytes) : Json :=
  .arr (l.map marshalBytes)

def marshalRawMap (m : RawMap) : Json :=
  .obj ((sortedRawKeys m).map (fun k => (utf8Lossy k, Json.num (RawMap.getD m k))))

def decodeBytes (j : Json) (cur : GoBytes) : Option GoBytes :=
  match j with
  | .null => some cur
  | .str s => some (utf8Bytes s)
  | _ => none

def decodeBytesList (j : Json) : Option (List GoBytes) :=
  match j with
  | .null => some []
  | .arr l => l.mapM (fun e => decodeBytes e [])
  | _ => none

/-- A JSON object into a map: each member is assigned in turn, under the
bytes of its name. -/
def decodeRawMap (j : Json) (cur : RawMap) : Option RawMap :=
  match j with
  | .null => some []
  | .obj members =>
    members.foldlM
      (fun m kv => (decodeInt kv.2 0).map (fun n => RawMap.set m (utf8Bytes kv.1) n)) cur
  | _ => none

/-- A JSON value into a map that may be nil. -/
def decodeRawMapPtr (j : Json) (cur : Option RawMap) : Option (Option RawMap) :=
  match j with
  | .null => some none
  | _ => (decodeRawMap j (cur.getD [])).map some

/-- The map `decodeRawMap` rebuilds from what `marshalRawMap` wrote. -/
def rebuiltRawMap (m : RawMap) : RawMap :=
  (sortedRawKeys m).foldl (fun acc k => RawMap.set acc (jsonCoerce k) (RawMap.getD m k)) []

/-- The `SeedTests` section of `config.Config`, on bytes. -/
structure RawSeedTestsConfig where
  Dir : GoBytes
  ValidExts : List GoBytes
  ListFile : GoBytes
deriving DecidableEq, Repr

/-- The type `config.TestProcessingConfig`, on bytes. -/
structure RawTestProcessingConfig where
  Fuzzer : GoBytes
  MultiFileFuzzerSeedCountMin : Int
  MultiFileFuzzerSeedCountMax : Int
  BatchSize : Int
  TestCount : Int
  Mode : GoBytes
  GenerateTestsInPlace : Bool
deriving DecidableEq, Repr

/-- The `Radamsa` section of `config.Config`, on bytes. -/
structure RawRadamsaConfig where
  Mutations : GoBytes
deriving DecidableEq, Repr

/-- The `Interpreter` section of `config.Config`, on bytes. -/
structure RawInterpreterConfig where
  Path : GoBytes
  Args : GoBytes
  ArgGen : GoBytes
  TestCaseRootDir : GoBytes
  Timeout : Int
deriving DecidableEq, Repr

/-- The type `config.Config`, on bytes. -/
structure RawConfig where
  General : GeneralConfig
  SeedTests : RawSeedTestsConfig
  TestProcessing : RawTestProcessingConfig
  Radamsa : RawRadamsaConfig
  Interpreter : RawInterpreterConfig
deriving DecidableEq, Repr

/-- The type `session.Stats`, on bytes. -/
structure RawStats where
  CrashCount : Int
  TestCasesProcessed : Int
  TimedOutTests : Int
  ExitCodeCounts : RawMap
  TestCasesProcessedPerSeed : RawMap
deriving DecidableEq, Repr

/-- The type `session.Session`, on bytes; `Config` is a pointer, `none` when
nil. -/
structure RawSession where
  SessionDir : GoBytes
  TestCasesDir : GoBytes
  PreservationDir : GoBytes
  Config : Option RawConfig
  Stats : RawStats
deriving DecidableEq, Repr

def RawConfig.zero : RawConfig :=
  { General := { Seed := 0, EnableDebugLog := false },
    SeedTests := { Dir := [], ValidExts := [], ListFile := [] },
    TestProcessing := { Fuzzer := [], MultiFileFuzzerSeedCountMin := 0,
                        MultiFileFuzzerSeedCountMax := 0, BatchSize := 0, TestCount := 0,
                        Mode := [], GenerateTestsInPlace := false },
    Radamsa := { Mutations := [] },
    Interpreter := { Path := [], Args := [], ArgGen := [], TestCaseRootDir := [],
                     Timeout := 0 } }

def RawSession.zero : RawSession :=
  { SessionDir := [], TestCasesDir := [], PreservationDir := [], Config := none,
    Stats := { CrashCount := 0, TestCasesProcessed := 0, TimedOutTests := 0,
               ExitCodeCounts := [], TestCasesProcessedPerSeed := [] } }

def marshalRawSeedTests (t : RawSeedTestsConfig) : Json :=
  .obj [("Dir", marshalBytes t.Dir), ("ValidExts", marshalBytesList t.ValidExts),
        ("ListFile", marshalBytes t.ListFile)]

def marshalRawTestProcessing (t : RawTestProcessingConfig) : Json :=
  .obj [("Fuzzer", marshalBytes t.Fuzzer),
        ("MultiFileFuzzerSeedCountMin", .num t.MultiFileFuzzerSeedCountMin),
        ("MultiFileFuzzerSeedCountMax", .num t.MultiFileFuzzerSeedCountMax),
        ("BatchSize", .num t.BatchSize), ("TestCount", .num t.TestCount),
        ("Mode", marshalBytes t.Mode),
        ("GenerateTestsInPlace", .bool t.GenerateTestsInPlace)]

def marshalRawRadamsa (r : RawRadamsaConfig) : Json :=
  .obj [("Mutations", marshalBytes r.Mutations)]

def marshalRawInterpreter (i : RawInterpreterConfig) : Json :=
  .obj [("Path", marshalBytes i.Path), ("Args", marshalBytes i.Args),
        ("ArgGen", marshalBytes i.ArgGen),
        ("TestCaseRootDir", marshalBytes i.TestCaseRootDir), ("Timeout", .num i.Timeout)]

def marshalRawConfig (c : RawConfig) : Json :=
  .obj [("General", marshalGeneral c.General),
        ("SeedTests", marshalRawSeedTests c.SeedTests),
        ("TestProcessing", marshalRawTestProcessing c.TestProcessing),
        ("Radamsa", marshalRawRadamsa c.Radamsa),
        ("Interpreter", marshalRawInterpreter c.Interpreter)]

def marshalRawStats (s : RawStats) : Json :=
  .obj [("CrashCount", .num s.CrashCount),
        ("TestCasesProcessed", .num s.TestCasesProcessed),
        ("TimedOutTests", .num s.TimedOutTests),
        ("ExitCodeCounts", marshalRawMap s.ExitCodeCounts),
        ("TestCasesProcessedPerSeed", marshalRawMap s.TestCasesProcessedPerSeed)]

/-- The value `json.Marshal(*s)` of `Session.Save`, for a session on bytes. -/
def marshalRawSession (s : RawSession) : Json :=
  .obj [("SessionDir", marshalBytes s.SessionDir),
        ("TestCasesDir", marshalBytes s.TestCasesDir),
        ("PreservationDir", marshalBytes s.PreservationDir),
        ("Config", match s.Config with
                   | none => .null
                   | some c => marshalRawConfig c),
        ("Stats", marshalRawStats s.Stats)]

def decodeRawSeedTests : Json → RawSeedTestsConfig → Option RawSeedTestsConfig :=
  decodeStruct ["Dir", "ValidExts", "ListFile"] (fun f j t =>
    if f = "Dir" then (decodeBytes j t.Dir).map (fun v => { t with Dir := v })
    else if f = "ValidExts" then (decodeBytesList j).map (fun v => { t with ValidExts := v })
    else (decodeBytes j t.ListFile).map (fun v => { t with ListFile := v }))

def decodeRawTestProcessing :
    Json → RawTestProcessingConfig → Option RawTestProcessingConfig :=
  decodeStruct ["Fuzzer", "MultiFileFuzzerSeedCountMin", "MultiFileFuzzerSeedCountMax",
      "BatchSize", "TestCount", "Mode", "GenerateTestsInPlace"] (fun f j t =>
    if f = "Fuzzer" then (decodeBytes j t.Fuzzer).map (fun v => { t with Fuzzer := v })
    else if f = "MultiFileFuzzerSeedCountMin" then
      (decodeInt j t.MultiFileFuzzerSeedCountMin).map
        (fun v => { t with MultiFileFuzzerSeedCountMin := v })
    else if f = "MultiFileFuzzerSeedCountMax" then
      (decodeInt j t.MultiFileFuzzerSeedCountMax).map
        (fun v => { t with MultiFileFuzzerSeedCountMax := v })
    else if f = "BatchSize" then
      (decodeInt j t.BatchSize).map (fun v => { t with BatchSize := v })
    else if f = "TestCount" then
      (decodeInt j t.TestCount).map (fun v => { t with TestCount := v })
    else if f = "Mode" then (decodeBytes j t.Mode).map (fun v => { t with Mode := v })
    else (decodeBool j t.GenerateTestsInPlace).map
      (fun v => { t with GenerateTestsInPlace := v }))

def decodeRawRadamsa : Json → RawRadamsaConfig → Option RawRadamsaConfig :=
  decodeStruct ["Mutations"] (fun _ j r =>
    (decodeBytes j r.Mutations).map (fun v => { r with Mutations := v }))

def decodeRawInterpreter : Json → RawInterpreterConfig → Option RawInterpreterConfig :=
  decodeStruct ["Path", "Args", "ArgGen", "TestCaseRootDir", "Timeout"] (fun f j i =>
    if f = "Path" then (decodeBytes j i.Path).map (fun v => { i with Path := v })
    else if f = "Args" then (decodeBytes j i.Args).map (fun v => { i with Args := v })
    else if f = "ArgGen" then (decodeBytes j i.ArgGen).map (fun v => { i with ArgGen := v })
    else if f = "TestCaseRootDir" then
      (decodeBytes j i.TestCaseRootDir).map (fun v => { i with TestCaseRootDir := v })
    else (decodeInt j i.Timeout).map (fun v => { i with Timeout := v }))

def decodeRawConfig : Json → RawConfig → Option RawConfig :=
  decodeStruct ["General", "SeedTests", "TestProcessing", "Radamsa", "Interpreter"]
    (fun f j c =>
      if f = "General" then (decodeGeneral j c.General).map (fun v => { c with General := v })
      else if f = "SeedTests" then
        (decodeRawSeedTests j c.SeedTests).map (fun v => { c with SeedTests := v })
      else if f = "TestProcessing" then
        (decodeRawTestProcessing j c.TestProcessing).map
          (fun v => { c with TestProcessing := v })
      else if f = "Radamsa" then
        (decodeRawRadamsa j c.Radamsa).map (fun v => { c with Radamsa := v })
      else (decodeRawInterpreter j c.Interpreter).map (fun v => { c with Interpreter := v }))

/-- A JSON value into the pointer `Config *config.Config`. -/
def decodeRawConfigPtr (j : Json) (cur : Option RawConfig) : Option (Option RawConfig) :=
  match j with
  | .null => some none
  | _ => (decodeRawConfig j (cur.getD RawConfig.zero)).map some

def decodeRawStats : Json → RawStats → Option RawStats :=
  decodeStruct ["CrashCount", "TestCasesProcessed", "TimedOutTests", "ExitCodeCounts",
      "TestCasesProcessedPerSeed"] (fun f j s =>
    if f = "CrashCount" then
      (decodeInt j s.CrashCount).map (fun v => { s with CrashCount := v })
    else if f = "TestCasesProcessed" then
      (decodeInt j s.TestCasesProcessed).map (fun v => { s with TestCasesProcessed := v })
    else if f = "TimedOutTests" then
      (decodeInt j s.TimedOutTests).map (fun v => { s with TimedOutTests := v })
    else if f = "ExitCodeCounts" then
      (decodeRawMap j s.ExitCodeCounts).map (fun v => { s with ExitCodeCounts := v })
    else (decodeRawMap j s.TestCasesProcessedPerSeed).map
      (fun v => { s with TestCasesProcessedPerSeed := v }))

/-- The call `json.Unmarshal(data, &s)` of `Resume`, for a session on bytes. -/
def decodeRawSession : Json → RawSession → Option RawSession :=
  decodeStruct ["SessionDir", "TestCasesDir", "PreservationDir", "Config", "Stats"]
    (fun f j s =>
      if f = "SessionDir" then
        (decodeBytes j s.SessionDir).map (fun v => { s with SessionDir := v })
      else if f = "TestCasesDir" then
        (decodeBytes j s.TestCasesDir).map (fun v => { s with TestCasesDir := v })
      else if f = "PreservationDir" then
        (decodeBytes j s.PreservationDir).map (fun v => { s with PreservationDir := v })
      else if f = "Config" then
        (decodeRawConfigPtr j s.Config).map (fun v => { s with Config := v })
      else (decodeRawStats j s.Stats).map (fun v => { s with Stats := v }))

/-- The function `Resume` on the content of `sessDir/session.json`, for a
session on bytes; `none` is the error return. -/
def ResumeRaw (sessDir : GoBytes) (data : Json) : Option RawSession :=
  match decodeRawSession data RawSession.zero with
  | none => none
  | some s => some { s with SessionDir := sessDir }

/-- Every string of the configuration is valid UTF-8. -/
def RawConfig.Valid (c : RawConfig) : Prop :=
  ValidUTF8 c.SeedTests.Dir ∧ (∀ e ∈ c.SeedTests.ValidExts, ValidUTF8 e) ∧
  ValidUTF8 c.SeedTests.ListFile ∧ ValidUTF8 c.TestProcessing.Fuzzer ∧
  ValidUTF8 c.TestProcessing.Mode ∧ ValidUTF8 c.Radamsa.Mutations ∧
  ValidUTF8 c.Interpreter.Path ∧ ValidUTF8 c.Interpreter.Args ∧
  ValidUTF8 c.Interpreter.ArgGen ∧ ValidUTF8 c.Interpreter.TestCaseRootDir

/-- A configuration after it has been written by `json.Marshal` and read back
by `json.Unmarshal`. -/
def RawConfig.coerced (c : RawConfig) : RawConfig :=
  { General := c.General,
    SeedTests := { Dir := jsonCoerce c.SeedTests.Dir,
                   ValidExts := c.SeedTests.ValidExts.map jsonCoerce,
                   ListFile := jsonCoerce c.SeedTests.ListFile },
    TestProcessing := { c.TestProcessing with
                        Fuzzer := jsonCoerce c.TestProcessing.Fuzzer,
                        Mode := jsonCoerce c.TestProcessing.Mode },
    Radamsa := { Mutations := jsonCoerce c.Radamsa.Mutations },
    Interpreter := { c.Interpreter with
                     Path := jsonCoerce c.Interpreter.Path,
                     Args := jsonCoerce c.Interpreter.Args,
                     ArgGen := jsonCoerce c.Interpreter.ArgGen,
                     TestCaseRootDir := jsonCoerce c.Interpreter.TestCaseRootDir } }

/-- A session whose test-case directory is the single byte `0xFF` and which
has processed one case of the seed `/seeds/<0xFF>.js`. -/
def exampleRawSession : RawSession :=
  { SessionDir := [47, 115], TestCasesDir := [0xFF], PreservationDir := [47, 99],
    Config := none,
    Stats := { CrashCount := 0, TestCasesProcessed := 1, TimedOutTests := 0,
               ExitCodeCounts := [([48], 1)],
               TestCasesProcessedPerSeed :=
                 [([47, 115, 101, 101, 100, 115, 47, 0xFF, 46, 106, 115], 1)] } }

/-- A session all of whose strings are valid UTF-8: the directories
`/s/test_cases` and `/s/crashes`, one case of the seed `/é.js`. -/
def exampleValidRawSession : RawSession :=
  { SessionDir := utf8Bytes "/s", TestCasesDir := utf8Bytes "/s/test_cases",
    PreservationDir := utf8Bytes "/s/crashes", Config := none,
    Stats := { CrashCount := 0, TestCasesProcessed := 1, TimedOutTests := 0,
               ExitCodeCounts := [(utf8Bytes "0", 1)],
               TestCasesProcessedPerSeed := [(utf8Bytes "/é.js", 1)] } }

/-! ## `manage/manage.go`: `Run` -/

/-- The batch size `Run` works with: the configured one, lowered to
`TestCount` when that is set and smaller. -/
def runBatchSize (cfg : Config) : Int :=
  if cfg.TestProcessing.TestCount ≠ 0 ∧
      cfg.TestProcessing.BatchSize > cfg.TestProcessing.TestCount
  then cfg.TestProcessing.TestCount else cfg.TestProcessing.BatchSize

/-- The `TestProcessing` section after `Run` has lowered `BatchSize`. -/
def runTestProcessing (cfg : Config) : TestProcessingConfig :=
  if cfg.TestProcessing.TestCount ≠ 0 ∧
      cfg.TestProcessing.BatchSize > cfg.TestProcessing.TestCount
  then { cfg.TestProcessing with BatchSize := cfg.TestProcessing.TestCount }
  else cfg.TestProcessing

/-- The statements `mutatorIn <- getMutationRequest(...)` and
`fuzzFilesRequested += batchSize` of `Run`; the seed list is never shortened.
`pipe k req` is what the pipeline will deliver for `req`, the `k`-th request. -/
def requestBatch (tp : TestProcessingConfig) (batchSize : Int) (rng : Nat → Nat)
    (pipe : Nat → Request → List TestCase) (st : ManagerState) :
    Except Fault ManagerState :=
  match getMutationRequest tp st.seedFiles batchSize rng st.randCalls with
  | .error f => .error f
  | .ok (req, randCalls) =>
    .ok { st with
      requests := st.requests ++ [req],
      inFlight := st.inFlight ++ pipe st.requests.length req,
      fuzzFilesRequested := st.fuzzFilesRequested + batchSize,
      randCalls := randCalls }

/-- One iteration of the `ManageLoop` of `Run`. -/
def runStep (tp : TestProcessingConfig) (testCount batchSize : Int) (rng : Nat → Nat)
    (pipe : Nat → Request → List TestCase) (st : ManagerState) :
    LoopEvent → LoopExit
  | .error => .aborted st
  | .testCase pick saveOk summaryOk =>
    if st.inFlight.length = 0 then .impossible
    else
      let st := receiveCase st (pick % st.inFlight.length)
      if !saveOk then .aborted st
      else if batchSize = 0 then .panicked .divideByZero
      else if Int.tmod st.stats.TestCasesProcessed batchSize = 0 ∧ !summaryOk then
        .aborted st
      else if testCount ≠ 0 ∧ st.stats.TestCasesProcessed ≥ testCount then .completed st
      else if st.fuzzFilesRequested - st.stats.TestCasesProcessed
          ≤ Int.tdiv batchSize REQ_THRESHOLD then
        match requestBatch tp batchSize rng pipe st with
        | .error f => .panicked f
        | .ok st => .running st
      else .running st

/-- The `ManageLoop` of `Run` over a list of events. -/
def runLoop (tp : TestProcessingConfig) (testCount batchSize : Int) (rng : Nat → Nat)
    (pipe : Nat → Request → List TestCase) :
    ManagerState → List LoopEvent → LoopExit
  | st, [] => .running st
  | st, ev :: evs =>
    match runStep tp testCount batchSize rng pipe st ev with
    | .running st' => runLoop tp testCount batchSize rng pipe st' evs
    | r => r

/-- The function `Run` (the infinite-random mode): `stats` are those of the
session, `rng k` is the `k`-th value `rand.Int` returns after the seeding. A
negative batch size makes `make(chan data.TestCase, batchSize)` panic before
anything is started. The first request, sent before the loop, leaves
`fuzzFilesRequested = batchSize`. -/
def Run (cfg : Config) (stats : Stats) (seedFiles : List String)
    (rng : Nat → Nat) (pipe : Nat → Request → List TestCase)
    (events : List LoopEvent) : LoopExit :=
  let testCount := cfg.TestProcessing.TestCount
  let batchSize := runBatchSize cfg
  if batchSize < 0 then .panicked .makechanSize
  else if !startMutatorOk cfg then .notStarted
  else
    let st0 : ManagerState :=
      { seedFiles := seedFiles, fuzzFilesRequested := 0, stats := stats,
        requests := [], inFlight := [], randCalls := 0 }
    match requestBatch (runTestProcessing cfg) batchSize rng pipe st0 with
    | .error f => .panicked f
    | .ok st => runLoop (runTestProcessing cfg) testCount batchSize rng pipe st events

/-- The pipeline assumption of the bound on outstanding cases: a request comes
back as at most `Count` finalized cases. -/
def PipeBounded (pipe : Nat → Request → List TestCase) : Prop :=
  ∀ k req, (pipe k req).length ≤ req.Count.toNat

/-- The statistics a manager keeps consistent: every processed case is either
a timeout or counted under its exit code, and crashes are among the processed
cases. -/
def StatsConsistent (s : Stats) : Prop :=
  s.TestCasesProcessed = s.TimedOutTests + GoMap.sum s.ExitCodeCounts ∧
  0 ≤ s.CrashCount ∧ s.CrashCount ≤ s.TestCasesProcessed

/-- The bound on outstanding cases after an iteration of a manager loop. -/
def OutstandingBounded (batchSize : Int) (st : ManagerState) : Prop :=
  0 ≤ st.fuzzFilesRequested - st.stats.TestCasesProcessed ∧
  st.fuzzFilesRequested - st.stats.TestCasesProcessed
    ≤ batchSize + Int.fdiv batchSize 2 ∧
  ∃ k : Nat, 0 < k ∧ st.fuzzFilesRequested = (k : Int) * batchSize

/-- The number a string of decimal digits denotes. -/
def digitsValue (l : List Char) : Nat :=
  l.foldl (fun acc c => acc * 10 + (c.toNat - 48)) 0

/-! ## Vocabulary of the argument-generator theorems -/

/-- Joins path elements with `/`. -/
def joinSlash : List (List Char) → List Char
  | [] => []
  | [c] => c
  | c :: d :: rest => c ++ '/' :: joinSlash (d :: rest)

/-- A plain directory or file name: not empty, without `/`, and neither `.`
nor `..`. -/
def PlainName (c : String) : Prop :=
  c ≠ "" ∧ '/' ∉ c.data ∧ c ≠ "." ∧ c ≠ ".."

instance : DecidablePred PlainName := fun c => by
  unfold PlainName
  infer_instance

/-- The absolute path with the given elements: `absPath ["a", "b"] = "/a/b"`
and `absPath [] = "/"`. -/
def absPath (comps : List String) : String :=
  "/" ++ String.intercalate "/" comps

/-- The `shell.js` path of every directory from the root `rc` down to the
directory `rc ++ ds`, from the root inward. -/
def shellCandidates (rc ds : List String) : List String :=
  (List.range (ds.length + 1)).map (fun k => absPath (rc ++ ds.take k ++ ["shell.js"]))

/-- The `shell.js` paths of the directories strictly below the root `rc`,
down to `rc ++ ds`, that exist, from the outermost inward. -/
def shellsBelow (fileExists : String → Bool) (rc ds : List String) : List String :=
  ((List.range ds.length).map
    (fun k => absPath (rc ++ ds.take (k + 1) ++ ["shell.js"]))).filter fileExists

/-! ## Vocabulary of the mutator theorems -/

/-- The number of times `s` is listed in the seed paths of the cases `tcs`,
every listing counted. -/
def occurrences (s : String) (tcs : List TestCase) : Int :=
  (tcs.map (fun tc => (tc.SeedFilePaths.count s : Int))).sum

/-- Every case of the list carries, for each of its seeds, the count `base`
advanced by the listings of that seed in the cases before it and in itself. -/
def CountsFrom (base : String → Int) : List TestCase → Prop
  | [] => True
  | tc :: rest =>
    (∀ s ∈ tc.SeedFilePaths,
      tc.seedFuzzCount s = base s + (tc.SeedFilePaths.count s : Int)) ∧
    CountsFrom (fun s => base s + (tc.SeedFilePaths.count s : Int)) rest

/-- Every case of the list carries as total count the position it has in the
stream, counted from `base`. -/
def TotalsFrom (base : Int) : List TestCase → Prop
  | [] => True
  | tc :: rest => tc.TotalFuzzCount = base + 1 ∧ TotalsFrom (base + 1) rest

/-- A case as a radamsa mutator builds it for the request `req`: only the
four fields of the mutator are filled in. -/
def MutantOf (req : Request) (tc : TestCase) : Prop :=
  ∃ path counts total, tc = { NewTestCase with
    FuzzFilePath := path, SeedFilePaths := req.SourceFiles,
    SeedFuzzCounts := some counts, TotalFuzzCount := total }

/-! ## Concrete inputs used by the evaluations below -/

/-- A configuration as in the scenarios of the specification: radamsa,
cover-all-once, batches of two. -/
def exampleConfig : Config :=
  { General := { Seed := 7, EnableDebugLog := false },
    SeedTests := { Dir := "/seeds", ValidExts := [".js"], ListFile := "" },
    TestProcessing :=
      { Fuzzer := "radamsa", MultiFileFuzzerSeedCountMin := 0,
        MultiFileFuzzerSeedCountMax := 0, BatchSize := 2, TestCount := 0,
        Mode := "cover_all_once", GenerateTestsInPlace := false },
    Radamsa := { Mutations := "" },
    Interpreter :=
      { Path := "/bin/true", Args := "XXX_FUZZFILE_XXX", ArgGen := "",
        TestCaseRootDir := "", Timeout := 5 } }

/-- The same configuration with the multi-file mutator, three seeds a batch. -/
def exampleMultiConfig : Config :=
  { exampleConfig with
    TestProcessing :=
      { exampleConfig.TestProcessing with
        Fuzzer := "radamsa_multifile", MultiFileFuzzerSeedCountMin := 3,
        MultiFileFuzzerSeedCountMax := 3 } }

/-- An operating system on which every call of a mutator succeeds. -/
def exampleMutatorWorld : MutatorWorld :=
  { cmdRunOk := fun _ _ => true, statOk := fun _ _ => true,
    readFileOk := fun _ _ => true, osError := "" }

/-- A schedule of `n` arrivals, each the oldest case in flight, with `Save`
and `LogSummary` succeeding. -/
def fifoEvents (n : Nat) : List LoopEvent :=
  List.replicate n (LoopEvent.testCase 0 true true)

/-- The first mutant of `/seeds/a.js` as the single-seed mutator emits it. -/
def exampleMutant : TestCase :=
  { NewTestCase with
    FuzzFilePath := "/s/test_cases/1_a.js", SeedFilePaths := ["/seeds/a.js"],
    SeedFuzzCounts := some [("/seeds/a.js", 1)], TotalFuzzCount := 1 }

/-- A monitored run in which the child outlives the timeout and is killed. -/
def exampleTimeoutWorld : MonitorWorld :=
  { now := 1700000000, readFileOk := true, backupWriteOk := true,
    shellSplit := fun args => some [args], stdoutPipeOk := true,
    stderrPipeOk := true, startOk := true, run := ChildRun.timedOut true,
    stdoutLines := [], stderrLines := [], restoreWriteOk := true,
    removeAllOk := true, osError := "" }

/-- A file system on which every call of the result processor succeeds. -/
def exampleResultWorld : ResultWorld :=
  { now := 1700000000, mkdirOk := fun _ => true, readFileOk := fun _ => true,
    writeFileOk := fun _ => true, renameOk := fun _ _ => true,
    createOk := fun _ => true, marshalOk := true, descWriteOk := true,
    removeOk := fun _ => true, osError := "" }

/-- The state in which the fresh run over three seeds of the evaluation below
ends: every seed requested once, six cases processed. -/
def exampleFinalState : ManagerState :=
  { seedFiles := [], fuzzFilesRequested := 6,
    stats :=
      { CrashCount := 0, TestCasesProcessed := 6, TimedOutTests := 0,
        ExitCodeCounts := [("0", 6)],
        TestCasesProcessedPerSeed :=
          [("/seeds/a.js", 2), ("/seeds/c.js", 2), ("/seeds/b.js", 2)] },
    requests :=
      [{ SourceFiles := ["/seeds/a.js"], Count := 2 },
       { SourceFiles := ["/seeds/c.js"], Count := 2 },
       { SourceFiles := ["/seeds/b.js"], Count := 2 }],
    inFlight := [], randCalls := 3 }

/-- The stats persisted when a fresh run over `/seeds/a.js`, `/seeds/b.js`,
`/seeds/c.js` with batches of two is interrupted after three cases. -/
def exampleInterruptedStats : Stats :=
  { CrashCount := 0, TestCasesProcessed := 3, TimedOutTests := 0,
    ExitCodeCounts := [("0", 3)],
    TestCasesProcessedPerSeed := [("/seeds/a.js", 2), ("/seeds/c.js", 1)] }

/-- The stats persisted when every one of two seeds has had its full batch. -/
def exampleFullStats : Stats :=
  { CrashCount := 0, TestCasesProcessed := 4, TimedOutTests := 0,
    ExitCodeCounts := [("0", 4)],
    TestCasesProcessedPerSeed := [("/seeds/a.js", 2), ("/seeds/b.js", 2)] }

/-- The library and file system of the evaluations: `strings.ToLower` on
ASCII text, every `os.Stat` succeeding. -/
def exampleConfigWorld : ConfigWorld :=
  { toLower := fun str => String.mk (str.data.map Char.toLower),
    statOk := fun _ => true, osError := "" }

/-- A configuration with a negative test count and everything else in order. -/
def exampleNegativeCountConfig : Config :=
  { exampleConfig with
    TestProcessing := { exampleConfig.TestProcessing with TestCount := -1 } }

/-- A configuration with a negative batch size and everything else in order. -/
def exampleNegativeBatchConfig : Config :=
  { exampleConfig with
    TestProcessing := { exampleConfig.TestProcessing with BatchSize := -1 } }

/-- A multi-file configuration whose minimum seed count is above the maximum. -/
def exampleInvertedCountsConfig : Config :=
  { exampleConfig with
    TestProcessing :=
      { exampleConfig.TestProcessing with
        Fuzzer := "radamsa_multifile", MultiFileFuzzerSeedCountMin := 2,
        MultiFileFuzzerSeedCountMax := 1 } }

/-- A configuration that uses the argument generator of the D8 shell. -/
def exampleArgGenConfig : Config :=
  { exampleConfig with
    Interpreter :=
      { exampleConfig.Interpreter with
        Args := "", ArgGen := "D8JsRefTest", TestCaseRootDir := "/tests" } }

/-- A configuration of the infinite-random mode: batches of two, three cases
in all. -/
def exampleRandomConfig : Config :=
  { exampleConfig with
    TestProcessing :=
      { exampleConfig.TestProcessing with Mode := "infinite_random", TestCount := 3 } }

/-- The path of the `j`-th output the external mutator is expected to have
written for a seed with base name `fileName`. -/
def expectedOutput (workingDir fileName : String) (j : Int) : String :=
  filepathJoin workingDir (itoa j ++ "_" ++ fileName)

/-- The messages a mutator sent on `errOut`, in order. -/
def errorMessages : List MutatorEvent → List String
  | [] => []
  | .errOut msg :: rest => msg :: errorMessages rest
  | _ :: rest => errorMessages rest

/-- The loop indices `i + 1, ..., i + n`. -/
def indicesFrom (i : Int) : Nat → List Int
  | 0 => []
  | n + 1 => (i + 1) :: indicesFrom (i + 1) n

/-- A file system in which the second output of every request is missing. -/
def exampleSparseWorld : MutatorWorld :=
  { cmdRunOk := fun _ _ => true, statOk := fun _ p => p != "/s/test_cases/2_a.js",
    readFileOk := fun _ _ => true, osError := "" }

/-- The templates in which an occurrence of the file marker starts inside an
occurrence of the directory marker contain one of these. -/
def markerOverlaps : List String :=
  ["XXX_FUZZFILEDIR_XXX_FUZZFILE_XXX", "XXX_FUZZFILEDIR_XXXX_FUZZFILE_XXX",
   "XXX_FUZZFILEDIR_XXXXX_FUZZFILE_XXX"]

/-- The simultaneous substitution of both markers, on characters: the template
is read from left to right, an occurrence of the file marker is replaced by
`fuzzFile`, an occurrence of the directory marker by `dir`, and any other
character is kept; `skip` is the number of characters of an occurrence still to
be passed over. -/
def simultaneousAux (fuzzFile dir : List Char) : Nat → List Char → List Char
  | _, [] => []
  | skip + 1, _ :: cs => simultaneousAux fuzzFile dir skip cs
  | 0, c :: cs =>
    if INTERPRETER_ARGS_FUZZ_FILE_MARKER.data.isPrefixOf (c :: cs) then
      fuzzFile ++ simultaneousAux fuzzFile dir
        (INTERPRETER_ARGS_FUZZ_FILE_MARKER.data.length - 1) cs
    else if INTERPRETER_ARGS_FUZZ_FILE_DIR_MARKER.data.isPrefixOf (c :: cs) then
      dir ++ simultaneousAux fuzzFile dir
        (INTERPRETER_ARGS_FUZZ_FILE_DIR_MARKER.data.length - 1) cs
    else c :: simultaneousAux fuzzFile dir 0 cs

/-- The template with every occurrence of `XXX_FUZZFILE_XXX` replaced by
`fuzzFile` and every occurrence of `XXX_FUZZFILEDIR_XXX` replaced by `dir`, in
one pass. -/
def simultaneousSubstitution (template fuzzFile dir : String) : String :=
  String.mk (simultaneousAux fuzzFile.data dir.data 0 template.data)

/-- A text that cannot form part of a marker: without the letter `X`, and
starting with a character that occurs in no marker (as `/`, `.` or a digit). -/
def MarkerSafe (s : String) : Prop :=
  (∀ c ∈ s.data, c ≠ 'X') ∧
  ∃ c cs, s.data = c :: cs ∧ ∀ d ∈ INTERPRETER_ARGS_FUZZ_FILE_DIR_MARKER.data, d ≠ c

/-- No occurrence of the file marker starts inside an occurrence of the
directory marker. -/
def OverlapFree (t : List Char) : Prop :=
  ∀ o ∈ markerOverlaps, (t.tails.any (fun s => o.data.isPrefixOf s)) = false

/-- The example configuration with a template that uses both markers. -/
def exampleDirConfig : Config :=
  { exampleConfig with
    Interpreter := { exampleConfig.Interpreter with
      Args := "-d XXX_FUZZFILEDIR_XXX XXX_FUZZFILE_XXX" } }

/-! ## The bug descriptor as JSON

`marshalRawBugDescriptor` follows `json.Marshal` on a `BugDescriptor` and
`decodeRawBugDescriptor` follows `json.Unmarshal` into one, as for the
session; a nil map is written as `null`, and `null` is read as a nil map. -/

/-- The type `data.TestCase`, on bytes. -/
structure RawTestCase where
  SeedFilePaths : List GoBytes
  FuzzFilePath : GoBytes
  SeedFuzzCounts : Option RawMap
  TotalFuzzCount : Int
  ApplicationPath : GoBytes
  ApplicationEnv : List GoBytes
  TestTimedOut : Bool
  ExeSeconds : Int
  ExitCode : Int
  RunStdout : List GoBytes
  RunStderr : List GoBytes
  BugFound : Bool
  PreservationDir : GoBytes
deriving DecidableEq, Repr

/-- The type `BugDescriptor`, on bytes. -/
structure RawBugDescriptor where
  TriggerFileName : GoBytes
  SeedFileNames : List GoBytes
  OriginalSeedPaths : List GoBytes
  ApplicationPath : GoBytes
  ApplicationEnv : List GoBytes
  RunExitCode : Int
  RunExeSeconds : Int
  RunStdoutPath : GoBytes
  RunStderrPath : GoBytes
  OverallTestCaseCount : Int
  SeedFileTestCaseCounts : Option RawMap
deriving DecidableEq, Repr

/-- `NewBugDescriptor`, on bytes. -/
def NewRawBugDescriptor (testCase : RawTestCase) : RawBugDescriptor :=
  { TriggerFileName := [], SeedFileNames := [], RunStdoutPath := [],
    RunStderrPath := [],
    SeedFileTestCaseCounts := testCase.SeedFuzzCounts,
    OverallTestCaseCount := testCase.TotalFuzzCount,
    RunExeSeconds := testCase.ExeSeconds,
    RunExitCode := testCase.ExitCode,
    ApplicationEnv := testCase.ApplicationEnv,
    ApplicationPath := testCase.ApplicationPath,
    OriginalSeedPaths := testCase.SeedFilePaths }

def RawBugDescriptor.zero : RawBugDescriptor :=
  { TriggerFileName := [], SeedFileNames := [], OriginalSeedPaths := [],
    ApplicationPath := [], ApplicationEnv := [], RunExitCode := 0, RunExeSeconds := 0,
    RunStdoutPath := [], RunStderrPath := [], OverallTestCaseCount := 0,
    SeedFileTestCaseCounts := none }

/-- The value `json.Marshal(bugDesc)` of `LogFile`, for a descriptor on
bytes. -/
def marshalRawBugDescriptor (b : RawBugDescriptor) : Json :=
  .obj [("TriggerFileName", marshalBytes b.TriggerFileName),
        ("SeedFileNames", marshalBytesList b.SeedFileNames),
        ("OriginalSeedPaths", marshalBytesList b.OriginalSeedPaths),
        ("ApplicationPath", marshalBytes b.ApplicationPath),
        ("ApplicationEnv", marshalBytesList b.ApplicationEnv),
        ("RunExitCode", .num b.RunExitCode),
        ("RunExeSeconds", .num b.RunExeSeconds),
        ("RunStdoutPath", marshalBytes b.RunStdoutPath),
        ("RunStderrPath", marshalBytes b.RunStderrPath),
        ("OverallTestCaseCount", .num b.OverallTestCaseCount),
        ("SeedFileTestCaseCounts", match b.SeedFileTestCaseCounts with
                                   | none => .null
                                   | some m => marshalRawMap m)]

def decodeRawBugDescriptor : Json → RawBugDescriptor → Option RawBugDescriptor :=
  decodeStruct ["TriggerFileName", "SeedFileNames", "OriginalSeedPaths", "ApplicationPath",
      "ApplicationEnv", "RunExitCode", "RunExeSeconds", "RunStdoutPath", "RunStderrPath",
      "OverallTestCaseCount", "SeedFileTestCaseCounts"] (fun f j b =>
    if f = "TriggerFileName" then
      (decodeBytes j b.TriggerFileName).map (fun v => { b with TriggerFileName := v })
    else if f = "SeedFileNames" then
      (decodeBytesList j).map (fun v => { b with SeedFileNames := v })
    else if f = "OriginalSeedPaths" then
      (decodeBytesList j).map (fun v => { b with OriginalSeedPaths := v })
    else if f = "ApplicationPath" then
      (decodeBytes j b.ApplicationPath).map (fun v => { b with ApplicationPath := v })
    else if f = "ApplicationEnv" then
      (decodeBytesList j).map (fun v => { b with ApplicationEnv := v })
    else if f = "RunExitCode" then
      (decodeInt j b.RunExitCode).map (fun v => { b with RunExitCode := v })
    else if f = "RunExeSeconds" then
      (decodeInt j b.RunExeSeconds).map (fun v => { b with RunExeSeconds := v })
    else if f = "RunStdoutPath" then
      (decodeBytes j b.RunStdoutPath).map (fun v => { b with RunStdoutPath := v })
    else if f = "RunStderrPath" then
      (decodeBytes j b.RunStderrPath).map (fun v => { b with RunStderrPath := v })
    else if f = "OverallTestCaseCount" then
      (decodeInt j b.OverallTestCaseCount).map (fun v => { b with OverallTestCaseCount := v })
    else (decodeRawMapPtr j b.SeedFileTestCaseCounts).map
      (fun v => { b with SeedFileTestCaseCounts := v }))

/-- The call `json.Unmarshal(data, &b)` on a zero `BugDescriptor`, on bytes;
`none` is the error return. -/
def parseRawBugDescriptor (data : Json) : Option RawBugDescriptor :=
  decodeRawBugDescriptor data RawBugDescriptor.zero

/-- The entry of a map that may be nil: a nil map has no entry. -/
def rawCountsEntry (m : Option RawMap) (k : GoBytes) : Option Int :=
  match m with
  | none => none
  | some m => RawMap.get? m k

/-- A crash of the first mutant of the seed `/seeds/<0xFF>.js`. -/
def exampleRawCrash : RawTestCase :=
  { SeedFilePaths := [[47, 115, 101, 101, 100, 115, 47, 0xFF, 46, 106, 115]],
    FuzzFilePath := [47, 116, 47, 49, 95, 0xFF, 46, 106, 115],
    SeedFuzzCounts := some [([47, 115, 101, 101, 100, 115, 47, 0xFF, 46, 106, 115], 1)],
    TotalFuzzCount := 1, ApplicationPath := [], ApplicationEnv := [],
    TestTimedOut := false, ExeSeconds := 0, ExitCode := 139, RunStdout := [],
    RunStderr := [], BugFound := true, PreservationDir := [] }

/-- A crash of the first mutant of the seed `/é.js`. -/
def exampleValidRawCrash : RawTestCase :=
  { SeedFilePaths := [utf8Bytes "/é.js"], FuzzFilePath := utf8Bytes "/t/1_é.js",
    SeedFuzzCounts := some [(utf8Bytes "/é.js", 1)],
    TotalFuzzCount := 1, ApplicationPath := [], ApplicationEnv := [],
    TestTimedOut := false, ExeSeconds := 0, ExitCode := 139, RunStdout := [],
    RunStderr := [], BugFound := true, PreservationDir := [] }

/-- The first mutant of `/seeds/a.js`, killed by SIGSEGV. -/
def exampleCrash : TestCase :=
  { exampleMutant with ExitCode := 139 }

/-- The descriptor `LogFile` writes for `exampleCrash`. -/
def exampleDescriptor : BugDescriptor :=
  { TriggerFileName := "1_a.js", SeedFileNames := ["_seeds_a.js"],
    OriginalSeedPaths := ["/seeds/a.js"], ApplicationPath := "", ApplicationEnv := [],
    RunExitCode := 139, RunExeSeconds := 0,
    RunStdoutPath := "/s/crashes/1700000000_1_a.js/stdout.data",
    RunStderrPath := "/s/crashes/1700000000_1_a.js/stderr.data",
    OverallTestCaseCount := 1, SeedFileTestCaseCounts := some [("/seeds/a.js", 1)] }

/-- A crash of a mutant made from two seeds whose paths differ only in where
they have `/` and where `_`. -/
def exampleTwoSeedCrash : TestCase :=
  { exampleMutant with ExitCode := 139, SeedFilePaths := ["/a/b_c", "/a_b/c"] }

/-! ## The probes of `get_shelljs_paths` -/

/-- The paths on which the loop of `get_shelljs_paths` calls `os.Stat`, in
the order of the calls: the walk of `shellWalk`, recording every `shellPath`
it builds instead of the ones that exist. -/
def shellWalkProbes (testBaseDir : String) : Nat → String → Option (List String)
  | 0, _ => none
  | fuel + 1, subDir =>
    if subDir = testBaseDir then some []
    else
      let shellPath := filepathJoin subDir "shell.js"
      let subDir' := filepathClean (filepathJoin subDir "../")
      match shellWalkProbes testBaseDir fuel subDir' with
      | none => none
      | some probes => some (shellPath :: probes)

/-- The paths on which `get_shelljs_paths` calls `os.Stat`, in the order of
the calls: those of the loop, then the `shell.js` of the directory the loop
ended at, which is the base directory. There is none when the prefix test
fails. -/
def get_shelljs_probes (fuel : Nat) (testBaseDir testPath : String) : Option (List String) :=
  let testBaseDir := filepathClean testBaseDir
  let testPath := filepathClean testPath
  if !filepathHasPrefix testPath testBaseDir then some []
  else
    match shellWalkProbes testBaseDir fuel (filepathDir testPath) with
    | none => none
    | some probes => some (probes ++ [filepathJoin testBaseDir "shell.js"])

/-- The invariant behind the termination of a fresh cover-all-once run: the
requested cases are the processed ones plus those in flight, and some case is
in flight. -/
def Progressing (st : ManagerState) : Prop :=
  st.stats.TestCasesProcessed + (st.inFlight.length : Int) = st.fuzzFilesRequested ∧
  st.inFlight ≠ []

/-- The work a cover-all-once run has left: a batch for every seed not yet
requested and the cases in flight. -/
def remainingWork (batchSize : Int) (st : ManagerState) : Nat :=
  batchSize.toNat * st.seedFiles.length + st.inFlight.length

/-! # Theorems -/

/-! ## Maps -/

theorem GoMap.get?_set_self (m : GoMap) (k : String) (v : Int) :
    GoMap.get? (GoMap.set m k v) k = some v := by
  induction m with
  | nil => simp [GoMap.set, GoMap.get?]
  | cons e m ih =>
    obtain ⟨k', w⟩ := e
    by_cases h : k' = k
    · simp [GoMap.set, GoMap.get?, h]
    · simp [GoMap.set, GoMap.get?, h, ih]

theorem GoMap.get?_set_ne (m : GoMap) (k k' : String) (v : Int) (h : k ≠ k') :
    GoMap.get? (GoMap.set m k v) k' = GoMap.get? m k' := by
  induction m with
  | nil => simp [GoMap.set, GoMap.get?, h]
  | cons e m ih =>
    obtain ⟨k0, w⟩ := e
    by_cases h0 : k0 = k
    · subst h0
      simp [GoMap.set, GoMap.get?, h]
    · by_cases h1 : k0 = k'
      · subst h1
        simp [GoMap.set, GoMap.get?, h0]
      · simp [GoMap.set, GoMap.get?, h0, h1, ih]

theorem GoMap.getD_set_self (m : GoMap) (k : String) (v : Int) :
    GoMap.getD (GoMap.set m k v) k = v := by
  simp [GoMap.getD, GoMap.get?_set_self]

theorem GoMap.getD_set_ne (m : GoMap) (k k' : String) (v : Int) (h : k ≠ k') :
    GoMap.getD (GoMap.set m k v) k' = GoMap.getD m k' := by
  simp [GoMap.getD, GoMap.get?_set_ne m k k' v h]

theorem GoMap.sum_set (m : GoMap) (k : String) (v : Int) :
    GoMap.sum (GoMap.set m k v) = GoMap.sum m + v - GoMap.getD m k := by
  induction m with
  | nil => simp [GoMap.set, GoMap.sum, GoMap.getD, GoMap.get?]
  | cons e m ih =>
    obtain ⟨k', w⟩ := e
    by_cases h : k' = k
    · simp [GoMap.set, GoMap.sum, GoMap.getD, GoMap.get?, h]
      ring
    · simp only [GoMap.sum, GoMap.getD] at ih
      simp [GoMap.set, GoMap.sum, GoMap.getD, GoMap.get?, h, ih]
      ring

theorem GoMap.getD_incr (m : GoMap) (k k' : String) :
    GoMap.getD (GoMap.incr m k) k' = GoMap.getD m k' + (if k = k' then 1 else 0) := by
  by_cases h : k = k'
  · subst h
    simp [GoMap.incr, GoMap.getD_set_self]
  · simp [GoMap.incr, GoMap.getD_set_ne m k k' _ h, h]

theorem GoMap.getD_initZero (m : GoMap) (k k' : String) :
    GoMap.getD (GoMap.initZero m k) k' = GoMap.getD m k' := by
  unfold GoMap.initZero
  cases hk : GoMap.get? m k with
  | some v => rfl
  | none =>
    by_cases h : k = k'
    · subst h
      simp [GoMap.getD, GoMap.get?_set_self, hk]
    · simp [GoMap.getD_set_ne m k k' 0 h]

/-! ## The result processor -/

/-- C1. For a case with a non-empty seed list, the iteration of `LogFile`
takes the bug branch (the case ends with `BugFound = true`) exactly when the
exit code is one of 132, 134, 136, 137, 139, 143 or 57; for every other exit
code, zero and negative ones included, the case is sent on with
`BugFound = false` and is otherwise unchanged. -/
theorem logFile_bug_iff_exit_code (preserveDir : String) (w : ResultWorld)
    (tc : TestCase) (hseeds : tc.SeedFilePaths ≠ []) :
    ∃ step, logFileIter preserveDir w tc = some step ∧
      (step.testCase.BugFound = true ↔
        tc.ExitCode ∈ ([132, 134, 136, 137, 139, 143, 57] : List Int)) ∧
      (tc.ExitCode ∉ ([132, 134, 136, 137, 139, 143, 57] : List Int) →
        step.emitted = true ∧ step.testCase = { tc with BugFound := false }) := by
  have hlen : tc.SeedFilePaths.length ≠ 0 := by
    simpa [List.length_eq_zero] using hseeds
  refine ⟨logFileCase preserveDir w tc, by simp [logFileIter, hlen], ?_, ?_⟩
  · have hcodes : tc.ExitCode ∈ bugExitCodes ↔
        tc.ExitCode ∈ ([132, 134, 136, 137, 139, 143, 57] : List Int) := by
      simp [bugExitCodes, SIGABRT, SIGFPE, SIGKILL, SIGSEGV, SIGTERM, SIGILL,
        ASAN_EXITCODE]
      tauto
    rw [← hcodes]
    by_cases hb : tc.ExitCode ∈ bugExitCodes
    · simp only [logFileCase, hb, if_true, iff_true, apply_ite LogFileStep.testCase,
        apply_ite TestCase.BugFound, ite_self]
    · simp [logFileCase, hb]
  · intro hn
    have hb : tc.ExitCode ∉ bugExitCodes := by
      simp [bugExitCodes, SIGABRT, SIGFPE, SIGKILL, SIGSEGV, SIGTERM, SIGILL,
        ASAN_EXITCODE] at hn ⊢
      tauto
    simp [logFileCase, hb]

theorem logFile_bug_iff_exit_code_witness :
    ∃ step, logFileIter "/s/crashes" exampleResultWorld
        { NewTestCase with SeedFilePaths := ["/seeds/a.js"], ExitCode := 139 }
        = some step ∧
      (step.testCase.BugFound = true ↔
        (139 : Int) ∈ ([132, 134, 136, 137, 139, 143, 57] : List Int)) ∧
      ((139 : Int) ∉ ([132, 134, 136, 137, 139, 143, 57] : List Int) →
        step.emitted = true ∧ step.testCase =
          { ({ NewTestCase with SeedFilePaths := ["/seeds/a.js"], ExitCode := 139 } :
              TestCase) with BugFound := false }) :=
  logFile_bug_iff_exit_code _ _
    { NewTestCase with SeedFilePaths := ["/seeds/a.js"], ExitCode := 139 }
    (by decide)

/-! ## The monitor's stream reader -/

theorem scanLoop_eq (lines data : List String) :
    scanLoop lines data = data ++ lines.take (201 - data.length) := by
  induction lines generalizing data with
  | nil => simp [scanLoop]
  | cons line rest ih =>
    unfold scanLoop
    by_cases h : data.length ≤ 200
    · rw [if_pos h, ih]
      have : 201 - data.length = (201 - (data ++ [line]).length) + 1 := by
        simp
        omega
      rw [this]
      simp
    · rw [if_neg h]
      have : 201 - data.length = 0 := by omega
      simp [this]

/-- What `scanToChannel` keeps: the first 201 lines of the stream. -/
theorem scanToChannel_eq_take (lines : List String) :
    scanToChannel lines = lines.take 201 := by
  simp [scanToChannel, scanLoop_eq]

/-- C6. On a stream of 201 lines the reader returns all 201 of them, one more
than the 200 its comment and the claim allow. -/
theorem scanToChannel_keeps_201_lines :
    (scanToChannel (List.replicate 201 "x")).length = 201 := by
  rw [scanToChannel_eq_take, List.length_take, List.length_replicate]
  rfl

/-! ## The seed filter -/

theorem filterSeeds_foldl (stats : Stats) (batchSize : Int) (seeds acc : List String) :
    seeds.foldl
      (fun filtered path =>
        match GoMap.get? stats.TestCasesProcessedPerSeed path with
        | none => filtered ++ [path]
        | some testCount =>
          if testCount < batchSize then filtered ++ [path] else filtered)
      acc
    = acc ++ seeds.filter (fun path =>
        match GoMap.get? stats.TestCasesProcessedPerSeed path with
        | none => true
        | some testCount => decide (testCount < batchSize)) := by
  induction seeds generalizing acc with
  | nil => simp
  | cons path rest ih =>
    simp only [List.foldl_cons, List.filter_cons]
    rw [ih]
    cases h : GoMap.get? stats.TestCasesProcessedPerSeed path with
    | none => simp
    | some c =>
      by_cases hc : c < batchSize
      · simp [hc]
      · simp [hc]

/-- The filter as the code has it: a seed is kept when it has no entry or its
count is below the batch size. -/
theorem filterSeeds_eq_filter_entry (stats : Stats) (batchSize : Int)
    (seeds : List String) :
    filterSeeds stats batchSize seeds = seeds.filter (fun path =>
      match GoMap.get? stats.TestCasesProcessedPerSeed path with
      | none => true
      | some testCount => decide (testCount < batchSize)) := by
  simp [filterSeeds, filterSeeds_foldl]

/-- C8, amended. For a batch size above 0, `filterSeeds` returns exactly the
seeds, in their original order, whose recorded count, taken as 0 when there is
no entry, is strictly below the batch size. -/
theorem filterSeeds_eq_filter (stats : Stats) (batchSize : Int)
    (seeds : List String) (hbatch : 0 < batchSize) :
    filterSeeds stats batchSize seeds = seeds.filter (fun path =>
      decide (GoMap.getD stats.TestCasesProcessedPerSeed path < batchSize)) := by
  rw [filterSeeds_eq_filter_entry]
  apply List.filter_congr
  intro path _
  unfold GoMap.getD
  cases GoMap.get? stats.TestCasesProcessedPerSeed path with
  | none => simp [hbatch]
  | some c => simp

theorem filterSeeds_eq_filter_witness :
    filterSeeds
        { Stats.empty with TestCasesProcessedPerSeed := [("a", 2), ("b", 1)] } 2
        ["a", "b", "c"]
      = (["a", "b", "c"] : List String).filter (fun path =>
          decide (GoMap.getD
            ({ Stats.empty with TestCasesProcessedPerSeed := [("a", 2), ("b", 1)] } :
              Stats).TestCasesProcessedPerSeed path < 2)) :=
  filterSeeds_eq_filter _ 2 _ (by decide)

/-- C8, counterexample. A configuration with the batch size -1 passes
`errorCheck`; with it `filterSeeds` keeps a seed that has no entry in the
stats, while no seed has a recorded count, taken as 0 when there is no entry,
below -1. -/
theorem filterSeeds_keeps_unrecorded_seed :
    errorCheck exampleConfigWorld exampleNegativeBatchConfig
      = .ok exampleNegativeBatchConfig ∧
    exampleNegativeBatchConfig.TestProcessing.BatchSize = -1 ∧
    filterSeeds Stats.empty exampleNegativeBatchConfig.TestProcessing.BatchSize
      ["/seeds/a.js"] = ["/seeds/a.js"] ∧
    (["/seeds/a.js"] : List String).filter (fun path =>
      decide (GoMap.getD Stats.empty.TestCasesProcessedPerSeed path
        < exampleNegativeBatchConfig.TestProcessing.BatchSize)) = [] :=
  ⟨rfl, rfl, by decide, by decide⟩

/-! ## The mutators -/

theorem emittedCases_append (l₁ l₂ : List MutatorEvent) :
    emittedCases (l₁ ++ l₂) = emittedCases l₁ ++ emittedCases l₂ := by
  induction l₁ with
  | nil => rfl
  | cons e l ih => cases e <;> simp [emittedCases, ih]

theorem copySeedCounts_spec (perSeed : GoMap) (fs : List String) :
    ∀ (tc : TestCase) (m : GoMap), tc.SeedFuzzCounts = some m →
      ∃ m', copySeedCounts perSeed fs tc = some { tc with SeedFuzzCounts := some m' } ∧
        ∀ s, GoMap.getD m' s = if s ∈ fs then GoMap.getD perSeed s else GoMap.getD m s := by
  induction fs with
  | nil =>
    intro tc m hm
    refine ⟨m, ?_, by simp⟩
    cases tc
    simp_all [copySeedCounts]
  | cons f fs ih =>
    intro tc m hm
    obtain ⟨m', hcopy, hget⟩ :=
      ih { tc with SeedFuzzCounts := some (GoMap.set m f (GoMap.getD perSeed f)) }
        (GoMap.set m f (GoMap.getD perSeed f)) rfl
    refine ⟨m', ?_, ?_⟩
    · simp only [copySeedCounts, TestCase.setSeedFuzzCount, hm]
      exact hcopy
    · intro s
      rw [hget s]
      by_cases hsf : s ∈ fs
      · simp [hsf]
      · by_cases hf : f = s
        · subst hf
          simp [GoMap.getD_set_self]
        · have hf' : ¬ s = f := fun h => hf h.symm
          simp [hsf, hf', GoMap.getD_set_ne m f s _ hf]

theorem foldl_incr_getD (fs : List String) (m : GoMap) (s : String) :
    GoMap.getD (fs.foldl GoMap.incr m) s = GoMap.getD m s + (fs.count s : Int) := by
  induction fs generalizing m with
  | nil => simp
  | cons f fs ih =>
    rw [List.foldl_cons, ih, GoMap.getD_incr, List.count_cons]
    by_cases h : f = s
    · simp [h]
      ring
    · simp [h]

theorem foldl_initZero_getD (fs : List String) (m : GoMap) (s : String) :
    GoMap.getD (fs.foldl GoMap.initZero m) s = GoMap.getD m s := by
  induction fs generalizing m with
  | nil => simp
  | cons f fs ih => rw [List.foldl_cons, ih, GoMap.getD_initZero]

theorem occurrences_nil (s : String) : occurrences s [] = 0 := rfl

theorem occurrences_cons (s : String) (tc : TestCase) (tcs : List TestCase) :
    occurrences s (tc :: tcs) = (tc.SeedFilePaths.count s : Int) + occurrences s tcs := by
  simp [occurrences]

theorem occurrences_append (s : String) (l₁ l₂ : List TestCase) :
    occurrences s (l₁ ++ l₂) = occurrences s l₁ + occurrences s l₂ := by
  simp [occurrences]

theorem countsFrom_congr {base base' : String → Int} (h : ∀ s, base s = base' s)
    (tcs : List TestCase) : CountsFrom base tcs → CountsFrom base' tcs := by
  have : base = base' := funext h
  subst this
  exact id

theorem countsFrom_append (l₁ : List TestCase) :
    ∀ (base : String → Int) (l₂ : List TestCase), CountsFrom base l₁ →
      CountsFrom (fun s => base s + occurrences s l₁) l₂ → CountsFrom base (l₁ ++ l₂) := by
  induction l₁ with
  | nil =>
    intro base l₂ _ h₂
    exact countsFrom_congr (by intro s; simp [occurrences_nil]) l₂ h₂
  | cons tc rest ih =>
    intro base l₂ h₁ h₂
    refine ⟨h₁.1, ih _ l₂ h₁.2 ?_⟩
    exact countsFrom_congr (by intro s; rw [occurrences_cons]; ring) l₂ h₂

theorem countsFrom_split (pre : List TestCase) :
    ∀ (base : String → Int) (tc : TestCase) (post : List TestCase),
      CountsFrom base (pre ++ tc :: post) → ∀ s ∈ tc.SeedFilePaths,
        tc.seedFuzzCount s
          = base s + occurrences s pre + (tc.SeedFilePaths.count s : Int) := by
  induction pre with
  | nil =>
    intro base tc post h s hs
    simpa [occurrences_nil] using h.1 s hs
  | cons p pre ih =>
    intro base tc post h s hs
    have := ih _ tc post h.2 s hs
    rw [this, occurrences_cons]
    ring

theorem radamsaLoop_miss (w : MutatorWorld) (reqNo : Nat) (req : Request)
    (workingDir fileName sourceFile : String) (n : Nat) (i : Int) (st : MutatorState)
    (h : w.statOk reqNo (filepathJoin workingDir (itoa (i + 1) ++ "_" ++ fileName)) = false) :
    radamsaLoop w reqNo req workingDir fileName sourceFile (n + 1) i st =
      ((radamsaLoop w reqNo req workingDir fileName sourceFile n (i + 1) st).1,
        .errOut ("Fuzz file " ++ filepathJoin workingDir (itoa (i + 1) ++ "_" ++ fileName)
            ++ " was not generated")
          :: (radamsaLoop w reqNo req workingDir fileName sourceFile n (i + 1) st).2) := by
  simp [radamsaLoop, h]

theorem radamsaLoop_hit (w : MutatorWorld) (reqNo : Nat) (req : Request)
    (workingDir fileName sourceFile : String) (n : Nat) (i : Int) (st : MutatorState)
    (h : w.statOk reqNo (filepathJoin workingDir (itoa (i + 1) ++ "_" ++ fileName)) = true) :
    radamsaLoop w reqNo req workingDir fileName sourceFile (n + 1) i st =
      ((radamsaLoop w reqNo req workingDir fileName sourceFile n (i + 1)
          { st with
            testCasesGenerated := st.testCasesGenerated + 1,
            testCasesPerSeed := GoMap.incr st.testCasesPerSeed sourceFile }).1,
        .out { NewTestCase with
            FuzzFilePath := filepathJoin workingDir (itoa (i + 1) ++ "_" ++ fileName),
            SeedFilePaths := req.SourceFiles,
            SeedFuzzCounts := some
              [(sourceFile, GoMap.getD (GoMap.incr st.testCasesPerSeed sourceFile) sourceFile)],
            TotalFuzzCount := st.testCasesGenerated + 1 }
          :: (radamsaLoop w reqNo req workingDir fileName sourceFile n (i + 1)
          { st with
            testCasesGenerated := st.testCasesGenerated + 1,
            testCasesPerSeed := GoMap.incr st.testCasesPerSeed sourceFile }).2) := by
  simp [radamsaLoop, h, TestCase.setSeedFuzzCount, NewTestCase, TestCase.zero, GoMap.set]

theorem radamsaLoop_spec (w : MutatorWorld) (reqNo : Nat) (req : Request)
    (workingDir fileName sourceFile : String) (hsrc : req.SourceFiles = [sourceFile])
    (n : Nat) : ∀ (i : Int) (st : MutatorState),
      (∀ tc ∈ emittedCases (radamsaLoop w reqNo req workingDir fileName sourceFile n i st).2,
        MutantOf req tc) ∧
      CountsFrom (GoMap.getD st.testCasesPerSeed)
        (emittedCases (radamsaLoop w reqNo req workingDir fileName sourceFile n i st).2) ∧
      ∀ st', (radamsaLoop w reqNo req workingDir fileName sourceFile n i st).1 = some st' →
        ∀ s, GoMap.getD st'.testCasesPerSeed s = GoMap.getD st.testCasesPerSeed s +
          occurrences s
            (emittedCases (radamsaLoop w reqNo req workingDir fileName sourceFile n i st).2) := by
  induction n with
  | zero =>
    intro i st
    simp [radamsaLoop, emittedCases, CountsFrom, occurrences_nil]
  | succ n ih =>
    intro i st
    cases h : w.statOk reqNo (filepathJoin workingDir (itoa (i + 1) ++ "_" ++ fileName)) with
    | false =>
      rw [radamsaLoop_miss w reqNo req workingDir fileName sourceFile n i st h]
      simpa [emittedCases] using ih (i + 1) st
    | true =>
      rw [radamsaLoop_hit w reqNo req workingDir fileName sourceFile n i st h]
      obtain ⟨ih1, ih2, ih3⟩ := ih (i + 1)
        { st with
          testCasesGenerated := st.testCasesGenerated + 1,
          testCasesPerSeed := GoMap.incr st.testCasesPerSeed sourceFile }
      have hstep : ∀ s, GoMap.getD (GoMap.incr st.testCasesPerSeed sourceFile) s
          = GoMap.getD st.testCasesPerSeed s + (([sourceFile] : List String).count s : Int) := by
        intro s
        rw [GoMap.getD_incr, List.count_singleton]
        by_cases hs : sourceFile = s
        · simp [hs]
        · have hs' : ¬ s = sourceFile := fun e => hs e.symm
          simp [hs, hs']
      refine ⟨?_, ⟨?_, ?_⟩, ?_⟩
      · intro tc htc
        simp only [emittedCases, List.mem_cons] at htc
        rcases htc with rfl | htc
        · exact ⟨_, _, _, rfl⟩
        · exact ih1 tc htc
      · intro s hs
        simp only [hsrc, List.mem_singleton] at hs
        subst hs
        simp only [hsrc]
        rw [← hstep]
        simp [TestCase.seedFuzzCount, GoMap.getD, GoMap.get?]
      · simp only [hsrc]
        exact countsFrom_congr hstep _ ih2
      · intro st' hst' s
        simp only [emittedCases]
        rw [ih3 st' hst' s, occurrences_cons]
        simp only [hsrc]
        rw [hstep]
        ring

theorem radamsaRun_spec (cfg : Config) (testCasesDir : String) (w : MutatorWorld)
    (reqs : List Request) : ∀ (reqNo : Nat) (st : MutatorState),
      (∀ tc ∈ emittedCases (radamsaRun cfg testCasesDir w reqs reqNo st),
        ∃ req, req.SourceFiles ≠ [] ∧ MutantOf req tc) ∧
      CountsFrom (GoMap.getD st.testCasesPerSeed)
        (emittedCases (radamsaRun cfg testCasesDir w reqs reqNo st)) := by
  induction reqs with
  | nil =>
    intro reqNo st
    simp [radamsaRun, emittedCases, CountsFrom]
  | cons req rest ih =>
    intro reqNo st
    unfold radamsaRun
    by_cases h0 : req.SourceFiles.length = 0
    · simp [h0, emittedCases, CountsFrom]
    by_cases h1 : req.SourceFiles.length > 1
    · simp [h0, h1, emittedCases, CountsFrom]
    have hsrc : req.SourceFiles = [req.SourceFiles.headD ""] := by
      match hreq : req.SourceFiles with
      | [] => simp [hreq] at h0
      | [x] => simp
      | _ :: _ :: _ => simp [hreq] at h1
    have hne : req.SourceFiles ≠ [] := by
      intro h
      simp [h] at h0
    simp only [h0, h1, if_false]
    generalize (if cfg.TestProcessing.GenerateTestsInPlace = true
      then filepathDir (req.SourceFiles.headD "") else testCasesDir) = workingDir
    split_ifs with hcmd
    · obtain ⟨ih1, ih2⟩ := ih (reqNo + 1) { st with seedInc := st.seedInc + 1 }
      simpa [emittedCases] using And.intro ih1 ih2
    · obtain ⟨l1, l2, l3⟩ := radamsaLoop_spec w reqNo req workingDir
        (filepathBase (req.SourceFiles.headD "")) (req.SourceFiles.headD "") hsrc
        req.Count.toNat 0
        { seedInc := st.seedInc + 1, testCasesGenerated := st.testCasesGenerated,
          testCasesPerSeed :=
            GoMap.initZero st.testCasesPerSeed (req.SourceFiles.headD "") }
      have l2' := countsFrom_congr
        (fun s => GoMap.getD_initZero st.testCasesPerSeed (req.SourceFiles.headD "") s) _ l2
      split
      · rename_i hnone
        exact ⟨fun tc htc => ⟨req, hne, l1 tc htc⟩, l2'⟩
      · rename_i st' hsome
        obtain ⟨ih1, ih2⟩ := ih (reqNo + 1) st'
        rw [emittedCases_append]
        refine ⟨?_, ?_⟩
        · intro tc htc
          rcases List.mem_append.mp htc with htc | htc
          · exact ⟨req, hne, l1 tc htc⟩
          · exact ih1 tc htc
        · refine countsFrom_append _ _ _ l2' ?_
          refine countsFrom_congr ?_ _ ih2
          intro s
          rw [l3 st' hsome s, GoMap.getD_initZero]

theorem radamsaMultiLoop_spec (w : MutatorWorld) (reqNo : Nat) (req : Request)
    (workingDir fileName : String) (n : Nat) : ∀ (i : Int) (st : MutatorState),
      (∀ tc ∈ emittedCases (radamsaMultiLoop w reqNo req workingDir fileName n i st).2,
        MutantOf req tc ∧ tc.TotalFuzzCount = 1) ∧
      CountsFrom (GoMap.getD st.testCasesPerSeed)
        (emittedCases (radamsaMultiLoop w reqNo req workingDir fileName n i st).2) ∧
      ∀ st', (radamsaMultiLoop w reqNo req workingDir fileName n i st).1 = some st' →
        ∀ s, GoMap.getD st'.testCasesPerSeed s = GoMap.getD st.testCasesPerSeed s +
          occurrences s
            (emittedCases (radamsaMultiLoop w reqNo req workingDir fileName n i st).2) := by
  induction n with
  | zero =>
    intro i st
    simp [radamsaMultiLoop, emittedCases, CountsFrom, occurrences_nil]
  | succ n ih =>
    intro i st
    cases h : w.statOk reqNo (filepathJoin workingDir (itoa (i + 1) ++ "_" ++ fileName)) with
    | false =>
      have heq : radamsaMultiLoop w reqNo req workingDir fileName (n + 1) i st =
          ((radamsaMultiLoop w reqNo req workingDir fileName n (i + 1) st).1,
            .errOut ("Fuzz file " ++
                filepathJoin workingDir (itoa (i + 1) ++ "_" ++ fileName)
                ++ " was not generated")
              :: (radamsaMultiLoop w reqNo req workingDir fileName n (i + 1) st).2) := by
        simp [radamsaMultiLoop, h]
      rw [heq]
      simpa [emittedCases] using ih (i + 1) st
    | true =>
      obtain ⟨m', hcopy, hget⟩ := copySeedCounts_spec
        (req.SourceFiles.foldl GoMap.incr st.testCasesPerSeed) req.SourceFiles
        NewTestCase [] rfl
      have heq : radamsaMultiLoop w reqNo req workingDir fileName (n + 1) i st =
          ((radamsaMultiLoop w reqNo req workingDir fileName n (i + 1)
              { st with
                testCasesPerSeed := req.SourceFiles.foldl GoMap.incr st.testCasesPerSeed,
                testCasesGenerated := st.testCasesGenerated + 1 }).1,
            .out { NewTestCase with
                FuzzFilePath := filepathJoin workingDir (itoa (i + 1) ++ "_" ++ fileName),
                SeedFilePaths := req.SourceFiles,
                SeedFuzzCounts := some m',
                TotalFuzzCount := 1 }
              :: (radamsaMultiLoop w reqNo req workingDir fileName n (i + 1)
              { st with
                testCasesPerSeed := req.SourceFiles.foldl GoMap.incr st.testCasesPerSeed,
                testCasesGenerated := st.testCasesGenerated + 1 }).2) := by
        simp [radamsaMultiLoop, h, hcopy]
        simp [NewTestCase, TestCase.zero]
      rw [heq]
      obtain ⟨ih1, ih2, ih3⟩ := ih (i + 1)
        { st with
          testCasesPerSeed := req.SourceFiles.foldl GoMap.incr st.testCasesPerSeed,
          testCasesGenerated := st.testCasesGenerated + 1 }
      have hstep : ∀ s, GoMap.getD (req.SourceFiles.foldl GoMap.incr st.testCasesPerSeed) s
          = GoMap.getD st.testCasesPerSeed s + (req.SourceFiles.count s : Int) :=
        fun s => foldl_incr_getD req.SourceFiles st.testCasesPerSeed s
      refine ⟨?_, ⟨?_, ?_⟩, ?_⟩
      · intro tc htc
        simp only [emittedCases, List.mem_cons] at htc
        rcases htc with rfl | htc
        · exact ⟨⟨_, _, _, rfl⟩, rfl⟩
        · exact ih1 tc htc
      · intro s hs
        have hs' : s ∈ req.SourceFiles := hs
        simp only [TestCase.seedFuzzCount]
        rw [hget s, if_pos hs', hstep]
      · exact countsFrom_congr hstep _ ih2
      · intro st' hst' s
        simp only [emittedCases]
        rw [ih3 st' hst' s, occurrences_cons, hstep]
        ring

theorem radamsaMultiRun_spec (cfg : Config) (testCasesDir : String) (w : MutatorWorld)
    (reqs : List Request) : ∀ (reqNo : Nat) (st : MutatorState),
      (∀ tc ∈ emittedCases (radamsaMultiRun cfg testCasesDir w reqs reqNo st),
        (∃ req, req.SourceFiles ≠ [] ∧ MutantOf req tc) ∧ tc.TotalFuzzCount = 1) ∧
      CountsFrom (GoMap.getD st.testCasesPerSeed)
        (emittedCases (radamsaMultiRun cfg testCasesDir w reqs reqNo st)) := by
  induction reqs with
  | nil =>
    intro reqNo st
    simp [radamsaMultiRun, emittedCases, CountsFrom]
  | cons req rest ih =>
    intro reqNo st
    unfold radamsaMultiRun
    by_cases h0 : req.SourceFiles.length = 0
    · simp [h0, emittedCases, CountsFrom]
    have hne : req.SourceFiles ≠ [] := by
      intro h
      simp [h] at h0
    simp only [h0, if_false]
    generalize (if cfg.TestProcessing.GenerateTestsInPlace = true
      then filepathDir (req.SourceFiles.headD "") else testCasesDir) = workingDir
    split_ifs with hcmd
    · obtain ⟨ih1, ih2⟩ := ih (reqNo + 1) { st with seedInc := st.seedInc + 1 }
      simpa [emittedCases] using And.intro ih1 ih2
    · obtain ⟨l1, l2, l3⟩ := radamsaMultiLoop_spec w reqNo req workingDir
        (filepathBase (req.SourceFiles.headD "")) req.Count.toNat 0
        { seedInc := st.seedInc + 1, testCasesGenerated := st.testCasesGenerated,
          testCasesPerSeed := req.SourceFiles.foldl GoMap.initZero st.testCasesPerSeed }
      have l2' := countsFrom_congr
        (fun s => foldl_initZero_getD req.SourceFiles st.testCasesPerSeed s) _ l2
      split
      · rename_i hnone
        exact ⟨fun tc htc => ⟨⟨req, hne, (l1 tc htc).1⟩, (l1 tc htc).2⟩, l2'⟩
      · rename_i st' hsome
        obtain ⟨ih1, ih2⟩ := ih (reqNo + 1) st'
        rw [emittedCases_append]
        refine ⟨?_, ?_⟩
        · intro tc htc
          rcases List.mem_append.mp htc with htc | htc
          · exact ⟨⟨req, hne, (l1 tc htc).1⟩, (l1 tc htc).2⟩
          · exact ih1 tc htc
        · refine countsFrom_append _ _ _ l2' ?_
          refine countsFrom_congr ?_ _ ih2
          intro s
          rw [l3 st' hsome s, foldl_initZero_getD]

theorem nopRun_emits_nothing (workingDir : String) (w : MutatorWorld)
    (reqs : List Request) : ∀ (reqNo : Nat) (st : MutatorState),
      emittedCases (nopRun workingDir w reqs reqNo st) = [] := by
  induction reqs with
  | nil =>
    intro reqNo st
    rfl
  | cons req rest ih =>
    intro reqNo st
    unfold nopRun
    by_cases h0 : req.SourceFiles.length = 0
    · simp [h0, emittedCases]
    · simp only [h0, if_false, TestCase.setSeedFuzzCount, TestCase.zero]
      split_ifs <;> simp [emittedCases, ih]

/-- C4. The multi-file mutator, asked for two mutants of two seeds with every
file generated, emits two cases that both carry `TotalFuzzCount = 1`: the
second one should carry 2, as it does with the single-seed mutator. -/
theorem radamsaMulti_total_fuzz_count_stays_one :
    (emittedCases (radamsaMultiRun exampleMultiConfig "/s/test_cases" exampleMutatorWorld
      [{ SourceFiles := ["/seeds/a.js", "/seeds/b.js"], Count := 2 }] 0
      MutatorState.init)).map TestCase.TotalFuzzCount = [1, 1] := by
  decide

/-- Every case the multi-file mutator ever emits carries `TotalFuzzCount = 1`. -/
theorem radamsaMulti_total_fuzz_count_always_one (cfg : Config) (testCasesDir : String)
    (w : MutatorWorld) (reqs : List Request) (tc : TestCase)
    (h : tc ∈ emittedCases (radamsaMultiRun cfg testCasesDir w reqs 0 MutatorState.init)) :
    tc.TotalFuzzCount = 1 :=
  ((radamsaMultiRun_spec cfg testCasesDir w reqs 0 MutatorState.init).1 tc h).2

/-- C5. A multi-file request that lists the same seed twice, as the manager's
draw with replacement can produce, yields a first case whose count for that
seed is 2 although it is the only mutant generated from it so far: the count
should be 1. -/
theorem radamsaMulti_repeated_source_counts_twice :
    emittedCases (radamsaMultiRun exampleMultiConfig "/s/test_cases" exampleMutatorWorld
      [{ SourceFiles := ["/seeds/a.js", "/seeds/a.js"], Count := 1 }] 0
      MutatorState.init)
    = [{ NewTestCase with
          FuzzFilePath := "/s/test_cases/1_a.js",
          SeedFilePaths := ["/seeds/a.js", "/seeds/a.js"],
          SeedFuzzCounts := some [("/seeds/a.js", 2)],
          TotalFuzzCount := 1 }] := by
  decide

theorem occurrences_nodup (s : String) (pre : List TestCase)
    (h : ∀ c ∈ pre, c.SeedFilePaths.Nodup) :
    occurrences s pre = ((pre.filter (fun c => decide (s ∈ c.SeedFilePaths))).length : Int) := by
  induction pre with
  | nil => rfl
  | cons c pre ih =>
    have hc : c.SeedFilePaths.Nodup := h c (List.mem_cons_self _ _)
    have ih' := ih (fun c' hc' => h c' (List.mem_cons_of_mem _ hc'))
    rw [occurrences_cons, ih', List.filter_cons]
    by_cases hs : s ∈ c.SeedFilePaths
    · rw [List.count_eq_one_of_mem hc hs]
      simp [hs]
      ring
    · rw [List.count_eq_zero_of_not_mem hs]
      simp [hs]

/-- What the per-seed counts of the mutators are in general. In the stream of
cases a mutator emits (single-seed, multi-file or nop, over any requests),
each case carries for each of its seeds `s` a count equal to the number of
times `s` is listed by the earlier cases plus the number of times it is listed
by the case itself; when neither the case nor an earlier one lists a seed
twice, that is one plus the number of earlier cases that contain `s`. -/
theorem seed_fuzz_counts_count_listings (cfg : Config) (testCasesDir : String)
    (w : MutatorWorld) (reqs : List Request) (pre : List TestCase) (tc : TestCase)
    (post : List TestCase) (s : String) (hs : s ∈ tc.SeedFilePaths)
    (hrun :
      emittedCases (radamsaRun cfg testCasesDir w reqs 0 MutatorState.init)
        = pre ++ tc :: post ∨
      emittedCases (radamsaMultiRun cfg testCasesDir w reqs 0 MutatorState.init)
        = pre ++ tc :: post ∨
      emittedCases (nopRun testCasesDir w reqs 0 MutatorState.init)
        = pre ++ tc :: post) :
    tc.seedFuzzCount s = occurrences s pre + (tc.SeedFilePaths.count s : Int) ∧
    ((∀ c ∈ pre ++ [tc], c.SeedFilePaths.Nodup) →
      tc.seedFuzzCount s
        = 1 + ((pre.filter (fun c => decide (s ∈ c.SeedFilePaths))).length : Int)) := by
  have hmain : tc.seedFuzzCount s = occurrences s pre + (tc.SeedFilePaths.count s : Int) := by
    rcases hrun with h | h | h
    · have := (radamsaRun_spec cfg testCasesDir w reqs 0 MutatorState.init).2
      rw [h] at this
      simpa [MutatorState.init, GoMap.getD, GoMap.get?] using
        countsFrom_split pre _ tc post this s hs
    · have := (radamsaMultiRun_spec cfg testCasesDir w reqs 0 MutatorState.init).2
      rw [h] at this
      simpa [MutatorState.init, GoMap.getD, GoMap.get?] using
        countsFrom_split pre _ tc post this s hs
    · rw [nopRun_emits_nothing] at h
      simp at h
  refine ⟨hmain, ?_⟩
  intro hnd
  have hpre : ∀ c ∈ pre, c.SeedFilePaths.Nodup :=
    fun c hc => hnd c (List.mem_append_left _ hc)
  have htc : tc.SeedFilePaths.Nodup := hnd tc (by simp)
  rw [hmain, occurrences_nodup s pre hpre, List.count_eq_one_of_mem htc hs]
  simp
  ring

theorem seed_fuzz_counts_count_listings_witness :
    "/seeds/a.js" ∈ ({ exampleMutant with
        FuzzFilePath := "/s/test_cases/2_a.js",
        SeedFuzzCounts := some [("/seeds/a.js", 2)],
        TotalFuzzCount := 2 } : TestCase).SeedFilePaths ∧
    ({ exampleMutant with
        FuzzFilePath := "/s/test_cases/2_a.js",
        SeedFuzzCounts := some [("/seeds/a.js", 2)],
        TotalFuzzCount := 2 } : TestCase).seedFuzzCount "/seeds/a.js"
      = occurrences "/seeds/a.js" [exampleMutant] + 1 :=
  ⟨by decide,
    (seed_fuzz_counts_count_listings exampleConfig "/s/test_cases" exampleMutatorWorld
      [{ SourceFiles := ["/seeds/a.js"], Count := 2 }] [exampleMutant]
      { exampleMutant with
        FuzzFilePath := "/s/test_cases/2_a.js",
        SeedFuzzCounts := some [("/seeds/a.js", 2)],
        TotalFuzzCount := 2 }
      [] "/seeds/a.js" (by decide) (Or.inl (by decide))).1⟩

/-! ## The monitor's timeout branch -/

theorem monitorCase_timedOut (cfg : Config) (argGen : Option GenFunc) (w : MonitorWorld)
    (tc tc' : TestCase) (killOk : Bool) (hrun : w.run = ChildRun.timedOut killOk)
    (hemit : (monitorCase cfg argGen w tc).emitted = some tc') :
    tc' = { tc with
      ApplicationEnv := tc.ApplicationEnv ++ [asanEnvMod] ++ [mallocCheckEnvMod],
      ApplicationPath := cfg.Interpreter.Path,
      TestTimedOut := true } := by
  unfold monitorCase at hemit
  simp only [hrun] at hemit
  repeat' split at hemit
  all_goals simp at hemit
  all_goals subst hemit
  all_goals simp

theorem logFileIter_non_bug (preserveDir : String) (w : ResultWorld) (tc : TestCase)
    (hseeds : tc.SeedFilePaths ≠ []) (hcode : tc.ExitCode ∉ bugExitCodes) :
    ∃ logged, logFileIter preserveDir w tc = some logged ∧ logged.emitted = true ∧
      logged.testCase = { tc with BugFound := false } := by
  have hlen : tc.SeedFilePaths.length ≠ 0 := by
    simpa [List.length_eq_zero] using hseeds
  exact ⟨logFileCase preserveDir w tc, by simp [logFileIter, hlen],
    by simp [logFileCase, hcode], by simp [logFileCase, hcode]⟩

/-- C7. A case emitted by a mutator (single-seed, multi-file or nop) that goes
through the timeout branch of the monitor is sent on with
`TestTimedOut = true`, `ExitCode = 0` and `ExeSeconds = 0`, and the result
processor then sends it on as a non-bug: `BugFound = false` and an empty
`PreservationDir`. -/
theorem timed_out_case_is_not_a_bug (cfg : Config) (testCasesDir : String)
    (mw : MutatorWorld) (reqs : List Request) (argGen : Option GenFunc)
    (w : MonitorWorld) (killOk : Bool) (preserveDir : String) (rw : ResultWorld)
    (tc tc' : TestCase) (step : MonitorStep)
    (hmut :
      tc ∈ emittedCases (radamsaRun cfg testCasesDir mw reqs 0 MutatorState.init) ∨
      tc ∈ emittedCases (radamsaMultiRun cfg testCasesDir mw reqs 0 MutatorState.init) ∨
      tc ∈ emittedCases (nopRun testCasesDir mw reqs 0 MutatorState.init))
    (hrun : w.run = ChildRun.timedOut killOk)
    (hstep : monitorIter cfg argGen w tc = some step)
    (hemit : step.emitted = some tc') :
    tc'.TestTimedOut = true ∧ tc'.ExitCode = 0 ∧ tc'.ExeSeconds = 0 ∧
    ∃ logged, logFileIter preserveDir rw tc' = some logged ∧
      logged.emitted = true ∧ logged.testCase.BugFound = false ∧
      logged.testCase.PreservationDir = "" := by
  have hshape : ∃ req, req.SourceFiles ≠ [] ∧ MutantOf req tc := by
    rcases hmut with h | h | h
    · exact (radamsaRun_spec cfg testCasesDir mw reqs 0 MutatorState.init).1 tc h
    · exact ((radamsaMultiRun_spec cfg testCasesDir mw reqs 0 MutatorState.init).1 tc h).1
    · rw [nopRun_emits_nothing] at h
      simp at h
  obtain ⟨req, hne, path, counts, total, rfl⟩ := hshape
  have hlen : req.SourceFiles.length ≠ 0 := by
    simpa [List.length_eq_zero] using hne
  simp only [monitorIter, hlen, if_false, Option.some.injEq] at hstep
  subst hstep
  have htc' := monitorCase_timedOut cfg argGen w _ tc' killOk hrun hemit
  subst htc'
  refine ⟨rfl, rfl, rfl, ?_⟩
  have hcode : (0 : Int) ∉ bugExitCodes := by decide
  obtain ⟨logged, h1, h2, h3⟩ := logFileIter_non_bug preserveDir rw
    { ({ NewTestCase with
          FuzzFilePath := path, SeedFilePaths := req.SourceFiles,
          SeedFuzzCounts := some counts, TotalFuzzCount := total } : TestCase) with
      ApplicationEnv := NewTestCase.ApplicationEnv ++ [asanEnvMod] ++ [mallocCheckEnvMod],
      ApplicationPath := cfg.Interpreter.Path,
      TestTimedOut := true } hne hcode
  exact ⟨logged, h1, h2, by rw [h3], by rw [h3]; rfl⟩

theorem timed_out_case_is_not_a_bug_witness :
    ∃ logged, logFileIter "/s/crashes" exampleResultWorld
        { exampleMutant with
          ApplicationEnv := [asanEnvMod, mallocCheckEnvMod],
          ApplicationPath := "/bin/true", TestTimedOut := true } = some logged ∧
      logged.emitted = true ∧ logged.testCase.BugFound = false ∧
      logged.testCase.PreservationDir = "" :=
  (timed_out_case_is_not_a_bug exampleConfig "/s/test_cases" exampleMutatorWorld
    [{ SourceFiles := ["/seeds/a.js"], Count := 1 }] none exampleTimeoutWorld true
    "/s/crashes" exampleResultWorld exampleMutant
    { exampleMutant with
      ApplicationEnv := [asanEnvMod, mallocCheckEnvMod],
      ApplicationPath := "/bin/true", TestTimedOut := true }
    (monitorCase exampleConfig none exampleTimeoutWorld exampleMutant)
    (Or.inl (by decide)) rfl (by decide) (by decide)).2.2.2

/-! ## The manager of the cover-all-once mode -/

theorem addTestCaseForSeed_eq (s : Stats) (seed : String) :
    s.AddTestCaseForSeed seed =
      { s with TestCasesProcessedPerSeed := GoMap.incr s.TestCasesProcessedPerSeed seed } := by
  unfold Stats.AddTestCaseForSeed GoMap.incr GoMap.getD
  cases GoMap.get? s.TestCasesProcessedPerSeed seed <;> simp

theorem foldl_addTestCaseForSeed (paths : List String) (s : Stats) :
    paths.foldl Stats.AddTestCaseForSeed s =
      { s with TestCasesProcessedPerSeed := paths.foldl GoMap.incr s.TestCasesProcessedPerSeed } := by
  induction paths generalizing s with
  | nil => rfl
  | cons p paths ih => rw [List.foldl_cons, ih, addTestCaseForSeed_eq, List.foldl_cons]

theorem GoMap.sum_incr (m : GoMap) (k : String) :
    GoMap.sum (GoMap.incr m k) = GoMap.sum m + 1 := by
  rw [GoMap.incr, GoMap.sum_set]
  ring

theorem foldl_incr_sum (fs : List String) (m : GoMap) :
    GoMap.sum (fs.foldl GoMap.incr m) = GoMap.sum m + (fs.length : Int) := by
  induction fs generalizing m with
  | nil => simp
  | cons f fs ih =>
    rw [List.foldl_cons, ih, GoMap.sum_incr, List.length_cons]
    push_cast
    ring

theorem recordTestCase_perSeed (stats : Stats) (tc : TestCase) :
    (recordTestCase stats tc).TestCasesProcessedPerSeed =
      tc.SeedFilePaths.foldl GoMap.incr stats.TestCasesProcessedPerSeed := by
  unfold recordTestCase Stats.AddExitCode
  simp only [foldl_addTestCaseForSeed]
  split_ifs <;> (try split) <;> rfl

theorem recordTestCase_processed (stats : Stats) (tc : TestCase) :
    (recordTestCase stats tc).TestCasesProcessed = stats.TestCasesProcessed + 1 := by
  unfold recordTestCase Stats.AddExitCode
  simp only [foldl_addTestCaseForSeed]
  split_ifs <;> (try split) <;> rfl

theorem getElem_cons_set_perm (a : List String) (y : String) :
    ∀ (i : Nat) (h : i < a.length), (a[i] :: a.set i y).Perm (y :: a) := by
  induction a with
  | nil => intro i h; simp at h
  | cons x a ih =>
    intro i h
    cases i with
    | zero =>
      simp only [List.getElem_cons_zero, List.set_cons_zero]
      exact List.Perm.swap y x a
    | succ i =>
      have hi : i < a.length := by simpa using h
      have := ih i hi
      simp only [List.getElem_cons_succ, List.set_cons_succ]
      exact (List.Perm.swap x a[i] (a.set i y)).trans
        ((this.cons x).trans (List.Perm.swap y x a))

theorem swapRemove_perm (l : List String) (idx : Nat) (h : idx < l.length) :
    (l.getD idx "" :: swapRemove l idx).Perm l := by
  have hne : l ≠ [] := by
    intro e
    simp [e] at h
  obtain ⟨a, y, rfl⟩ : ∃ a y, l = a ++ [y] :=
    ⟨l.dropLast, l.getLast hne, (List.dropLast_append_getLast hne).symm⟩
  have hlast : (a ++ [y]).getLastD "" = y := by simp [List.getLastD_eq_getLast?]
  unfold swapRemove
  rw [hlast, List.set_append]
  by_cases hi : idx < a.length
  · rw [if_pos hi, List.dropLast_concat]
    have hget : (a ++ [y]).getD idx "" = a[idx] := by
      simp [List.getD_eq_getElem?_getD, List.getElem?_append_left hi, hi]
    rw [hget]
    exact (getElem_cons_set_perm a y idx hi).trans (List.perm_append_singleton y a).symm
  · have hidx : idx = a.length := by
      simp at h
      omega
    subst hidx
    simp [List.getD_eq_getElem?_getD]
    exact (List.perm_append_singleton y a).symm

theorem swapRemove_length (l : List String) (idx : Nat) (h : idx < l.length) :
    (swapRemove l idx).length + 1 = l.length := by
  have := (swapRemove_perm l idx h).length_eq
  simpa using this

theorem swapRemove_count (l : List String) (idx : Nat) (h : idx < l.length) (s : String) :
    ((swapRemove l idx).count s : Int) + (([l.getD idx ""] : List String).count s : Int)
      = (l.count s : Int) := by
  have := (swapRemove_perm l idx h).count_eq s
  have h2 : (l.getD idx "" :: swapRemove l idx) = [l.getD idx ""] ++ swapRemove l idx := rfl
  rw [h2, List.count_append] at this
  exact_mod_cast (by omega :
    (swapRemove l idx).count s + ([l.getD idx ""] : List String).count s = l.count s)

theorem coverAllStep_invariant (batchSize : Int) (rng : Nat → Nat)
    (pipe : Nat → Request → List TestCase) (Inv : ManagerState → Prop)
    (hrecv : ∀ st i, Inv st → i < st.inFlight.length → Inv (receiveCase st i))
    (hsel : ∀ st, Inv st → st.seedFiles ≠ [] → Inv (selectSeed batchSize rng pipe st))
    (st : ManagerState) (ev : LoopEvent) (hst : Inv st) (st' : ManagerState)
    (h : (coverAllStep batchSize rng pipe st ev).state? = some st') : Inv st' := by
  cases ev with
  | error =>
    simp only [coverAllStep, LoopExit.state?, Option.some.injEq] at h
    exact h ▸ hst
  | testCase pick saveOk summaryOk =>
    unfold coverAllStep at h
    by_cases h0 : st.inFlight.length = 0
    · simp [h0, LoopExit.state?] at h
    · have hlt : pick % st.inFlight.length < st.inFlight.length :=
        Nat.mod_lt _ (Nat.pos_of_ne_zero h0)
      have hmid := hrecv st _ hst hlt
      simp only [h0, if_false] at h
      split_ifs at h with h1 h2 h3 h4 h5 h6
      all_goals simp only [LoopExit.state?, Option.some.injEq, reduceCtorEq] at h
      all_goals first
        | exact h ▸ hmid
        | exact h ▸ hsel _ hmid (by
            intro e
            simp [e] at h5)

theorem coverAllLoop_invariant (batchSize : Int) (rng : Nat → Nat)
    (pipe : Nat → Request → List TestCase) (Inv : ManagerState → Prop)
    (hrecv : ∀ st i, Inv st → i < st.inFlight.length → Inv (receiveCase st i))
    (hsel : ∀ st, Inv st → st.seedFiles ≠ [] → Inv (selectSeed batchSize rng pipe st))
    (events : List LoopEvent) : ∀ (st : ManagerState), Inv st → ∀ st',
      (coverAllLoop batchSize rng pipe st events).state? = some st' → Inv st' := by
  induction events with
  | nil =>
    intro st hst st' h
    simp only [coverAllLoop, LoopExit.state?, Option.some.injEq] at h
    exact h ▸ hst
  | cons ev evs ih =>
    intro st hst st' h
    have hstep := coverAllStep_invariant batchSize rng pipe Inv hrecv hsel st ev hst
    unfold coverAllLoop at h
    cases hs : coverAllStep batchSize rng pipe st ev with
    | running st1 =>
      rw [hs] at h hstep
      exact ih st1 (hstep st1 rfl) st' h
    | completed st1 => rw [hs] at h hstep; exact hstep st' h
    | aborted st1 => rw [hs] at h hstep; exact hstep st' h
    | panicked f => rw [hs] at h; simp [LoopExit.state?] at h
    | notStarted => rw [hs] at h; simp [LoopExit.state?] at h
    | impossible => rw [hs] at h; simp [LoopExit.state?] at h

theorem coverAllStep_completed (batchSize : Int) (rng : Nat → Nat)
    (pipe : Nat → Request → List TestCase) (st : ManagerState) (ev : LoopEvent)
    (st' : ManagerState) (h : coverAllStep batchSize rng pipe st ev = .completed st') :
    st'.seedFiles = [] ∧ st'.fuzzFilesRequested = st'.stats.TestCasesProcessed := by
  cases ev with
  | error => simp [coverAllStep] at h
  | testCase pick saveOk summaryOk =>
    simp only [coverAllStep] at h
    split_ifs at h with h0 h1 h2 h3 h4 h5 h6
    simp only [LoopExit.completed.injEq] at h
    subst h
    exact ⟨List.length_eq_zero.mp h5, h6⟩

theorem coverAllLoop_completed (batchSize : Int) (rng : Nat → Nat)
    (pipe : Nat → Request → List TestCase) (events : List LoopEvent) :
    ∀ (st st' : ManagerState),
      coverAllLoop batchSize rng pipe st events = .completed st' →
      st'.seedFiles = [] ∧ st'.fuzzFilesRequested = st'.stats.TestCasesProcessed := by
  induction events with
  | nil =>
    intro st st' h
    simp [coverAllLoop] at h
  | cons ev evs ih =>
    intro st st' h
    unfold coverAllLoop at h
    cases hs : coverAllStep batchSize rng pipe st ev with
    | running st1 => rw [hs] at h; exact ih st1 st' h
    | completed st1 =>
      rw [hs] at h
      simp only [LoopExit.completed.injEq] at h
      subst h
      exact coverAllStep_completed batchSize rng pipe st ev st1 hs
    | aborted st1 => rw [hs] at h; simp at h
    | panicked f => rw [hs] at h; simp at h
    | notStarted => rw [hs] at h; simp at h
    | impossible => rw [hs] at h; simp at h

theorem idealPipe_delivers : PipeDelivers idealPipe := by
  intro k req
  refine ⟨by simp [idealPipe], ?_⟩
  intro tc htc
  simp only [idealPipe, List.mem_replicate] at htc
  rw [htc.2]

theorem occurrences_eraseIdx (s : String) (l : List TestCase) :
    ∀ (i : Nat), i < l.length →
      occurrences s (l.eraseIdx i) + ((l.getD i TestCase.zero).SeedFilePaths.count s : Int)
        = occurrences s l := by
  induction l with
  | nil => intro i h; simp at h
  | cons tc l ih =>
    intro i h
    cases i with
    | zero => simp [occurrences_cons]; ring
    | succ i =>
      have hi : i < l.length := by simpa using h
      rw [List.eraseIdx_cons_succ, List.getD_cons_succ, occurrences_cons, occurrences_cons,
        ← ih i hi]
      ring

theorem occurrences_const (s : String) (src : List String) (l : List TestCase)
    (h : ∀ tc ∈ l, tc.SeedFilePaths = src) :
    occurrences s l = (l.length : Int) * (src.count s : Int) := by
  induction l with
  | nil => simp [occurrences_nil]
  | cons tc l ih =>
    rw [occurrences_cons, ih (fun c hc => h c (List.mem_cons_of_mem _ hc)),
      h tc (List.mem_cons_self _ _), List.length_cons]
    push_cast
    ring

theorem occurrences_pipe (pipe : Nat → Request → List TestCase) (hpipe : PipeDelivers pipe)
    (k : Nat) (req : Request) (s : String) :
    occurrences s (pipe k req) = (req.Count.toNat : Int) * (req.SourceFiles.count s : Int) := by
  rw [occurrences_const s req.SourceFiles (pipe k req) (hpipe k req).2, (hpipe k req).1]

/-- C2, counterexample. A fresh run over three seeds with batches of two is
interrupted after three cases, leaving `/seeds/c.js` with one processed case;
the resumed run keeps `/seeds/b.js` and `/seeds/c.js`, and once its four cases
are processed `/seeds/c.js` stands at 3, above the batch size, and the total
at 7. -/
theorem resumed_run_exceeds_batch_size :
    ((CoverAllSeedsOnce exampleConfig Stats.empty
        ["/seeds/a.js", "/seeds/b.js", "/seeds/c.js"] (fun _ => 0) idealPipe
        (fifoEvents 3)).state?.map ManagerState.stats = some exampleInterruptedStats) ∧
    filterSeeds exampleInterruptedStats 2 ["/seeds/a.js", "/seeds/b.js", "/seeds/c.js"]
      = ["/seeds/b.js", "/seeds/c.js"] ∧
    ((CoverAllSeedsOnce exampleConfig exampleInterruptedStats
        (filterSeeds exampleInterruptedStats 2
          ["/seeds/a.js", "/seeds/b.js", "/seeds/c.js"]) (fun _ => 0) idealPipe
        (fifoEvents 4)).state?.map ManagerState.stats =
      some
        { CrashCount := 0, TestCasesProcessed := 7, TimedOutTests := 0,
          ExitCodeCounts := [("0", 7)],
          TestCasesProcessedPerSeed :=
            [("/seeds/a.js", 2), ("/seeds/c.js", 3), ("/seeds/b.js", 2)] }) := by
  decide

/-- C2, amended. In a cover-all-once run resumed from persisted stats, on the
seeds `filterSeeds` keeps and with every request coming back as `batch_size`
cases, the processed count of a seed `s` never rises above its persisted
count plus `batch_size` times the number of times `s` is listed among the
kept seeds; in particular a seed whose persisted count had reached
`batch_size` is never driven above that persisted count. -/
theorem resumed_run_per_seed_bound (cfg : Config) (stats0 : Stats) (seeds : List String)
    (rng : Nat → Nat) (pipe : Nat → Request → List TestCase) (events : List LoopEvent)
    (st : ManagerState) (s : String) (hpipe : PipeDelivers pipe)
    (hst : (CoverAllSeedsOnce cfg stats0
      (filterSeeds stats0 cfg.TestProcessing.BatchSize seeds) rng pipe events).state?
        = some st) :
    GoMap.getD st.stats.TestCasesProcessedPerSeed s ≤
      GoMap.getD stats0.TestCasesProcessedPerSeed s +
        (cfg.TestProcessing.BatchSize.toNat : Int) *
          ((filterSeeds stats0 cfg.TestProcessing.BatchSize seeds).count s : Int) ∧
    (∀ c, GoMap.get? stats0.TestCasesProcessedPerSeed s = some c →
      cfg.TestProcessing.BatchSize ≤ c →
      GoMap.getD st.stats.TestCasesProcessedPerSeed s ≤ c) := by
  generalize hB : cfg.TestProcessing.BatchSize = B at hst ⊢
  generalize hS : filterSeeds stats0 B seeds = S at hst ⊢
  have hinv : GoMap.getD st.stats.TestCasesProcessedPerSeed s + occurrences s st.inFlight
      + (B.toNat : Int) * (st.seedFiles.count s : Int)
      = GoMap.getD stats0.TestCasesProcessedPerSeed s + (B.toNat : Int) * (S.count s : Int) := by
    unfold CoverAllSeedsOnce at hst
    rw [hB] at hst
    by_cases hneg : B < 0
    · simp [hneg, LoopExit.state?] at hst
    simp only [hneg, if_false] at hst
    by_cases hstart : startMutatorOk cfg = true
    swap
    · simp [hstart, LoopExit.state?] at hst
    by_cases hlen : S.length = 0
    · simp [hstart, hlen, LoopExit.state?] at hst
    simp only [hstart, hlen, Bool.not_true, Bool.false_eq_true, if_false] at hst
    have hrecv : ∀ (st : ManagerState) (i : Nat),
        GoMap.getD st.stats.TestCasesProcessedPerSeed s + occurrences s st.inFlight
          + (B.toNat : Int) * (st.seedFiles.count s : Int)
          = GoMap.getD stats0.TestCasesProcessedPerSeed s
            + (B.toNat : Int) * (S.count s : Int) →
        i < st.inFlight.length →
        GoMap.getD (receiveCase st i).stats.TestCasesProcessedPerSeed s
          + occurrences s (receiveCase st i).inFlight
          + (B.toNat : Int) * ((receiveCase st i).seedFiles.count s : Int)
          = GoMap.getD stats0.TestCasesProcessedPerSeed s
            + (B.toNat : Int) * (S.count s : Int) := by
      intro st i h hi
      simp only [receiveCase, recordTestCase_perSeed, foldl_incr_getD]
      have := occurrences_eraseIdx s st.inFlight i hi
      linarith
    have hsel : ∀ (st : ManagerState),
        GoMap.getD st.stats.TestCasesProcessedPerSeed s + occurrences s st.inFlight
          + (B.toNat : Int) * (st.seedFiles.count s : Int)
          = GoMap.getD stats0.TestCasesProcessedPerSeed s
            + (B.toNat : Int) * (S.count s : Int) →
        st.seedFiles ≠ [] →
        GoMap.getD (selectSeed B rng pipe st).stats.TestCasesProcessedPerSeed s
          + occurrences s (selectSeed B rng pipe st).inFlight
          + (B.toNat : Int) * ((selectSeed B rng pipe st).seedFiles.count s : Int)
          = GoMap.getD stats0.TestCasesProcessedPerSeed s
            + (B.toNat : Int) * (S.count s : Int) := by
      intro st h hne
      have hpos : 0 < st.seedFiles.length := List.length_pos.mpr hne
      have hidx : rng st.randCalls % st.seedFiles.length < st.seedFiles.length :=
        Nat.mod_lt _ hpos
      have hcount := swapRemove_count st.seedFiles _ hidx s
      simp only [selectSeed, occurrences_append, occurrences_pipe pipe hpipe]
      rw [← hcount] at h
      linarith
    refine coverAllLoop_invariant B rng pipe
      (fun st => GoMap.getD st.stats.TestCasesProcessedPerSeed s + occurrences s st.inFlight
        + (B.toNat : Int) * (st.seedFiles.count s : Int)
        = GoMap.getD stats0.TestCasesProcessedPerSeed s
          + (B.toNat : Int) * (S.count s : Int))
      hrecv hsel events _ ?_ st hst
    refine hsel _ ?_ ?_
    · simp [occurrences_nil]
    · intro e
      exact hlen (by simpa using congrArg List.length e)
  have hocc : 0 ≤ occurrences s st.inFlight := by
    unfold occurrences
    apply List.sum_nonneg
    intro x hx
    simp only [List.mem_map] at hx
    obtain ⟨tc, _, rfl⟩ := hx
    exact Int.ofNat_nonneg _
  have hcnt : 0 ≤ (B.toNat : Int) * (st.seedFiles.count s : Int) :=
    mul_nonneg (Int.ofNat_nonneg _) (Int.ofNat_nonneg _)
  refine ⟨by linarith, ?_⟩
  intro c hc hle
  have hnot : s ∉ S := by
    rw [← hS, filterSeeds_eq_filter_entry]
    intro hmem
    have := (List.mem_filter.mp hmem).2
    rw [hc] at this
    simp at this
    omega
  have hzero : S.count s = 0 := List.count_eq_zero_of_not_mem hnot
  have hget : GoMap.getD stats0.TestCasesProcessedPerSeed s = c := by
    simp [GoMap.getD, hc]
  rw [hzero, hget] at hinv
  simp only [Nat.cast_zero, mul_zero, add_zero] at hinv
  linarith

theorem resumed_run_per_seed_bound_witness :
    PipeDelivers idealPipe ∧
    GoMap.getD
        [("/seeds/a.js", 2), ("/seeds/c.js", 3), ("/seeds/b.js", 2)] "/seeds/c.js" ≤
      GoMap.getD exampleInterruptedStats.TestCasesProcessedPerSeed "/seeds/c.js" +
        ((2 : Int).toNat : Int) *
          ((filterSeeds exampleInterruptedStats 2
            ["/seeds/a.js", "/seeds/b.js", "/seeds/c.js"]).count "/seeds/c.js" : Int) :=
  ⟨idealPipe_delivers,
    (resumed_run_per_seed_bound exampleConfig exampleInterruptedStats
      ["/seeds/a.js", "/seeds/b.js", "/seeds/c.js"] (fun _ => 0) idealPipe (fifoEvents 4)
      { seedFiles := [], fuzzFilesRequested := 4,
        stats :=
          { CrashCount := 0, TestCasesProcessed := 7, TimedOutTests := 0,
            ExitCodeCounts := [("0", 7)],
            TestCasesProcessedPerSeed :=
              [("/seeds/a.js", 2), ("/seeds/c.js", 3), ("/seeds/b.js", 2)] },
        requests :=
          [{ SourceFiles := ["/seeds/b.js"], Count := 2 },
           { SourceFiles := ["/seeds/c.js"], Count := 2 }],
        inFlight := [], randCalls := 2 }
      "/seeds/c.js" idealPipe_delivers (by decide)).1⟩

/-- C3. Whenever a fresh cover-all-once run (empty stats) over the seed list
`S`, in which every request comes back as `batch_size` cases of the requested
seed, leaves the manager loop through its completion `break`, the per-seed
counts add up to the number of processed cases, and that number is
`|S| * batch_size`. -/
theorem cover_all_once_totals (cfg : Config) (S : List String) (rng : Nat → Nat)
    (pipe : Nat → Request → List TestCase) (events : List LoopEvent) (st : ManagerState)
    (hpipe : PipeDelivers pipe)
    (hdone : CoverAllSeedsOnce cfg Stats.empty S rng pipe events = .completed st) :
    GoMap.sum st.stats.TestCasesProcessedPerSeed = st.stats.TestCasesProcessed ∧
    st.stats.TestCasesProcessed = (S.length : Int) * cfg.TestProcessing.BatchSize := by
  generalize hB : cfg.TestProcessing.BatchSize = B at hdone ⊢
  unfold CoverAllSeedsOnce at hdone
  rw [hB] at hdone
  by_cases hneg : B < 0
  · simp [hneg] at hdone
  simp only [hneg, if_false] at hdone
  by_cases hstart : startMutatorOk cfg = true
  swap
  · simp [hstart] at hdone
  by_cases hlen : S.length = 0
  · simp [hstart, hlen] at hdone
  simp only [hstart, hlen, Bool.not_true, Bool.false_eq_true, if_false] at hdone
  have hrecv : ∀ (st : ManagerState) (i : Nat),
      (st.fuzzFilesRequested = B * (st.requests.length : Int) ∧
        st.requests.length + st.seedFiles.length = S.length ∧
        GoMap.sum st.stats.TestCasesProcessedPerSeed = st.stats.TestCasesProcessed ∧
        ∀ tc ∈ st.inFlight, tc.SeedFilePaths.length = 1) →
      i < st.inFlight.length →
      ((receiveCase st i).fuzzFilesRequested = B * ((receiveCase st i).requests.length : Int) ∧
        (receiveCase st i).requests.length + (receiveCase st i).seedFiles.length = S.length ∧
        GoMap.sum (receiveCase st i).stats.TestCasesProcessedPerSeed
          = (receiveCase st i).stats.TestCasesProcessed ∧
        ∀ tc ∈ (receiveCase st i).inFlight, tc.SeedFilePaths.length = 1) := by
    rintro st i ⟨h1, h2, h3, h4⟩ hi
    refine ⟨h1, h2, ?_, ?_⟩
    · have hmem : st.inFlight.getD i TestCase.zero ∈ st.inFlight := by
        rw [List.getD_eq_getElem _ _ hi]
        exact List.getElem_mem hi
      simp only [receiveCase, recordTestCase_perSeed, recordTestCase_processed,
        foldl_incr_sum, h4 _ hmem, h3]
      simp
    · intro tc htc
      exact h4 tc (List.mem_of_mem_eraseIdx htc)
  have hsel : ∀ (st : ManagerState),
      (st.fuzzFilesRequested = B * (st.requests.length : Int) ∧
        st.requests.length + st.seedFiles.length = S.length ∧
        GoMap.sum st.stats.TestCasesProcessedPerSeed = st.stats.TestCasesProcessed ∧
        ∀ tc ∈ st.inFlight, tc.SeedFilePaths.length = 1) →
      st.seedFiles ≠ [] →
      ((selectSeed B rng pipe st).fuzzFilesRequested
          = B * ((selectSeed B rng pipe st).requests.length : Int) ∧
        (selectSeed B rng pipe st).requests.length
          + (selectSeed B rng pipe st).seedFiles.length = S.length ∧
        GoMap.sum (selectSeed B rng pipe st).stats.TestCasesProcessedPerSeed
          = (selectSeed B rng pipe st).stats.TestCasesProcessed ∧
        ∀ tc ∈ (selectSeed B rng pipe st).inFlight, tc.SeedFilePaths.length = 1) := by
    rintro st ⟨h1, h2, h3, h4⟩ hne
    have hpos : 0 < st.seedFiles.length := List.length_pos.mpr hne
    have hidx : rng st.randCalls % st.seedFiles.length < st.seedFiles.length :=
      Nat.mod_lt _ hpos
    have hl := swapRemove_length st.seedFiles _ hidx
    refine ⟨?_, ?_, h3, ?_⟩
    · simp only [selectSeed, h1, List.length_append, List.length_singleton]
      push_cast
      ring
    · simp only [selectSeed, List.length_append, List.length_singleton]
      omega
    · intro tc htc
      simp only [selectSeed, List.mem_append] at htc
      rcases htc with htc | htc
      · exact h4 tc htc
      · rw [(hpipe _ _).2 tc htc]
        rfl
  have hinv := coverAllLoop_invariant B rng pipe
    (fun st => st.fuzzFilesRequested = B * (st.requests.length : Int) ∧
      st.requests.length + st.seedFiles.length = S.length ∧
      GoMap.sum st.stats.TestCasesProcessedPerSeed = st.stats.TestCasesProcessed ∧
      ∀ tc ∈ st.inFlight, tc.SeedFilePaths.length = 1)
    hrecv hsel events
    (selectSeed B rng pipe
      { seedFiles := S, fuzzFilesRequested := 0, stats := Stats.empty, requests := [],
        inFlight := [], randCalls := 0 })
    (hsel _ ⟨by simp, by simp, by simp [Stats.empty, GoMap.sum], by simp⟩ (by
      intro e
      exact hlen (by simpa using congrArg List.length e)))
    st (by rw [hdone]; rfl)
  obtain ⟨h1, h2, h3, _⟩ := hinv
  obtain ⟨hempty, hreq⟩ := coverAllLoop_completed B rng pipe events _ st hdone
  refine ⟨h3, ?_⟩
  rw [← hreq, h1]
  have : st.requests.length = S.length := by
    rw [hempty] at h2
    simpa using h2
  rw [this]
  ring

theorem cover_all_once_totals_witness :
    PipeDelivers idealPipe ∧
    CoverAllSeedsOnce exampleConfig Stats.empty
      ["/seeds/a.js", "/seeds/b.js", "/seeds/c.js"] (fun _ => 0) idealPipe (fifoEvents 6)
        = .completed exampleFinalState ∧
    GoMap.sum exampleFinalState.stats.TestCasesProcessedPerSeed
      = exampleFinalState.stats.TestCasesProcessed ∧
    exampleFinalState.stats.TestCasesProcessed
      = ((["/seeds/a.js", "/seeds/b.js", "/seeds/c.js"] : List String).length : Int)
        * exampleConfig.TestProcessing.BatchSize :=
  ⟨idealPipe_delivers, by decide,
    cover_all_once_totals exampleConfig ["/seeds/a.js", "/seeds/b.js", "/seeds/c.js"]
      (fun _ => 0) idealPipe (fifoEvents 6) exampleFinalState idealPipe_delivers
      (by decide)⟩

/-- C9. In a cover-all-once run that reaches its completion `break`, whatever
the values of the random generator, the requests sent to the mutator are, in
order, one request of `batch_size` mutants of a single seed for each entry of
a permutation of the initial seed list. -/
theorem cover_all_once_requests_permutation (cfg : Config) (stats : Stats)
    (S : List String) (rng : Nat → Nat) (pipe : Nat → Request → List TestCase)
    (events : List LoopEvent) (st : ManagerState)
    (hdone : CoverAllSeedsOnce cfg stats S rng pipe events = .completed st) :
    ∃ seeds : List String, seeds.Perm S ∧
      st.requests = seeds.map (fun seed =>
        ({ SourceFiles := [seed], Count := cfg.TestProcessing.BatchSize } : Request)) := by
  generalize hB : cfg.TestProcessing.BatchSize = B at hdone ⊢
  unfold CoverAllSeedsOnce at hdone
  rw [hB] at hdone
  by_cases hneg : B < 0
  · simp [hneg] at hdone
  simp only [hneg, if_false] at hdone
  by_cases hstart : startMutatorOk cfg = true
  swap
  · simp [hstart] at hdone
  by_cases hlen : S.length = 0
  · simp [hstart, hlen] at hdone
  simp only [hstart, hlen, Bool.not_true, Bool.false_eq_true, if_false] at hdone
  have hsel : ∀ (st : ManagerState),
      (∃ seeds : List String, (seeds ++ st.seedFiles).Perm S ∧
        st.requests = seeds.map (fun seed => ({ SourceFiles := [seed], Count := B } : Request))) →
      st.seedFiles ≠ [] →
      ∃ seeds : List String, (seeds ++ (selectSeed B rng pipe st).seedFiles).Perm S ∧
        (selectSeed B rng pipe st).requests
          = seeds.map (fun seed => ({ SourceFiles := [seed], Count := B } : Request)) := by
    rintro st ⟨seeds, hperm, hreqs⟩ hne
    have hpos : 0 < st.seedFiles.length := List.length_pos.mpr hne
    have hidx : rng st.randCalls % st.seedFiles.length < st.seedFiles.length :=
      Nat.mod_lt _ hpos
    refine ⟨seeds ++ [st.seedFiles.getD (rng st.randCalls % st.seedFiles.length) ""], ?_, ?_⟩
    · simp only [selectSeed, List.append_assoc, List.singleton_append]
      exact ((swapRemove_perm st.seedFiles _ hidx).append_left seeds).trans hperm
    · simp [selectSeed, hreqs]
  have hinv := coverAllLoop_invariant B rng pipe
    (fun st => ∃ seeds : List String, (seeds ++ st.seedFiles).Perm S ∧
      st.requests = seeds.map (fun seed => ({ SourceFiles := [seed], Count := B } : Request)))
    (fun st i h _ => h) hsel events
    (selectSeed B rng pipe
      { seedFiles := S, fuzzFilesRequested := 0, stats := stats, requests := [],
        inFlight := [], randCalls := 0 })
    (hsel _ ⟨[], by simp, by simp⟩ (by
      intro e
      exact hlen (by simpa using congrArg List.length e)))
    st (by rw [hdone]; rfl)
  obtain ⟨seeds, hperm, hreqs⟩ := hinv
  obtain ⟨hempty, _⟩ := coverAllLoop_completed B rng pipe events _ st hdone
  rw [hempty, List.append_nil] at hperm
  exact ⟨seeds, hperm, hreqs⟩

theorem cover_all_once_requests_permutation_witness :
    CoverAllSeedsOnce exampleConfig Stats.empty
      ["/seeds/a.js", "/seeds/b.js", "/seeds/c.js"] (fun _ => 0) idealPipe (fifoEvents 6)
        = .completed exampleFinalState ∧
    ∃ seeds : List String, seeds.Perm ["/seeds/a.js", "/seeds/b.js", "/seeds/c.js"] ∧
      exampleFinalState.requests = seeds.map (fun seed =>
        ({ SourceFiles := [seed], Count := exampleConfig.TestProcessing.BatchSize } :
          Request)) :=
  ⟨by decide,
    cover_all_once_requests_permutation exampleConfig Stats.empty
      ["/seeds/a.js", "/seeds/b.js", "/seeds/c.js"] (fun _ => 0) idealPipe (fifoEvents 6)
      exampleFinalState (by decide)⟩

/-- With a batch size that is not negative and any fuzzer `startMutator`
accepts, `CoverAllSeedsOnce` on an empty seed list panics at its first
`rand.Int() % len(seedFiles)`. -/
theorem cover_all_once_empty_panics (cfg : Config) (stats : Stats) (rng : Nat → Nat)
    (pipe : Nat → Request → List TestCase) (events : List LoopEvent)
    (hB : 0 ≤ cfg.TestProcessing.BatchSize) (hstart : startMutatorOk cfg = true) :
    CoverAllSeedsOnce cfg stats [] rng pipe events = .panicked .divideByZero := by
  simp [CoverAllSeedsOnce, hstart, not_lt.mpr hB]

/-- C10. On resume with every seed already at a full batch, `filterSeeds`
returns the empty list and `CoverAllSeedsOnce` panics with a division by zero
instead of terminating normally. -/
theorem cover_all_once_resume_nothing_left_panics :
    filterSeeds exampleFullStats 2 ["/seeds/a.js", "/seeds/b.js"] = [] ∧
    CoverAllSeedsOnce exampleConfig exampleFullStats
      (filterSeeds exampleFullStats 2 ["/seeds/a.js", "/seeds/b.js"]) (fun _ => 0)
      idealPipe [] = .panicked .divideByZero := by
  decide

theorem coverAllStep_progress (batchSize : Int) (rng : Nat → Nat)
    (pipe : Nat → Request → List TestCase) (hB : 0 < batchSize)
    (hpipe : PipeDelivers pipe) (st : ManagerState) (hst : Progressing st) :
    (∃ st', coverAllStep batchSize rng pipe st (.testCase 0 true true) = .completed st') ∨
    ∃ st1, coverAllStep batchSize rng pipe st (.testCase 0 true true) = .running st1 ∧
      Progressing st1 ∧ remainingWork batchSize st1 + 1 = remainingWork batchSize st := by
  obtain ⟨hcount, hne⟩ := hst
  have hlen : st.inFlight.length ≠ 0 := by
    simpa [List.length_eq_zero] using hne
  have hpos : 0 < st.inFlight.length := Nat.pos_of_ne_zero hlen
  have hB0 : batchSize ≠ 0 := ne_of_gt hB
  have hhalf : 0 ≤ Int.tdiv batchSize REQ_THRESHOLD :=
    Int.tdiv_nonneg (le_of_lt hB) (by decide)
  have hmidlen : ((receiveCase st 0).inFlight.length : Int) = (st.inFlight.length : Int) - 1 := by
    simp only [receiveCase, List.length_eraseIdx, hpos, if_true]
    omega
  have hmidproc : (receiveCase st 0).stats.TestCasesProcessed
      = st.stats.TestCasesProcessed + 1 := by
    simp [receiveCase, recordTestCase_processed]
  have hmidreq : (receiveCase st 0).fuzzFilesRequested = st.fuzzFilesRequested := rfl
  have hmidseeds : (receiveCase st 0).seedFiles = st.seedFiles := rfl
  have hmidwork : remainingWork batchSize (receiveCase st 0) + 1 = remainingWork batchSize st := by
    simp only [remainingWork, hmidseeds]
    have : (receiveCase st 0).inFlight.length + 1 = st.inFlight.length := by omega
    omega
  simp only [coverAllStep, hlen, if_false, Nat.zero_mod, Bool.not_true, Bool.false_eq_true,
    and_false, hB0]
  by_cases hreq : (receiveCase st 0).fuzzFilesRequested
      - (receiveCase st 0).stats.TestCasesProcessed ≤ Int.tdiv batchSize REQ_THRESHOLD
  · rw [if_pos hreq]
    by_cases hseeds : (receiveCase st 0).seedFiles.length = 0
    · rw [if_pos hseeds]
      by_cases hdone : (receiveCase st 0).fuzzFilesRequested
          = (receiveCase st 0).stats.TestCasesProcessed
      · rw [if_pos hdone]
        exact Or.inl ⟨_, rfl⟩
      · rw [if_neg hdone]
        refine Or.inr ⟨_, rfl, ⟨?_, ?_⟩, hmidwork⟩
        · rw [hmidproc, hmidlen, hmidreq]
          omega
        · intro e
          rw [e] at hmidlen
          rw [hmidproc, hmidreq] at hdone
          simp at hmidlen
          omega
    · rw [if_neg hseeds]
      have hseedpos : 0 < st.seedFiles.length := by
        rw [hmidseeds] at hseeds
        exact Nat.pos_of_ne_zero hseeds
      have hidx : rng (receiveCase st 0).randCalls % st.seedFiles.length
          < st.seedFiles.length := Nat.mod_lt _ hseedpos
      have hsw := swapRemove_length st.seedFiles _ hidx
      have hpl := (hpipe (receiveCase st 0).requests.length
        { SourceFiles :=
            [st.seedFiles.getD (rng (receiveCase st 0).randCalls % st.seedFiles.length) ""],
          Count := batchSize }).1
      have hBnat : (batchSize.toNat : Int) = batchSize := Int.toNat_of_nonneg (le_of_lt hB)
      have hBpos : 0 < batchSize.toNat := by omega
      refine Or.inr ⟨_, rfl, ⟨?_, ?_⟩, ?_⟩
      · simp only [selectSeed, hmidseeds, List.length_append, hpl]
        push_cast
        rw [hmidproc, hmidlen, hmidreq, hBnat]
        omega
      · intro e
        have := congrArg List.length e
        simp only [selectSeed, hmidseeds, List.length_append, hpl, List.length_nil] at this
        omega
      · simp only [remainingWork, selectSeed, hmidseeds, List.length_append, hpl]
        have h1 : (receiveCase st 0).inFlight.length + 1 = st.inFlight.length := by omega
        generalize (swapRemove st.seedFiles
          (rng (receiveCase st 0).randCalls % st.seedFiles.length)).length = n at hsw ⊢
        have h2 : batchSize.toNat * st.seedFiles.length
            = batchSize.toNat * n + batchSize.toNat := by
          rw [← hsw, Nat.mul_succ]
        omega
  · rw [if_neg hreq]
    refine Or.inr ⟨_, rfl, ⟨?_, ?_⟩, hmidwork⟩
    · rw [hmidproc, hmidlen, hmidreq]
      omega
    · intro e
      rw [e] at hmidlen
      rw [hmidproc, hmidreq] at hreq
      simp at hmidlen
      omega

theorem coverAllLoop_completes (batchSize : Int) (rng : Nat → Nat)
    (pipe : Nat → Request → List TestCase) (hB : 0 < batchSize)
    (hpipe : PipeDelivers pipe) (m : Nat) :
    ∀ st : ManagerState, Progressing st → remainingWork batchSize st = m →
      ∃ st', coverAllLoop batchSize rng pipe st (fifoEvents m) = .completed st' := by
  induction m with
  | zero =>
    intro st hst hm
    exfalso
    apply hst.2
    have : st.inFlight.length = 0 := by
      simp only [remainingWork] at hm
      omega
    exact List.length_eq_zero.mp this
  | succ m ih =>
    intro st hst hm
    have hev : fifoEvents (m + 1) = LoopEvent.testCase 0 true true :: fifoEvents m := rfl
    rw [hev]
    unfold coverAllLoop
    rcases coverAllStep_progress batchSize rng pipe hB hpipe st hst with
      ⟨st', hstep⟩ | ⟨st1, hstep, hprog, hwork⟩
    · rw [hstep]
      exact ⟨st', rfl⟩
    · rw [hstep]
      exact ih st1 hprog (by omega)

/-- A fresh cover-all-once run does reach its completion `break`: with a
fuzzer `startMutator` accepts, a positive batch size, a non-empty seed list
and a pipeline that delivers every requested case, the run in which the cases
arrive oldest first completes within `|S| * batch_size` arrivals. -/
theorem cover_all_once_completes (cfg : Config) (S : List String) (rng : Nat → Nat)
    (pipe : Nat → Request → List TestCase) (hstart : startMutatorOk cfg = true)
    (hS : S ≠ []) (hB : 0 < cfg.TestProcessing.BatchSize) (hpipe : PipeDelivers pipe) :
    ∃ st, CoverAllSeedsOnce cfg Stats.empty S rng pipe
      (fifoEvents (cfg.TestProcessing.BatchSize.toNat * S.length)) = .completed st := by
  have hlen : S.length ≠ 0 := by
    simpa [List.length_eq_zero] using hS
  have hpos : 0 < S.length := Nat.pos_of_ne_zero hlen
  have hBnat : (cfg.TestProcessing.BatchSize.toNat : Int) = cfg.TestProcessing.BatchSize :=
    Int.toNat_of_nonneg (le_of_lt hB)
  have hsw := swapRemove_length S (rng 0 % S.length) (Nat.mod_lt _ hpos)
  have hpl := (hpipe 0
    { SourceFiles := [S.getD (rng 0 % S.length) ""],
      Count := cfg.TestProcessing.BatchSize }).1
  simp only [CoverAllSeedsOnce, hstart, hlen, Bool.not_true, Bool.false_eq_true, if_false,
    not_lt.mpr (le_of_lt hB)]
  apply coverAllLoop_completes cfg.TestProcessing.BatchSize rng pipe hB hpipe
  · refine ⟨?_, ?_⟩
    · simp only [selectSeed, Stats.empty, List.nil_append, List.length_nil, hpl]
      omega
    · intro e
      have := congrArg List.length e
      simp only [selectSeed, List.nil_append, List.length_nil, hpl] at this
      omega
  · simp only [remainingWork, selectSeed, List.nil_append, List.length_nil, hpl]
    generalize (swapRemove S (rng 0 % S.length)).length = n at hsw ⊢
    have h2 : cfg.TestProcessing.BatchSize.toNat * S.length
        = cfg.TestProcessing.BatchSize.toNat * n + cfg.TestProcessing.BatchSize.toNat := by
      rw [← hsw, Nat.mul_succ]
    omega

/-! ## The total count of the single-seed mutator -/

theorem totalsFrom_append (l₁ : List TestCase) :
    ∀ (base : Int) (l₂ : List TestCase), TotalsFrom base l₁ →
      TotalsFrom (base + (l₁.length : Int)) l₂ → TotalsFrom base (l₁ ++ l₂) := by
  induction l₁ with
  | nil =>
    intro base l₂ _ h₂
    simpa using h₂
  | cons tc rest ih =>
    intro base l₂ h₁ h₂
    refine ⟨h₁.1, ih _ l₂ h₁.2 ?_⟩
    have : base + 1 + (rest.length : Int) = base + ((tc :: rest).length : Int) := by
      simp only [List.length_cons]
      push_cast
      ring
    rw [this]
    exact h₂

theorem totalsFrom_split (pre : List TestCase) :
    ∀ (base : Int) (tc : TestCase) (post : List TestCase),
      TotalsFrom base (pre ++ tc :: post) →
        tc.TotalFuzzCount = base + (pre.length : Int) + 1 := by
  induction pre with
  | nil =>
    intro base tc post h
    simpa using h.1
  | cons p pre ih =>
    intro base tc post h
    rw [ih _ tc post h.2, List.length_cons]
    push_cast
    ring

theorem radamsaLoop_totals (w : MutatorWorld) (reqNo : Nat) (req : Request)
    (workingDir fileName sourceFile : String) (n : Nat) : ∀ (i : Int) (st : MutatorState),
      TotalsFrom st.testCasesGenerated
        (emittedCases (radamsaLoop w reqNo req workingDir fileName sourceFile n i st).2) ∧
      ∀ st', (radamsaLoop w reqNo req workingDir fileName sourceFile n i st).1 = some st' →
        st'.testCasesGenerated = st.testCasesGenerated +
          ((emittedCases
            (radamsaLoop w reqNo req workingDir fileName sourceFile n i st).2).length : Int) := by
  induction n with
  | zero =>
    intro i st
    simp [radamsaLoop, emittedCases, TotalsFrom]
  | succ n ih =>
    intro i st
    cases h : w.statOk reqNo (filepathJoin workingDir (itoa (i + 1) ++ "_" ++ fileName)) with
    | false =>
      rw [radamsaLoop_miss w reqNo req workingDir fileName sourceFile n i st h]
      simpa [emittedCases] using ih (i + 1) st
    | true =>
      rw [radamsaLoop_hit w reqNo req workingDir fileName sourceFile n i st h]
      obtain ⟨ih1, ih2⟩ := ih (i + 1)
        { st with
          testCasesGenerated := st.testCasesGenerated + 1,
          testCasesPerSeed := GoMap.incr st.testCasesPerSeed sourceFile }
      refine ⟨⟨rfl, ih1⟩, ?_⟩
      intro st' hst'
      simp only [emittedCases, List.length_cons]
      rw [ih2 st' hst']
      push_cast
      ring

theorem radamsaRun_totals (cfg : Config) (testCasesDir : String) (w : MutatorWorld)
    (reqs : List Request) : ∀ (reqNo : Nat) (st : MutatorState),
      TotalsFrom st.testCasesGenerated
        (emittedCases (radamsaRun cfg testCasesDir w reqs reqNo st)) := by
  induction reqs with
  | nil =>
    intro reqNo st
    simp [radamsaRun, emittedCases, TotalsFrom]
  | cons req rest ih =>
    intro reqNo st
    unfold radamsaRun
    by_cases h0 : req.SourceFiles.length = 0
    · simp [h0, emittedCases, TotalsFrom]
    by_cases h1 : req.SourceFiles.length > 1
    · simp [h0, h1, emittedCases, TotalsFrom]
    simp only [h0, h1, if_false]
    generalize (if cfg.TestProcessing.GenerateTestsInPlace = true
      then filepathDir (req.SourceFiles.headD "") else testCasesDir) = workingDir
    split_ifs with hcmd
    · simpa [emittedCases] using ih (reqNo + 1) { st with seedInc := st.seedInc + 1 }
    · obtain ⟨l1, l2⟩ := radamsaLoop_totals w reqNo req workingDir
        (filepathBase (req.SourceFiles.headD "")) (req.SourceFiles.headD "")
        req.Count.toNat 0
        { seedInc := st.seedInc + 1, testCasesGenerated := st.testCasesGenerated,
          testCasesPerSeed :=
            GoMap.initZero st.testCasesPerSeed (req.SourceFiles.headD "") }
      split
      · exact l1
      · rename_i st' hsome
        rw [emittedCases_append]
        refine totalsFrom_append _ _ _ l1 ?_
        rw [← l2 st' hsome]
        exact ih (reqNo + 1) st'

/-- The single-seed mutator numbers its cases in emission order: the case
emitted after `pre` carries `TotalFuzzCount = |pre| + 1`. -/
theorem radamsa_total_fuzz_count (cfg : Config) (testCasesDir : String)
    (w : MutatorWorld) (reqs : List Request) (pre : List TestCase) (tc : TestCase)
    (post : List TestCase)
    (h : emittedCases (radamsaRun cfg testCasesDir w reqs 0 MutatorState.init)
      = pre ++ tc :: post) :
    tc.TotalFuzzCount = (pre.length : Int) + 1 := by
  have := radamsaRun_totals cfg testCasesDir w reqs 0 MutatorState.init
  rw [h] at this
  simpa [MutatorState.init] using totalsFrom_split pre _ tc post this

/-! ## The Nop mutator -/

/-- C11. On a request for one mutant of a readable `/seeds/a.js` the Nop
mutator sends nothing on `out`: it panics when it assigns into the
`SeedFuzzCounts` map of a `data.TestCase{}`, which is nil. -/
theorem nopRun_panics_on_first_request :
    nopRun "/s/test_cases" exampleMutatorWorld
      [{ SourceFiles := ["/seeds/a.js"], Count := 1 }] 0 MutatorState.init
    = [MutatorEvent.panic "assignment to entry in nil map"] := by
  decide

/-- Whatever the request and the working directory, a readable first source
makes the Nop mutator panic at that request. -/
theorem nopRun_panics_when_readable (workingDir : String) (w : MutatorWorld)
    (req : Request) (rest : List Request) (reqNo : Nat) (st : MutatorState)
    (hsrc : req.SourceFiles ≠ [])
    (hread : w.readFileOk reqNo (req.SourceFiles.headD "") = true) :
    nopRun workingDir w (req :: rest) reqNo st
      = [MutatorEvent.panic "assignment to entry in nil map"] := by
  have hlen : req.SourceFiles.length ≠ 0 := by
    simpa [List.length_eq_zero] using hsrc
  unfold nopRun
  simp only [hlen, if_false, hread, Bool.not_true, Bool.false_eq_true,
    TestCase.setSeedFuzzCount, TestCase.zero]

/-! ## Validation of the configuration -/

theorem string_length_eq_zero (str : String) : str.length = 0 ↔ str = "" := by
  constructor
  · intro h
    cases str with
    | mk d =>
      have hd : d = [] := List.length_eq_zero.mp h
      subst hd
      rfl
  · intro h
    subst h
    rfl

theorem checkGeneral_none (cfg : Config) (h : checkGeneral cfg = none) :
    cfg.General.Seed ≠ 0 := by
  intro hs
  simp [checkGeneral, hs] at h

theorem checkSeedTests_none (cfg : Config) (h : checkSeedTests cfg = none) :
    ¬ (cfg.SeedTests.Dir.length = 0 ∧ cfg.SeedTests.ListFile.length = 0) ∧
    ¬ (cfg.SeedTests.Dir.length ≠ 0 ∧ cfg.SeedTests.ListFile.length ≠ 0) ∧
    ¬ (cfg.SeedTests.ValidExts.length = 0 ∧ cfg.SeedTests.Dir.length ≠ 0) ∧
    ¬ (cfg.SeedTests.ValidExts.length ≠ 0 ∧ cfg.SeedTests.ListFile.length ≠ 0) := by
  unfold checkSeedTests at h
  split_ifs at h with h1 h2 h3 h4
  exact ⟨h1, h2, h3, h4⟩

theorem checkTestProcessing_ok (w : ConfigWorld) (tp tp' : TestProcessingConfig)
    (h : checkTestProcessing w tp = .ok tp') :
    (w.toLower tp.Fuzzer = FUZZER_RADAMSA ∨
      w.toLower tp.Fuzzer = FUZZER_RADAMSA_MULTIFILE ∨
      w.toLower tp.Fuzzer = FUZZER_NOP) ∧
    (w.toLower tp.Fuzzer = FUZZER_RADAMSA_MULTIFILE →
      tp.MultiFileFuzzerSeedCountMin ≠ 0 ∧ tp.MultiFileFuzzerSeedCountMax ≠ 0) ∧
    tp.BatchSize ≠ 0 ∧
    (w.toLower tp.Mode = RUNMODE_COVER_ALL_ONCE ∨
      w.toLower tp.Mode = RUNMODE_INFINITE_RANDOM) ∧
    tp' = { tp with Fuzzer := w.toLower tp.Fuzzer, Mode := w.toLower tp.Mode } := by
  simp only [checkTestProcessing] at h
  split_ifs at h with h1 h2 h3 h4
  simp only [Except.ok.injEq] at h
  refine ⟨?_, ?_, h3, ?_, h.symm⟩
  · simp only [ne_eq, not_and, not_not] at h1
    by_cases ha : w.toLower tp.Fuzzer = FUZZER_RADAMSA
    · exact Or.inl ha
    · by_cases hb : w.toLower tp.Fuzzer = FUZZER_RADAMSA_MULTIFILE
      · exact Or.inr (Or.inl hb)
      · exact Or.inr (Or.inr (h1 ha hb))
  · intro hm
    simp only [not_and, not_or] at h2
    exact h2 hm
  · simp only [ne_eq, not_and, not_not] at h4
    by_cases ha : w.toLower tp.Mode = RUNMODE_COVER_ALL_ONCE
    · exact Or.inl ha
    · exact Or.inr (h4 ha)

theorem checkInterpreter_none (w : ConfigWorld) (ic : InterpreterConfig)
    (h : checkInterpreter w ic = none) :
    ic.Path.length ≠ 0 ∧
    ¬ (ic.Args.length = 0 ∧ ic.ArgGen.length = 0) ∧
    ¬ (ic.Args.length ≠ 0 ∧ ic.ArgGen.length ≠ 0) ∧
    (ic.Args.length ≠ 0 →
      stringsContains ic.Args INTERPRETER_ARGS_FUZZ_FILE_MARKER = true) ∧
    (ic.ArgGen.length ≠ 0 →
      (ic.ArgGen = FF_JSREFTEST ∨ ic.ArgGen = FF_JSREFTEST_IONEAGER ∨
        ic.ArgGen = D8_JSREFTEST) ∧
      ic.TestCaseRootDir.length ≠ 0 ∧ w.statOk ic.TestCaseRootDir = true) ∧
    ic.Timeout ≠ 0 := by
  simp only [checkInterpreter] at h
  split_ifs at h with h1 h2 h3 h4 h5 h6 h7 h8
  refine ⟨h1, ?_, ?_, ?_, ?_, h8⟩
  · intro hc
    apply h2
    simp [hc.1, hc.2]
  · intro hc
    apply h3
    simp [hc.1, hc.2]
  · intro ha
    by_contra hn
    apply h4
    simp [ha, hn]
  · intro hg
    refine ⟨?_, ?_, ?_⟩
    · by_contra hn
      apply h5
      simp [hg, hn]
    · intro hn
      apply h6
      simp [hg, hn]
    · by_contra hn
      apply h7
      simp [hg, hn]

/-- Everything `errorCheck` has checked when it returns nil, and the
configuration it leaves. -/
theorem errorCheck_ok (w : ConfigWorld) (cfg cfg' : Config)
    (h : errorCheck w cfg = .ok cfg') :
    checkGeneral cfg = none ∧ checkSeedTests cfg = none ∧
    checkInterpreter w cfg.Interpreter = none ∧
    ∃ tp, checkTestProcessing w cfg.TestProcessing = .ok tp ∧
      cfg' = { cfg with TestProcessing := tp } := by
  unfold errorCheck at h
  cases hg : checkGeneral cfg with
  | some e => simp [hg] at h
  | none =>
    cases hs : checkSeedTests cfg with
    | some e => simp [hg, hs] at h
    | none =>
      cases ht : checkTestProcessing w cfg.TestProcessing with
      | error e => simp [hg, hs, ht] at h
      | ok tp =>
        cases hi : checkInterpreter w cfg.Interpreter with
        | some e => simp [hg, hs, ht, hi] at h
        | none =>
          simp only [hg, hs, ht, hi, Except.ok.injEq] at h
          exact ⟨rfl, rfl, rfl, tp, rfl, h.symm⟩

/-- The function `errorCheck` returns nil exactly when none of its four parts
finds an error. -/
theorem errorCheck_of_parts (w : ConfigWorld) (cfg : Config) (tp : TestProcessingConfig)
    (hg : checkGeneral cfg = none) (hs : checkSeedTests cfg = none)
    (ht : checkTestProcessing w cfg.TestProcessing = .ok tp)
    (hi : checkInterpreter w cfg.Interpreter = none) :
    errorCheck w cfg = .ok { cfg with TestProcessing := tp } := by
  simp [errorCheck, hg, hs, ht, hi]

/-- A result of `errorCheck` that is not nil is an error. -/
theorem errorCheck_error_of_not_ok (w : ConfigWorld) (cfg : Config)
    (h : ∀ cfg', errorCheck w cfg ≠ .ok cfg') : ∃ msg, errorCheck w cfg = .error msg := by
  cases hr : errorCheck w cfg with
  | error msg => exact ⟨msg, rfl⟩
  | ok cfg' => exact absurd hr (h cfg')

theorem stringsContains_iff (str substr : String) :
    stringsContains str substr = true ↔ ∃ pre post : String, str = pre ++ substr ++ post := by
  unfold stringsContains
  rw [List.any_eq_true]
  constructor
  · rintro ⟨t, ht, hp⟩
    rw [List.mem_tails] at ht
    rw [List.isPrefixOf_iff_prefix] at hp
    obtain ⟨a, ha⟩ := ht
    obtain ⟨b, hb⟩ := hp
    refine ⟨String.mk a, String.mk b, ?_⟩
    apply String.ext
    simp only [String.data_append]
    rw [← ha, ← hb]
    simp
  · rintro ⟨pre, post, h⟩
    refine ⟨substr.data ++ post.data, ?_, ?_⟩
    · rw [List.mem_tails]
      refine ⟨pre.data, ?_⟩
      rw [h]
      simp [String.data_append]
    · rw [List.isPrefixOf_iff_prefix]
      exact List.prefix_append _ _

/-- C13, counterexample. A configuration whose `TestCount` is -1 and whose
other fields are in order passes `errorCheck`. -/
theorem errorCheck_accepts_negative_test_count :
    errorCheck exampleConfigWorld exampleNegativeCountConfig
      = .ok exampleNegativeCountConfig ∧
    exampleNegativeCountConfig.TestProcessing.TestCount = -1 :=
  ⟨rfl, rfl⟩

/-- C13, amended. A configuration that `errorCheck` accepts has a seed, a
batch size and an interpreter timeout different from 0, and a configuration
in which one of the three is 0 is rejected with an error. -/
theorem errorCheck_numeric_bounds (w : ConfigWorld) (cfg : Config) :
    (∀ cfg', errorCheck w cfg = .ok cfg' →
      cfg'.General.Seed ≠ 0 ∧ cfg'.TestProcessing.BatchSize ≠ 0 ∧
      cfg'.Interpreter.Timeout ≠ 0) ∧
    (cfg.General.Seed = 0 ∨ cfg.TestProcessing.BatchSize = 0 ∨
        cfg.Interpreter.Timeout = 0 →
      ∃ msg, errorCheck w cfg = .error msg) := by
  have hok : ∀ cfg', errorCheck w cfg = .ok cfg' →
      cfg.General.Seed ≠ 0 ∧ cfg.TestProcessing.BatchSize ≠ 0 ∧
      cfg.Interpreter.Timeout ≠ 0 ∧ cfg'.General = cfg.General ∧
      cfg'.TestProcessing.BatchSize = cfg.TestProcessing.BatchSize ∧
      cfg'.Interpreter = cfg.Interpreter := by
    intro cfg' h
    obtain ⟨hg, _, hi, tp, ht, rfl⟩ := errorCheck_ok w cfg cfg' h
    obtain ⟨_, _, hb, _, rfl⟩ := checkTestProcessing_ok w _ tp ht
    exact ⟨checkGeneral_none cfg hg, hb, (checkInterpreter_none w _ hi).2.2.2.2.2,
      rfl, rfl, rfl⟩
  refine ⟨?_, ?_⟩
  · intro cfg' h
    obtain ⟨h1, h2, h3, e1, e2, e3⟩ := hok cfg' h
    rw [e1, e2, e3]
    exact ⟨h1, h2, h3⟩
  · intro hz
    apply errorCheck_error_of_not_ok
    intro cfg' h
    obtain ⟨h1, h2, h3, _⟩ := hok cfg' h
    rcases hz with hz | hz | hz
    · exact h1 hz
    · exact h2 hz
    · exact h3 hz

theorem errorCheck_numeric_bounds_witness :
    errorCheck exampleConfigWorld exampleConfig = .ok exampleConfig ∧
    (exampleConfig.General.Seed ≠ 0 ∧ exampleConfig.TestProcessing.BatchSize ≠ 0 ∧
      exampleConfig.Interpreter.Timeout ≠ 0) :=
  ⟨rfl,
    (errorCheck_numeric_bounds exampleConfigWorld exampleConfig).1 exampleConfig rfl⟩

/-- C14. `errorCheck` accepts a configuration only if exactly one of
`SeedTests.Dir` and `SeedTests.ListFile` is set, with `ValidExts` non-empty
when it is `Dir` and empty when it is `ListFile`; it rejects an empty
`ValidExts` next to a `Dir` and a non-empty `ValidExts` next to a `ListFile`. -/
theorem errorCheck_seed_tests (w : ConfigWorld) (cfg : Config) :
    (∀ cfg', errorCheck w cfg = .ok cfg' →
      cfg'.SeedTests = cfg.SeedTests ∧
      ((cfg.SeedTests.Dir ≠ "" ∧ cfg.SeedTests.ListFile = "") ∨
        (cfg.SeedTests.Dir = "" ∧ cfg.SeedTests.ListFile ≠ "")) ∧
      (cfg.SeedTests.Dir ≠ "" → cfg.SeedTests.ValidExts ≠ []) ∧
      (cfg.SeedTests.ListFile ≠ "" → cfg.SeedTests.ValidExts = [])) ∧
    (cfg.SeedTests.Dir ≠ "" → cfg.SeedTests.ValidExts = [] →
      ∃ msg, errorCheck w cfg = .error msg) ∧
    (cfg.SeedTests.ListFile ≠ "" → cfg.SeedTests.ValidExts ≠ [] →
      ∃ msg, errorCheck w cfg = .error msg) := by
  have hok : ∀ cfg', errorCheck w cfg = .ok cfg' →
      cfg'.SeedTests = cfg.SeedTests ∧
      ((cfg.SeedTests.Dir ≠ "" ∧ cfg.SeedTests.ListFile = "") ∨
        (cfg.SeedTests.Dir = "" ∧ cfg.SeedTests.ListFile ≠ "")) ∧
      (cfg.SeedTests.Dir ≠ "" → cfg.SeedTests.ValidExts ≠ []) ∧
      (cfg.SeedTests.ListFile ≠ "" → cfg.SeedTests.ValidExts = []) := by
    intro cfg' h
    obtain ⟨_, hs, _, tp, _, rfl⟩ := errorCheck_ok w cfg cfg' h
    obtain ⟨h1, h2, h3, h4⟩ := checkSeedTests_none cfg hs
    simp only [string_length_eq_zero, List.length_eq_zero, ne_eq] at h1 h2 h3 h4
    refine ⟨rfl, ?_, ?_, ?_⟩
    · by_cases hd : cfg.SeedTests.Dir = ""
      · right
        exact ⟨hd, fun hl => h1 ⟨hd, hl⟩⟩
      · left
        refine ⟨hd, ?_⟩
        by_contra hl
        exact h2 ⟨hd, hl⟩
    · intro hd he
      exact h3 ⟨he, hd⟩
    · intro hl
      by_contra he
      exact h4 ⟨he, hl⟩
  refine ⟨hok, ?_, ?_⟩
  · intro hd he
    apply errorCheck_error_of_not_ok
    intro cfg' h
    exact (hok cfg' h).2.2.1 hd he
  · intro hl he
    apply errorCheck_error_of_not_ok
    intro cfg' h
    exact he ((hok cfg' h).2.2.2 hl)

theorem errorCheck_seed_tests_witness :
    errorCheck exampleConfigWorld exampleConfig = .ok exampleConfig ∧
    (exampleConfig.SeedTests = exampleConfig.SeedTests ∧
      ((exampleConfig.SeedTests.Dir ≠ "" ∧ exampleConfig.SeedTests.ListFile = "") ∨
        (exampleConfig.SeedTests.Dir = "" ∧ exampleConfig.SeedTests.ListFile ≠ "")) ∧
      (exampleConfig.SeedTests.Dir ≠ "" → exampleConfig.SeedTests.ValidExts ≠ []) ∧
      (exampleConfig.SeedTests.ListFile ≠ "" → exampleConfig.SeedTests.ValidExts = [])) :=
  ⟨rfl, (errorCheck_seed_tests exampleConfigWorld exampleConfig).1 exampleConfig rfl⟩

theorem getGenerator_registered (genName : String)
    (h : genName = FF_JSREFTEST ∨ genName = FF_JSREFTEST_IONEAGER ∨
      genName = D8_JSREFTEST) :
    ∃ argGen, GetGenerator genName = .ok argGen := by
  unfold GetGenerator
  rcases h with h | h | h
  · exact ⟨_, by rw [if_pos h]⟩
  · by_cases h1 : genName = FF_JSREFTEST
    · exact ⟨_, by rw [if_pos h1]⟩
    · exact ⟨_, by rw [if_neg h1, if_pos h]⟩
  · by_cases h1 : genName = FF_JSREFTEST
    · exact ⟨_, by rw [if_pos h1]⟩
    · by_cases h2 : genName = FF_JSREFTEST_IONEAGER
      · exact ⟨_, by rw [if_neg h1, if_pos h2]⟩
      · exact ⟨_, by rw [if_neg h1, if_neg h2, if_pos h]⟩

/-- C15. A configuration that `errorCheck` accepts has a non-empty
interpreter path and exactly one of `Args` and `ArgGen` set; `Args`, when set,
contains `XXX_FUZZFILE_XXX`; `ArgGen`, when set, is a name `GetGenerator`
resolves and comes with a non-empty `TestCaseRootDir`. The lookup at the
start of the monitor therefore succeeds on the accepted configuration. -/
theorem errorCheck_interpreter (w : ConfigWorld) (cfg cfg' : Config)
    (h : errorCheck w cfg = .ok cfg') :
    cfg'.Interpreter.Path ≠ "" ∧
    ((cfg'.Interpreter.Args ≠ "" ∧ cfg'.Interpreter.ArgGen = "") ∨
      (cfg'.Interpreter.Args = "" ∧ cfg'.Interpreter.ArgGen ≠ "")) ∧
    (cfg'.Interpreter.Args ≠ "" → ∃ pre post : String,
      cfg'.Interpreter.Args = pre ++ "XXX_FUZZFILE_XXX" ++ post) ∧
    (cfg'.Interpreter.ArgGen ≠ "" →
      (∃ argGen, GetGenerator cfg'.Interpreter.ArgGen = .ok argGen) ∧
      cfg'.Interpreter.TestCaseRootDir ≠ "") ∧
    ∃ argGen, monitorGenerator cfg' = .ok argGen := by
  obtain ⟨_, _, hi, tp, _, rfl⟩ := errorCheck_ok w cfg cfg' h
  obtain ⟨h1, h2, h3, h4, h5, _⟩ := checkInterpreter_none w _ hi
  simp only [string_length_eq_zero, ne_eq] at h1 h2 h3 h4 h5
  have hgen : cfg.Interpreter.ArgGen ≠ "" →
      (∃ argGen, GetGenerator cfg.Interpreter.ArgGen = .ok argGen) ∧
      cfg.Interpreter.TestCaseRootDir ≠ "" :=
    fun hg => ⟨getGenerator_registered _ (h5 hg).1, (h5 hg).2.1⟩
  refine ⟨h1, ?_, ?_, hgen, ?_⟩
  · by_cases ha : cfg.Interpreter.Args = ""
    · right
      exact ⟨ha, fun hg => h2 ⟨ha, hg⟩⟩
    · left
      refine ⟨ha, ?_⟩
      by_contra hg
      exact h3 ⟨ha, hg⟩
  · intro ha
    exact (stringsContains_iff _ _).mp (h4 ha)
  · unfold monitorGenerator
    by_cases ha : cfg.Interpreter.Args = ""
    · have hg : cfg.Interpreter.ArgGen ≠ "" := fun hg => h2 ⟨ha, hg⟩
      obtain ⟨argGen, hget⟩ := (hgen hg).1
      simp only [(string_length_eq_zero _).mpr ha, if_true, hget]
      exact ⟨_, rfl⟩
    · have hl : cfg.Interpreter.Args.length ≠ 0 :=
        fun hl => ha ((string_length_eq_zero _).mp hl)
      simp only [hl, if_false]
      exact ⟨_, rfl⟩

theorem errorCheck_interpreter_witness :
    errorCheck exampleConfigWorld exampleArgGenConfig = .ok exampleArgGenConfig ∧
    ∃ argGen, monitorGenerator exampleArgGenConfig = .ok argGen :=
  ⟨rfl,
    (errorCheck_interpreter exampleConfigWorld exampleArgGenConfig exampleArgGenConfig
      rfl).2.2.2.2⟩

/-! ## The mutate request of the infinite-random mode -/

theorem pickSources_spec (seeds : List String) (rng : Nat → Nat) (hseeds : seeds ≠ [])
    (n : Nat) : ∀ (randCalls : Nat) (sources : List String),
      ∃ picked randCalls', pickSources seeds rng n randCalls sources = .ok (picked, randCalls') ∧
        picked.length = sources.length + n ∧
        ∀ s ∈ picked, s ∈ sources ∨ s ∈ seeds := by
  have hlen : seeds.length ≠ 0 := by
    simpa [List.length_eq_zero] using hseeds
  induction n with
  | zero =>
    intro randCalls sources
    exact ⟨sources, randCalls, rfl, rfl, fun s hs => Or.inl hs⟩
  | succ n ih =>
    intro randCalls sources
    obtain ⟨picked, randCalls', hp, hl, hm⟩ :=
      ih (randCalls + 1) (sources ++ [seeds.getD (rng randCalls % seeds.length) ""])
    refine ⟨picked, randCalls', ?_, ?_, ?_⟩
    · simp only [pickSources, hlen, if_false]
      exact hp
    · rw [hl, List.length_append, List.length_singleton]
      omega
    · intro s hs
      rcases hm s hs with h | h
      · rcases List.mem_append.mp h with h | h
        · exact Or.inl h
        · right
          have hidx : rng randCalls % seeds.length < seeds.length :=
            Nat.mod_lt _ (Nat.pos_of_ne_zero hlen)
          rw [List.mem_singleton] at h
          rw [h, List.getD_eq_getElem _ _ hidx]
          exact List.getElem_mem hidx
      · exact Or.inr h

/-- C12, counterexample. A multi-file configuration with minimum 2 and
maximum 1 passes `errorCheck`, and building a request from it panics: the
divisor `gap + 1` of `rand.Int() % (gap + 1)` is 0. -/
theorem getMutationRequest_inverted_counts_panics :
    errorCheck exampleConfigWorld exampleInvertedCountsConfig
      = .ok exampleInvertedCountsConfig ∧
    getMutationRequest exampleInvertedCountsConfig.TestProcessing ["/seeds/a.js"] 2
      (fun _ => 0) 0 = .error Fault.divideByZero :=
  ⟨rfl, rfl⟩

/-- C12, amended. For a configuration that `errorCheck` accepts with the
multi-file fuzzer and seed counts that are not negative and in order
(`min <= max`), for every non-empty seed list and all values of the random
generator, `getMutationRequest` returns a request without panicking; its
number of source files lies between `min` and `max`, so it is not the empty
sentinel, every source is taken from the seed list and the count is the
batch size. -/
theorem getMutationRequest_multi_bounds (w : ConfigWorld) (cfg cfg' : Config)
    (seeds : List String) (batchSize : Int) (rng : Nat → Nat) (randCalls : Nat)
    (hacc : errorCheck w cfg = .ok cfg')
    (hmulti : cfg'.TestProcessing.Fuzzer = FUZZER_RADAMSA_MULTIFILE)
    (hmin : 0 ≤ cfg'.TestProcessing.MultiFileFuzzerSeedCountMin)
    (hle : cfg'.TestProcessing.MultiFileFuzzerSeedCountMin
      ≤ cfg'.TestProcessing.MultiFileFuzzerSeedCountMax)
    (hseeds : seeds ≠ []) :
    ∃ req randCalls',
      getMutationRequest cfg'.TestProcessing seeds batchSize rng randCalls
        = .ok (req, randCalls') ∧
      cfg'.TestProcessing.MultiFileFuzzerSeedCountMin ≤ (req.SourceFiles.length : Int) ∧
      (req.SourceFiles.length : Int) ≤ cfg'.TestProcessing.MultiFileFuzzerSeedCountMax ∧
      req.SourceFiles ≠ [] ∧ (∀ s ∈ req.SourceFiles, s ∈ seeds) ∧
      req.Count = batchSize := by
  obtain ⟨_, _, _, tp, ht, rfl⟩ := errorCheck_ok w cfg cfg' hacc
  obtain ⟨_, hcounts, _, _, rfl⟩ := checkTestProcessing_ok w _ tp ht
  simp only at hmulti hmin hle ⊢
  have hmin0 : cfg.TestProcessing.MultiFileFuzzerSeedCountMin ≠ 0 := (hcounts hmulti).1
  have hpos : 0 < cfg.TestProcessing.MultiFileFuzzerSeedCountMin :=
    lt_of_le_of_ne hmin (Ne.symm hmin0)
  have hgap : 0 < cfg.TestProcessing.MultiFileFuzzerSeedCountMax
      - cfg.TestProcessing.MultiFileFuzzerSeedCountMin + 1 := by omega
  have hr0 : 0 ≤ Int.tmod (rng randCalls : Int)
      (cfg.TestProcessing.MultiFileFuzzerSeedCountMax
        - cfg.TestProcessing.MultiFileFuzzerSeedCountMin + 1) :=
    Int.tmod_nonneg _ (Int.ofNat_nonneg _)
  have hr1 : Int.tmod (rng randCalls : Int)
      (cfg.TestProcessing.MultiFileFuzzerSeedCountMax
        - cfg.TestProcessing.MultiFileFuzzerSeedCountMin + 1)
      < cfg.TestProcessing.MultiFileFuzzerSeedCountMax
        - cfg.TestProcessing.MultiFileFuzzerSeedCountMin + 1 :=
    Int.tmod_lt_of_pos _ hgap
  obtain ⟨picked, randCalls', hp, hl, hm⟩ := pickSources_spec seeds rng hseeds
    (cfg.TestProcessing.MultiFileFuzzerSeedCountMin + Int.tmod (rng randCalls : Int)
      (cfg.TestProcessing.MultiFileFuzzerSeedCountMax
        - cfg.TestProcessing.MultiFileFuzzerSeedCountMin + 1)).toNat (randCalls + 1) []
  have hlen : (picked.length : Int) = cfg.TestProcessing.MultiFileFuzzerSeedCountMin
      + Int.tmod (rng randCalls : Int)
        (cfg.TestProcessing.MultiFileFuzzerSeedCountMax
          - cfg.TestProcessing.MultiFileFuzzerSeedCountMin + 1) := by
    rw [hl, List.length_nil, Nat.zero_add, Int.toNat_of_nonneg (by omega)]
  refine ⟨{ SourceFiles := picked, Count := batchSize }, randCalls', ?_, ?_, ?_, ?_, ?_, rfl⟩
  · simp only [getMutationRequest, isMultiFileMutator, hmulti, decide_True, Bool.not_true,
      Bool.false_eq_true, if_false, ne_of_gt hgap, hp]
  · simp only [hlen]
    omega
  · simp only [hlen]
    omega
  · intro he
    have he' : picked = [] := he
    have h0 : (picked.length : Int) = 0 := by
      rw [he']
      rfl
    linarith
  · intro s hs
    rcases hm s hs with h | h
    · simp at h
    · exact h

theorem getMutationRequest_multi_bounds_witness :
    errorCheck exampleConfigWorld exampleMultiConfig = .ok exampleMultiConfig ∧
    ([] : List String) ≠ ["/seeds/a.js", "/seeds/b.js"] ∧
    ∃ req randCalls',
      getMutationRequest exampleMultiConfig.TestProcessing ["/seeds/a.js", "/seeds/b.js"]
        4 (fun k => k) 0 = .ok (req, randCalls') ∧
      exampleMultiConfig.TestProcessing.MultiFileFuzzerSeedCountMin
        ≤ (req.SourceFiles.length : Int) ∧
      (req.SourceFiles.length : Int)
        ≤ exampleMultiConfig.TestProcessing.MultiFileFuzzerSeedCountMax ∧
      req.SourceFiles ≠ [] ∧
      (∀ s ∈ req.SourceFiles, s ∈ ["/seeds/a.js", "/seeds/b.js"]) ∧
      req.Count = 4 :=
  ⟨rfl, by decide,
    getMutationRequest_multi_bounds exampleConfigWorld exampleMultiConfig exampleMultiConfig
      ["/seeds/a.js", "/seeds/b.js"] 4 (fun k => k) 0 rfl rfl (by decide) (by decide)
      (by decide)⟩

/-! ## The argument generators: the prefix check -/

theorem shellWalk_step (fileExists : String → Bool) (testBaseDir subDir : String)
    (fuel : Nat) (args : List String) (h : subDir ≠ testBaseDir) :
    shellWalk fileExists testBaseDir (fuel + 1) subDir args =
      shellWalk fileExists testBaseDir fuel (filepathClean (filepathJoin subDir "../"))
        (if fileExists (filepathJoin subDir "shell.js")
          then args ++ [filepathJoin subDir "shell.js"] else args) := by
  simp only [shellWalk, h, if_false]
  cases fileExists (filepathJoin subDir "shell.js") <;> simp

/-- Once the walk is at `/` without `/` being the base directory it stays
there: no amount of fuel ends it. -/
theorem shellWalk_stuck_at_root (fileExists : String → Bool) (testBaseDir : String)
    (h : "/" ≠ testBaseDir) :
    ∀ (fuel : Nat) (args : List String),
      shellWalk fileExists testBaseDir fuel "/" args = none := by
  intro fuel
  induction fuel with
  | zero => intro args; rfl
  | succ fuel ih =>
    intro args
    rw [shellWalk_step fileExists testBaseDir "/" fuel args h]
    have hup : filepathClean (filepathJoin "/" "../") = "/" := by decide
    rw [hup]
    exact ih _

theorem get_shelljs_paths_sibling_loops (fuel : Nat) (fileExists : String → Bool) :
    get_shelljs_paths fuel fileExists "/a/b" "/a/bc/x.js" = none := by
  have hc1 : filepathClean "/a/b" = "/a/b" := by decide
  have hc2 : filepathClean "/a/bc/x.js" = "/a/bc/x.js" := by decide
  have hp : filepathHasPrefix "/a/bc/x.js" "/a/b" = true := by decide
  have hd : filepathDir "/a/bc/x.js" = "/a/bc" := by decide
  have hu1 : filepathClean (filepathJoin "/a/bc" "../") = "/a" := by decide
  have hu2 : filepathClean (filepathJoin "/a" "../") = "/" := by decide
  have hwalk : ∀ (fuel : Nat) (args : List String),
      shellWalk fileExists "/a/b" fuel "/a/bc" args = none := by
    intro fuel args
    cases fuel with
    | zero => rfl
    | succ fuel =>
      rw [shellWalk_step fileExists "/a/b" "/a/bc" fuel args (by decide), hu1]
      cases fuel with
      | zero => rfl
      | succ fuel =>
        rw [shellWalk_step fileExists "/a/b" "/a" fuel _ (by decide), hu2]
        exact shellWalk_stuck_at_root fileExists "/a/b" (by decide) fuel _
  simp only [get_shelljs_paths, hc1, hc2, hp, hd, hwalk, Bool.not_true, Bool.false_eq_true,
    if_false]

/-- C16. For the base directory `/a/b` and the test `/a/bc/x.js`, which does
not lie under it, no generator returns the prefix error: the check compares
characters, `/a/b` is an initial segment of `/a/bc/x.js`, and the directory
walk that follows never reaches `/a/b`, so no amount of fuel yields a result. -/
theorem generators_hang_on_sibling_directory (fuel : Nat) (fileExists : String → Bool) :
    FFJsRefTest fuel fileExists "/a/b" "/a/bc/x.js" = none ∧
    FFJsRefTest_IonEager fuel fileExists "/a/b" "/a/bc/x.js" = none ∧
    D8JsRefTest fuel fileExists "/a/b" "/a/bc/x.js" = none := by
  simp only [FFJsRefTest, FFJsRefTest_IonEager, D8JsRefTest,
    get_shelljs_paths_sibling_loops, and_self]

/-- When the cleaned test path does not start with the characters of the
cleaned base directory, each of the three generators returns the prefix
error, whatever the fuel. -/
theorem generators_reject_unprefixed (fuel : Nat) (fileExists : String → Bool)
    (testBaseDir testPath : String)
    (h : filepathHasPrefix (filepathClean testPath) (filepathClean testBaseDir) = false) :
    FFJsRefTest fuel fileExists testBaseDir testPath
      = some (.error ("The test at " ++ filepathClean testPath ++
          " does not have the provided " ++ "base directory " ++
          filepathClean testBaseDir ++ " as a prefix")) ∧
    FFJsRefTest_IonEager fuel fileExists testBaseDir testPath
      = some (.error ("The test at " ++ filepathClean testPath ++
          " does not have the provided " ++ "base directory " ++
          filepathClean testBaseDir ++ " as a prefix")) ∧
    D8JsRefTest fuel fileExists testBaseDir testPath
      = some (.error ("The test at " ++ filepathClean testPath ++
          " does not have the provided " ++ "base directory " ++
          filepathClean testBaseDir ++ " as a prefix")) := by
  simp [FFJsRefTest, FFJsRefTest_IonEager, D8JsRefTest, get_shelljs_paths, h]

/-- The scenario of the specification: base directory `/a/b`, test `/x/c.js`. -/
theorem generators_reject_scenario (fuel : Nat) (fileExists : String → Bool) :
    FFJsRefTest fuel fileExists "/a/b" "/x/c.js"
      = some (.error
          "The test at /x/c.js does not have the provided base directory /a/b as a prefix") :=
  (generators_reject_unprefixed fuel fileExists "/a/b" "/x/c.js" (by decide)).1

theorem get_shelljs_paths_base_itself_loops (fuel : Nat) (fileExists : String → Bool) :
    get_shelljs_paths fuel fileExists "/a/b" "/a/b" = none := by
  have hc1 : filepathClean "/a/b" = "/a/b" := by decide
  have hp : filepathHasPrefix "/a/b" "/a/b" = true := by decide
  have hd : filepathDir "/a/b" = "/a" := by decide
  have hu2 : filepathClean (filepathJoin "/a" "../") = "/" := by decide
  have hwalk : ∀ (fuel : Nat) (args : List String),
      shellWalk fileExists "/a/b" fuel "/a" args = none := by
    intro fuel args
    cases fuel with
    | zero => rfl
    | succ fuel =>
      rw [shellWalk_step fileExists "/a/b" "/a" fuel _ (by decide), hu2]
      exact shellWalk_stuck_at_root fileExists "/a/b" (by decide) fuel _
  simp only [get_shelljs_paths, hc1, hp, hd, hwalk, Bool.not_true, Bool.false_eq_true,
    if_false]

/-- C19. With the base directory `/a/b`, its `shell.js` existing, and the test
path `/a/b` itself, no generator returns an output within any amount of fuel:
the walk starts at `/a`, above the base directory, and climbs to `/`, where
it stays. -/
theorem generators_hang_on_base_directory :
    ¬ ∃ (fuel : Nat) (result : Except String String),
      FFJsRefTest fuel (fun _ => true) "/a/b" "/a/b" = some result ∨
      FFJsRefTest_IonEager fuel (fun _ => true) "/a/b" "/a/b" = some result ∨
      D8JsRefTest fuel (fun _ => true) "/a/b" "/a/b" = some result := by
  rintro ⟨fuel, result, h⟩
  simp [FFJsRefTest, FFJsRefTest_IonEager, D8JsRefTest,
    get_shelljs_paths_base_itself_loops] at h

/-! ## The argument generators: paths under the base directory -/

theorem joinSlash_cons (c : List Char) (l : List (List Char)) (h : l ≠ []) :
    joinSlash (c :: l) = c ++ '/' :: joinSlash l := by
  cases l with
  | nil => exact absurd rfl h
  | cons d l => rfl

theorem joinSlash_append (a b : List (List Char)) (ha : a ≠ []) (hb : b ≠ []) :
    joinSlash (a ++ b) = joinSlash a ++ '/' :: joinSlash b := by
  induction a with
  | nil => exact absurd rfl ha
  | cons c a ih =>
    cases a with
    | nil =>
      show joinSlash (c :: b) = joinSlash [c] ++ '/' :: joinSlash b
      rw [joinSlash_cons c b hb]
      rfl
    | cons d a =>
      show joinSlash (c :: ((d :: a) ++ b)) = _
      rw [joinSlash_cons c _ (by simp), ih (by simp), joinSlash_cons c (d :: a) (by simp)]
      simp

theorem joinSlash_eq_flatten (c : List Char) (l : List (List Char)) :
    joinSlash (c :: l) = c ++ (l.map (fun s => '/' :: s)).flatten := by
  induction l generalizing c with
  | nil => simp [joinSlash]
  | cons d l ih =>
    rw [joinSlash_cons c _ (by simp), ih d]
    simp

theorem intercalate_go_data (acc : String) (l : List String) :
    (String.intercalate.go acc "/" l).data
      = acc.data ++ (l.map (fun s => '/' :: s.data)).flatten := by
  induction l generalizing acc with
  | nil => simp [String.intercalate.go]
  | cons a l ih =>
    simp only [String.intercalate.go, ih, String.data_append, List.map_cons, List.flatten_cons]
    simp

theorem intercalate_data (l : List String) :
    (String.intercalate "/" l).data = joinSlash (l.map String.data) := by
  cases l with
  | nil => rfl
  | cons a l =>
    simp only [String.intercalate, intercalate_go_data, List.map_cons, joinSlash_eq_flatten,
      List.map_map]
    rfl

theorem absPath_data (cs : List String) :
    (absPath cs).data = '/' :: joinSlash (cs.map String.data) := by
  simp only [absPath, String.data_append, intercalate_data]
  rfl

theorem absPath_eq_mk (cs : List String) :
    absPath cs = String.mk ('/' :: joinSlash (cs.map String.data)) := by
  apply String.ext
  rw [absPath_data]

theorem splitSlash_ne_nil (t : List Char) : splitSlash t ≠ [] := by
  cases t with
  | nil => simp [splitSlash]
  | cons c t =>
    simp only [splitSlash]
    split
    · simp
    · split <;> simp

theorem splitSlash_slash (t : List Char) : splitSlash ('/' :: t) = [] :: splitSlash t := by
  simp only [splitSlash]
  cases h : splitSlash t with
  | nil => exact absurd h (splitSlash_ne_nil t)
  | cons w ws => simp

theorem splitSlash_noslash_append (c : List Char) (hc : '/' ∉ c) (t : List Char) :
    splitSlash (c ++ '/' :: t) = c :: splitSlash t := by
  induction c with
  | nil => exact splitSlash_slash t
  | cons x c ih =>
    have hx : x ≠ '/' := fun h => hc (by simp [h])
    have hc' : '/' ∉ c := fun h => hc (by simp [h])
    show splitSlash (x :: (c ++ '/' :: t)) = _
    simp only [splitSlash, ih hc', hx, if_false]

theorem splitSlash_noslash (c : List Char) (hc : '/' ∉ c) : splitSlash c = [c] := by
  induction c with
  | nil => rfl
  | cons x c ih =>
    have hx : x ≠ '/' := fun h => hc (by simp [h])
    have hc' : '/' ∉ c := fun h => hc (by simp [h])
    simp only [splitSlash, ih hc', hx, if_false]

theorem splitSlash_joinSlash (l : List (List Char)) (hl : l ≠ [])
    (h : ∀ c ∈ l, '/' ∉ c) : splitSlash (joinSlash l) = l := by
  induction l with
  | nil => exact absurd rfl hl
  | cons c l ih =>
    cases l with
    | nil => exact splitSlash_noslash c (h c (by simp))
    | cons d l =>
      rw [joinSlash_cons c _ (by simp), splitSlash_noslash_append c (h c (by simp)),
        ih (by simp) (fun x hx => h x (by simp [hx]))]

theorem cleanStep_plain (rooted : Bool) (out : List (List Char)) (c : String)
    (h : PlainName c) : cleanStep rooted out c.data = c.data :: out := by
  obtain ⟨h0, _, h1, h2⟩ := h
  have e0 : c.data ≠ [] := fun e => h0 (String.ext e)
  have e1 : c.data ≠ ['.'] := fun e => h1 (String.ext e)
  have e2 : c.data ≠ ['.', '.'] := fun e => h2 (String.ext e)
  simp [cleanStep, e0, e1, e2]

theorem foldl_cleanStep_plain (rooted : Bool) (cs : List String)
    (h : ∀ c ∈ cs, PlainName c) (out : List (List Char)) :
    (cs.map String.data).foldl (cleanStep rooted) out = (cs.map String.data).reverse ++ out := by
  induction cs generalizing out with
  | nil => rfl
  | cons c cs ih =>
    simp only [List.map_cons, List.foldl_cons, cleanStep_plain rooted out c (h c (by simp)),
      ih (fun x hx => h x (by simp [hx])), List.reverse_cons, List.append_assoc,
      List.singleton_append]

theorem filepathClean_rooted (rest : List (List Char)) (hne : rest ≠ [])
    (hs : ∀ c ∈ rest, '/' ∉ c) :
    filepathClean (String.mk ('/' :: joinSlash rest))
      = "/" ++ String.intercalate "/"
          (((rest.foldl (cleanStep true) []).reverse).map String.mk) := by
  have h0 : cleanStep true [] [] = [] := by simp [cleanStep]
  simp [filepathClean, splitSlash_slash, splitSlash_joinSlash rest hne hs, h0]

theorem plain_noslash (cs : List String) (h : ∀ c ∈ cs, PlainName c) :
    ∀ c ∈ cs.map String.data, '/' ∉ c := by
  intro c hc
  obtain ⟨s, hs, rfl⟩ := List.mem_map.1 hc
  exact (h s hs).2.1

theorem map_mk_map_data (cs : List String) :
    (cs.map String.data).map String.mk = cs := by
  induction cs with
  | nil => rfl
  | cons c cs ih => simp only [List.map_cons, ih]

/-- Cleaning a rooted path whose elements fold to the plain elements `rs`
gives the absolute path with the elements `rs`. -/
theorem filepathClean_of_fold (rest : List (List Char)) (hne : rest ≠ [])
    (hs : ∀ c ∈ rest, '/' ∉ c) (rs : List String)
    (hfold : rest.foldl (cleanStep true) [] = (rs.map String.data).reverse) :
    filepathClean (String.mk ('/' :: joinSlash rest)) = absPath rs := by
  rw [filepathClean_rooted rest hne hs, hfold, List.reverse_reverse, map_mk_map_data]
  rfl

theorem filepathClean_absPath (cs : List String) (h : ∀ c ∈ cs, PlainName c) :
    filepathClean (absPath cs) = absPath cs := by
  cases cs with
  | nil => decide
  | cons c cs =>
    have e := filepathClean_of_fold ((c :: cs).map String.data) (by simp)
      (plain_noslash _ h) (c :: cs) (by
        rw [foldl_cleanStep_plain true _ h []]
        simp)
    rw [← absPath_eq_mk] at e
    exact e

theorem absPath_ne_empty (cs : List String) : absPath cs ≠ "" := by
  intro h
  have := congrArg String.data h
  rw [absPath_data] at this
  exact absurd this (by simp)

theorem filepathJoin_absPath (cs : List String) (h : ∀ c ∈ cs, PlainName c)
    (x : String) (hx : PlainName x) :
    filepathJoin (absPath cs) x = absPath (cs ++ [x]) := by
  have hxs : '/' ∉ x.data := hx.2.1
  simp only [filepathJoin, absPath_ne_empty cs, ne_eq, not_false_eq_true, if_true]
  cases cs with
  | nil =>
    have e : absPath [] ++ "/" ++ x = String.mk ('/' :: joinSlash [[], x.data]) := by
      apply String.ext
      simp only [String.data_append, absPath_data]
      rfl
    rw [e]
    apply filepathClean_of_fold _ (by simp)
    · intro c hc
      simp only [List.mem_cons, List.mem_singleton, List.not_mem_nil, or_false] at hc
      rcases hc with rfl | rfl
      · simp
      · exact hxs
    · have h0 : cleanStep true [] [] = [] := by simp [cleanStep]
      simp only [List.foldl_cons, List.foldl_nil, h0, cleanStep_plain true [] x hx]
      rfl
  | cons c cs =>
    have hall : ∀ y ∈ (c :: cs) ++ [x], PlainName y := by
      intro y hy
      rcases List.mem_append.1 hy with hy | hy
      · exact h y hy
      · rw [List.mem_singleton.1 hy]
        exact hx
    have e : absPath (c :: cs) ++ "/" ++ x
        = String.mk ('/' :: joinSlash (((c :: cs) ++ [x]).map String.data)) := by
      apply String.ext
      simp only [String.data_append, absPath_data, List.map_append]
      rw [joinSlash_append _ _ (by simp) (by simp)]
      simp [joinSlash]
    rw [e]
    apply filepathClean_of_fold _ (by simp) (plain_noslash _ hall)
    rw [foldl_cleanStep_plain true _ hall []]
    simp

theorem filepathClean_parent (cs : List String) (h : ∀ c ∈ cs, PlainName c)
    (d : String) (hd : PlainName d) :
    filepathClean (filepathJoin (absPath (cs ++ [d])) "../") = absPath cs := by
  have hall : ∀ y ∈ cs ++ [d], PlainName y := by
    intro y hy
    rcases List.mem_append.1 hy with hy | hy
    · exact h y hy
    · rw [List.mem_singleton.1 hy]
      exact hd
  have hj : filepathJoin (absPath (cs ++ [d])) "../" = absPath cs := by
    simp only [filepathJoin, absPath_ne_empty, ne_eq, not_false_eq_true, if_true]
    have e : absPath (cs ++ [d]) ++ "/" ++ "../"
        = String.mk ('/' :: joinSlash ((cs ++ [d]).map String.data ++ [['.', '.'], []])) := by
      apply String.ext
      simp only [String.data_append, absPath_data]
      rw [joinSlash_append _ _ (by simp) (by simp)]
      simp [joinSlash]
    rw [e]
    apply filepathClean_of_fold _ (by simp)
    · intro c hc
      rcases List.mem_append.1 hc with hc | hc
      · exact plain_noslash _ hall c hc
      · simp only [List.mem_cons, List.mem_singleton, List.not_mem_nil, or_false] at hc
        rcases hc with rfl | rfl <;> simp
    · rw [List.foldl_append, foldl_cleanStep_plain true _ hall []]
      have hd2 : d.data ≠ ['.', '.'] := fun e => hd.2.2.2 (String.ext e)
      simp [cleanStep, hd2]
  rw [hj, filepathClean_absPath cs h]

theorem dropWhile_append_of_all (p : Char → Bool) (a b : List Char)
    (h : ∀ c ∈ a, p c = true) : (a ++ b).dropWhile p = b.dropWhile p := by
  induction a with
  | nil => rfl
  | cons x a ih =>
    have hx : p x = true := h x (by simp)
    simp only [List.cons_append, List.dropWhile_cons, hx, if_true]
    exact ih (fun c hc => h c (by simp [hc]))

theorem filepathDir_absPath (cs : List String) (h : ∀ c ∈ cs, PlainName c)
    (f : String) (hf : PlainName f) :
    filepathDir (absPath (cs ++ [f])) = absPath cs := by
  have hfs : ∀ c ∈ f.data.reverse, (fun c => decide (c ≠ '/')) c = true := by
    intro c hc
    have : c ∈ f.data := List.mem_reverse.1 hc
    simp only [ne_eq, decide_not, Bool.not_eq_true', decide_eq_false_iff_not]
    intro e
    exact hf.2.1 (e ▸ this)
  cases cs with
  | nil =>
    have e : (absPath ([] ++ [f])).data = ['/'] ++ f.data := by
      rw [absPath_data]
      rfl
    simp only [filepathDir, e, List.reverse_append]
    rw [dropWhile_append_of_all _ _ _ hfs]
    decide
  | cons c cs =>
    have e : (absPath ((c :: cs) ++ [f])).data
        = ('/' :: joinSlash ((c :: cs).map String.data) ++ ['/']) ++ f.data := by
      rw [absPath_data, List.map_append, joinSlash_append _ _ (by simp) (by simp)]
      simp [joinSlash]
    simp only [filepathDir, e, List.reverse_append]
    rw [dropWhile_append_of_all _ _ _ hfs]
    have e2 : ((['/'].reverse ++ ('/' :: joinSlash ((c :: cs).map String.data)).reverse).dropWhile
        (fun c => decide (c ≠ '/'))).reverse
        = '/' :: joinSlash ((c :: cs).map String.data ++ [[]]) := by
      rw [joinSlash_append _ _ (by simp) (by simp)]
      simp [joinSlash]
    rw [e2]
    apply filepathClean_of_fold _ (by simp)
    · intro x hx
      rcases List.mem_append.1 hx with hx | hx
      · exact plain_noslash _ h x hx
      · simp only [List.mem_singleton] at hx
        simp [hx]
    · rw [List.foldl_append, foldl_cleanStep_plain true _ h []]
      simp [cleanStep]

theorem filepathHasPrefix_absPath (rc rest : List String) :
    filepathHasPrefix (absPath (rc ++ rest)) (absPath rc) = true := by
  simp only [filepathHasPrefix, absPath_data, List.isPrefixOf_cons₂_self]
  rw [List.isPrefixOf_iff_prefix]
  cases rc with
  | nil => simp [joinSlash]
  | cons c rc =>
    cases rest with
    | nil => simp
    | cons r rest =>
      rw [List.map_append, joinSlash_append _ _ (by simp) (by simp)]
      exact List.prefix_append _ _

theorem absPath_append_ne (rc ds : List String) (hds : ∀ c ∈ ds, PlainName c)
    (hne : ds ≠ []) : absPath (rc ++ ds) ≠ absPath rc := by
  intro h
  have hd := congrArg String.data h
  simp only [absPath_data, List.cons.injEq, true_and, List.map_append] at hd
  cases ds with
  | nil => exact hne rfl
  | cons d ds =>
    cases rc with
    | nil =>
      simp only [List.map_nil, List.nil_append, List.map_cons, joinSlash_eq_flatten] at hd
      have h0 : d.data ≠ [] := fun e => (hds d (by simp)).1 (String.ext e)
      have : d.data = [] := (List.append_eq_nil.1 hd).1
      exact h0 this
    | cons c rc =>
      rw [joinSlash_append _ _ (by simp) (by simp)] at hd
      have := List.append_right_eq_self.1 hd
      exact absurd this (by simp)

theorem splitSlash_noslash_mem (t : List Char) : ∀ c ∈ splitSlash t, '/' ∉ c := by
  induction t with
  | nil => simp [splitSlash]
  | cons x t ih =>
    simp only [splitSlash]
    cases h : splitSlash t with
    | nil => simp
    | cons w ws =>
      rw [h] at ih
      have hw : '/' ∉ w := ih w (by simp)
      have hws : ∀ c ∈ ws, '/' ∉ c := fun c hc => ih c (by simp [hc])
      by_cases hx : x = '/'
      · simp only [hx, if_true]
        intro c hc
        simp only [List.mem_cons] at hc
        rcases hc with rfl | rfl | hc
        · simp
        · exact hw
        · exact hws c hc
      · simp only [hx, if_false]
        intro c hc
        simp only [List.mem_cons] at hc
        rcases hc with rfl | hc
        · intro hm
          simp only [List.mem_cons] at hm
          rcases hm with hm | hm
          · exact hx hm.symm
          · exact hw hm
        · exact hws c hc

theorem splitSlash_append_slash (r x : List Char) (hx : '/' ∉ x) :
    splitSlash (r ++ '/' :: x) = splitSlash r ++ [x] := by
  induction r with
  | nil =>
    show splitSlash ('/' :: x) = _
    rw [splitSlash_slash, splitSlash_noslash x hx]
    rfl
  | cons c r ih =>
    show splitSlash (c :: (r ++ '/' :: x)) = splitSlash (c :: r) ++ [x]
    simp only [splitSlash, ih]
    cases h : splitSlash r with
    | nil => exact absurd h (splitSlash_ne_nil r)
    | cons w ws =>
      by_cases hc : c = '/' <;> simp [hc]

theorem cleanStep_good (rooted : Bool) (out : List (List Char)) (comp : List Char)
    (hout : ∀ c ∈ out, c ≠ [] ∧ '/' ∉ c) (hcomp : '/' ∉ comp) :
    ∀ c ∈ cleanStep rooted out comp, c ≠ [] ∧ '/' ∉ c := by
  unfold cleanStep
  by_cases h1 : comp = [] ∨ comp = ['.']
  · simpa only [h1, if_true] using hout
  · simp only [h1, if_false]
    have hne : comp ≠ [] := fun e => h1 (Or.inl e)
    have hcons : ∀ c ∈ comp :: out, c ≠ [] ∧ '/' ∉ c := by
      intro c hc
      rcases List.mem_cons.1 hc with rfl | hc
      · exact ⟨hne, hcomp⟩
      · exact hout c hc
    by_cases h2 : comp = ['.', '.']
    · simp only [h2, if_true]
      cases out with
      | nil =>
        cases rooted
        · intro c hc
          simp only [Bool.false_eq_true, if_false, List.mem_singleton] at hc
          subst hc
          exact ⟨by simp, by decide⟩
        · simp
      | cons top rest =>
        by_cases h3 : top = ['.', '.']
        · simp only [h3, if_true]
          rw [h2, h3] at hcons
          exact hcons
        · simp only [h3, if_false]
          exact fun c hc => hout c (by simp [hc])
    · simpa only [h2, if_false] using hcons

theorem foldl_cleanStep_good (rooted : Bool) (comps : List (List Char))
    (hcomps : ∀ c ∈ comps, '/' ∉ c) (out : List (List Char))
    (hout : ∀ c ∈ out, c ≠ [] ∧ '/' ∉ c) :
    ∀ c ∈ comps.foldl (cleanStep rooted) out, c ≠ [] ∧ '/' ∉ c := by
  induction comps generalizing out with
  | nil => exact hout
  | cons x comps ih =>
    exact ih (fun c hc => hcomps c (by simp [hc])) _
      (cleanStep_good rooted out x hout (hcomps x (by simp)))

theorem joinSlash_injective (a b : List (List Char))
    (ha : ∀ c ∈ a, c ≠ [] ∧ '/' ∉ c) (hb : ∀ c ∈ b, c ≠ [] ∧ '/' ∉ c)
    (h : joinSlash a = joinSlash b) : a = b := by
  have hnil : ∀ (l : List (List Char)), (∀ c ∈ l, c ≠ [] ∧ '/' ∉ c) → joinSlash l = [] →
      l = [] := by
    intro l hl hj
    cases l with
    | nil => rfl
    | cons c l =>
      rw [joinSlash_eq_flatten] at hj
      exact absurd (List.append_eq_nil.1 hj).1 (hl c (by simp)).1
  cases a with
  | nil => exact (hnil b hb h.symm).symm
  | cons x a =>
    cases b with
    | nil => exact hnil _ ha h
    | cons y b =>
      have e1 := splitSlash_joinSlash (x :: a) (by simp) (fun c hc => (ha c hc).2)
      have e2 := splitSlash_joinSlash (y :: b) (by simp) (fun c hc => (hb c hc).2)
      rw [← e1, ← e2, h]

theorem plain_good (cs : List String) (h : ∀ c ∈ cs, PlainName c) :
    ∀ c ∈ cs.map String.data, c ≠ [] ∧ '/' ∉ c := by
  intro c hc
  obtain ⟨s, hs, rfl⟩ := List.mem_map.1 hc
  exact ⟨fun e => (h s hs).1 (String.ext e), (h s hs).2.1⟩

/-- A path whose clean form is the absolute path with the plain elements
`rc` starts with `/`, and its elements fold to `rc`. -/
theorem filepathClean_eq_absPath (root : String) (rc : List String)
    (hrc : ∀ c ∈ rc, PlainName c) (h : filepathClean root = absPath rc) :
    root.data.head? = some '/' ∧
    (splitSlash root.data).foldl (cleanStep true) [] = (rc.map String.data).reverse := by
  have hd := congrArg String.data h
  rw [absPath_data] at hd
  unfold filepathClean at hd
  by_cases h0 : root.data = []
  · simp only [h0, if_true] at hd
    exact absurd (List.cons.inj hd).1 (by decide)
  · simp only [h0, if_false] at hd
    by_cases hr : root.data.head? = some '/'
    · refine ⟨hr, ?_⟩
      simp only [hr, decide_True, if_true, String.data_append, intercalate_data,
        List.map_map] at hd
      have hd' : joinSlash (List.map (String.data ∘ String.mk)
          (List.foldl (cleanStep true) [] (splitSlash root.data)).reverse)
          = joinSlash (rc.map String.data) := by
        exact (List.cons.inj hd).2
      have hid : (String.data ∘ String.mk) = id := rfl
      rw [hid, List.map_id] at hd'
      have hgood := foldl_cleanStep_good true (splitSlash root.data)
        (splitSlash_noslash_mem _) [] (by simp)
      have := joinSlash_injective _ _
        (fun c hc => hgood c (List.mem_reverse.1 hc)) (plain_good rc hrc) hd'
      rw [← this, List.reverse_reverse]
    · exfalso
      simp only [hr, decide_False, Bool.false_eq_true, if_false] at hd
      have hgood := foldl_cleanStep_good false (splitSlash root.data)
        (splitSlash_noslash_mem _) [] (by simp)
      split at hd
      · exact absurd (List.cons.inj hd).1 (by decide)
      · rw [intercalate_data, List.map_map] at hd
        have hid : (String.data ∘ String.mk) = id := rfl
        rw [hid, List.map_id] at hd
        cases hF : (List.foldl (cleanStep false) [] (splitSlash root.data)).reverse with
        | nil =>
          rw [hF] at hd
          exact absurd hd (by simp [joinSlash])
        | cons c l =>
          rw [hF, joinSlash_eq_flatten] at hd
          have hc := hgood c (List.mem_reverse.1 (by rw [hF]; simp))
          cases c with
          | nil => exact hc.1 rfl
          | cons x c =>
            have hx : x = '/' := (List.cons.inj hd).1
            exact hc.2 (by simp [hx])

/-- Joining a plain element to a path whose clean form is `absPath rc`. -/
theorem filepathJoin_of_clean (root : String) (rc : List String)
    (hrc : ∀ c ∈ rc, PlainName c) (h : filepathClean root = absPath rc)
    (x : String) (hx : PlainName x) :
    filepathJoin root x = absPath (rc ++ [x]) := by
  obtain ⟨hhead, hfold⟩ := filepathClean_eq_absPath root rc hrc h
  have hne : root ≠ "" := by
    intro e
    rw [e] at hhead
    exact absurd hhead (by decide)
  have hdata : (root ++ "/" ++ x).data = root.data ++ '/' :: x.data := by
    simp only [String.data_append]
    simp
  have hhead' : (root.data ++ '/' :: x.data).head? = some '/' := by
    cases hr : root.data with
    | nil => rfl
    | cons a t =>
      rw [hr] at hhead
      simpa using hhead
  have hnil : root.data ++ '/' :: x.data ≠ [] := by simp
  simp only [filepathJoin, hne, ne_eq, not_false_eq_true, if_true]
  simp only [filepathClean, hdata, hnil, if_false, hhead', decide_True, if_true,
    splitSlash_append_slash root.data x.data hx.2.1, List.foldl_append, hfold,
    List.foldl_cons, List.foldl_nil, cleanStep_plain true _ x hx, List.reverse_cons,
    List.reverse_reverse, List.map_append, map_mk_map_data, List.map_cons, List.map_nil]
  rfl

theorem shellsBelow_snoc (fileExists : String → Bool) (rc ds : List String) (d : String) :
    shellsBelow fileExists rc (ds ++ [d])
      = shellsBelow fileExists rc ds ++
        (if fileExists (absPath (rc ++ (ds ++ [d]) ++ ["shell.js"]))
          then [absPath (rc ++ (ds ++ [d]) ++ ["shell.js"])] else []) := by
  have hmap : (List.range ds.length).map
        (fun k => absPath (rc ++ (ds ++ [d]).take (k + 1) ++ ["shell.js"]))
      = (List.range ds.length).map
        (fun k => absPath (rc ++ ds.take (k + 1) ++ ["shell.js"])) := by
    apply List.map_congr_left
    intro k hk
    have hk' : k + 1 ≤ ds.length := List.mem_range.1 hk
    rw [List.take_append_of_le_length hk']
  have hlast : (ds ++ [d]).take (ds.length + 1) = ds ++ [d] :=
    List.take_of_length_le (by simp)
  simp only [shellsBelow, List.length_append, List.length_singleton, List.range_succ,
    List.map_append, List.filter_append, hmap, List.map_cons, List.map_nil, hlast]
  congr 1
  generalize absPath (rc ++ (ds ++ [d]) ++ ["shell.js"]) = sp
  cases h : fileExists sp <;> simp [List.filter, h]

theorem shellCandidates_filter (fileExists : String → Bool) (rc ds : List String) :
    (shellCandidates rc ds).filter fileExists
      = (if fileExists (absPath (rc ++ ["shell.js"]))
          then [absPath (rc ++ ["shell.js"])] else []) ++ shellsBelow fileExists rc ds := by
  simp only [shellCandidates, shellsBelow, List.range_succ_eq_map, List.map_cons,
    List.take_zero, List.append_nil, List.map_map, List.filter_cons]
  cases fileExists (absPath (rc ++ ["shell.js"])) <;> simp <;> rfl

/-- The directory walk from `rc ++ ds` up to the base directory `rc` ends
within `ds.length + 1` steps and has then recorded the existing `shell.js`
files below the base directory, innermost first. -/
theorem shellWalk_absPath (fileExists : String → Bool) (rc : List String)
    (hrc : ∀ c ∈ rc, PlainName c) (ds : List String) :
    (∀ c ∈ ds, PlainName c) → ∀ (fuel : Nat), ds.length < fuel → ∀ (acc : List String),
      shellWalk fileExists (absPath rc) fuel (absPath (rc ++ ds)) acc
        = some (absPath rc, acc ++ (shellsBelow fileExists rc ds).reverse) := by
  induction ds using List.reverseRecOn with
  | nil =>
    intro _ fuel hfuel acc
    cases fuel with
    | zero => exact absurd hfuel (by simp)
    | succ fuel => simp [shellWalk, shellsBelow]
  | append_singleton ds d ih =>
    intro hds fuel hfuel acc
    have hds' : ∀ c ∈ ds, PlainName c := fun c hc => hds c (by simp [hc])
    have hd : PlainName d := hds d (by simp)
    have hall : ∀ c ∈ rc ++ ds, PlainName c := by
      intro c hc
      rcases List.mem_append.1 hc with hc | hc
      · exact hrc c hc
      · exact hds' c hc
    have hall' : ∀ c ∈ rc ++ (ds ++ [d]), PlainName c := by
      intro c hc
      rcases List.mem_append.1 hc with hc | hc
      · exact hrc c hc
      · exact hds c hc
    cases fuel with
    | zero => exact absurd hfuel (by simp)
    | succ fuel =>
      have hfuel' : ds.length < fuel := by
        simp only [List.length_append, List.length_singleton] at hfuel
        omega
      rw [shellWalk_step fileExists _ _ fuel acc
        (absPath_append_ne rc (ds ++ [d]) hds (by simp))]
      rw [filepathJoin_absPath _ hall' "shell.js" (by decide)]
      have hup : filepathClean (filepathJoin (absPath (rc ++ (ds ++ [d]))) "../")
          = absPath (rc ++ ds) := by
        rw [← List.append_assoc]
        exact filepathClean_parent (rc ++ ds) hall d hd
      rw [hup, ih hds' fuel hfuel', shellsBelow_snoc]
      cases fileExists (absPath (rc ++ (ds ++ [d]) ++ ["shell.js"])) <;> simp

/-- The function `get_shelljs_paths` on a test that lies under the base
directory: the paths are recorded innermost first, the base directory's
`shell.js` last, and its absence is the only error. -/
theorem get_shelljs_paths_under (fuel : Nat) (fileExists : String → Bool)
    (testBaseDir testPath : String) (rc ds : List String) (f : String)
    (hroot : filepathClean testBaseDir = absPath rc)
    (hpath : filepathClean testPath = absPath (rc ++ ds ++ [f]))
    (hrc : ∀ c ∈ rc, PlainName c) (hds : ∀ c ∈ ds, PlainName c) (hf : PlainName f)
    (hfuel : ds.length < fuel) :
    get_shelljs_paths fuel fileExists testBaseDir testPath =
      if fileExists (absPath (rc ++ ["shell.js"])) then
        some (.ok (((shellCandidates rc ds).filter fileExists).reverse))
      else some (.error (absPath (rc ++ ["shell.js"]) ++ " should exist, but doesn't")) := by
  have hall : ∀ c ∈ rc ++ ds, PlainName c := by
    intro c hc
    rcases List.mem_append.1 hc with hc | hc
    · exact hrc c hc
    · exact hds c hc
  have hp : filepathHasPrefix (absPath (rc ++ ds ++ [f])) (absPath rc) = true := by
    rw [List.append_assoc]
    exact filepathHasPrefix_absPath rc (ds ++ [f])
  simp only [get_shelljs_paths, hroot, hpath, hp, Bool.not_true, Bool.false_eq_true, if_false,
    filepathDir_absPath (rc ++ ds) hall f hf,
    shellWalk_absPath fileExists rc hrc ds hds fuel hfuel [],
    filepathJoin_absPath rc hrc "shell.js" (by decide), shellCandidates_filter]
  cases fileExists (absPath (rc ++ ["shell.js"])) <;> simp

theorem foldl_append_acc (l : List String) (acc : String) :
    l.foldl (fun r s => r ++ s) acc = acc ++ l.foldl (fun r s => r ++ s) "" := by
  induction l generalizing acc with
  | nil => simp
  | cons a l ih =>
    simp only [List.foldl_cons]
    rw [ih (acc ++ a), ih ("" ++ a)]
    simp [String.append_assoc]

theorem writeArgs_eq (piece : String → String) (argBuf : String) (args : List String) :
    writeArgs piece argBuf args = argBuf ++ String.join (args.reverse.map piece) := by
  simp only [writeArgs, String.join]
  generalize args.reverse = l
  induction l generalizing argBuf with
  | nil => simp
  | cons a l ih =>
    simp only [List.foldl_cons, List.map_cons]
    rw [ih, foldl_append_acc _ ("" ++ piece a)]
    simp [String.append_assoc]

theorem absPath_snoc_append (cs : List String) (x y : String) :
    absPath (cs ++ [x ++ y]) = absPath (cs ++ [x]) ++ y := by
  apply String.ext
  simp only [String.data_append, absPath_data, List.map_append, List.map_cons, List.map_nil]
  cases cs with
  | nil => simp [joinSlash]
  | cons c cs =>
    rw [joinSlash_append _ _ (by simp) (by simp), joinSlash_append _ _ (by simp) (by simp)]
    simp [joinSlash]

/-- C17. For a test `testPath` that lies under the base directory (the clean
base directory is the absolute path with the plain elements `rc`, the clean test
path continues it with the directories `ds` and the file name `f`), given fuel
for the `ds.length + 1` steps of the walk, `FFJsRefTest` returns an error when
the base directory has no `shell.js`, and otherwise exactly `--fuzzing-safe `,
then `-f <dir>/shell.js ` for each directory from the base directory down to the
directory of the test whose `shell.js` exists, from the base directory inward,
then `-f <testPath>`. -/
theorem FFJsRefTest_output (fuel : Nat) (fileExists : String → Bool)
    (testBaseDir testPath : String) (rc ds : List String) (f : String)
    (hroot : filepathClean testBaseDir = absPath rc)
    (hpath : filepathClean testPath = absPath (rc ++ ds ++ [f]))
    (hrc : ∀ c ∈ rc, PlainName c) (hds : ∀ c ∈ ds, PlainName c) (hf : PlainName f)
    (hfuel : ds.length < fuel) :
    FFJsRefTest fuel fileExists testBaseDir testPath =
      if fileExists (absPath (rc ++ ["shell.js"])) then
        some (.ok ("--fuzzing-safe " ++
          String.join (((shellCandidates rc ds).filter fileExists).map
            (fun p => "-f " ++ p ++ " ")) ++
          "-f " ++ testPath))
      else some (.error (absPath (rc ++ ["shell.js"]) ++ " should exist, but doesn't")) := by
  simp only [FFJsRefTest,
    get_shelljs_paths_under fuel fileExists testBaseDir testPath rc ds f hroot hpath hrc hds hf
      hfuel]
  cases fileExists (absPath (rc ++ ["shell.js"]))
  · simp
  · simp [writeArgs_eq, String.append_assoc]

theorem FFJsRefTest_output_witness :
    FFJsRefTest 3 (fun p => decide (p ≠ "/a/b/c/shell.js")) "/a/b/" "/a/b/c/./d/x.js"
      = some (.ok "--fuzzing-safe -f /a/b/shell.js -f /a/b/c/d/shell.js -f /a/b/c/./d/x.js") :=
  (FFJsRefTest_output 3 (fun p => decide (p ≠ "/a/b/c/shell.js")) "/a/b/" "/a/b/c/./d/x.js"
    ["a", "b"] ["c", "d"] "x.js" (by decide) (by decide) (by decide) (by decide) (by decide)
    (by decide)).trans rfl

/-- The generator `FFJsRefTest_IonEager` differs from `FFJsRefTest` in its
first token only. -/
theorem FFJsRefTest_IonEager_output (fuel : Nat) (fileExists : String → Bool)
    (testBaseDir testPath : String) (rc ds : List String) (f : String)
    (hroot : filepathClean testBaseDir = absPath rc)
    (hpath : filepathClean testPath = absPath (rc ++ ds ++ [f]))
    (hrc : ∀ c ∈ rc, PlainName c) (hds : ∀ c ∈ ds, PlainName c) (hf : PlainName f)
    (hfuel : ds.length < fuel) :
    FFJsRefTest_IonEager fuel fileExists testBaseDir testPath =
      if fileExists (absPath (rc ++ ["shell.js"])) then
        some (.ok ("--fuzzing-safe --ion-eager " ++
          String.join (((shellCandidates rc ds).filter fileExists).map
            (fun p => "-f " ++ p ++ " ")) ++
          "-f " ++ testPath))
      else some (.error (absPath (rc ++ ["shell.js"]) ++ " should exist, but doesn't")) := by
  simp only [FFJsRefTest_IonEager,
    get_shelljs_paths_under fuel fileExists testBaseDir testPath rc ds f hroot hpath hrc hds hf
      hfuel]
  cases fileExists (absPath (rc ++ ["shell.js"]))
  · simp
  · simp [writeArgs_eq, String.append_assoc]

/-- C18. For a test that lies under the base directory (as in C17) whose base
directory has a `shell.js`, `D8JsRefTest` returns `--expose_gc --harmony `, the
path of `ffshellfuncs.js` in the base directory, then the existing `shell.js`
paths from the base directory inward, without any `-f`, then the test path, all
separated by single spaces. -/
theorem D8JsRefTest_output (fuel : Nat) (fileExists : String → Bool)
    (testBaseDir testPath : String) (rc ds : List String) (f : String)
    (hroot : filepathClean testBaseDir = absPath rc)
    (hpath : filepathClean testPath = absPath (rc ++ ds ++ [f]))
    (hrc : ∀ c ∈ rc, PlainName c) (hds : ∀ c ∈ ds, PlainName c) (hf : PlainName f)
    (hfuel : ds.length < fuel)
    (hshell : fileExists (absPath (rc ++ ["shell.js"])) = true) :
    D8JsRefTest fuel fileExists testBaseDir testPath =
      some (.ok ("--expose_gc --harmony " ++ absPath (rc ++ ["ffshellfuncs.js"]) ++ " " ++
        String.join (((shellCandidates rc ds).filter fileExists).map (fun p => p ++ " ")) ++
        testPath)) := by
  have hj : filepathJoin testBaseDir "ffshellfuncs.js "
      = absPath (rc ++ ["ffshellfuncs.js"]) ++ " " := by
    rw [filepathJoin_of_clean testBaseDir rc hrc hroot "ffshellfuncs.js " (by decide)]
    exact absPath_snoc_append rc "ffshellfuncs.js" " "
  simp only [D8JsRefTest,
    get_shelljs_paths_under fuel fileExists testBaseDir testPath rc ds f hroot hpath hrc hds hf
      hfuel, hshell, if_true, hj, writeArgs_eq, List.reverse_reverse]
  simp [String.append_assoc]

theorem D8JsRefTest_output_witness :
    D8JsRefTest 3 (fun p => decide (p ≠ "/a/b/c/shell.js")) "/a/b/" "/a/b/c/d/x.js"
      = some (.ok
          "--expose_gc --harmony /a/b/ffshellfuncs.js /a/b/shell.js /a/b/c/d/shell.js /a/b/c/d/x.js") :=
  (D8JsRefTest_output 3 (fun p => decide (p ≠ "/a/b/c/shell.js")) "/a/b/" "/a/b/c/d/x.js"
    ["a", "b"] ["c", "d"] "x.js" (by decide) (by decide) (by decide) (by decide) (by decide)
    (by decide) (by decide)).trans rfl

/-- For a test file that lies directly in the base directory
(its clean path is the clean base directory followed by one plain file name),
with the base directory's `shell.js` existing, the walk records exactly that
one `shell.js`, and the output of each generator names it once and no other
`shell.js` path. -/
theorem generators_file_in_base_directory (fuel : Nat) (fileExists : String → Bool)
    (testBaseDir testPath : String) (rc : List String) (f : String)
    (hroot : filepathClean testBaseDir = absPath rc)
    (hpath : filepathClean testPath = absPath (rc ++ [f]))
    (hrc : ∀ c ∈ rc, PlainName c) (hf : PlainName f) (hfuel : 0 < fuel)
    (hshell : fileExists (absPath (rc ++ ["shell.js"])) = true) :
    get_shelljs_paths fuel fileExists testBaseDir testPath
      = some (.ok [absPath (rc ++ ["shell.js"])]) ∧
    FFJsRefTest fuel fileExists testBaseDir testPath
      = some (.ok ("--fuzzing-safe -f " ++ absPath (rc ++ ["shell.js"]) ++ " -f " ++
          testPath)) ∧
    FFJsRefTest_IonEager fuel fileExists testBaseDir testPath
      = some (.ok ("--fuzzing-safe --ion-eager -f " ++ absPath (rc ++ ["shell.js"]) ++
          " -f " ++ testPath)) ∧
    D8JsRefTest fuel fileExists testBaseDir testPath
      = some (.ok ("--expose_gc --harmony " ++ absPath (rc ++ ["ffshellfuncs.js"]) ++ " " ++
          absPath (rc ++ ["shell.js"]) ++ " " ++ testPath)) := by
  have hg : get_shelljs_paths fuel fileExists testBaseDir testPath
      = some (.ok [absPath (rc ++ ["shell.js"])]) := by
    rw [get_shelljs_paths_under fuel fileExists testBaseDir testPath rc [] f hroot
      (by simpa using hpath) hrc (by simp) hf (by simpa using hfuel)]
    simp [shellCandidates, hshell]
  have hj : filepathJoin testBaseDir "ffshellfuncs.js "
      = absPath (rc ++ ["ffshellfuncs.js"]) ++ " " := by
    rw [filepathJoin_of_clean testBaseDir rc hrc hroot "ffshellfuncs.js " (by decide)]
    exact absPath_snoc_append rc "ffshellfuncs.js" " "
  refine ⟨hg, ?_, ?_, ?_⟩
  · simp only [FFJsRefTest, hg, writeArgs, List.reverse_singleton, List.foldl_cons,
      List.foldl_nil]
    have e1 : ("--fuzzing-safe -f " : String) = "--fuzzing-safe " ++ "-f " := by decide
    have e2 : (" -f " : String) = " " ++ "-f " := by decide
    rw [e1, e2]
    simp only [String.append_assoc]
  · simp only [FFJsRefTest_IonEager, hg, writeArgs, List.reverse_singleton, List.foldl_cons,
      List.foldl_nil]
    have e1 : ("--fuzzing-safe --ion-eager -f " : String)
        = "--fuzzing-safe --ion-eager " ++ "-f " := by decide
    have e2 : (" -f " : String) = " " ++ "-f " := by decide
    rw [e1, e2]
    simp only [String.append_assoc]
  · simp only [D8JsRefTest, hg, hj, writeArgs, List.reverse_singleton, List.foldl_cons,
      List.foldl_nil]
    have e1 : ("--expose_gc --harmony " : String) = "--expose_gc " ++ "--harmony " := by decide
    rw [e1]
    simp only [String.append_assoc]

theorem generators_file_in_base_directory_witness :
    FFJsRefTest 1 (fun _ => true) "/a/b" "/a/b/x.js"
      = some (.ok "--fuzzing-safe -f /a/b/shell.js -f /a/b/x.js") :=
  (generators_file_in_base_directory 1 (fun _ => true) "/a/b" "/a/b/x.js" ["a", "b"] "x.js"
    (by decide) (by decide) (by decide) (by decide) (by decide) rfl).2.1.trans rfl

/-! ## Saving and resuming a session -/

theorem decodeGeneral_marshal (g cur : GeneralConfig) :
    decodeGeneral (marshalGeneral g) cur = some g := by
  simp [decodeGeneral, marshalGeneral, decodeStruct, findField, decodeInt, decodeBool]

theorem char_toNat_valid (c : Char) :
    c.toNat < 0xD800 ∨ (0xDFFF < c.toNat ∧ c.toNat < 0x110000) := by
  have h := c.valid
  simp only [UInt32.isValidChar, Nat.isValidChar] at h
  exact h

/-- Reading back the encoding of a character gives the character. -/
theorem utf8LossyAux_encodeRune (c : Char) (rest : GoBytes) :
    utf8LossyAux 0 (encodeRune c ++ rest) = c :: utf8LossyAux 0 rest := by
  unfold encodeRune
  have hv := char_toNat_valid c
  have hc : Char.ofNat c.toNat = c := Char.ofNat_toNat c
  generalize c.toNat = n at hv hc ⊢
  by_cases h1 : n < 0x80
  · simp only [if_pos h1, List.cons_append, List.nil_append, utf8LossyAux, decodeRune, hc,
      Nat.sub_self]
  · rw [if_neg h1]
    by_cases h2 : n < 0x800
    · have a0 : ¬ (0xC0 + n / 64 < 0x80) := by omega
      have a1 : ¬ (0xC0 + n / 64 < 0xC2) := by omega
      have a2 : 0xC0 + n / 64 < 0xE0 := by omega
      have a3 : 0x80 ≤ 0x80 + n % 64 ∧ 0x80 + n % 64 ≤ 0xBF := by omega
      have a4 : (0xC0 + n / 64) % 32 * 64 + (0x80 + n % 64) % 64 = n := by omega
      simp only [if_pos h2, List.cons_append, List.nil_append, utf8LossyAux, decodeRune,
        if_neg a0, if_neg a1, if_pos a2, if_pos a3, a4, hc]
    · rw [if_neg h2]
      by_cases h3 : n < 0x10000
      · have a0 : ¬ (0xE0 + n / 4096 < 0x80) := by omega
        have a1 : ¬ (0xE0 + n / 4096 < 0xC2) := by omega
        have a2 : ¬ (0xE0 + n / 4096 < 0xE0) := by omega
        have a3 : 0xE0 + n / 4096 < 0xF0 := by omega
        have a4 : (if 0xE0 + n / 4096 = 0xE0 then 0xA0 else 0x80) ≤ 0x80 + n / 64 % 64 ∧
            0x80 + n / 64 % 64 ≤ (if 0xE0 + n / 4096 = 0xED then 0x9F else 0xBF) ∧
            0x80 ≤ 0x80 + n % 64 ∧ 0x80 + n % 64 ≤ 0xBF := by
          split_ifs <;> omega
        have a5 : (0xE0 + n / 4096) % 16 * 4096 + (0x80 + n / 64 % 64) % 64 * 64
            + (0x80 + n % 64) % 64 = n := by omega
        simp only [if_pos h3, List.cons_append, List.nil_append, utf8LossyAux, decodeRune,
          if_neg a0, if_neg a1, if_neg a2, if_pos a3, if_pos a4, a5, hc]
      · have a0 : ¬ (0xF0 + n / 262144 < 0x80) := by omega
        have a1 : ¬ (0xF0 + n / 262144 < 0xC2) := by omega
        have a2 : ¬ (0xF0 + n / 262144 < 0xE0) := by omega
        have a3 : ¬ (0xF0 + n / 262144 < 0xF0) := by omega
        have a4 : 0xF0 + n / 262144 < 0xF5 := by omega
        have a5 : (if 0xF0 + n / 262144 = 0xF0 then 0x90 else 0x80) ≤ 0x80 + n / 4096 % 64 ∧
            0x80 + n / 4096 % 64 ≤ (if 0xF0 + n / 262144 = 0xF4 then 0x8F else 0xBF) ∧
            0x80 ≤ 0x80 + n / 64 % 64 ∧ 0x80 + n / 64 % 64 ≤ 0xBF ∧
            0x80 ≤ 0x80 + n % 64 ∧ 0x80 + n % 64 ≤ 0xBF := by
          split_ifs <;> omega
        have a6 : (0xF0 + n / 262144) % 8 * 262144 + (0x80 + n / 4096 % 64) % 64 * 4096
            + (0x80 + n / 64 % 64) % 64 * 64 + (0x80 + n % 64) % 64 = n := by omega
        simp only [if_neg h3, List.cons_append, List.nil_append, utf8LossyAux, decodeRune,
          if_neg a0, if_neg a1, if_neg a2, if_neg a3, if_pos a4, if_pos a5, a6, hc]

theorem utf8LossyAux_utf8BytesAux (cs : List Char) :
    utf8LossyAux 0 (utf8BytesAux cs) = cs := by
  induction cs with
  | nil => rfl
  | cons c cs ih => rw [utf8BytesAux, utf8LossyAux_encodeRune, ih]

/-- A JSON string that is written as a Go string and read again is the same
JSON string. -/
theorem utf8Lossy_utf8Bytes (s : String) : utf8Lossy (utf8Bytes s) = s := by
  unfold utf8Lossy utf8Bytes
  rw [utf8LossyAux_utf8BytesAux]

/-- A valid UTF-8 Go string comes back from JSON as it was. -/
theorem jsonCoerce_of_valid (b : GoBytes) (h : ValidUTF8 b) : jsonCoerce b = b := by
  obtain ⟨s, rfl⟩ := h
  unfold jsonCoerce
  rw [utf8Lossy_utf8Bytes]

/-- The byte `0xFF` comes back from JSON as the three bytes of U+FFFD. -/
theorem jsonCoerce_invalid_byte : jsonCoerce [0xFF] = [0xEF, 0xBF, 0xBD] := by
  decide

theorem rawGet?_set_self (m : RawMap) (k : GoBytes) (v : Int) :
    RawMap.get? (RawMap.set m k v) k = some v := by
  induction m with
  | nil => simp [RawMap.set, RawMap.get?]
  | cons e m ih =>
    obtain ⟨k', w⟩ := e
    by_cases h : k' = k
    · simp [RawMap.set, RawMap.get?, h]
    · simp [RawMap.set, RawMap.get?, h, ih]

theorem rawGet?_set_ne (m : RawMap) (k k' : GoBytes) (v : Int) (h : k ≠ k') :
    RawMap.get? (RawMap.set m k v) k' = RawMap.get? m k' := by
  induction m with
  | nil => simp [RawMap.set, RawMap.get?, h]
  | cons e m ih =>
    obtain ⟨k0, w⟩ := e
    by_cases h0 : k0 = k
    · subst h0
      simp [RawMap.set, RawMap.get?, h]
    · by_cases h1 : k0 = k'
      · subst h1
        simp [RawMap.set, RawMap.get?, h0]
      · simp [RawMap.set, RawMap.get?, h0, h1, ih]

theorem decodeRawMap_members (f : GoBytes → Int) (ks : List GoBytes) (m0 : RawMap) :
    (ks.map (fun k => (utf8Lossy k, Json.num (f k)))).foldlM
        (fun m kv => (decodeInt kv.2 0).map (fun n => RawMap.set m (utf8Bytes kv.1) n)) m0
      = some (ks.foldl (fun acc k => RawMap.set acc (jsonCoerce k) (f k)) m0) := by
  induction ks generalizing m0 with
  | nil => rfl
  | cons k ks ih =>
    simp only [List.map_cons, List.foldlM_cons, decodeInt, Option.map_some', Option.bind_eq_bind,
      Option.some_bind, List.foldl_cons]
    exact ih _

theorem decodeRawMap_marshal (m : RawMap) :
    decodeRawMap (marshalRawMap m) [] = some (rebuiltRawMap m) := by
  simp only [decodeRawMap, marshalRawMap, rebuiltRawMap]
  exact decodeRawMap_members (RawMap.getD m) (sortedRawKeys m) []

theorem decodeRawMapPtr_marshal (m : Option RawMap) :
    decodeRawMapPtr (match m with
                     | none => Json.null
                     | some m => marshalRawMap m) none = some (m.map rebuiltRawMap) := by
  cases m with
  | none => rfl
  | some m =>
    simp only [decodeRawMapPtr, marshalRawMap]
    rw [← marshalRawMap]
    simp only [Option.getD_none, decodeRawMap_marshal]
    rfl

theorem rawGet?_foldl_set (g : GoBytes → GoBytes) (f : GoBytes → Int) (ks : List GoBytes)
    (hg : ∀ k ∈ ks, g k = k) (m0 : RawMap) (q : GoBytes) :
    RawMap.get? (ks.foldl (fun acc k => RawMap.set acc (g k) (f k)) m0) q
      = if q ∈ ks then some (f q) else RawMap.get? m0 q := by
  induction ks generalizing m0 with
  | nil => simp
  | cons a ks ih =>
    have hga : g a = a := hg a (List.mem_cons_self a ks)
    rw [List.foldl_cons, ih (fun k hk => hg k (List.mem_cons_of_mem a hk)), hga]
    by_cases hk : q ∈ ks
    · simp [hk]
    · by_cases ha : a = q
      · subst ha
        simp [hk, rawGet?_set_self]
      · have hne : ¬ q = a := fun e => ha e.symm
        simp [hk, hne, rawGet?_set_ne m0 a q (f a) ha]

theorem rawGet?_of_mem_keys (m : RawMap) (k : GoBytes) (h : k ∈ m.map Prod.fst) :
    RawMap.get? m k = some (RawMap.getD m k) := by
  induction m with
  | nil => simp at h
  | cons e m ih =>
    obtain ⟨k', v⟩ := e
    by_cases hk : k' = k
    · simp [RawMap.getD, RawMap.get?, hk]
    · have hm : k ∈ m.map Prod.fst := by
        simp only [List.map_cons, List.mem_cons] at h
        rcases h with h | h
        · exact absurd h.symm hk
        · exact h
      have := ih hm
      simp only [RawMap.getD, RawMap.get?, hk, if_false] at this ⊢
      exact this

theorem rawGet?_of_not_mem_keys (m : RawMap) (k : GoBytes) (h : k ∉ m.map Prod.fst) :
    RawMap.get? m k = none := by
  induction m with
  | nil => rfl
  | cons e m ih =>
    obtain ⟨k', v⟩ := e
    simp only [List.map_cons, List.mem_cons, not_or] at h
    have hk : ¬ k' = k := fun e => h.1 e.symm
    simp only [RawMap.get?, hk, if_false]
    exact ih h.2

theorem mem_sortedRawKeys (m : RawMap) (k : GoBytes) :
    k ∈ sortedRawKeys m ↔ k ∈ m.map Prod.fst := by
  unfold sortedRawKeys
  rw [(List.perm_insertionSort _ _).mem_iff, List.mem_dedup]

/-- A map whose keys are valid UTF-8 is rebuilt with the entries it had. -/
theorem get?_rebuiltRawMap (m : RawMap) (hvalid : ∀ k ∈ m.map Prod.fst, ValidUTF8 k)
    (q : GoBytes) : RawMap.get? (rebuiltRawMap m) q = RawMap.get? m q := by
  unfold rebuiltRawMap
  rw [rawGet?_foldl_set jsonCoerce _ _
    (fun k hk => jsonCoerce_of_valid k (hvalid k ((mem_sortedRawKeys m k).1 hk)))]
  by_cases hk : q ∈ m.map Prod.fst
  · rw [if_pos ((mem_sortedRawKeys m q).2 hk), rawGet?_of_mem_keys m q hk]
  · rw [if_neg (fun h => hk ((mem_sortedRawKeys m q).1 h)), rawGet?_of_not_mem_keys m q hk]
    rfl

theorem decodeBytesList_marshal (l : List GoBytes) :
    decodeBytesList (marshalBytesList l) = some (l.map jsonCoerce) := by
  simp only [decodeBytesList, marshalBytesList]
  induction l with
  | nil => rfl
  | cons a l ih =>
    simp only [List.map_cons, List.mapM_cons]
    rw [ih]
    rfl

theorem map_jsonCoerce_of_valid (l : List GoBytes) (h : ∀ e ∈ l, ValidUTF8 e) :
    l.map jsonCoerce = l := by
  induction l with
  | nil => rfl
  | cons a l ih =>
    rw [List.map_cons, jsonCoerce_of_valid a (h a (List.mem_cons_self a l)),
      ih (fun e he => h e (List.mem_cons_of_mem a he))]

theorem decodeRawSeedTests_marshal (t cur : RawSeedTestsConfig) :
    decodeRawSeedTests (marshalRawSeedTests t) cur
      = some { Dir := jsonCoerce t.Dir, ValidExts := t.ValidExts.map jsonCoerce,
               ListFile := jsonCoerce t.ListFile } := by
  simp [decodeRawSeedTests, marshalRawSeedTests, decodeStruct, findField, decodeBytes,
    marshalBytes, decodeBytesList_marshal, jsonCoerce]

theorem decodeRawTestProcessing_marshal (t cur : RawTestProcessingConfig) :
    decodeRawTestProcessing (marshalRawTestProcessing t) cur
      = some { t with Fuzzer := jsonCoerce t.Fuzzer, Mode := jsonCoerce t.Mode } := by
  simp [decodeRawTestProcessing, marshalRawTestProcessing, decodeStruct, findField, decodeBytes,
    marshalBytes, decodeInt, decodeBool, jsonCoerce]

theorem decodeRawRadamsa_marshal (r cur : RawRadamsaConfig) :
    decodeRawRadamsa (marshalRawRadamsa r) cur
      = some { Mutations := jsonCoerce r.Mutations } := by
  simp [decodeRawRadamsa, marshalRawRadamsa, decodeStruct, findField, decodeBytes,
    marshalBytes, jsonCoerce]

theorem decodeRawInterpreter_marshal (i cur : RawInterpreterConfig) :
    decodeRawInterpreter (marshalRawInterpreter i) cur
      = some { i with Path := jsonCoerce i.Path, Args := jsonCoerce i.Args,
                      ArgGen := jsonCoerce i.ArgGen,
                      TestCaseRootDir := jsonCoerce i.TestCaseRootDir } := by
  simp [decodeRawInterpreter, marshalRawInterpreter, decodeStruct, findField, decodeBytes,
    marshalBytes, decodeInt, jsonCoerce]

theorem decodeRawConfig_marshal (c cur : RawConfig) :
    decodeRawConfig (marshalRawConfig c) cur = some c.coerced := by
  simp [decodeRawConfig, marshalRawConfig, decodeStruct, findField, decodeGeneral_marshal,
    decodeRawSeedTests_marshal, decodeRawTestProcessing_marshal, decodeRawRadamsa_marshal,
    decodeRawInterpreter_marshal, RawConfig.coerced]

theorem decodeRawConfigPtr_marshal (c : Option RawConfig) (cur : Option RawConfig) :
    decodeRawConfigPtr (match c with
                        | none => Json.null
                        | some c => marshalRawConfig c) cur
      = some (c.map RawConfig.coerced) := by
  cases c with
  | none => rfl
  | some c =>
    simp only [decodeRawConfigPtr, marshalRawConfig]
    rw [← marshalRawConfig, decodeRawConfig_marshal]
    rfl

theorem decodeRawStats_marshal (s : RawStats) :
    decodeRawStats (marshalRawStats s) RawSession.zero.Stats
      = some { CrashCount := s.CrashCount, TestCasesProcessed := s.TestCasesProcessed,
               TimedOutTests := s.TimedOutTests,
               ExitCodeCounts := rebuiltRawMap s.ExitCodeCounts,
               TestCasesProcessedPerSeed := rebuiltRawMap s.TestCasesProcessedPerSeed } := by
  simp [decodeRawStats, marshalRawStats, decodeStruct, findField, decodeInt, RawSession.zero,
    decodeRawMap_marshal]

/-- What `Resume` reads from what `Save` wrote, byte for byte. -/
theorem resumeRaw_marshal (s : RawSession) (d : GoBytes) :
    ResumeRaw d (marshalRawSession s)
      = some { SessionDir := d, TestCasesDir := jsonCoerce s.TestCasesDir,
               PreservationDir := jsonCoerce s.PreservationDir,
               Config := s.Config.map RawConfig.coerced,
               Stats := { CrashCount := s.Stats.CrashCount,
                          TestCasesProcessed := s.Stats.TestCasesProcessed,
                          TimedOutTests := s.Stats.TimedOutTests,
                          ExitCodeCounts := rebuiltRawMap s.Stats.ExitCodeCounts,
                          TestCasesProcessedPerSeed :=
                            rebuiltRawMap s.Stats.TestCasesProcessedPerSeed } } := by
  have hstats := decodeRawStats_marshal s.Stats
  simp only [RawSession.zero] at hstats
  simp [ResumeRaw, decodeRawSession, marshalRawSession, decodeStruct, findField, decodeBytes,
    marshalBytes, decodeRawConfigPtr_marshal, hstats, RawSession.zero, jsonCoerce]

theorem RawConfig.coerced_of_valid (c : RawConfig) (h : c.Valid) : c.coerced = c := by
  obtain ⟨h1, h2, h3, h4, h5, h6, h7, h8, h9, h10⟩ := h
  simp only [RawConfig.coerced, jsonCoerce_of_valid _ h1, map_jsonCoerce_of_valid _ h2,
    jsonCoerce_of_valid _ h3, jsonCoerce_of_valid _ h4, jsonCoerce_of_valid _ h5,
    jsonCoerce_of_valid _ h6, jsonCoerce_of_valid _ h7, jsonCoerce_of_valid _ h8,
    jsonCoerce_of_valid _ h9, jsonCoerce_of_valid _ h10]

/-- C20, amended. For every session `s` on bytes and every directory `d`,
resuming in `d` from what `Save` writes for `s` succeeds and gives a session
with `SessionDir = d`, whatever `s.SessionDir` was, and with the three
counters of `s`; its `TestCasesDir`, its `PreservationDir` and its `Config`
are those of `s` when their strings are valid UTF-8, and each of its two maps
holds at every key what the map of `s` holds when the keys of that map are
valid UTF-8. -/
theorem save_resume_round_trip_bytes (s : RawSession) (d : GoBytes) :
    ∃ s', ResumeRaw d (marshalRawSession s) = some s' ∧
      s'.SessionDir = d ∧
      s'.Stats.CrashCount = s.Stats.CrashCount ∧
      s'.Stats.TestCasesProcessed = s.Stats.TestCasesProcessed ∧
      s'.Stats.TimedOutTests = s.Stats.TimedOutTests ∧
      (ValidUTF8 s.TestCasesDir → s'.TestCasesDir = s.TestCasesDir) ∧
      (ValidUTF8 s.PreservationDir → s'.PreservationDir = s.PreservationDir) ∧
      ((∀ c, s.Config = some c → c.Valid) → s'.Config = s.Config) ∧
      ((∀ k ∈ s.Stats.ExitCodeCounts.map Prod.fst, ValidUTF8 k) →
        ∀ q, RawMap.get? s'.Stats.ExitCodeCounts q = RawMap.get? s.Stats.ExitCodeCounts q) ∧
      ((∀ k ∈ s.Stats.TestCasesProcessedPerSeed.map Prod.fst, ValidUTF8 k) →
        ∀ q, RawMap.get? s'.Stats.TestCasesProcessedPerSeed q
          = RawMap.get? s.Stats.TestCasesProcessedPerSeed q) := by
  refine ⟨_, resumeRaw_marshal s d, rfl, rfl, rfl, rfl, ?_, ?_, ?_, ?_, ?_⟩
  · exact fun h => jsonCoerce_of_valid _ h
  · exact fun h => jsonCoerce_of_valid _ h
  · intro h
    show s.Config.map RawConfig.coerced = s.Config
    cases hc : s.Config with
    | none => rfl
    | some c => rw [Option.map_some', RawConfig.coerced_of_valid c (h c hc)]
  · exact fun h q => get?_rebuiltRawMap _ h q
  · exact fun h q => get?_rebuiltRawMap _ h q

theorem save_resume_round_trip_bytes_witness :
    ∃ s', ResumeRaw (utf8Bytes "/new") (marshalRawSession exampleValidRawSession) = some s' ∧
      s'.SessionDir = utf8Bytes "/new" ∧
      s'.TestCasesDir = exampleValidRawSession.TestCasesDir ∧
      s'.PreservationDir = exampleValidRawSession.PreservationDir ∧
      s'.Config = exampleValidRawSession.Config ∧
      (∀ q, RawMap.get? s'.Stats.ExitCodeCounts q
        = RawMap.get? exampleValidRawSession.Stats.ExitCodeCounts q) ∧
      (∀ q, RawMap.get? s'.Stats.TestCasesProcessedPerSeed q
        = RawMap.get? exampleValidRawSession.Stats.TestCasesProcessedPerSeed q) := by
  obtain ⟨s', h, hd, _, _, _, h1, h2, h3, h4, h5⟩ :=
    save_resume_round_trip_bytes exampleValidRawSession (utf8Bytes "/new")
  refine ⟨s', h, hd, h1 ⟨"/s/test_cases", rfl⟩, h2 ⟨"/s/crashes", rfl⟩, h3 ?_, h4 ?_, h5 ?_⟩
  · intro c hc
    cases hc
  · intro k hk
    simp only [exampleValidRawSession, List.map_cons, List.map_nil, List.mem_singleton] at hk
    exact ⟨"0", hk⟩
  · intro k hk
    simp only [exampleValidRawSession, List.map_cons, List.map_nil, List.mem_singleton] at hk
    exact ⟨"/é.js", hk⟩

/-- C20, counterexample. A session whose test-case directory is the byte
`0xFF` and whose statistics count one case of the seed `/seeds/<0xFF>.js`:
what `Save` writes is read back by `Resume` with the directory `<0xEF 0xBF
0xBD>`, the encoding of U+FFFD, and with no count for that seed. -/
theorem save_resume_loses_invalid_utf8 :
    ∃ s', ResumeRaw [47, 115] (marshalRawSession exampleRawSession) = some s' ∧
      exampleRawSession.TestCasesDir = [0xFF] ∧
      s'.TestCasesDir = [0xEF, 0xBF, 0xBD] ∧
      RawMap.get? exampleRawSession.Stats.TestCasesProcessedPerSeed
        [47, 115, 101, 101, 100, 115, 47, 0xFF, 46, 106, 115] = some 1 ∧
      RawMap.get? s'.Stats.TestCasesProcessedPerSeed
        [47, 115, 101, 101, 100, 115, 47, 0xFF, 46, 106, 115] = none ∧
      RawMap.get? s'.Stats.TestCasesProcessedPerSeed
        [47, 115, 101, 101, 100, 115, 47, 0xEF, 0xBF, 0xBD, 46, 106, 115] = some 1 :=
  ⟨_, resumeRaw_marshal exampleRawSession [47, 115], rfl, by decide, by decide, by decide,
    by decide⟩

/-! ## The manager of the infinite-random mode -/

theorem requestBatch_ok (tp : TestProcessingConfig) (batchSize : Int) (rng : Nat → Nat)
    (pipe : Nat → Request → List TestCase) (st st' : ManagerState)
    (h : requestBatch tp batchSize rng pipe st = .ok st') :
    ∃ req randCalls,
      getMutationRequest tp st.seedFiles batchSize rng st.randCalls = .ok (req, randCalls) ∧
      st' = { st with
        requests := st.requests ++ [req],
        inFlight := st.inFlight ++ pipe st.requests.length req,
        fuzzFilesRequested := st.fuzzFilesRequested + batchSize,
        randCalls := randCalls } := by
  unfold requestBatch at h
  cases hg : getMutationRequest tp st.seedFiles batchSize rng st.randCalls with
  | error f => rw [hg] at h; cases h
  | ok r =>
    obtain ⟨req, randCalls⟩ := r
    rw [hg] at h
    simp only [Except.ok.injEq] at h
    exact ⟨req, randCalls, rfl, h.symm⟩

theorem getMutationRequest_count (tp : TestProcessingConfig) (seeds : List String)
    (batchSize : Int) (rng : Nat → Nat) (randCalls : Nat) (req : Request) (randCalls' : Nat)
    (h : getMutationRequest tp seeds batchSize rng randCalls = .ok (req, randCalls')) :
    req.Count = batchSize := by
  unfold getMutationRequest at h
  by_cases h1 : (!isMultiFileMutator tp.Fuzzer) = true
  · rw [if_pos h1] at h
    by_cases h2 : seeds.length = 0
    · rw [if_pos h2] at h
      cases h
    · rw [if_neg h2] at h
      cases h
      rfl
  · rw [if_neg h1] at h
    dsimp only at h
    by_cases h3 : tp.MultiFileFuzzerSeedCountMax - tp.MultiFileFuzzerSeedCountMin + 1 = 0
    · rw [if_pos h3] at h
      cases h
    · rw [if_neg h3] at h
      split at h
      · cases h
      · cases h
        rfl

theorem runStep_invariant (tp : TestProcessingConfig) (testCount batchSize : Int)
    (rng : Nat → Nat) (pipe : Nat → Request → List TestCase) (Inv : ManagerState → Prop)
    (hrecv : ∀ st i, Inv st → i < st.inFlight.length → Inv (receiveCase st i))
    (hreq : ∀ st st', Inv st →
      st.fuzzFilesRequested - st.stats.TestCasesProcessed ≤ Int.tdiv batchSize REQ_THRESHOLD →
      requestBatch tp batchSize rng pipe st = .ok st' → Inv st')
    (st : ManagerState) (ev : LoopEvent) (hst : Inv st) (st' : ManagerState)
    (h : (runStep tp testCount batchSize rng pipe st ev).state? = some st') : Inv st' := by
  cases ev with
  | error =>
    simp only [runStep, LoopExit.state?, Option.some.injEq] at h
    exact h ▸ hst
  | testCase pick saveOk summaryOk =>
    unfold runStep at h
    by_cases h0 : st.inFlight.length = 0
    · simp [h0, LoopExit.state?] at h
    · have hlt : pick % st.inFlight.length < st.inFlight.length :=
        Nat.mod_lt _ (Nat.pos_of_ne_zero h0)
      have hmid := hrecv st _ hst hlt
      simp only [h0, if_false] at h
      split_ifs at h with h1 h2 h3 h4 h5
      · simp only [LoopExit.state?, Option.some.injEq] at h
        exact h ▸ hmid
      · simp [LoopExit.state?] at h
      · simp only [LoopExit.state?, Option.some.injEq] at h
        exact h ▸ hmid
      · simp only [LoopExit.state?, Option.some.injEq] at h
        exact h ▸ hmid
      · cases hr : requestBatch tp batchSize rng pipe
            (receiveCase st (pick % st.inFlight.length)) with
        | error f => rw [hr] at h; simp [LoopExit.state?] at h
        | ok st1 =>
          rw [hr] at h
          simp only [LoopExit.state?, Option.some.injEq] at h
          exact h ▸ hreq _ _ hmid h5 hr
      · simp only [LoopExit.state?, Option.some.injEq] at h
        exact h ▸ hmid

theorem runLoop_invariant (tp : TestProcessingConfig) (testCount batchSize : Int)
    (rng : Nat → Nat) (pipe : Nat → Request → List TestCase) (Inv : ManagerState → Prop)
    (hrecv : ∀ st i, Inv st → i < st.inFlight.length → Inv (receiveCase st i))
    (hreq : ∀ st st', Inv st →
      st.fuzzFilesRequested - st.stats.TestCasesProcessed ≤ Int.tdiv batchSize REQ_THRESHOLD →
      requestBatch tp batchSize rng pipe st = .ok st' → Inv st')
    (events : List LoopEvent) : ∀ (st : ManagerState), Inv st → ∀ st',
      (runLoop tp testCount batchSize rng pipe st events).state? = some st' → Inv st' := by
  induction events with
  | nil =>
    intro st hst st' h
    simp only [runLoop, LoopExit.state?, Option.some.injEq] at h
    exact h ▸ hst
  | cons ev evs ih =>
    intro st hst st' h
    have hstep := runStep_invariant tp testCount batchSize rng pipe Inv hrecv hreq st ev hst
    unfold runLoop at h
    cases hs : runStep tp testCount batchSize rng pipe st ev with
    | running st1 =>
      rw [hs] at h hstep
      exact ih st1 (hstep st1 rfl) st' h
    | completed st1 => rw [hs] at h hstep; exact hstep st' h
    | aborted st1 => rw [hs] at h hstep; exact hstep st' h
    | panicked f => rw [hs] at h; simp [LoopExit.state?] at h
    | notStarted => rw [hs] at h; simp [LoopExit.state?] at h
    | impossible => rw [hs] at h; simp [LoopExit.state?] at h

/-- An invariant of every state a run of `Run` can be in: it holds after the
first request and is kept by the receipt of a case and by a further request,
which is only made below the threshold. -/
theorem run_invariant (cfg : Config) (stats : Stats) (seedFiles : List String)
    (rng : Nat → Nat) (pipe : Nat → Request → List TestCase) (Inv : ManagerState → Prop)
    (hinit : 0 ≤ runBatchSize cfg → ∀ st,
      requestBatch (runTestProcessing cfg) (runBatchSize cfg) rng pipe
        { seedFiles := seedFiles, fuzzFilesRequested := 0, stats := stats,
          requests := [], inFlight := [], randCalls := 0 } = .ok st → Inv st)
    (hrecv : ∀ st i, Inv st → i < st.inFlight.length → Inv (receiveCase st i))
    (hreq : ∀ st st', Inv st →
      st.fuzzFilesRequested - st.stats.TestCasesProcessed
        ≤ Int.tdiv (runBatchSize cfg) REQ_THRESHOLD →
      requestBatch (runTestProcessing cfg) (runBatchSize cfg) rng pipe st = .ok st' → Inv st')
    (events : List LoopEvent) (st : ManagerState)
    (h : (Run cfg stats seedFiles rng pipe events).state? = some st) : Inv st := by
  unfold Run at h
  by_cases hneg : runBatchSize cfg < 0
  · simp [hneg, LoopExit.state?] at h
  by_cases hstart : startMutatorOk cfg = true
  swap
  · simp [hneg, hstart, LoopExit.state?] at h
  simp only [hneg, hstart, Bool.not_true, Bool.false_eq_true, if_false] at h
  cases hr : requestBatch (runTestProcessing cfg) (runBatchSize cfg) rng pipe
      { seedFiles := seedFiles, fuzzFilesRequested := 0, stats := stats,
        requests := [], inFlight := [], randCalls := 0 } with
  | error f => rw [hr] at h; simp [LoopExit.state?] at h
  | ok st0 =>
    rw [hr] at h
    exact runLoop_invariant _ _ _ rng pipe Inv hrecv hreq events st0
      (hinit (not_lt.mp hneg) st0 hr) st h

theorem runLoop_append (tp : TestProcessingConfig) (testCount batchSize : Int)
    (rng : Nat → Nat) (pipe : Nat → Request → List TestCase) (evs evs' : List LoopEvent) :
    ∀ (st : ManagerState),
      runLoop tp testCount batchSize rng pipe st (evs ++ evs') =
        match runLoop tp testCount batchSize rng pipe st evs with
        | .running st1 => runLoop tp testCount batchSize rng pipe st1 evs'
        | r => r := by
  induction evs with
  | nil => intro st; rfl
  | cons ev evs ih =>
    intro st
    simp only [List.cons_append, runLoop]
    cases hs : runStep tp testCount batchSize rng pipe st ev with
    | running st1 => exact ih st1
    | completed st1 => rfl
    | aborted st1 => rfl
    | panicked f => rfl
    | notStarted => rfl
    | impossible => rfl

theorem coverAllLoop_append (batchSize : Int) (rng : Nat → Nat)
    (pipe : Nat → Request → List TestCase) (evs evs' : List LoopEvent) :
    ∀ (st : ManagerState),
      coverAllLoop batchSize rng pipe st (evs ++ evs') =
        match coverAllLoop batchSize rng pipe st evs with
        | .running st1 => coverAllLoop batchSize rng pipe st1 evs'
        | r => r := by
  induction evs with
  | nil => intro st; rfl
  | cons ev evs ih =>
    intro st
    simp only [List.cons_append, coverAllLoop]
    cases hs : coverAllStep batchSize rng pipe st ev with
    | running st1 => exact ih st1
    | completed st1 => rfl
    | aborted st1 => rfl
    | panicked f => rfl
    | notStarted => rfl
    | impossible => rfl

/-- A run of `Run` that is in its loop has a batch size that is not negative,
and one more event is one more iteration of the loop. -/
theorem run_snoc (cfg : Config) (stats : Stats) (seedFiles : List String)
    (rng : Nat → Nat) (pipe : Nat → Request → List TestCase) (events : List LoopEvent)
    (st : ManagerState) (ev : LoopEvent)
    (h : Run cfg stats seedFiles rng pipe events = .running st) :
    0 ≤ runBatchSize cfg ∧
    Run cfg stats seedFiles rng pipe (events ++ [ev]) =
      runStep (runTestProcessing cfg) cfg.TestProcessing.TestCount (runBatchSize cfg) rng pipe
        st ev := by
  unfold Run at h ⊢
  by_cases hneg : runBatchSize cfg < 0
  · simp [hneg] at h
  by_cases hstart : startMutatorOk cfg = true
  swap
  · simp [hneg, hstart] at h
  simp only [hneg, hstart, Bool.not_true, Bool.false_eq_true, if_false] at h ⊢
  refine ⟨not_lt.mp hneg, ?_⟩
  cases hr : requestBatch (runTestProcessing cfg) (runBatchSize cfg) rng pipe
      { seedFiles := seedFiles, fuzzFilesRequested := 0, stats := stats,
        requests := [], inFlight := [], randCalls := 0 } with
  | error f => rw [hr] at h; cases h
  | ok st0 =>
    rw [hr] at h
    dsimp only at h ⊢
    rw [runLoop_append, h]
    dsimp only [runLoop]
    cases runStep (runTestProcessing cfg) cfg.TestProcessing.TestCount (runBatchSize cfg)
      rng pipe st ev <;> rfl

/-- The same for `CoverAllSeedsOnce`. -/
theorem coverAll_snoc (cfg : Config) (stats : Stats) (seedFiles : List String)
    (rng : Nat → Nat) (pipe : Nat → Request → List TestCase) (events : List LoopEvent)
    (st : ManagerState) (ev : LoopEvent)
    (h : CoverAllSeedsOnce cfg stats seedFiles rng pipe events = .running st) :
    0 ≤ cfg.TestProcessing.BatchSize ∧
    CoverAllSeedsOnce cfg stats seedFiles rng pipe (events ++ [ev]) =
      coverAllStep cfg.TestProcessing.BatchSize rng pipe st ev := by
  unfold CoverAllSeedsOnce at h ⊢
  by_cases hneg : cfg.TestProcessing.BatchSize < 0
  · simp [hneg] at h
  by_cases hstart : startMutatorOk cfg = true
  swap
  · simp [hneg, hstart] at h
  by_cases hlen : seedFiles.length = 0
  · simp [hneg, hstart, hlen] at h
  simp only [hneg, hstart, hlen, Bool.not_true, Bool.false_eq_true, if_false] at h ⊢
  refine ⟨not_lt.mp hneg, ?_⟩
  rw [coverAllLoop_append, h]
  dsimp only [coverAllLoop]
  cases coverAllStep cfg.TestProcessing.BatchSize rng pipe st ev <;> rfl

theorem coverAllStep_invariant_below (batchSize : Int) (rng : Nat → Nat)
    (pipe : Nat → Request → List TestCase) (Inv : ManagerState → Prop)
    (hrecv : ∀ st i, Inv st → i < st.inFlight.length → Inv (receiveCase st i))
    (hsel : ∀ st, Inv st →
      st.fuzzFilesRequested - st.stats.TestCasesProcessed ≤ Int.tdiv batchSize REQ_THRESHOLD →
      st.seedFiles ≠ [] → Inv (selectSeed batchSize rng pipe st))
    (st : ManagerState) (ev : LoopEvent) (hst : Inv st) (st' : ManagerState)
    (h : (coverAllStep batchSize rng pipe st ev).state? = some st') : Inv st' := by
  cases ev with
  | error =>
    simp only [coverAllStep, LoopExit.state?, Option.some.injEq] at h
    exact h ▸ hst
  | testCase pick saveOk summaryOk =>
    unfold coverAllStep at h
    by_cases h0 : st.inFlight.length = 0
    · simp [h0, LoopExit.state?] at h
    · have hlt : pick % st.inFlight.length < st.inFlight.length :=
        Nat.mod_lt _ (Nat.pos_of_ne_zero h0)
      have hmid := hrecv st _ hst hlt
      simp only [h0, if_false] at h
      split_ifs at h with h1 h2 h3 h4 h5 h6
      all_goals simp only [LoopExit.state?, Option.some.injEq, reduceCtorEq] at h
      all_goals first
        | exact h ▸ hmid
        | exact h ▸ hsel _ hmid h4 (by
            intro e
            simp [e] at h5)

theorem coverAllLoop_invariant_below (batchSize : Int) (rng : Nat → Nat)
    (pipe : Nat → Request → List TestCase) (Inv : ManagerState → Prop)
    (hrecv : ∀ st i, Inv st → i < st.inFlight.length → Inv (receiveCase st i))
    (hsel : ∀ st, Inv st →
      st.fuzzFilesRequested - st.stats.TestCasesProcessed ≤ Int.tdiv batchSize REQ_THRESHOLD →
      st.seedFiles ≠ [] → Inv (selectSeed batchSize rng pipe st))
    (events : List LoopEvent) : ∀ (st : ManagerState), Inv st → ∀ st',
      (coverAllLoop batchSize rng pipe st events).state? = some st' → Inv st' := by
  induction events with
  | nil =>
    intro st hst st' h
    simp only [coverAllLoop, LoopExit.state?, Option.some.injEq] at h
    exact h ▸ hst
  | cons ev evs ih =>
    intro st hst st' h
    have hstep := coverAllStep_invariant_below batchSize rng pipe Inv hrecv hsel st ev hst
    unfold coverAllLoop at h
    cases hs : coverAllStep batchSize rng pipe st ev with
    | running st1 =>
      rw [hs] at h hstep
      exact ih st1 (hstep st1 rfl) st' h
    | completed st1 => rw [hs] at h hstep; exact hstep st' h
    | aborted st1 => rw [hs] at h hstep; exact hstep st' h
    | panicked f => rw [hs] at h; simp [LoopExit.state?] at h
    | notStarted => rw [hs] at h; simp [LoopExit.state?] at h
    | impossible => rw [hs] at h; simp [LoopExit.state?] at h

/-- An invariant of every state a run of `CoverAllSeedsOnce` can be in. -/
theorem coverAll_invariant (cfg : Config) (stats : Stats) (seedFiles : List String)
    (rng : Nat → Nat) (pipe : Nat → Request → List TestCase) (Inv : ManagerState → Prop)
    (hinit : 0 ≤ cfg.TestProcessing.BatchSize → seedFiles ≠ [] →
      Inv (selectSeed cfg.TestProcessing.BatchSize rng pipe
        { seedFiles := seedFiles, fuzzFilesRequested := 0, stats := stats,
          requests := [], inFlight := [], randCalls := 0 }))
    (hrecv : ∀ st i, Inv st → i < st.inFlight.length → Inv (receiveCase st i))
    (hsel : ∀ st, Inv st →
      st.fuzzFilesRequested - st.stats.TestCasesProcessed
        ≤ Int.tdiv cfg.TestProcessing.BatchSize REQ_THRESHOLD →
      st.seedFiles ≠ [] → Inv (selectSeed cfg.TestProcessing.BatchSize rng pipe st))
    (events : List LoopEvent) (st : ManagerState)
    (h : (CoverAllSeedsOnce cfg stats seedFiles rng pipe events).state? = some st) :
    Inv st := by
  unfold CoverAllSeedsOnce at h
  by_cases hneg : cfg.TestProcessing.BatchSize < 0
  · simp [hneg, LoopExit.state?] at h
  by_cases hstart : startMutatorOk cfg = true
  swap
  · simp [hneg, hstart, LoopExit.state?] at h
  by_cases hlen : seedFiles.length = 0
  · simp [hneg, hstart, hlen, LoopExit.state?] at h
  simp only [hneg, hstart, hlen, Bool.not_true, Bool.false_eq_true, if_false] at h
  exact coverAllLoop_invariant_below _ rng pipe Inv hrecv hsel events _
    (hinit (not_lt.mp hneg) (fun e => hlen (by rw [e]; rfl))) st h

theorem runStep_running (tp : TestProcessingConfig) (testCount batchSize : Int)
    (rng : Nat → Nat) (pipe : Nat → Request → List TestCase) (st st' : ManagerState)
    (pick : Nat) (saveOk summaryOk : Bool)
    (h : runStep tp testCount batchSize rng pipe st (.testCase pick saveOk summaryOk)
      = .running st') :
    st.inFlight.length ≠ 0 ∧ batchSize ≠ 0 ∧
    ¬ (testCount ≠ 0 ∧
        (receiveCase st (pick % st.inFlight.length)).stats.TestCasesProcessed ≥ testCount) ∧
    (((receiveCase st (pick % st.inFlight.length)).fuzzFilesRequested
        - (receiveCase st (pick % st.inFlight.length)).stats.TestCasesProcessed
          ≤ Int.tdiv batchSize REQ_THRESHOLD ∧
      requestBatch tp batchSize rng pipe (receiveCase st (pick % st.inFlight.length))
        = .ok st') ∨
     (¬ (receiveCase st (pick % st.inFlight.length)).fuzzFilesRequested
        - (receiveCase st (pick % st.inFlight.length)).stats.TestCasesProcessed
          ≤ Int.tdiv batchSize REQ_THRESHOLD ∧
      st' = receiveCase st (pick % st.inFlight.length))) := by
  unfold runStep at h
  by_cases h0 : st.inFlight.length = 0
  · simp [h0] at h
  simp only [h0, if_false] at h
  split_ifs at h with h1 h2 h3 h4 h5
  · refine ⟨h0, h2, h4, Or.inl ⟨h5, ?_⟩⟩
    cases hr : requestBatch tp batchSize rng pipe
        (receiveCase st (pick % st.inFlight.length)) with
    | error f => rw [hr] at h; cases h
    | ok st1 =>
      rw [hr] at h
      simp only [LoopExit.running.injEq] at h
      rw [h]
  · simp only [LoopExit.running.injEq] at h
    exact ⟨h0, h2, h4, Or.inr ⟨h5, h.symm⟩⟩

theorem coverAllStep_running (batchSize : Int) (rng : Nat → Nat)
    (pipe : Nat → Request → List TestCase) (st st' : ManagerState)
    (pick : Nat) (saveOk summaryOk : Bool)
    (h : coverAllStep batchSize rng pipe st (.testCase pick saveOk summaryOk)
      = .running st') :
    st.inFlight.length ≠ 0 ∧ batchSize ≠ 0 ∧
    ((((receiveCase st (pick % st.inFlight.length)).fuzzFilesRequested
        - (receiveCase st (pick % st.inFlight.length)).stats.TestCasesProcessed
          ≤ Int.tdiv batchSize REQ_THRESHOLD ∧
        (receiveCase st (pick % st.inFlight.length)).seedFiles ≠ []) ∧
      st' = selectSeed batchSize rng pipe (receiveCase st (pick % st.inFlight.length))) ∨
     (¬ ((receiveCase st (pick % st.inFlight.length)).fuzzFilesRequested
        - (receiveCase st (pick % st.inFlight.length)).stats.TestCasesProcessed
          ≤ Int.tdiv batchSize REQ_THRESHOLD ∧
        (receiveCase st (pick % st.inFlight.length)).seedFiles ≠ []) ∧
      st' = receiveCase st (pick % st.inFlight.length))) := by
  unfold coverAllStep at h
  by_cases h0 : st.inFlight.length = 0
  · simp [h0] at h
  simp only [h0, if_false] at h
  split_ifs at h with h1 h2 h3 h4 h5 h6
  · simp only [LoopExit.running.injEq] at h
    refine ⟨h0, h2, Or.inr ⟨?_, h.symm⟩⟩
    rintro ⟨_, hne⟩
    exact hne (List.length_eq_zero.mp h5)
  · simp only [LoopExit.running.injEq] at h
    refine ⟨h0, h2, Or.inl ⟨⟨h4, ?_⟩, h.symm⟩⟩
    intro e
    exact h5 (by rw [e]; rfl)
  · simp only [LoopExit.running.injEq] at h
    exact ⟨h0, h2, Or.inr ⟨fun hc => h4 hc.1, h.symm⟩⟩

/-- The batch size of the session's configuration, once `Run` has lowered it,
is the batch size `Run` works with. -/
theorem runTestProcessing_batchSize (cfg : Config) :
    (runTestProcessing cfg).BatchSize = runBatchSize cfg := by
  unfold runTestProcessing runBatchSize
  split_ifs <;> rfl

/-- C23. In both run modes, when the manager has handled a finalized case and
goes on (the run is in its loop before and after the event), the processed
count has gone up by one and, with that new count, the manager has sent
exactly one new request, of `batch_size` cases, and added `batch_size` to
`fuzzFilesRequested` if `fuzzFilesRequested - processed <= floor(batch_size / 2)`
(and, in the cover-all-once mode, a seed remained); otherwise it has sent
nothing and `fuzzFilesRequested` is unchanged. In the infinite-random mode
`batch_size` is the batch size of the session as `Run` leaves it at its start
(`runBatchSize`). -/
theorem request_iff_below_threshold (cfg : Config) (stats : Stats) (seedFiles : List String)
    (rng : Nat → Nat) (pipe : Nat → Request → List TestCase) (events : List LoopEvent)
    (pick : Nat) (saveOk summaryOk : Bool) (st st' : ManagerState) :
    (Run cfg stats seedFiles rng pipe events = .running st →
      Run cfg stats seedFiles rng pipe (events ++ [.testCase pick saveOk summaryOk])
        = .running st' →
      st'.stats.TestCasesProcessed = st.stats.TestCasesProcessed + 1 ∧
      (st.fuzzFilesRequested - st'.stats.TestCasesProcessed
          ≤ Int.fdiv (runBatchSize cfg) 2 →
        ∃ req, req.Count = runBatchSize cfg ∧ st'.requests = st.requests ++ [req] ∧
          st'.fuzzFilesRequested = st.fuzzFilesRequested + runBatchSize cfg) ∧
      (¬ st.fuzzFilesRequested - st'.stats.TestCasesProcessed
          ≤ Int.fdiv (runBatchSize cfg) 2 →
        st'.requests = st.requests ∧ st'.fuzzFilesRequested = st.fuzzFilesRequested)) ∧
    (CoverAllSeedsOnce cfg stats seedFiles rng pipe events = .running st →
      CoverAllSeedsOnce cfg stats seedFiles rng pipe
          (events ++ [.testCase pick saveOk summaryOk]) = .running st' →
      st'.stats.TestCasesProcessed = st.stats.TestCasesProcessed + 1 ∧
      (st.fuzzFilesRequested - st'.stats.TestCasesProcessed
          ≤ Int.fdiv cfg.TestProcessing.BatchSize 2 ∧ st.seedFiles ≠ [] →
        ∃ req, req.Count = cfg.TestProcessing.BatchSize ∧
          st'.requests = st.requests ++ [req] ∧
          st'.fuzzFilesRequested = st.fuzzFilesRequested + cfg.TestProcessing.BatchSize) ∧
      (¬ (st.fuzzFilesRequested - st'.stats.TestCasesProcessed
          ≤ Int.fdiv cfg.TestProcessing.BatchSize 2 ∧ st.seedFiles ≠ []) →
        st'.requests = st.requests ∧ st'.fuzzFilesRequested = st.fuzzFilesRequested)) := by
  constructor
  · intro hrun hnext
    obtain ⟨hB, hsnoc⟩ := run_snoc cfg stats seedFiles rng pipe events st
      (.testCase pick saveOk summaryOk) hrun
    rw [hsnoc] at hnext
    obtain ⟨_, _, _, hcase⟩ := runStep_running _ _ _ rng pipe st st' pick saveOk summaryOk hnext
    have hdiv : Int.fdiv (runBatchSize cfg) 2 = Int.tdiv (runBatchSize cfg) REQ_THRESHOLD :=
      Int.fdiv_eq_tdiv hB (by decide)
    rw [hdiv]
    rcases hcase with ⟨hc, hreq⟩ | ⟨hc, rfl⟩
    · obtain ⟨req, randCalls, hget, rfl⟩ := requestBatch_ok _ _ rng pipe _ _ hreq
      have hcount := getMutationRequest_count _ _ _ rng _ _ _ hget
      exact ⟨recordTestCase_processed _ _, fun _ => ⟨req, hcount, rfl, rfl⟩,
        fun hn => absurd hc hn⟩
    · exact ⟨recordTestCase_processed _ _, fun h => absurd h hc, fun _ => ⟨rfl, rfl⟩⟩
  · intro hrun hnext
    obtain ⟨hB, hsnoc⟩ := coverAll_snoc cfg stats seedFiles rng pipe events st
      (.testCase pick saveOk summaryOk) hrun
    rw [hsnoc] at hnext
    obtain ⟨_, _, hcase⟩ := coverAllStep_running _ rng pipe st st' pick saveOk summaryOk hnext
    have hdiv : Int.fdiv cfg.TestProcessing.BatchSize 2
        = Int.tdiv cfg.TestProcessing.BatchSize REQ_THRESHOLD :=
      Int.fdiv_eq_tdiv hB (by decide)
    rw [hdiv]
    rcases hcase with ⟨hc, rfl⟩ | ⟨hc, rfl⟩
    · exact ⟨recordTestCase_processed _ _, fun _ => ⟨_, rfl, rfl, rfl⟩,
        fun hn => absurd hc hn⟩
    · exact ⟨recordTestCase_processed _ _, fun h => absurd h hc, fun _ => ⟨rfl, rfl⟩⟩

theorem request_iff_below_threshold_witness :
    (∃ st st', Run exampleRandomConfig Stats.empty ["/seeds/a.js"] (fun _ => 0) idealPipe []
        = .running st ∧
      Run exampleRandomConfig Stats.empty ["/seeds/a.js"] (fun _ => 0) idealPipe
        ([] ++ [.testCase 0 true true]) = .running st' ∧
      st.fuzzFilesRequested = 2 ∧ st'.stats.TestCasesProcessed = 1 ∧
      st'.fuzzFilesRequested = 4 ∧ st'.requests.length = 2) ∧
    (∃ st st', CoverAllSeedsOnce exampleConfig Stats.empty ["/seeds/a.js", "/seeds/b.js"]
        (fun _ => 0) idealPipe [] = .running st ∧
      CoverAllSeedsOnce exampleConfig Stats.empty ["/seeds/a.js", "/seeds/b.js"]
        (fun _ => 0) idealPipe ([] ++ [.testCase 0 true true]) = .running st' ∧
      st.fuzzFilesRequested = 2 ∧ st'.stats.TestCasesProcessed = 1 ∧
      st'.fuzzFilesRequested = 4 ∧ st'.requests.length = 2) :=
  ⟨⟨_, _, rfl, rfl, rfl, rfl,
    by
      have h := (request_iff_below_threshold exampleRandomConfig Stats.empty ["/seeds/a.js"]
        (fun _ => 0) idealPipe [] 0 true true _ _).1 rfl rfl
      obtain ⟨req, _, hreqs, hffr⟩ := h.2.1 (by decide)
      exact ⟨hffr, by rw [hreqs]; rfl⟩⟩,
   ⟨_, _, rfl, rfl, rfl, rfl,
    by
      have h := (request_iff_below_threshold exampleConfig Stats.empty
        ["/seeds/a.js", "/seeds/b.js"] (fun _ => 0) idealPipe [] 0 true true _ _).2 rfl rfl
      obtain ⟨req, _, hreqs, hffr⟩ := h.2.1 (by decide)
      exact ⟨hffr, by rw [hreqs]; rfl⟩⟩⟩

theorem run_snoc_eq (cfg : Config) (stats : Stats) (seedFiles : List String)
    (rng : Nat → Nat) (pipe : Nat → Request → List TestCase) (events : List LoopEvent)
    (ev : LoopEvent) :
    Run cfg stats seedFiles rng pipe (events ++ [ev]) =
      match Run cfg stats seedFiles rng pipe events with
      | .running st =>
        runStep (runTestProcessing cfg) cfg.TestProcessing.TestCount (runBatchSize cfg)
          rng pipe st ev
      | r => r := by
  unfold Run
  by_cases hneg : runBatchSize cfg < 0
  · simp only [hneg, if_true]
  by_cases hstart : startMutatorOk cfg = true
  swap
  · simp [hneg, hstart]
  simp only [hneg, hstart, Bool.not_true, Bool.false_eq_true, if_false]
  cases hr : requestBatch (runTestProcessing cfg) (runBatchSize cfg) rng pipe
      { seedFiles := seedFiles, fuzzFilesRequested := 0, stats := stats,
        requests := [], inFlight := [], randCalls := 0 } with
  | error f => rfl
  | ok st0 =>
    dsimp only
    rw [runLoop_append]
    cases runLoop (runTestProcessing cfg) cfg.TestProcessing.TestCount (runBatchSize cfg)
      rng pipe st0 events with
    | running st1 =>
      dsimp only [runLoop]
      cases runStep (runTestProcessing cfg) cfg.TestProcessing.TestCount (runBatchSize cfg)
        rng pipe st1 ev <;> rfl
    | completed st1 => rfl
    | aborted st1 => rfl
    | panicked f => rfl
    | notStarted => rfl
    | impossible => rfl

theorem runStep_completed (tp : TestProcessingConfig) (testCount batchSize : Int)
    (rng : Nat → Nat) (pipe : Nat → Request → List TestCase) (st st' : ManagerState)
    (ev : LoopEvent) (h : runStep tp testCount batchSize rng pipe st ev = .completed st') :
    testCount ≠ 0 ∧ st'.stats.TestCasesProcessed ≥ testCount ∧
    st'.stats.TestCasesProcessed = st.stats.TestCasesProcessed + 1 ∧
    st'.requests = st.requests ∧ st'.fuzzFilesRequested = st.fuzzFilesRequested := by
  cases ev with
  | error => simp [runStep] at h
  | testCase pick saveOk summaryOk =>
    unfold runStep at h
    by_cases h0 : st.inFlight.length = 0
    · simp [h0] at h
    simp only [h0, if_false] at h
    split_ifs at h with h1 h2 h3 h4 h5
    · simp only [LoopExit.completed.injEq] at h
      subst h
      exact ⟨h4.1, h4.2, recordTestCase_processed _ _, rfl, rfl⟩
    · split at h <;> cases h

/-- A run of `Run` that reached its loop made its first request, and is the
loop from the state that request left. -/
theorem run_started (cfg : Config) (stats : Stats) (seedFiles : List String)
    (rng : Nat → Nat) (pipe : Nat → Request → List TestCase) (events : List LoopEvent)
    (st : ManagerState) (h : (Run cfg stats seedFiles rng pipe events).state? = some st) :
    ∃ st0, 0 ≤ runBatchSize cfg ∧
      requestBatch (runTestProcessing cfg) (runBatchSize cfg) rng pipe
        { seedFiles := seedFiles, fuzzFilesRequested := 0, stats := stats,
          requests := [], inFlight := [], randCalls := 0 } = .ok st0 ∧
      ∀ evs, Run cfg stats seedFiles rng pipe evs =
        runLoop (runTestProcessing cfg) cfg.TestProcessing.TestCount (runBatchSize cfg)
          rng pipe st0 evs := by
  unfold Run at h
  by_cases hneg : runBatchSize cfg < 0
  · simp [hneg, LoopExit.state?] at h
  by_cases hstart : startMutatorOk cfg = true
  swap
  · simp [hneg, hstart, LoopExit.state?] at h
  simp only [hneg, hstart, Bool.not_true, Bool.false_eq_true, if_false] at h
  cases hr : requestBatch (runTestProcessing cfg) (runBatchSize cfg) rng pipe
      { seedFiles := seedFiles, fuzzFilesRequested := 0, stats := stats,
        requests := [], inFlight := [], randCalls := 0 } with
  | error f => rw [hr] at h; simp [LoopExit.state?] at h
  | ok st0 =>
    refine ⟨st0, not_lt.mp hneg, rfl, ?_⟩
    intro evs
    unfold Run
    simp only [hneg, hstart, Bool.not_true, Bool.false_eq_true, if_false, hr]

theorem run_start_processed (cfg : Config) (seedFiles : List String)
    (rng : Nat → Nat) (pipe : Nat → Request → List TestCase) (st : ManagerState)
    (h : Run cfg Stats.empty seedFiles rng pipe [] = .running st) :
    st.stats.TestCasesProcessed = 0 := by
  obtain ⟨st0, _, hr, hloop⟩ := run_started cfg Stats.empty seedFiles rng pipe [] st
    (by rw [h]; rfl)
  rw [hloop] at h
  simp only [runLoop, LoopExit.running.injEq] at h
  obtain ⟨req, randCalls, _, rfl⟩ := requestBatch_ok _ _ rng pipe _ _ hr
  rw [← h]
  rfl

/-- While a run of `Run` with a positive test count is in its loop, fewer
cases than the test count have been processed. -/
theorem run_running_below_test_count (cfg : Config) (seedFiles : List String)
    (rng : Nat → Nat) (pipe : Nat → Request → List TestCase)
    (hn : 0 < cfg.TestProcessing.TestCount) (events : List LoopEvent) :
    ∀ st, Run cfg Stats.empty seedFiles rng pipe events = .running st →
      st.stats.TestCasesProcessed < cfg.TestProcessing.TestCount := by
  induction events using List.reverseRecOn with
  | nil =>
    intro st h
    rw [run_start_processed cfg seedFiles rng pipe st h]
    exact hn
  | append_singleton evs ev ih =>
    intro st h
    rw [run_snoc_eq] at h
    cases hrun : Run cfg Stats.empty seedFiles rng pipe evs with
    | running st0 =>
      rw [hrun] at h
      dsimp only at h
      cases ev with
      | error => simp [runStep] at h
      | testCase pick saveOk summaryOk =>
        obtain ⟨_, _, hnot, hcase⟩ := runStep_running _ _ _ rng pipe st0 st pick saveOk
          summaryOk h
        have hlt : (receiveCase st0 (pick % st0.inFlight.length)).stats.TestCasesProcessed
            < cfg.TestProcessing.TestCount := by
          by_contra hge
          exact hnot ⟨ne_of_gt hn, not_lt.mp hge⟩
        rcases hcase with ⟨_, hreq⟩ | ⟨_, rfl⟩
        · obtain ⟨req, randCalls, _, rfl⟩ := requestBatch_ok _ _ rng pipe _ _ hreq
          exact hlt
        · exact hlt
    | completed st1 => rw [hrun] at h; cases h
    | aborted st1 => rw [hrun] at h; cases h
    | panicked f => rw [hrun] at h; cases h
    | notStarted => rw [hrun] at h; cases h
    | impossible => rw [hrun] at h; cases h

theorem run_completed_absorbs (cfg : Config) (stats : Stats) (seedFiles : List String)
    (rng : Nat → Nat) (pipe : Nat → Request → List TestCase) (events : List LoopEvent)
    (st : ManagerState)
    (h : Run cfg stats seedFiles rng pipe events = .completed st) (more : List LoopEvent) :
    Run cfg stats seedFiles rng pipe (events ++ more) = .completed st := by
  induction more using List.reverseRecOn with
  | nil => rw [List.append_nil]; exact h
  | append_singleton more ev ih =>
    rw [← List.append_assoc, run_snoc_eq, ih]

/-- C24. In the infinite-random mode started from empty stats with a test
count `n > 0`: while the loop runs fewer than `n` cases have been processed;
when it is left through its `break` exactly `n` have been, the iteration that
left it sent no request, and no later event changes anything; and the
iteration that handles the `n`-th case without a save or summary error does
leave it. With a test count of 0 the loop is never left through its `break`. -/
theorem run_exits_at_test_count (cfg : Config) (seedFiles : List String)
    (rng : Nat → Nat) (pipe : Nat → Request → List TestCase) (events : List LoopEvent)
    (st : ManagerState) :
    (0 < cfg.TestProcessing.TestCount →
      (Run cfg Stats.empty seedFiles rng pipe events = .running st →
        st.stats.TestCasesProcessed < cfg.TestProcessing.TestCount) ∧
      (Run cfg Stats.empty seedFiles rng pipe events = .completed st →
        st.stats.TestCasesProcessed = cfg.TestProcessing.TestCount ∧
        (∀ more, Run cfg Stats.empty seedFiles rng pipe (events ++ more) = .completed st) ∧
        ∃ pre ev post st0, events = pre ++ ev :: post ∧
          Run cfg Stats.empty seedFiles rng pipe pre = .running st0 ∧
          st.requests = st0.requests ∧
          st.fuzzFilesRequested = st0.fuzzFilesRequested) ∧
      (Run cfg Stats.empty seedFiles rng pipe events = .running st →
        st.stats.TestCasesProcessed + 1 = cfg.TestProcessing.TestCount →
        st.inFlight ≠ [] → cfg.TestProcessing.BatchSize ≠ 0 →
        ∀ pick, ∃ st',
          Run cfg Stats.empty seedFiles rng pipe (events ++ [.testCase pick true true])
            = .completed st' ∧
          st'.stats.TestCasesProcessed = cfg.TestProcessing.TestCount ∧
          st'.requests = st.requests)) ∧
    (cfg.TestProcessing.TestCount = 0 →
      Run cfg Stats.empty seedFiles rng pipe events ≠ .completed st) := by
  have hcompl : ∀ (events : List LoopEvent) (st : ManagerState),
      Run cfg Stats.empty seedFiles rng pipe events = .completed st →
      ∃ pre ev post st0, events = pre ++ ev :: post ∧
        Run cfg Stats.empty seedFiles rng pipe pre = .running st0 ∧
        runStep (runTestProcessing cfg) cfg.TestProcessing.TestCount (runBatchSize cfg)
          rng pipe st0 ev = .completed st := by
    intro events
    induction events using List.reverseRecOn with
    | nil =>
      intro st h
      obtain ⟨st0, _, _, hloop⟩ := run_started cfg Stats.empty seedFiles rng pipe [] st
        (by rw [h]; rfl)
      rw [hloop] at h
      cases h
    | append_singleton evs ev ih =>
      intro st h
      rw [run_snoc_eq] at h
      cases hrun : Run cfg Stats.empty seedFiles rng pipe evs with
      | running st0 =>
        rw [hrun] at h
        exact ⟨evs, ev, [], st0, rfl, hrun, h⟩
      | completed st1 =>
        rw [hrun] at h
        cases h
        obtain ⟨pre, ev', post, st0, he, hpre, hstep⟩ := ih st hrun
        exact ⟨pre, ev', post ++ [ev], st0, by rw [he]; simp, hpre, hstep⟩
      | aborted st1 => rw [hrun] at h; cases h
      | panicked f => rw [hrun] at h; cases h
      | notStarted => rw [hrun] at h; cases h
      | impossible => rw [hrun] at h; cases h
  refine ⟨fun hn => ⟨?_, ?_, ?_⟩, ?_⟩
  · exact run_running_below_test_count cfg seedFiles rng pipe hn events st
  · intro h
    obtain ⟨pre, ev, post, st0, he, hpre, hstep⟩ := hcompl events st h
    obtain ⟨_, hge, hproc, hreqs, hffr⟩ := runStep_completed _ _ _ rng pipe st0 st ev hstep
    have hlt := run_running_below_test_count cfg seedFiles rng pipe hn pre st0 hpre
    refine ⟨by omega, run_completed_absorbs cfg _ seedFiles rng pipe events st h,
      pre, ev, post, st0, he, hpre, hreqs, hffr⟩
  · intro hrun hlast hfl hB pick
    have hb : runBatchSize cfg ≠ 0 := by
      unfold runBatchSize
      split_ifs
      · exact ne_of_gt hn
      · exact hB
    have h0 : st.inFlight.length ≠ 0 := fun e => hfl (List.length_eq_zero.mp e)
    have hproc := recordTestCase_processed st.stats
      (st.inFlight.getD (pick % st.inFlight.length) TestCase.zero)
    refine ⟨receiveCase st (pick % st.inFlight.length), ?_, ?_, rfl⟩
    · rw [(run_snoc cfg _ seedFiles rng pipe events st _ hrun).2]
      have hge : (receiveCase st (pick % st.inFlight.length)).stats.TestCasesProcessed
          ≥ cfg.TestProcessing.TestCount := by
        show (recordTestCase _ _).TestCasesProcessed ≥ _
        rw [hproc]
        omega
      simp only [runStep, h0, if_false, Bool.not_true, Bool.false_eq_true, hb, and_false,
        ne_eq, ne_of_gt hn, not_false_eq_true, hge, and_self, if_true]
    · show (recordTestCase _ _).TestCasesProcessed = _
      rw [hproc]
      exact hlast
  · intro hz h
    obtain ⟨pre, ev, post, st0, _, _, hstep⟩ := hcompl events st h
    exact (runStep_completed _ _ _ rng pipe st0 st ev hstep).1 hz

/-! ## The decimal strings of `strconv.Itoa` -/

theorem digitChar_value (k : Nat) (hk : k < 10) : (Nat.digitChar k).toNat - 48 = k := by
  interval_cases k <;> rfl

theorem digitChar_ne_minus (k : Nat) (hk : k < 10) : Nat.digitChar k ≠ '-' := by
  interval_cases k <;> decide

theorem toDigitsCore_value (fuel : Nat) : ∀ (n : Nat) (ds : List Char), n < fuel →
    (Nat.toDigitsCore 10 fuel n ds).foldl (fun acc c => acc * 10 + (c.toNat - 48)) 0
      = ds.foldl (fun acc c => acc * 10 + (c.toNat - 48)) n := by
  induction fuel with
  | zero => intro n ds h; exact absurd h (Nat.not_lt_zero n)
  | succ fuel ih =>
    intro n ds h
    have hd : (Nat.digitChar (n % 10)).toNat - 48 = n % 10 :=
      digitChar_value _ (Nat.mod_lt _ (by decide))
    simp only [Nat.toDigitsCore]
    by_cases h0 : n / 10 = 0
    · simp only [h0, if_true, List.foldl_cons, Nat.zero_mul, Nat.zero_add, hd]
      have : n % 10 = n := Nat.mod_eq_of_lt ((Nat.div_eq_zero_iff (by decide)).mp h0)
      rw [this]
    · simp only [h0, if_false]
      have hlt : n / 10 < fuel := by
        have : n / 10 < n := Nat.div_lt_self (Nat.pos_of_ne_zero (fun e => h0 (by simp [e])))
          (by decide)
        omega
      rw [ih (n / 10) _ hlt, List.foldl_cons, hd, Nat.div_add_mod']

theorem toDigitsCore_head (fuel : Nat) : ∀ (n : Nat) (ds : List Char), 0 < fuel →
    ∃ c rest, Nat.toDigitsCore 10 fuel n ds = c :: rest ∧ (c ≠ '-' ∨ ds.head? = some c) := by
  induction fuel with
  | zero => intro n ds h; exact absurd h (Nat.lt_irrefl 0)
  | succ fuel ih =>
    intro n ds _
    have hd : Nat.digitChar (n % 10) ≠ '-' :=
      digitChar_ne_minus _ (Nat.mod_lt _ (by decide))
    simp only [Nat.toDigitsCore]
    by_cases h0 : n / 10 = 0
    · simp only [h0, if_true]
      exact ⟨_, _, rfl, Or.inl hd⟩
    · simp only [h0, if_false]
      cases fuel with
      | zero => exact ⟨_, _, rfl, Or.inl hd⟩
      | succ fuel =>
        obtain ⟨c, rest, he, hc⟩ := ih (n / 10) (Nat.digitChar (n % 10) :: ds) (Nat.succ_pos _)
        refine ⟨c, rest, he, ?_⟩
        rcases hc with hc | hc
        · exact Or.inl hc
        · simp only [List.head?_cons, Option.some.injEq] at hc
          exact Or.inl (hc ▸ hd)

theorem repr_value (n : Nat) : digitsValue (Nat.repr n).data = n := by
  show digitsValue (Nat.toDigits 10 n) = n
  unfold digitsValue Nat.toDigits
  rw [toDigitsCore_value (n + 1) n [] (Nat.lt_succ_self n)]
  rfl

theorem repr_head (n : Nat) : ∃ c rest, (Nat.repr n).data = c :: rest ∧ c ≠ '-' := by
  obtain ⟨c, rest, he, hc⟩ := toDigitsCore_head (n + 1) n [] (Nat.succ_pos n)
  refine ⟨c, rest, he, ?_⟩
  rcases hc with hc | hc
  · exact hc
  · simp at hc

/-- The decimal strings of `strconv.Itoa` determine the number. -/
theorem itoa_injective (a b : Int) (h : itoa a = itoa b) : a = b := by
  have hnat : ∀ m k : Nat, Nat.repr m = Nat.repr k → m = k := by
    intro m k e
    rw [← repr_value m, ← repr_value k, e]
  have hneg : ∀ m k : Nat, Nat.repr m ≠ "-" ++ Nat.repr k := by
    intro m k e
    obtain ⟨c, rest, he, hc⟩ := repr_head m
    rw [e] at he
    simp only [String.data_append] at he
    exact hc (List.cons.inj he).1.symm
  cases a with
  | ofNat m =>
    cases b with
    | ofNat k =>
      have : Nat.repr m = Nat.repr k := h
      rw [hnat m k this]
    | negSucc k => exact absurd h (hneg m (k + 1))
  | negSucc m =>
    cases b with
    | ofNat k => exact absurd h.symm (hneg k (m + 1))
    | negSucc k =>
      have h' : "-" ++ Nat.repr (m + 1) = "-" ++ Nat.repr (k + 1) := h
      have hd := congrArg String.data h'
      simp only [String.data_append, List.append_cancel_left_eq] at hd
      have := hnat (m + 1) (k + 1) (String.ext hd)
      rw [Nat.succ_injective this]

/-! ## The statistics of the managers -/

theorem addExitCode_eq (s : Stats) (exitCode : Int) :
    s.AddExitCode exitCode =
      { s with ExitCodeCounts := GoMap.incr s.ExitCodeCounts (itoa exitCode) } := by
  unfold Stats.AddExitCode GoMap.incr GoMap.getD
  dsimp only
  cases GoMap.get? s.ExitCodeCounts (itoa exitCode) <;> simp

theorem recordTestCase_eq (stats : Stats) (tc : TestCase) :
    recordTestCase stats tc =
      { CrashCount := stats.CrashCount + (if tc.BugFound then 1 else 0),
        TestCasesProcessed := stats.TestCasesProcessed + 1,
        TimedOutTests := stats.TimedOutTests + (if tc.TestTimedOut then 1 else 0),
        ExitCodeCounts :=
          if tc.TestTimedOut then stats.ExitCodeCounts
          else GoMap.incr stats.ExitCodeCounts (itoa tc.ExitCode),
        TestCasesProcessedPerSeed :=
          tc.SeedFilePaths.foldl GoMap.incr stats.TestCasesProcessedPerSeed } := by
  unfold recordTestCase
  simp only [foldl_addTestCaseForSeed, addExitCode_eq]
  cases tc.BugFound <;> cases tc.TestTimedOut <;> simp

theorem recordTestCase_consistent (stats : Stats) (tc : TestCase)
    (h : StatsConsistent stats) : StatsConsistent (recordTestCase stats tc) := by
  obtain ⟨h1, h2, h3⟩ := h
  rw [recordTestCase_eq]
  unfold StatsConsistent
  dsimp only
  cases tc.BugFound <;> cases tc.TestTimedOut <;>
    simp only [if_true, if_false, Bool.false_eq_true, GoMap.sum_incr] <;>
    refine ⟨by omega, by omega, by omega⟩

/-- C27. In either run mode started from empty stats, the stats of every state
the manager reaches satisfy `processed = timed out + sum of the exit-code
counts` and `0 <= crashes <= processed`. Handling one case adds one to the
processed count and one to exactly one of the timeout count and the count
stored under the decimal string of its exit code, leaving every other count as
it was; and two exit codes with the same decimal string are equal. -/
theorem stats_consistent (cfg : Config) (seedFiles : List String) (rng : Nat → Nat)
    (pipe : Nat → Request → List TestCase) (events : List LoopEvent) (st : ManagerState) :
    ((Run cfg Stats.empty seedFiles rng pipe events).state? = some st →
      StatsConsistent st.stats) ∧
    ((CoverAllSeedsOnce cfg Stats.empty seedFiles rng pipe events).state? = some st →
      StatsConsistent st.stats) ∧
    (∀ (stats : Stats) (tc : TestCase),
      (recordTestCase stats tc).TestCasesProcessed = stats.TestCasesProcessed + 1 ∧
      (tc.TestTimedOut = true →
        (recordTestCase stats tc).TimedOutTests = stats.TimedOutTests + 1 ∧
        (recordTestCase stats tc).ExitCodeCounts = stats.ExitCodeCounts) ∧
      (tc.TestTimedOut = false →
        (recordTestCase stats tc).TimedOutTests = stats.TimedOutTests ∧
        ∀ key, GoMap.getD (recordTestCase stats tc).ExitCodeCounts key
          = GoMap.getD stats.ExitCodeCounts key
            + (if key = itoa tc.ExitCode then 1 else 0))) ∧
    (∀ a b : Int, itoa a = itoa b → a = b) := by
  have hempty : StatsConsistent Stats.empty := by
    simp [StatsConsistent, Stats.empty, GoMap.sum]
  have hrecv : ∀ (st : ManagerState) (i : Nat), StatsConsistent st.stats →
      i < st.inFlight.length → StatsConsistent (receiveCase st i).stats :=
    fun st i h _ => recordTestCase_consistent _ _ h
  refine ⟨fun h => ?_, fun h => ?_, fun stats tc => ⟨?_, ?_, ?_⟩, itoa_injective⟩
  · refine run_invariant cfg Stats.empty seedFiles rng pipe
      (fun st => StatsConsistent st.stats) ?_ hrecv ?_ events st h
    · intro _ st0 hr
      obtain ⟨req, randCalls, _, rfl⟩ := requestBatch_ok _ _ rng pipe _ _ hr
      exact hempty
    · intro st0 st1 hst _ hr
      obtain ⟨req, randCalls, _, rfl⟩ := requestBatch_ok _ _ rng pipe _ _ hr
      exact hst
  · exact coverAll_invariant cfg Stats.empty seedFiles rng pipe
      (fun st => StatsConsistent st.stats) (fun _ _ => hempty) hrecv
      (fun st hst _ _ => hst) events st h
  · exact recordTestCase_processed stats tc
  · intro ht
    rw [recordTestCase_eq]
    simp [ht]
  · intro ht
    rw [recordTestCase_eq]
    simp only [ht, Bool.false_eq_true, if_false, add_zero, true_and]
    intro key
    rw [GoMap.getD_incr]
    by_cases hk : key = itoa tc.ExitCode
    · simp [hk]
    · have : ¬ itoa tc.ExitCode = key := fun e => hk e.symm
      simp [hk, this]

theorem stats_consistent_witness :
    ∃ st, Run exampleRandomConfig Stats.empty ["/seeds/a.js"] (fun _ => 0) idealPipe
        (fifoEvents 3) = .completed st ∧
      st.stats.TestCasesProcessed = 3 ∧ StatsConsistent st.stats :=
  ⟨_, rfl, rfl,
    (stats_consistent exampleRandomConfig ["/seeds/a.js"] (fun _ => 0) idealPipe
      (fifoEvents 3) _).1 rfl⟩

/-! ## The bound on outstanding cases -/

theorem outstanding_receive (batchSize : Int) (st : ManagerState) (i : Nat)
    (h : ((st.inFlight.length : Int)
          ≤ st.fuzzFilesRequested - st.stats.TestCasesProcessed ∧
        st.fuzzFilesRequested - st.stats.TestCasesProcessed
          ≤ batchSize + Int.tdiv batchSize REQ_THRESHOLD) ∧
      0 < st.requests.length ∧
      st.fuzzFilesRequested = (st.requests.length : Int) * batchSize)
    (hi : i < st.inFlight.length) :
    (((receiveCase st i).inFlight.length : Int)
          ≤ (receiveCase st i).fuzzFilesRequested
            - (receiveCase st i).stats.TestCasesProcessed ∧
        (receiveCase st i).fuzzFilesRequested - (receiveCase st i).stats.TestCasesProcessed
          ≤ batchSize + Int.tdiv batchSize REQ_THRESHOLD) ∧
      0 < (receiveCase st i).requests.length ∧
      (receiveCase st i).fuzzFilesRequested
        = ((receiveCase st i).requests.length : Int) * batchSize := by
  obtain ⟨⟨h1, h2⟩, h3, h4⟩ := h
  have hlen : (st.inFlight.eraseIdx i).length = st.inFlight.length - 1 := by
    rw [List.length_eraseIdx, if_pos hi]
  simp only [receiveCase, recordTestCase_processed, hlen]
  refine ⟨⟨by omega, by omega⟩, h3, h4⟩

/-- C29. In a run of either mode started from empty stats, with a pipeline
that delivers at most the cases a request asked for, every state the manager
reaches has `0 <= fuzzFilesRequested - processed <= batch_size +
floor(batch_size / 2)` and `fuzzFilesRequested` a positive multiple of the
batch size. In the infinite-random mode `batch_size` is the batch size of the
session as `Run` leaves it at its start (`runBatchSize`). -/
theorem outstanding_bounded (cfg : Config) (seedFiles : List String) (rng : Nat → Nat)
    (pipe : Nat → Request → List TestCase) (events : List LoopEvent) (st : ManagerState)
    (hpipe : PipeBounded pipe) :
    ((Run cfg Stats.empty seedFiles rng pipe events).state? = some st →
      OutstandingBounded (runBatchSize cfg) st) ∧
    ((CoverAllSeedsOnce cfg Stats.empty seedFiles rng pipe events).state? = some st →
      OutstandingBounded cfg.TestProcessing.BatchSize st) := by
  have hfin : ∀ (b : Int), 0 ≤ b → ∀ st : ManagerState,
      (((st.inFlight.length : Int)
          ≤ st.fuzzFilesRequested - st.stats.TestCasesProcessed ∧
        st.fuzzFilesRequested - st.stats.TestCasesProcessed
          ≤ b + Int.tdiv b REQ_THRESHOLD) ∧
      0 < st.requests.length ∧
      st.fuzzFilesRequested = (st.requests.length : Int) * b) →
      OutstandingBounded b st := by
    rintro b hb st ⟨⟨h1, h2⟩, h3, h4⟩
    refine ⟨by omega, ?_, st.requests.length, h3, h4⟩
    rw [Int.fdiv_eq_tdiv hb (by decide)]
    exact h2
  have hdiv : ∀ (b : Int), 0 ≤ b → 0 ≤ Int.tdiv b REQ_THRESHOLD := by
    intro b hb
    rw [Int.tdiv_eq_ediv hb (by decide)]
    exact Int.ediv_nonneg hb (by decide)
  constructor
  · intro h
    obtain ⟨_, hB, _, _⟩ := run_started cfg Stats.empty seedFiles rng pipe events st h
    apply hfin _ hB
    refine run_invariant cfg Stats.empty seedFiles rng pipe _ ?_
      (outstanding_receive (runBatchSize cfg)) ?_ events st h
    · intro _ st0 hr
      obtain ⟨req, randCalls, hget, rfl⟩ := requestBatch_ok _ _ rng pipe _ _ hr
      have hcount := getMutationRequest_count _ _ _ rng _ _ _ hget
      have hp := hpipe 0 req
      rw [hcount] at hp
      have hd := hdiv _ hB
      simp only [Stats.empty, List.nil_append, List.length_nil, List.length_singleton]
      refine ⟨⟨by omega, by omega⟩, by omega, by simp⟩
    · rintro st0 st1 ⟨⟨h1, h2⟩, h3, h4⟩ hc hr
      obtain ⟨req, randCalls, hget, rfl⟩ := requestBatch_ok _ _ rng pipe _ _ hr
      have hcount := getMutationRequest_count _ _ _ rng _ _ _ hget
      have hp := hpipe st0.requests.length req
      rw [hcount] at hp
      simp only [List.length_append, List.length_singleton, Nat.cast_add, Nat.cast_one]
      refine ⟨⟨by omega, by omega⟩, by omega, ?_⟩
      rw [h4]
      ring
  · intro h
    have hB : 0 ≤ cfg.TestProcessing.BatchSize := by
      unfold CoverAllSeedsOnce at h
      by_contra hneg
      simp [not_le.mp hneg, LoopExit.state?] at h
    apply hfin _ hB
    refine coverAll_invariant cfg Stats.empty seedFiles rng pipe _ ?_
      (outstanding_receive cfg.TestProcessing.BatchSize) ?_ events st h
    · intro _ _
      have hp := hpipe 0
        { SourceFiles := [seedFiles.getD (rng 0 % seedFiles.length) ""],
          Count := cfg.TestProcessing.BatchSize }
      have hd := hdiv _ hB
      simp only [selectSeed, Stats.empty, List.nil_append, List.length_nil,
        List.length_singleton] at hp ⊢
      refine ⟨⟨by omega, by omega⟩, by omega, by simp⟩
    · rintro st0 ⟨⟨h1, h2⟩, h3, h4⟩ hc _
      have hp := hpipe st0.requests.length
        { SourceFiles := [st0.seedFiles.getD (rng st0.randCalls % st0.seedFiles.length) ""],
          Count := cfg.TestProcessing.BatchSize }
      simp only [selectSeed, List.length_append, List.length_singleton, Nat.cast_add,
        Nat.cast_one] at hp ⊢
      refine ⟨⟨by omega, by omega⟩, by omega, ?_⟩
      rw [h4]
      ring

theorem idealPipe_bounded : PipeBounded idealPipe := by
  intro k req
  simp [idealPipe]

theorem run_exits_at_test_count_witness :
    ∃ st, Run exampleRandomConfig Stats.empty ["/seeds/a.js"] (fun _ => 0) idealPipe
        (fifoEvents 3) = .completed st ∧
      st.stats.TestCasesProcessed = exampleRandomConfig.TestProcessing.TestCount ∧
      st.requests.length = 2 :=
  ⟨_, rfl,
    (((run_exits_at_test_count exampleRandomConfig ["/seeds/a.js"] (fun _ => 0) idealPipe
      (fifoEvents 3) _).1 (by decide)).2.1 rfl).1, rfl⟩

theorem outstanding_bounded_witness :
    PipeBounded idealPipe ∧
    ∃ st, Run exampleRandomConfig Stats.empty ["/seeds/a.js"] (fun _ => 0) idealPipe
        (fifoEvents 2) = .running st ∧
      st.fuzzFilesRequested - st.stats.TestCasesProcessed = 2 ∧
      OutstandingBounded (runBatchSize exampleRandomConfig) st :=
  ⟨idealPipe_bounded, _, rfl, rfl,
    (outstanding_bounded exampleRandomConfig ["/seeds/a.js"] (fun _ => 0) idealPipe
      (fifoEvents 2) _ idealPipe_bounded).1 rfl⟩

theorem fifoEvents_succ (n : Nat) :
    fifoEvents (n + 1) = fifoEvents n ++ [LoopEvent.testCase 0 true true] := by
  unfold fifoEvents
  rw [List.replicate_succ']

/-- A run of the infinite-random mode does reach its `break`: with a
single-seed fuzzer, a positive batch size and test count, a non-empty seed list
and a pipeline that delivers every requested case, the run in which the cases
arrive oldest first is in its loop after fewer than `test_count` arrivals and
completes at the arrival number `test_count`. -/
theorem run_completes (cfg : Config) (seedFiles : List String) (rng : Nat → Nat)
    (pipe : Nat → Request → List TestCase) (hstart : startMutatorOk cfg = true)
    (hsingle : isMultiFileMutator cfg.TestProcessing.Fuzzer = false)
    (hS : seedFiles ≠ []) (hB : 0 < cfg.TestProcessing.BatchSize)
    (hn : 0 < cfg.TestProcessing.TestCount) (hpipe : PipeDelivers pipe) :
    (∀ m : Nat, (m : Int) < cfg.TestProcessing.TestCount →
      ∃ st, Run cfg Stats.empty seedFiles rng pipe (fifoEvents m) = .running st ∧
        st.stats.TestCasesProcessed = m ∧ Progressing st ∧ st.seedFiles = seedFiles) ∧
    ∃ st, Run cfg Stats.empty seedFiles rng pipe
      (fifoEvents cfg.TestProcessing.TestCount.toNat) = .completed st := by
  have hb : 0 < runBatchSize cfg := by
    unfold runBatchSize
    split_ifs
    · exact hn
    · exact hB
  have hlen : seedFiles.length ≠ 0 := fun e => hS (List.length_eq_zero.mp e)
  have hfz : (runTestProcessing cfg).Fuzzer = cfg.TestProcessing.Fuzzer := by
    unfold runTestProcessing
    split_ifs <;> rfl
  have hreq : ∀ st : ManagerState, st.seedFiles = seedFiles →
      ∃ req, req.Count = runBatchSize cfg ∧
        requestBatch (runTestProcessing cfg) (runBatchSize cfg) rng pipe st =
          .ok { st with
            requests := st.requests ++ [req],
            inFlight := st.inFlight ++ pipe st.requests.length req,
            fuzzFilesRequested := st.fuzzFilesRequested + runBatchSize cfg,
            randCalls := st.randCalls + 1 } := by
    intro st hs
    refine ⟨{ SourceFiles := [seedFiles.getD (rng st.randCalls % seedFiles.length) ""],
              Count := runBatchSize cfg }, rfl, ?_⟩
    simp only [requestBatch, getMutationRequest, hfz, hsingle, hs, hlen, Bool.not_false,
      if_true, if_false]
  have hpl : ∀ k (req : Request), req.Count = runBatchSize cfg →
      ((pipe k req).length : Int) = runBatchSize cfg := by
    intro k req hc
    rw [(hpipe k req).1, hc, Int.toNat_of_nonneg (le_of_lt hb)]
  have hmain : ∀ m : Nat, (m : Int) < cfg.TestProcessing.TestCount →
      ∃ st, Run cfg Stats.empty seedFiles rng pipe (fifoEvents m) = .running st ∧
        st.stats.TestCasesProcessed = m ∧ Progressing st ∧ st.seedFiles = seedFiles := by
    intro m
    induction m with
    | zero =>
      intro _
      obtain ⟨req, hc, hr⟩ := hreq
        { seedFiles := seedFiles, fuzzFilesRequested := 0, stats := Stats.empty,
          requests := [], inFlight := [], randCalls := 0 } rfl
      have hl := hpl 0 req hc
      refine ⟨{ seedFiles := seedFiles, fuzzFilesRequested := 0 + runBatchSize cfg,
                stats := Stats.empty, requests := [] ++ [req],
                inFlight := [] ++ pipe 0 req, randCalls := 0 + 1 }, ?_, rfl, ⟨?_, ?_⟩, rfl⟩
      · unfold Run
        simp only [not_lt.mpr (le_of_lt hb), hstart, Bool.not_true, Bool.false_eq_true,
          if_false, hr, fifoEvents, List.replicate_zero, runLoop]
        rfl
      · simp only [Stats.empty, List.nil_append] at hl ⊢
        omega
      · intro e
        have := congrArg List.length e
        simp only [List.nil_append, List.length_nil] at this hl
        omega
    | succ m ih =>
      intro hm
      obtain ⟨st, hrun, hproc, ⟨hprog, hne⟩, hseeds⟩ := ih (by push_cast at hm; omega)
      have h0 : st.inFlight.length ≠ 0 := fun e => hne (List.length_eq_zero.mp e)
      have hpos : 0 < st.inFlight.length := Nat.pos_of_ne_zero h0
      have hp' := recordTestCase_processed st.stats
        (st.inFlight.getD (0 % st.inFlight.length) TestCase.zero)
      have hel : (st.inFlight.eraseIdx (0 % st.inFlight.length)).length
          = st.inFlight.length - 1 := by
        rw [List.length_eraseIdx, if_pos (Nat.mod_lt _ hpos)]
      rw [fifoEvents_succ, (run_snoc cfg _ seedFiles rng pipe _ st _ hrun).2]
      have hnot : ¬ (cfg.TestProcessing.TestCount ≠ 0 ∧
          (receiveCase st (0 % st.inFlight.length)).stats.TestCasesProcessed
            ≥ cfg.TestProcessing.TestCount) := by
        rintro ⟨_, hge⟩
        have : (receiveCase st (0 % st.inFlight.length)).stats.TestCasesProcessed
            = st.stats.TestCasesProcessed + 1 := hp'
        push_cast at hm
        omega
      by_cases hc : (receiveCase st (0 % st.inFlight.length)).fuzzFilesRequested
          - (receiveCase st (0 % st.inFlight.length)).stats.TestCasesProcessed
            ≤ Int.tdiv (runBatchSize cfg) REQ_THRESHOLD
      · obtain ⟨req, hcnt, hr⟩ := hreq (receiveCase st (0 % st.inFlight.length)) hseeds
        have hl := hpl (receiveCase st (0 % st.inFlight.length)).requests.length req hcnt
        refine ⟨{ receiveCase st (0 % st.inFlight.length) with
            requests := (receiveCase st (0 % st.inFlight.length)).requests ++ [req],
            inFlight := (receiveCase st (0 % st.inFlight.length)).inFlight
              ++ pipe (receiveCase st (0 % st.inFlight.length)).requests.length req,
            fuzzFilesRequested :=
              (receiveCase st (0 % st.inFlight.length)).fuzzFilesRequested + runBatchSize cfg,
            randCalls := (receiveCase st (0 % st.inFlight.length)).randCalls + 1 },
          ?_, ?_, ⟨?_, ?_⟩, ?_⟩
        · simp only [runStep, h0, if_false, Bool.not_true, Bool.false_eq_true,
            ne_of_gt hb, and_false, hnot, hc, if_true, hr]
        · show (recordTestCase _ _).TestCasesProcessed = _
          rw [hp', hproc]
          push_cast
          ring
        · show (recordTestCase _ _).TestCasesProcessed + _ = _
          rw [hp']
          simp only [receiveCase, List.length_append, hel] at hl ⊢
          push_cast
          omega
        · intro e
          have := congrArg List.length e
          simp only [receiveCase, List.length_append, List.length_nil] at this hl
          omega
        · exact hseeds
      · have hd : 0 ≤ Int.tdiv (runBatchSize cfg) REQ_THRESHOLD := by
          rw [Int.tdiv_eq_ediv (le_of_lt hb) (by decide)]
          exact Int.ediv_nonneg (le_of_lt hb) (by decide)
        have hc' : ¬ st.fuzzFilesRequested - (st.stats.TestCasesProcessed + 1)
            ≤ Int.tdiv (runBatchSize cfg) REQ_THRESHOLD := by
          rw [← hp']
          exact hc
        refine ⟨receiveCase st (0 % st.inFlight.length), ?_, ?_, ⟨?_, ?_⟩, hseeds⟩
        · simp only [runStep, h0, if_false, Bool.not_true, Bool.false_eq_true,
            ne_of_gt hb, and_false, hnot, hc]
        · show (recordTestCase _ _).TestCasesProcessed = _
          rw [hp', hproc]
          push_cast
          ring
        · show (recordTestCase _ _).TestCasesProcessed + _ = _
          rw [hp']
          simp only [receiveCase, hel]
          omega
        · intro e
          have := congrArg List.length e
          simp only [receiveCase, hel, List.length_nil] at this
          omega
  refine ⟨hmain, ?_⟩
  obtain ⟨k, hk⟩ : ∃ k : Nat, cfg.TestProcessing.TestCount.toNat = k + 1 :=
    ⟨cfg.TestProcessing.TestCount.toNat - 1, by omega⟩
  obtain ⟨st, hrun, hproc, ⟨_, hne⟩, _⟩ := hmain k (by omega)
  rw [hk, fifoEvents_succ]
  have h := ((run_exits_at_test_count cfg seedFiles rng pipe (fifoEvents k) st).1 hn).2.2
    hrun (by omega) hne (ne_of_gt hB) 0
  obtain ⟨st', hdone, _⟩ := h
  exact ⟨st', hdone⟩

/-! ## The outputs of the single-seed mutator -/

theorem indicesFrom_eq (n : Nat) : ∀ (i : Int),
    indicesFrom i n = (List.range n).map (fun (k : Nat) => i + 1 + (k : Int)) := by
  induction n with
  | zero => intro i; rfl
  | succ n ih =>
    intro i
    rw [indicesFrom, ih, List.range_succ_eq_map, List.map_cons, List.map_map]
    simp only [Nat.cast_zero, add_zero, List.cons.injEq, true_and]
    apply List.map_congr_left
    intro k _
    simp only [Function.comp, Nat.cast_succ]
    ring

/-- The loop over the expected outputs of `Radamsa.Run`, iteration by
iteration: an output that exists is emitted and counted, one that is missing
is reported, and nothing else happens. -/
theorem radamsaLoop_outputs (w : MutatorWorld) (reqNo : Nat) (req : Request)
    (workingDir fileName sourceFile : String) (n : Nat) : ∀ (i : Int) (st : MutatorState),
    ∃ st', (radamsaLoop w reqNo req workingDir fileName sourceFile n i st).1 = some st' ∧
      (emittedCases (radamsaLoop w reqNo req workingDir fileName sourceFile n i st).2).map
          TestCase.FuzzFilePath
        = ((indicesFrom i n).filter
            (fun j => w.statOk reqNo (expectedOutput workingDir fileName j))).map
          (expectedOutput workingDir fileName) ∧
      (∀ tc ∈ emittedCases (radamsaLoop w reqNo req workingDir fileName sourceFile n i st).2,
        tc.SeedFilePaths = req.SourceFiles) ∧
      errorMessages (radamsaLoop w reqNo req workingDir fileName sourceFile n i st).2
        = ((indicesFrom i n).filter
            (fun j => !w.statOk reqNo (expectedOutput workingDir fileName j))).map
          (fun j => "Fuzz file " ++ expectedOutput workingDir fileName j
            ++ " was not generated") ∧
      (radamsaLoop w reqNo req workingDir fileName sourceFile n i st).2.length = n ∧
      st'.seedInc = st.seedInc ∧
      st'.testCasesGenerated = st.testCasesGenerated +
        (((indicesFrom i n).filter
          (fun j => w.statOk reqNo (expectedOutput workingDir fileName j))).length : Int) ∧
      ∀ s, GoMap.getD st'.testCasesPerSeed s = GoMap.getD st.testCasesPerSeed s +
        (if sourceFile = s then
          (((indicesFrom i n).filter
            (fun j => w.statOk reqNo (expectedOutput workingDir fileName j))).length : Int)
         else 0) := by
  induction n with
  | zero =>
    intro i st
    exact ⟨st, rfl, rfl, by simp [radamsaLoop, emittedCases], rfl, rfl, rfl,
      by simp [indicesFrom], by simp [indicesFrom]⟩
  | succ n ih =>
    intro i st
    cases h : w.statOk reqNo (filepathJoin workingDir (itoa (i + 1) ++ "_" ++ fileName)) with
    | false =>
      obtain ⟨st', h1, h2, h3, h4, h5, h6, h7, h8⟩ := ih (i + 1) st
      have h' : w.statOk reqNo (expectedOutput workingDir fileName (i + 1)) = false := h
      rw [radamsaLoop_miss w reqNo req workingDir fileName sourceFile n i st h]
      refine ⟨st', h1, ?_, ?_, ?_, ?_, h6, ?_, ?_⟩
      · simp only [emittedCases, indicesFrom, List.filter_cons, h', Bool.false_eq_true,
          if_false]
        exact h2
      · simpa only [emittedCases] using h3
      · simp only [errorMessages, indicesFrom, List.filter_cons, h', Bool.not_false, if_true,
          List.map_cons, h4]
        rfl
      · simp only [List.length_cons, h5]
      · simp only [indicesFrom, List.filter_cons, h', Bool.false_eq_true, if_false]
        exact h7
      · simp only [indicesFrom, List.filter_cons, h', Bool.false_eq_true, if_false]
        exact h8
    | true =>
      obtain ⟨st', h1, h2, h3, h4, h5, h6, h7, h8⟩ := ih (i + 1)
        { st with
          testCasesGenerated := st.testCasesGenerated + 1,
          testCasesPerSeed := GoMap.incr st.testCasesPerSeed sourceFile }
      have h' : w.statOk reqNo (expectedOutput workingDir fileName (i + 1)) = true := h
      rw [radamsaLoop_hit w reqNo req workingDir fileName sourceFile n i st h]
      refine ⟨st', h1, ?_, ?_, ?_, ?_, h6, ?_, ?_⟩
      · simp only [emittedCases, indicesFrom, List.filter_cons, h', if_true, List.map_cons,
          h2]
        rfl
      · intro tc htc
        simp only [emittedCases, List.mem_cons] at htc
        rcases htc with rfl | htc
        · rfl
        · exact h3 tc htc
      · simp only [errorMessages, indicesFrom, List.filter_cons, h', Bool.not_true,
          Bool.false_eq_true, if_false, h4]
      · simp only [List.length_cons, h5]
      · simp only [indicesFrom, List.filter_cons, h', if_true, List.length_cons, h7]
        push_cast
        ring
      · intro s
        simp only [indicesFrom, List.filter_cons, h', if_true, List.length_cons, h8 s,
          GoMap.getD_incr]
        split_ifs <;> push_cast <;> ring

/-- C25. For a request for `Count >= 0` mutants of the single seed `sourceFile`
on which the external mutator ran without error, `Radamsa.Run` handles the
request and goes on to the next one, and while handling it: it emits one case
for each `j` in `1..Count` whose expected output exists, in increasing `j`, with
that output as `FuzzFilePath` and the request's source as `SeedFilePaths`; it
sends one `was not generated` error for each `j` whose output is missing; it
does nothing else; and its total and its count for `sourceFile` have advanced
by the number of emitted cases, every other count being unchanged. -/
theorem radamsa_outputs (cfg : Config) (testCasesDir : String) (w : MutatorWorld)
    (req : Request) (rest : List Request) (reqNo : Nat) (st : MutatorState)
    (sourceFile : String) (hsrc : req.SourceFiles = [sourceFile])
    (hrun : ∀ cmdList, w.cmdRunOk reqNo cmdList = true) :
    ∃ (evs : List MutatorEvent) (st' : MutatorState),
      radamsaRun cfg testCasesDir w (req :: rest) reqNo st
        = evs ++ radamsaRun cfg testCasesDir w rest (reqNo + 1) st' ∧
      (emittedCases evs).map TestCase.FuzzFilePath
        = (((List.range req.Count.toNat).map (fun (k : Nat) => (k : Int) + 1)).filter
            (fun j => w.statOk reqNo
              (expectedOutput
                (if cfg.TestProcessing.GenerateTestsInPlace then filepathDir sourceFile
                  else testCasesDir) (filepathBase sourceFile) j))).map
          (expectedOutput
            (if cfg.TestProcessing.GenerateTestsInPlace then filepathDir sourceFile
              else testCasesDir) (filepathBase sourceFile)) ∧
      (∀ tc ∈ emittedCases evs, tc.SeedFilePaths = [sourceFile]) ∧
      errorMessages evs
        = (((List.range req.Count.toNat).map (fun (k : Nat) => (k : Int) + 1)).filter
            (fun j => !w.statOk reqNo
              (expectedOutput
                (if cfg.TestProcessing.GenerateTestsInPlace then filepathDir sourceFile
                  else testCasesDir) (filepathBase sourceFile) j))).map
          (fun j => "Fuzz file " ++
            expectedOutput
              (if cfg.TestProcessing.GenerateTestsInPlace then filepathDir sourceFile
                else testCasesDir) (filepathBase sourceFile) j
            ++ " was not generated") ∧
      evs.length = req.Count.toNat ∧
      (errorMessages evs).length = req.Count.toNat - (emittedCases evs).length ∧
      st'.testCasesGenerated = st.testCasesGenerated + ((emittedCases evs).length : Int) ∧
      ∀ s, GoMap.getD st'.testCasesPerSeed s = GoMap.getD st.testCasesPerSeed s +
        (if sourceFile = s then ((emittedCases evs).length : Int) else 0) := by
  have hidx : indicesFrom 0 req.Count.toNat
      = (List.range req.Count.toNat).map (fun (k : Nat) => (k : Int) + 1) := by
    rw [indicesFrom_eq]
    apply List.map_congr_left
    intro k _
    ring
  obtain ⟨st', h1, h2, h3, h4, h5, h6, h7, h8⟩ := radamsaLoop_outputs w reqNo req
    (if cfg.TestProcessing.GenerateTestsInPlace then filepathDir sourceFile else testCasesDir)
    (filepathBase sourceFile) sourceFile req.Count.toNat 0
    { seedInc := st.seedInc + 1, testCasesGenerated := st.testCasesGenerated,
      testCasesPerSeed := GoMap.initZero st.testCasesPerSeed sourceFile }
  rw [hidx] at h2 h4 h7 h8
  have hlen : (emittedCases (radamsaLoop w reqNo req
      (if cfg.TestProcessing.GenerateTestsInPlace then filepathDir sourceFile else testCasesDir)
      (filepathBase sourceFile) sourceFile req.Count.toNat 0
      { seedInc := st.seedInc + 1, testCasesGenerated := st.testCasesGenerated,
        testCasesPerSeed := GoMap.initZero st.testCasesPerSeed sourceFile }).2).length
      = (((List.range req.Count.toNat).map (fun (k : Nat) => (k : Int) + 1)).filter
          (fun j => w.statOk reqNo
            (expectedOutput
              (if cfg.TestProcessing.GenerateTestsInPlace then filepathDir sourceFile
                else testCasesDir) (filepathBase sourceFile) j))).length := by
    have := congrArg List.length h2
    simpa only [List.length_map] using this
  refine ⟨(radamsaLoop w reqNo req
      (if cfg.TestProcessing.GenerateTestsInPlace then filepathDir sourceFile else testCasesDir)
      (filepathBase sourceFile) sourceFile req.Count.toNat 0
      { seedInc := st.seedInc + 1, testCasesGenerated := st.testCasesGenerated,
        testCasesPerSeed := GoMap.initZero st.testCasesPerSeed sourceFile }).2,
    st', ?_, h2, ?_, h4, h5, ?_, ?_, ?_⟩
  · rw [radamsaRun]
    simp only [hsrc, List.length_singleton, one_ne_zero, if_false, gt_iff_lt, lt_irrefl,
      List.headD_cons, hrun, Bool.not_true, Bool.false_eq_true]
    rw [h1]
  · intro tc htc
    rw [h3 tc htc, hsrc]
  · rw [h4, List.length_map, hlen]
    have hsplit := List.length_eq_length_filter_add
      (l := (List.range req.Count.toNat).map (fun (k : Nat) => (k : Int) + 1))
      (fun j => w.statOk reqNo
        (expectedOutput
          (if cfg.TestProcessing.GenerateTestsInPlace then filepathDir sourceFile
            else testCasesDir) (filepathBase sourceFile) j))
    simp only [List.length_map, List.length_range] at hsplit
    omega
  · rw [h7, hlen]
  · intro s
    rw [h8 s, hlen, GoMap.getD_initZero]

theorem radamsa_outputs_witness :
    ∃ (evs : List MutatorEvent) (st' : MutatorState),
      radamsaRun exampleConfig "/s/test_cases" exampleSparseWorld
          [{ SourceFiles := ["/seeds/a.js"], Count := 3 }] 0 MutatorState.init
        = evs ++ radamsaRun exampleConfig "/s/test_cases" exampleSparseWorld [] 1 st' ∧
      (emittedCases evs).map TestCase.FuzzFilePath
        = ["/s/test_cases/1_a.js", "/s/test_cases/3_a.js"] ∧
      errorMessages evs = ["Fuzz file /s/test_cases/2_a.js was not generated"] ∧
      evs.length = 3 ∧
      st'.testCasesGenerated = 2 ∧
      GoMap.getD st'.testCasesPerSeed "/seeds/a.js" = 2 := by
  obtain ⟨evs, st', h1, h2, _, h4, h5, _, h7, h8⟩ :=
    radamsa_outputs exampleConfig "/s/test_cases" exampleSparseWorld
      { SourceFiles := ["/seeds/a.js"], Count := 3 } [] 0 MutatorState.init "/seeds/a.js"
      rfl (fun _ => rfl)
  have hlen : (emittedCases evs).length = 2 := by
    have := congrArg List.length (h2.trans (by decide :
      _ = ["/s/test_cases/1_a.js", "/s/test_cases/3_a.js"]))
    simpa only [List.length_map] using this
  refine ⟨evs, st', h1, h2.trans (by decide), h4.trans (by decide), h5, ?_, ?_⟩
  · rw [h7, hlen]; rfl
  · rw [h8, hlen]; rfl

/-! ## The argument string of the monitor -/

theorem replaceAux_skip (pat rep : List Char) (a : List Char) : ∀ (b : List Char),
    replaceAux pat rep a.length (a ++ b) = replaceAux pat rep 0 b := by
  induction a with
  | nil => intro b; rfl
  | cons c a ih => intro b; simpa [replaceAux] using ih b

theorem replaceAux_nomatch (pat rep : List Char) (c : Char) (cs : List Char)
    (h : pat.isPrefixOf (c :: cs) = false) :
    replaceAux pat rep 0 (c :: cs) = c :: replaceAux pat rep 0 cs := by
  rw [replaceAux, if_neg (by rw [h]; exact Bool.false_ne_true)]

theorem isPrefixOf_append_self (p b : List Char) : p.isPrefixOf (p ++ b) = true := by
  induction p with
  | nil => simp [List.isPrefixOf]
  | cons c p ih => simp [List.isPrefixOf]

theorem append_of_isPrefixOf (p : List Char) : ∀ (t : List Char),
    p.isPrefixOf t = true → ∃ b, t = p ++ b := by
  induction p with
  | nil => intro t _; exact ⟨t, rfl⟩
  | cons c p ih =>
    intro t h
    cases t with
    | nil => simp [List.isPrefixOf] at h
    | cons d t =>
      simp only [List.isPrefixOf, Bool.and_eq_true, beq_iff_eq] at h
      obtain ⟨b, hb⟩ := ih t h.2
      exact ⟨b, by rw [h.1, hb]; rfl⟩

theorem replaceAux_match (p : Char) (ps rep b : List Char) :
    replaceAux (p :: ps) rep 0 (p :: ps ++ b)
      = rep ++ replaceAux (p :: ps) rep 0 b := by
  have h : (p :: ps).isPrefixOf (p :: (ps ++ b)) = true :=
    isPrefixOf_append_self (p :: ps) b
  show replaceAux (p :: ps) rep 0 (p :: (ps ++ b)) = _
  rw [replaceAux, if_pos h]
  simp only [List.length_cons, Nat.add_sub_cancel]
  rw [replaceAux_skip]

theorem replaceAux_scan (pat rep : List Char) (a : List Char) : ∀ (b : List Char),
    (∀ i, i < a.length → pat.isPrefixOf (a.drop i ++ b) = false) →
    replaceAux pat rep 0 (a ++ b) = a ++ replaceAux pat rep 0 b := by
  induction a with
  | nil => intro b _; rfl
  | cons c a ih =>
    intro b h
    have h0 := h 0 (by simp)
    simp only [List.drop_zero, List.cons_append] at h0
    rw [List.cons_append, replaceAux_nomatch _ _ _ _ h0, ih b, List.cons_append]
    intro i hi
    have := h (i + 1) (by simpa using hi)
    simpa using this

theorem simultaneousAux_skip (f d : List Char) (a : List Char) : ∀ (b : List Char),
    simultaneousAux f d a.length (a ++ b) = simultaneousAux f d 0 b := by
  induction a with
  | nil => intro b; rfl
  | cons c a ih => intro b; simpa [simultaneousAux] using ih b

theorem simultaneousAux_file (f d b : List Char) :
    simultaneousAux f d 0 (INTERPRETER_ARGS_FUZZ_FILE_MARKER.data ++ b)
      = f ++ simultaneousAux f d 0 b := by
  have h : INTERPRETER_ARGS_FUZZ_FILE_MARKER.data.isPrefixOf
      ('X' :: ("XX_FUZZFILE_XXX".data ++ b)) = true :=
    isPrefixOf_append_self INTERPRETER_ARGS_FUZZ_FILE_MARKER.data b
  show simultaneousAux f d 0 ('X' :: ("XX_FUZZFILE_XXX".data ++ b)) = _
  rw [simultaneousAux, if_pos h]
  exact congrArg (f ++ ·) (simultaneousAux_skip f d "XX_FUZZFILE_XXX".data b)

theorem simultaneousAux_dir (f d b : List Char) :
    simultaneousAux f d 0 (INTERPRETER_ARGS_FUZZ_FILE_DIR_MARKER.data ++ b)
      = d ++ simultaneousAux f d 0 b := by
  have h : INTERPRETER_ARGS_FUZZ_FILE_DIR_MARKER.data.isPrefixOf
      ('X' :: ("XX_FUZZFILEDIR_XXX".data ++ b)) = true :=
    isPrefixOf_append_self INTERPRETER_ARGS_FUZZ_FILE_DIR_MARKER.data b
  have hf : INTERPRETER_ARGS_FUZZ_FILE_MARKER.data.isPrefixOf
      ('X' :: ("XX_FUZZFILEDIR_XXX".data ++ b)) = false := rfl
  show simultaneousAux f d 0 ('X' :: ("XX_FUZZFILEDIR_XXX".data ++ b)) = _
  rw [simultaneousAux, if_neg (by rw [hf]; exact Bool.false_ne_true), if_pos h]
  exact congrArg (d ++ ·) (simultaneousAux_skip f d "XX_FUZZFILEDIR_XXX".data b)

theorem simultaneousAux_nomatch (f d : List Char) (c : Char) (cs : List Char)
    (hf : INTERPRETER_ARGS_FUZZ_FILE_MARKER.data.isPrefixOf (c :: cs) = false)
    (hd : INTERPRETER_ARGS_FUZZ_FILE_DIR_MARKER.data.isPrefixOf (c :: cs) = false) :
    simultaneousAux f d 0 (c :: cs) = c :: simultaneousAux f d 0 cs := by
  rw [simultaneousAux, if_neg (by rw [hf]; exact Bool.false_ne_true),
    if_neg (by rw [hd]; exact Bool.false_ne_true)]

theorem overlapFree_cons (c : Char) (t : List Char) (h : OverlapFree (c :: t)) :
    OverlapFree t := by
  intro o ho
  have := h o ho
  simp only [List.tails, List.any_cons, Bool.or_eq_false_iff] at this
  exact this.2

theorem overlapFree_append (a : List Char) : ∀ (t : List Char),
    OverlapFree (a ++ t) → OverlapFree t := by
  induction a with
  | nil => intro t h; exact h
  | cons c a ih => intro t h; exact ih t (overlapFree_cons c _ h)

theorem overlapFree_head (t : List Char) (h : OverlapFree t) (o : String)
    (ho : o ∈ markerOverlaps) : o.data.isPrefixOf t = false := by
  have := h o ho
  cases t with
  | nil =>
    simp only [List.tails, List.any_cons, Bool.or_eq_false_iff] at this
    exact this.1
  | cons c t =>
    simp only [List.tails, List.any_cons, Bool.or_eq_false_iff] at this
    exact this.1

/-- The first pass leaves an occurrence of the directory marker alone, when no
occurrence of the file marker starts inside it. -/
theorem replaceAux_file_over_dir (rep b : List Char)
    (h : OverlapFree (INTERPRETER_ARGS_FUZZ_FILE_DIR_MARKER.data ++ b)) :
    replaceAux INTERPRETER_ARGS_FUZZ_FILE_MARKER.data rep 0
        (INTERPRETER_ARGS_FUZZ_FILE_DIR_MARKER.data ++ b)
      = INTERPRETER_ARGS_FUZZ_FILE_DIR_MARKER.data
        ++ replaceAux INTERPRETER_ARGS_FUZZ_FILE_MARKER.data rep 0 b := by
  have h0 := overlapFree_head _ h "XXX_FUZZFILEDIR_XXX_FUZZFILE_XXX" (by decide)
  have h1 := overlapFree_head _ h "XXX_FUZZFILEDIR_XXXX_FUZZFILE_XXX" (by decide)
  have h2 := overlapFree_head _ h "XXX_FUZZFILEDIR_XXXXX_FUZZFILE_XXX" (by decide)
  apply replaceAux_scan
  intro i hi
  have hi' : i < 19 := hi
  interval_cases i
  all_goals first | rfl | exact h0 | exact h1 | exact h2

/-- A text without `X` is passed over by the second pass. -/
theorem replaceAux_dir_over_text (rep a : List Char) (ha : ∀ c ∈ a, c ≠ 'X') (b : List Char) :
    replaceAux INTERPRETER_ARGS_FUZZ_FILE_DIR_MARKER.data rep 0 (a ++ b)
      = a ++ replaceAux INTERPRETER_ARGS_FUZZ_FILE_DIR_MARKER.data rep 0 b := by
  apply replaceAux_scan
  intro i hi
  obtain ⟨c, cs, hc⟩ : ∃ c cs, a.drop i = c :: cs := by
    cases h : a.drop i with
    | nil =>
      have := congrArg List.length h
      simp only [List.length_drop, List.length_nil] at this
      omega
    | cons c cs => exact ⟨c, cs, rfl⟩
  have hcX : c ≠ 'X' := ha c (List.mem_of_mem_drop (hc ▸ List.mem_cons_self c cs))
  rw [hc]
  show ('X' == c && _) = false
  rw [Bool.and_eq_false_iff]
  exact Or.inl (by rw [beq_eq_false_iff_ne]; exact Ne.symm hcX)

/-- A text that occurs at the start of the output of a pass, and has nothing
in common with the first character of the replacement, occurs at the start of
its input. -/
theorem isPrefixOf_of_replaceAux (pat : List Char) (r0 : Char) (rep : List Char)
    (s : List Char) : ∀ (u : List Char), (∀ c ∈ s, c ≠ r0) →
    s.isPrefixOf (replaceAux pat (r0 :: rep) 0 u) = true → s.isPrefixOf u = true := by
  induction s with
  | nil => intro u _ _; simp [List.isPrefixOf]
  | cons a s ih =>
    intro u hs h
    cases u with
    | nil => simp [replaceAux, List.isPrefixOf] at h
    | cons b u =>
      by_cases hp : pat.isPrefixOf (b :: u) = true
      · rw [replaceAux, if_pos hp] at h
        simp only [List.cons_append, List.isPrefixOf, Bool.and_eq_true, beq_iff_eq] at h
        exact absurd h.1 (hs a (List.mem_cons_self a s))
      · rw [replaceAux_nomatch _ _ _ _ (Bool.eq_false_iff.mpr hp)] at h
        simp only [List.isPrefixOf, Bool.and_eq_true, beq_iff_eq] at h ⊢
        exact ⟨h.1, ih u (fun c hc => hs c (List.mem_cons_of_mem a hc)) h.2⟩

/-- The two passes of the monitor compute the simultaneous substitution, when
the mutant path cannot form part of a marker and no file marker starts inside
a directory marker. -/
theorem replace_twice_eq_simultaneous (f0 : Char) (f d : List Char)
    (hX : ∀ c ∈ f0 :: f, c ≠ 'X')
    (hf0 : ∀ c ∈ INTERPRETER_ARGS_FUZZ_FILE_DIR_MARKER.data, c ≠ f0) (n : Nat) :
    ∀ (t : List Char), t.length ≤ n → OverlapFree t →
    replaceAux INTERPRETER_ARGS_FUZZ_FILE_DIR_MARKER.data d 0
        (replaceAux INTERPRETER_ARGS_FUZZ_FILE_MARKER.data (f0 :: f) 0 t)
      = simultaneousAux (f0 :: f) d 0 t := by
  induction n with
  | zero =>
    intro t ht _
    cases t with
    | nil => rfl
    | cons c t => simp at ht
  | succ n ih =>
    intro t ht hov
    cases t with
    | nil => rfl
    | cons c cs =>
      by_cases hF : INTERPRETER_ARGS_FUZZ_FILE_MARKER.data.isPrefixOf (c :: cs) = true
      · obtain ⟨b, hb⟩ := append_of_isPrefixOf _ _ hF
        have hlen : b.length ≤ n := by
          have := congrArg List.length hb
          have hlenF : INTERPRETER_ARGS_FUZZ_FILE_MARKER.data.length = 16 := rfl
          simp only [List.length_cons, List.length_append, hlenF] at this ht
          omega
        rw [hb] at hov ⊢
        rw [simultaneousAux_file]
        show replaceAux _ d 0 (replaceAux ('X' :: "XX_FUZZFILE_XXX".data) (f0 :: f) 0
          ('X' :: "XX_FUZZFILE_XXX".data ++ b)) = _
        rw [replaceAux_match, replaceAux_dir_over_text d (f0 :: f) hX]
        exact congrArg ((f0 :: f) ++ ·) (ih b hlen (overlapFree_append _ _ hov))
      · have hF' : INTERPRETER_ARGS_FUZZ_FILE_MARKER.data.isPrefixOf (c :: cs) = false :=
          Bool.eq_false_iff.mpr hF
        by_cases hD : INTERPRETER_ARGS_FUZZ_FILE_DIR_MARKER.data.isPrefixOf (c :: cs) = true
        · obtain ⟨b, hb⟩ := append_of_isPrefixOf _ _ hD
          have hlen : b.length ≤ n := by
            have := congrArg List.length hb
            have hlenD : INTERPRETER_ARGS_FUZZ_FILE_DIR_MARKER.data.length = 19 := rfl
            simp only [List.length_cons, List.length_append, hlenD] at this ht
            omega
          rw [hb] at hov ⊢
          rw [simultaneousAux_dir, replaceAux_file_over_dir _ _ hov]
          show replaceAux ('X' :: "XX_FUZZFILEDIR_XXX".data) d 0
            ('X' :: "XX_FUZZFILEDIR_XXX".data ++ _) = _
          rw [replaceAux_match]
          exact congrArg (d ++ ·) (ih b hlen (overlapFree_append _ _ hov))
        · have hD' : INTERPRETER_ARGS_FUZZ_FILE_DIR_MARKER.data.isPrefixOf (c :: cs)
              = false := Bool.eq_false_iff.mpr hD
          have hnot : INTERPRETER_ARGS_FUZZ_FILE_DIR_MARKER.data.isPrefixOf
              (replaceAux INTERPRETER_ARGS_FUZZ_FILE_MARKER.data (f0 :: f) 0 (c :: cs))
              = false := by
            cases hq : INTERPRETER_ARGS_FUZZ_FILE_DIR_MARKER.data.isPrefixOf
              (replaceAux INTERPRETER_ARGS_FUZZ_FILE_MARKER.data (f0 :: f) 0 (c :: cs)) with
            | false => rfl
            | true => exact absurd (isPrefixOf_of_replaceAux _ f0 f _ _ hf0 hq) hD
          rw [replaceAux_nomatch _ _ _ _ hF'] at hnot ⊢
          rw [replaceAux_nomatch _ _ _ _ hnot, simultaneousAux_nomatch _ _ _ _ hF' hD']
          exact congrArg (c :: ·)
            (ih cs (by simpa using ht) (overlapFree_cons c cs hov))

theorem isPrefixOf_of_simultaneousAux (f0 d0 : Char) (f d : List Char)
    (s : List Char) : ∀ (u : List Char), (∀ c ∈ s, c ≠ f0 ∧ c ≠ d0) →
    s.isPrefixOf (simultaneousAux (f0 :: f) (d0 :: d) 0 u) = true → s.isPrefixOf u = true := by
  induction s with
  | nil => intro u _ _; simp [List.isPrefixOf]
  | cons a s ih =>
    intro u hs h
    cases u with
    | nil => simp [simultaneousAux, List.isPrefixOf] at h
    | cons b u =>
      by_cases hF : INTERPRETER_ARGS_FUZZ_FILE_MARKER.data.isPrefixOf (b :: u) = true
      · rw [simultaneousAux, if_pos hF] at h
        simp only [List.cons_append, List.isPrefixOf, Bool.and_eq_true, beq_iff_eq] at h
        exact absurd h.1 (hs a (List.mem_cons_self a s)).1
      · by_cases hD : INTERPRETER_ARGS_FUZZ_FILE_DIR_MARKER.data.isPrefixOf (b :: u) = true
        · rw [simultaneousAux, if_neg hF, if_pos hD] at h
          simp only [List.cons_append, List.isPrefixOf, Bool.and_eq_true, beq_iff_eq] at h
          exact absurd h.1 (hs a (List.mem_cons_self a s)).2
        · rw [simultaneousAux_nomatch _ _ _ _ (Bool.eq_false_iff.mpr hF)
            (Bool.eq_false_iff.mpr hD)] at h
          simp only [List.isPrefixOf, Bool.and_eq_true, beq_iff_eq] at h ⊢
          exact ⟨h.1, ih u (fun c hc => hs c (List.mem_cons_of_mem a hc)) h.2⟩

/-- The simultaneous substitution never starts with a marker, when neither
replacement starts with a character of a marker. -/
theorem marker_not_prefix_simultaneous (f0 d0 : Char) (f d : List Char)
    (hf0 : ∀ c ∈ INTERPRETER_ARGS_FUZZ_FILE_DIR_MARKER.data, c ≠ f0)
    (hd0 : ∀ c ∈ INTERPRETER_ARGS_FUZZ_FILE_DIR_MARKER.data, c ≠ d0)
    (m : List Char)
    (hm : m = INTERPRETER_ARGS_FUZZ_FILE_MARKER.data
      ∨ m = INTERPRETER_ARGS_FUZZ_FILE_DIR_MARKER.data) (u : List Char) :
    m.isPrefixOf (simultaneousAux (f0 :: f) (d0 :: d) 0 u) = false := by
  have hsub : ∀ c ∈ m, c ∈ INTERPRETER_ARGS_FUZZ_FILE_DIR_MARKER.data := by
    rcases hm with rfl | rfl
    · decide
    · exact fun c hc => hc
  have hX : ∃ ms, m = 'X' :: ms := by
    rcases hm with rfl | rfl
    · exact ⟨_, rfl⟩
    · exact ⟨_, rfl⟩
  rw [Bool.eq_false_iff]
  intro h
  have hu := isPrefixOf_of_simultaneousAux f0 d0 f d m u
    (fun c hc => ⟨hf0 c (hsub c hc), hd0 c (hsub c hc)⟩) h
  obtain ⟨ms, rfl⟩ := hX
  cases u with
  | nil => simp [List.isPrefixOf] at hu
  | cons b u =>
    by_cases hF : INTERPRETER_ARGS_FUZZ_FILE_MARKER.data.isPrefixOf (b :: u) = true
    · rw [simultaneousAux, if_pos hF] at h
      simp only [List.cons_append, List.isPrefixOf, Bool.and_eq_true, beq_iff_eq] at h
      exact hf0 'X' (by decide) h.1
    · by_cases hD : INTERPRETER_ARGS_FUZZ_FILE_DIR_MARKER.data.isPrefixOf (b :: u) = true
      · rw [simultaneousAux, if_neg hF, if_pos hD] at h
        simp only [List.cons_append, List.isPrefixOf, Bool.and_eq_true, beq_iff_eq] at h
        exact hd0 'X' (by decide) h.1
      · rcases hm with hm | hm
        · exact hF (hm ▸ hu)
        · exact hD (hm ▸ hu)

theorem mem_tails_append (a : List Char) : ∀ (r s : List Char), s ∈ (a ++ r).tails →
    (∃ c cs, c ∈ a ∧ s = c :: cs) ∨ s ∈ r.tails := by
  induction a with
  | nil => intro r s h; exact Or.inr h
  | cons c a ih =>
    intro r s h
    simp only [List.cons_append, List.tails, List.mem_cons] at h
    rcases h with rfl | h
    · exact Or.inl ⟨c, a ++ r, List.mem_cons_self c a, rfl⟩
    · rcases ih r s h with ⟨c', cs, hc, hs⟩ | h
      · exact Or.inl ⟨c', cs, List.mem_cons_of_mem c hc, hs⟩
      · exact Or.inr h

/-- No marker occurs anywhere in the simultaneous substitution, when neither
replacement can form part of a marker. -/
theorem no_marker_in_simultaneous (f0 d0 : Char) (f d : List Char)
    (hfX : ∀ c ∈ f0 :: f, c ≠ 'X') (hdX : ∀ c ∈ d0 :: d, c ≠ 'X')
    (hf0 : ∀ c ∈ INTERPRETER_ARGS_FUZZ_FILE_DIR_MARKER.data, c ≠ f0)
    (hd0 : ∀ c ∈ INTERPRETER_ARGS_FUZZ_FILE_DIR_MARKER.data, c ≠ d0)
    (m : List Char)
    (hm : m = INTERPRETER_ARGS_FUZZ_FILE_MARKER.data
      ∨ m = INTERPRETER_ARGS_FUZZ_FILE_DIR_MARKER.data) (n : Nat) :
    ∀ (t : List Char), t.length ≤ n →
    ∀ s ∈ (simultaneousAux (f0 :: f) (d0 :: d) 0 t).tails, m.isPrefixOf s = false := by
  have hX : ∃ ms, m = 'X' :: ms := by
    rcases hm with rfl | rfl
    · exact ⟨_, rfl⟩
    · exact ⟨_, rfl⟩
  have hplain : ∀ (c : Char) (cs : List Char), c ≠ 'X' → m.isPrefixOf (c :: cs) = false := by
    intro c cs hc
    obtain ⟨ms, rfl⟩ := hX
    show ('X' == c && _) = false
    rw [Bool.and_eq_false_iff]
    exact Or.inl (by rw [beq_eq_false_iff_ne]; exact Ne.symm hc)
  induction n with
  | zero =>
    intro t ht s hs
    cases t with
    | nil =>
      simp only [simultaneousAux, List.tails, List.mem_singleton] at hs
      obtain ⟨ms, rfl⟩ := hX
      rw [hs]
      rfl
    | cons c t => simp at ht
  | succ n ih =>
    intro t ht s hs
    cases t with
    | nil =>
      simp only [simultaneousAux, List.tails, List.mem_singleton] at hs
      obtain ⟨ms, rfl⟩ := hX
      rw [hs]
      rfl
    | cons c cs =>
      by_cases hF : INTERPRETER_ARGS_FUZZ_FILE_MARKER.data.isPrefixOf (c :: cs) = true
      · obtain ⟨b, hb⟩ := append_of_isPrefixOf _ _ hF
        have hlen : b.length ≤ n := by
          have := congrArg List.length hb
          have hlenF : INTERPRETER_ARGS_FUZZ_FILE_MARKER.data.length = 16 := rfl
          simp only [List.length_cons, List.length_append, hlenF] at this ht
          omega
        rw [hb, simultaneousAux_file] at hs
        rcases mem_tails_append _ _ _ hs with ⟨c', cs', hc, rfl⟩ | hs
        · exact hplain c' cs' (hfX c' hc)
        · exact ih b hlen s hs
      · by_cases hD : INTERPRETER_ARGS_FUZZ_FILE_DIR_MARKER.data.isPrefixOf (c :: cs) = true
        · obtain ⟨b, hb⟩ := append_of_isPrefixOf _ _ hD
          have hlen : b.length ≤ n := by
            have := congrArg List.length hb
            have hlenD : INTERPRETER_ARGS_FUZZ_FILE_DIR_MARKER.data.length = 19 := rfl
            simp only [List.length_cons, List.length_append, hlenD] at this ht
            omega
          rw [hb, simultaneousAux_dir] at hs
          rcases mem_tails_append _ _ _ hs with ⟨c', cs', hc, rfl⟩ | hs
          · exact hplain c' cs' (hdX c' hc)
          · exact ih b hlen s hs
        · have hwhole := marker_not_prefix_simultaneous f0 d0 f d hf0 hd0 m hm (c :: cs)
          rw [simultaneousAux_nomatch _ _ _ _ (Bool.eq_false_iff.mpr hF)
            (Bool.eq_false_iff.mpr hD)] at hs hwhole
          simp only [List.tails, List.mem_cons] at hs
          rcases hs with rfl | hs
          · exact hwhole
          · exact ih cs (by simpa using ht) s hs

/-- C26, amended. When no argument generator is configured, the mutant
path has no `X` and starts with a character that occurs in no marker, and no
occurrence of `XXX_FUZZFILE_XXX` in the template starts inside an occurrence of
`XXX_FUZZFILEDIR_XXX`, the argument string the monitor synthesizes is the
simultaneous substitution of both markers in the template; and when the
directory is such a text as well, neither marker occurs in it. -/
theorem monitor_args_substitution (cfg : Config) (fuzzFile dir : String)
    (hfile : MarkerSafe fuzzFile)
    (hover : ∀ o ∈ markerOverlaps, stringsContains cfg.Interpreter.Args o = false) :
    monitorArgs cfg none fuzzFile dir
      = .ok (simultaneousSubstitution cfg.Interpreter.Args fuzzFile dir) ∧
    (MarkerSafe dir →
      stringsContains (simultaneousSubstitution cfg.Interpreter.Args fuzzFile dir)
        INTERPRETER_ARGS_FUZZ_FILE_MARKER = false ∧
      stringsContains (simultaneousSubstitution cfg.Interpreter.Args fuzzFile dir)
        INTERPRETER_ARGS_FUZZ_FILE_DIR_MARKER = false) := by
  obtain ⟨hfX, f0, f, hfdata, hf0⟩ := hfile
  refine ⟨?_, ?_⟩
  · have h := replace_twice_eq_simultaneous f0 f dir.data (hfdata ▸ hfX) hf0
      cfg.Interpreter.Args.data.length cfg.Interpreter.Args.data (le_refl _) hover
    show Except.ok (String.mk (replaceAux INTERPRETER_ARGS_FUZZ_FILE_DIR_MARKER.data dir.data 0
      (replaceAux INTERPRETER_ARGS_FUZZ_FILE_MARKER.data fuzzFile.data 0
        cfg.Interpreter.Args.data))) = _
    rw [hfdata, h]
    simp only [simultaneousSubstitution, hfdata]
  · rintro ⟨hdX, d0, d, hddata, hd0⟩
    have hno := fun m hm => no_marker_in_simultaneous f0 d0 f d (hfdata ▸ hfX) (hddata ▸ hdX)
      hf0 hd0 m hm cfg.Interpreter.Args.data.length cfg.Interpreter.Args.data (le_refl _)
    constructor
    · simp only [stringsContains, simultaneousSubstitution, hfdata, hddata, List.any_eq_false]
      intro s hs
      rw [hno _ (Or.inl rfl) s hs]
      exact Bool.false_ne_true
    · simp only [stringsContains, simultaneousSubstitution, hfdata, hddata, List.any_eq_false]
      intro s hs
      rw [hno _ (Or.inr rfl) s hs]
      exact Bool.false_ne_true

theorem monitor_args_substitution_witness :
    MarkerSafe "/s/test_cases/1_a.js" ∧ MarkerSafe "/s/test_cases" ∧
    monitorArgs exampleDirConfig none "/s/test_cases/1_a.js" "/s/test_cases"
      = .ok "-d /s/test_cases /s/test_cases/1_a.js" ∧
    stringsContains "-d /s/test_cases /s/test_cases/1_a.js"
      INTERPRETER_ARGS_FUZZ_FILE_DIR_MARKER = false :=
  have hfile : MarkerSafe "/s/test_cases/1_a.js" := ⟨by decide, _, _, rfl, by decide⟩
  have hdir : MarkerSafe "/s/test_cases" := ⟨by decide, _, _, rfl, by decide⟩
  have h := monitor_args_substitution exampleDirConfig "/s/test_cases/1_a.js" "/s/test_cases"
    hfile (by decide)
  ⟨hfile, hdir, h.1.trans (congrArg Except.ok (by decide)), (by decide : simultaneousSubstitution
      exampleDirConfig.Interpreter.Args "/s/test_cases/1_a.js" "/s/test_cases"
      = "-d /s/test_cases /s/test_cases/1_a.js") ▸ (h.2 hdir).2⟩

/-- C26, counterexample. A mutant of a seed whose name contains `XXX_FUZZFILEDIR_XXX` is given
an argument string that is not the simultaneous substitution of the
template's markers: the second replacement rewrites the marker inside the
mutant path the first one has put in. -/
theorem monitor_args_not_simultaneous :
    (emittedCases (radamsaRun exampleConfig "/s/test_cases" exampleMutatorWorld
      [{ SourceFiles := ["/seeds/XXX_FUZZFILEDIR_XXX.js"], Count := 1 }] 0
      MutatorState.init)).map TestCase.FuzzFilePath
      = ["/s/test_cases/1_XXX_FUZZFILEDIR_XXX.js"] ∧
    exampleConfig.Interpreter.Args = "XXX_FUZZFILE_XXX" ∧
    monitorArgs exampleConfig none "/s/test_cases/1_XXX_FUZZFILEDIR_XXX.js"
        (filepathDir "/s/test_cases/1_XXX_FUZZFILEDIR_XXX.js")
      = .ok "/s/test_cases/1_/s/test_cases.js" ∧
    simultaneousSubstitution exampleConfig.Interpreter.Args
        "/s/test_cases/1_XXX_FUZZFILEDIR_XXX.js"
        (filepathDir "/s/test_cases/1_XXX_FUZZFILEDIR_XXX.js")
      = "/s/test_cases/1_XXX_FUZZFILEDIR_XXX.js" :=
  ⟨by decide, by decide,
    congrArg Except.ok (by decide :
      stringsReplaceAll
        (stringsReplaceAll exampleConfig.Interpreter.Args INTERPRETER_ARGS_FUZZ_FILE_MARKER
          "/s/test_cases/1_XXX_FUZZFILEDIR_XXX.js")
        INTERPRETER_ARGS_FUZZ_FILE_DIR_MARKER
        (filepathDir "/s/test_cases/1_XXX_FUZZFILEDIR_XXX.js")
      = "/s/test_cases/1_/s/test_cases.js"),
    by decide⟩

/-! ## The bug descriptor written for a crash -/

theorem storeSeeds_acc (w : ResultWorld) (d f : String) (seeds : List String) :
    ∀ (names errs : List String) (acts : List FsAction),
    storeSeeds w d f seeds (names, errs, acts)
      = (names ++ (storeSeeds w d f seeds ([], [], [])).1,
         errs ++ (storeSeeds w d f seeds ([], [], [])).2.1,
         acts ++ (storeSeeds w d f seeds ([], [], [])).2.2) := by
  induction seeds with
  | nil => intro names errs acts; simp [storeSeeds]
  | cons s seeds ih =>
    intro names errs acts
    simp only [storeSeeds]
    split_ifs
    all_goals
      conv_lhs => rw [ih]
      conv_rhs => rw [ih]
      simp

/-- The loop that stores the seeds writes nothing but copies of seeds, each
under its storage name. -/
theorem storeSeeds_actions (w : ResultWorld) (d f : String) (seeds : List String) :
    ∀ a ∈ (storeSeeds w d f seeds ([], [], [])).2.2,
      ∃ s ∈ seeds, a = FsAction.writeFile (filepathJoin d (seedStorageName s)) s := by
  induction seeds with
  | nil => intro a ha; simp [storeSeeds] at ha
  | cons s seeds ih =>
    intro a ha
    simp only [storeSeeds] at ha
    split_ifs at ha
    · rw [storeSeeds_acc] at ha
      simp only [List.nil_append] at ha
      obtain ⟨s', hs', e⟩ := ih a ha
      exact ⟨s', List.mem_cons_of_mem s hs', e⟩
    · rw [storeSeeds_acc] at ha
      simp only [List.nil_append] at ha
      obtain ⟨s', hs', e⟩ := ih a ha
      exact ⟨s', List.mem_cons_of_mem s hs', e⟩
    · rw [storeSeeds_acc] at ha
      simp only [List.nil_append, List.mem_append, List.mem_singleton] at ha
      rcases ha with rfl | ha
      · exact ⟨s, List.mem_cons_self s seeds, rfl⟩
      · obtain ⟨s', hs', e⟩ := ih a ha
        exact ⟨s', List.mem_cons_of_mem s hs', e⟩

/-- When the loop that stores the seeds reports no error, it has written one
copy of every seed, in order. -/
theorem storeSeeds_clean (w : ResultWorld) (d f : String) (seeds : List String)
    (h : (storeSeeds w d f seeds ([], [], [])).2.1 = []) :
    (storeSeeds w d f seeds ([], [], [])).1 = seeds.map seedStorageName ∧
    (storeSeeds w d f seeds ([], [], [])).2.2
      = seeds.map (fun s => FsAction.writeFile (filepathJoin d (seedStorageName s)) s) := by
  induction seeds with
  | nil => simp [storeSeeds]
  | cons s seeds ih =>
    simp only [storeSeeds] at h ⊢
    split_ifs at h ⊢
    · rw [storeSeeds_acc] at h
      simp at h
    · rw [storeSeeds_acc] at h
      simp at h
    · rw [storeSeeds_acc] at h ⊢
      simp only [List.nil_append] at h
      obtain ⟨h1, h2⟩ := ih h
      simp only [List.nil_append, h1, h2, List.map_cons, List.singleton_append, and_self]

/-- Every descriptor `LogFile` writes carries the exit code and the counts of
the case it was written for. -/
theorem logFileCase_descriptor (preserveDir : String) (w : ResultWorld) (tc : TestCase)
    (p : String) (bd : BugDescriptor)
    (h : FsAction.writeDescriptor p bd ∈ (logFileCase preserveDir w tc).actions) :
    bd.RunExitCode = tc.ExitCode ∧ bd.OverallTestCaseCount = tc.TotalFuzzCount ∧
    bd.SeedFileTestCaseCounts = tc.SeedFuzzCounts := by
  have hstore : ∀ d f seeds, FsAction.writeDescriptor p bd
      ∉ (storeSeeds w d f seeds ([], [], [])).2.2 := by
    intro d f seeds hmem
    obtain ⟨s, _, e⟩ := storeSeeds_actions w d f seeds _ hmem
    cases e
  simp only [logFileCase, apply_ite LogFileStep.actions] at h
  split_ifs at h
  all_goals
    try rw [storeSeeds_acc] at h
    simp only [List.mem_append, List.mem_cons, List.mem_singleton, List.not_mem_nil,
      hstore, or_false, false_or, FsAction.writeDescriptor.injEq, reduceCtorEq] at h
  all_goals
    obtain ⟨_, rfl⟩ := h
    exact ⟨rfl, rfl, rfl⟩

/-- What `LogFile` does for a bug case when it reports no error: the case is
sent on, and the crash directory is made and filled with a copy of every seed,
the trigger, the two streams and the descriptor, in this order. -/
theorem logFileCase_clean (preserveDir : String) (w : ResultWorld) (tc : TestCase)
    (crashDir : String)
    (hdir : crashDir
      = filepathJoin preserveDir (itoa w.now ++ "_" ++ filepathBase tc.FuzzFilePath))
    (hbug : tc.ExitCode ∈ bugExitCodes)
    (herr : (logFileCase preserveDir w tc).errors = []) :
    (logFileCase preserveDir w tc).emitted = true ∧
    (logFileCase preserveDir w tc).testCase.PreservationDir = crashDir ∧
    (logFileCase preserveDir w tc).actions
      = [FsAction.mkdir crashDir]
        ++ tc.SeedFilePaths.map
            (fun s => FsAction.writeFile (filepathJoin crashDir (seedStorageName s)) s)
        ++ [FsAction.rename tc.FuzzFilePath
              (filepathJoin crashDir (filepathBase tc.FuzzFilePath)),
            FsAction.writeLines (filepathJoin crashDir STDOUT_NAME) tc.RunStdout,
            FsAction.writeLines (filepathJoin crashDir STDERR_NAME) tc.RunStderr,
            FsAction.writeDescriptor (filepathJoin crashDir BUG_DESC_NAME)
              { NewBugDescriptor tc with
                SeedFileNames := tc.SeedFilePaths.map seedStorageName,
                TriggerFileName := filepathBase tc.FuzzFilePath,
                RunStdoutPath := filepathJoin crashDir STDOUT_NAME,
                RunStderrPath := filepathJoin crashDir STDERR_NAME }] := by
  subst hdir
  have hacc := storeSeeds_acc w
    (filepathJoin preserveDir (itoa w.now ++ "_" ++ filepathBase tc.FuzzFilePath))
    tc.FuzzFilePath tc.SeedFilePaths [] []
    [FsAction.mkdir
      (filepathJoin preserveDir (itoa w.now ++ "_" ++ filepathBase tc.FuzzFilePath))]
  simp only [logFileCase, if_pos hbug, apply_ite LogFileStep.errors, hacc,
    List.nil_append] at herr
  split_ifs at herr
  all_goals try solve | simp at herr
  rename_i a1 a2 a3 a4 a5 a6 a7
  simp only [Bool.not_eq_true', Bool.not_eq_false] at a1 a2 a3 a4 a5 a6 a7
  obtain ⟨hn, ha⟩ := storeSeeds_clean w _ _ _ herr
  simp [logFileCase, hbug, hacc, hn, ha, NewBugDescriptor, a1, a2, a3, a4, a5, a6, a7]

/-! ## The bug descriptor through JSON -/

/-- What is parsed from what `LogFile` wrote for a descriptor, byte for byte. -/
theorem parse_marshalRawBugDescriptor (b : RawBugDescriptor) :
    parseRawBugDescriptor (marshalRawBugDescriptor b)
      = some { TriggerFileName := jsonCoerce b.TriggerFileName,
               SeedFileNames := b.SeedFileNames.map jsonCoerce,
               OriginalSeedPaths := b.OriginalSeedPaths.map jsonCoerce,
               ApplicationPath := jsonCoerce b.ApplicationPath,
               ApplicationEnv := b.ApplicationEnv.map jsonCoerce,
               RunExitCode := b.RunExitCode,
               RunExeSeconds := b.RunExeSeconds,
               RunStdoutPath := jsonCoerce b.RunStdoutPath,
               RunStderrPath := jsonCoerce b.RunStderrPath,
               OverallTestCaseCount := b.OverallTestCaseCount,
               SeedFileTestCaseCounts := b.SeedFileTestCaseCounts.map rebuiltRawMap } := by
  simp [parseRawBugDescriptor, decodeRawBugDescriptor, marshalRawBugDescriptor, decodeStruct,
    findField, decodeBytes, marshalBytes, decodeInt, decodeBytesList_marshal,
    decodeRawMapPtr_marshal, RawBugDescriptor.zero, jsonCoerce]

theorem rawCountsEntry_rebuilt (m : Option RawMap)
    (hvalid : ∀ m', m = some m' → ∀ k ∈ m'.map Prod.fst, ValidUTF8 k) (q : GoBytes) :
    rawCountsEntry (m.map rebuiltRawMap) q = rawCountsEntry m q := by
  cases m with
  | none => rfl
  | some m => exact get?_rebuiltRawMap m (hvalid m rfl) q

/-- C21, amended. For every test case on bytes, the descriptor built from it
(and the descriptor `LogFile` writes, which is that one with the seed names, the
trigger name and the two stream paths filled in), written as JSON and parsed
back, carries the exit code and the overall count of the case and has a
per-seed map exactly when the case has one; when the keys of the case's map
are valid UTF-8, the parsed map holds at every seed the count the case
holds. -/
theorem bug_descriptor_round_trip_bytes (tc : RawTestCase) (names : List GoBytes)
    (trigger stdoutPath stderrPath : GoBytes) (bd : RawBugDescriptor)
    (hbd : bd = NewRawBugDescriptor tc ∨
      bd = { NewRawBugDescriptor tc with
             SeedFileNames := names, TriggerFileName := trigger,
             RunStdoutPath := stdoutPath, RunStderrPath := stderrPath }) :
    ∃ b, parseRawBugDescriptor (marshalRawBugDescriptor bd) = some b ∧
      b.RunExitCode = tc.ExitCode ∧
      b.OverallTestCaseCount = tc.TotalFuzzCount ∧
      b.SeedFileTestCaseCounts.isSome = tc.SeedFuzzCounts.isSome ∧
      ((∀ m, tc.SeedFuzzCounts = some m → ∀ k ∈ m.map Prod.fst, ValidUTF8 k) →
        ∀ q, rawCountsEntry b.SeedFileTestCaseCounts q
          = rawCountsEntry tc.SeedFuzzCounts q) := by
  have h1 : bd.RunExitCode = tc.ExitCode := by rcases hbd with rfl | rfl <;> rfl
  have h2 : bd.OverallTestCaseCount = tc.TotalFuzzCount := by rcases hbd with rfl | rfl <;> rfl
  have h3 : bd.SeedFileTestCaseCounts = tc.SeedFuzzCounts := by
    rcases hbd with rfl | rfl <;> rfl
  refine ⟨_, parse_marshalRawBugDescriptor bd, h1, h2, ?_, ?_⟩
  · show (bd.SeedFileTestCaseCounts.map rebuiltRawMap).isSome = _
    rw [Option.isSome_map', h3]
  · intro hvalid q
    show rawCountsEntry (bd.SeedFileTestCaseCounts.map rebuiltRawMap) q = _
    rw [h3, rawCountsEntry_rebuilt _ hvalid]

theorem bug_descriptor_round_trip_bytes_witness :
    ∃ b, parseRawBugDescriptor (marshalRawBugDescriptor (NewRawBugDescriptor exampleValidRawCrash))
        = some b ∧
      b.RunExitCode = 139 ∧ b.OverallTestCaseCount = 1 ∧
      ∀ q, rawCountsEntry b.SeedFileTestCaseCounts q
        = rawCountsEntry exampleValidRawCrash.SeedFuzzCounts q := by
  obtain ⟨b, h, h1, h2, _, h4⟩ := bug_descriptor_round_trip_bytes exampleValidRawCrash [] [] [] []
    (NewRawBugDescriptor exampleValidRawCrash) (Or.inl rfl)
  refine ⟨b, h, h1, h2, h4 ?_⟩
  intro m hm k hk
  have hm' : m = [(utf8Bytes "/é.js", 1)] := (Option.some.inj hm).symm
  rw [hm'] at hk
  simp only [List.map_cons, List.map_nil, List.mem_singleton] at hk
  exact ⟨"/é.js", hk⟩

/-- C21, counterexample. A crash of a mutant of the seed `/seeds/<0xFF>.js`,
whose per-seed map holds 1 for that seed: in the descriptor that is parsed
from the JSON written for it the map has no count for the seed, the count is
found under the path with U+FFFD in place of the byte. -/
theorem bug_descriptor_loses_invalid_utf8 :
    ∃ b, parseRawBugDescriptor (marshalRawBugDescriptor (NewRawBugDescriptor exampleRawCrash))
        = some b ∧
      rawCountsEntry exampleRawCrash.SeedFuzzCounts
        [47, 115, 101, 101, 100, 115, 47, 0xFF, 46, 106, 115] = some 1 ∧
      rawCountsEntry b.SeedFileTestCaseCounts
        [47, 115, 101, 101, 100, 115, 47, 0xFF, 46, 106, 115] = none ∧
      rawCountsEntry b.SeedFileTestCaseCounts
        [47, 115, 101, 101, 100, 115, 47, 0xEF, 0xBF, 0xBD, 46, 106, 115] = some 1 :=
  ⟨_, parse_marshalRawBugDescriptor (NewRawBugDescriptor exampleRawCrash), by decide, by decide,
    by decide⟩

/-! ## The seeds stored with a crash -/

theorem storageChars_injective : ∀ (a b : List Char),
    (∀ c ∈ a, c ≠ '_') → (∀ c ∈ b, c ≠ '_') →
    a.map (fun c => if c = '/' then '_' else c) = b.map (fun c => if c = '/' then '_' else c) →
    a = b := by
  intro a
  induction a with
  | nil =>
    intro b _ _ h
    cases b with
    | nil => rfl
    | cons y b => simp at h
  | cons x a ih =>
    intro b ha hb h
    cases b with
    | nil => simp at h
    | cons y b =>
      simp only [List.map_cons, List.cons.injEq] at h
      have hx := ha x (List.mem_cons_self x a)
      have hy := hb y (List.mem_cons_self y b)
      have hxy : x = y := by
        by_cases h1 : x = '/'
        · by_cases h2 : y = '/'
          · rw [h1, h2]
          · rw [if_pos h1, if_neg h2] at h
            exact absurd h.1.symm hy
        · by_cases h2 : y = '/'
          · rw [if_neg h1, if_pos h2] at h
            exact absurd h.1 hx
          · rw [if_neg h1, if_neg h2] at h
            exact h.1
      rw [hxy, ih b (fun c hc => ha c (List.mem_cons_of_mem x hc))
        (fun c hc => hb c (List.mem_cons_of_mem y hc)) h.2]

/-- Paths without `_` that are stored under the same name are the same path. -/
theorem seedStorageName_injective (s1 s2 : String) (h1 : ∀ c ∈ s1.data, c ≠ '_')
    (h2 : ∀ c ∈ s2.data, c ≠ '_') (h : seedStorageName s1 = seedStorageName s2) : s1 = s2 := by
  have hd : s1.data = s2.data :=
    storageChars_injective s1.data s2.data h1 h2 (congrArg String.data h)
  exact String.ext hd

/-- The stored name of an absolute path starts with `_`. -/
theorem seedStorageName_absolute (s : String) (rest : List Char) (h : s.data = '/' :: rest) :
    (seedStorageName s).data.head? = some '_' := by
  simp [seedStorageName, h]

/-- C22, amended. For a bug case that `LogFile` handles without reporting
an error, the case is sent on and the crash directory is made and filled, in
this order, with a copy of every seed of the case under its stored name, the
trigger under its base name, `stdout.data`, `stderr.data` and `bugdesc.json`.
Seed paths without `_` that have the same stored name are the same path, and
the stored name of an absolute seed path starts with `_`, so that it is none
of `bugdesc.json`, `stdout.data` and `stderr.data`, nor the base name of a
trigger that does not start with `_`. -/
theorem seeds_preserved (preserveDir : String) (w : ResultWorld) (tc : TestCase)
    (hbug : tc.ExitCode ∈ bugExitCodes)
    (herr : (logFileCase preserveDir w tc).errors = []) :
    (logFileCase preserveDir w tc).emitted = true ∧
    (logFileCase preserveDir w tc).actions
      = [FsAction.mkdir (logFileCase preserveDir w tc).testCase.PreservationDir]
        ++ tc.SeedFilePaths.map
            (fun s => FsAction.writeFile
              (filepathJoin (logFileCase preserveDir w tc).testCase.PreservationDir
                (seedStorageName s)) s)
        ++ [FsAction.rename tc.FuzzFilePath
              (filepathJoin (logFileCase preserveDir w tc).testCase.PreservationDir
                (filepathBase tc.FuzzFilePath)),
            FsAction.writeLines
              (filepathJoin (logFileCase preserveDir w tc).testCase.PreservationDir STDOUT_NAME)
              tc.RunStdout,
            FsAction.writeLines
              (filepathJoin (logFileCase preserveDir w tc).testCase.PreservationDir STDERR_NAME)
              tc.RunStderr,
            FsAction.writeDescriptor
              (filepathJoin (logFileCase preserveDir w tc).testCase.PreservationDir
                BUG_DESC_NAME)
              { NewBugDescriptor tc with
                SeedFileNames := tc.SeedFilePaths.map seedStorageName,
                TriggerFileName := filepathBase tc.FuzzFilePath,
                RunStdoutPath :=
                  filepathJoin (logFileCase preserveDir w tc).testCase.PreservationDir
                    STDOUT_NAME,
                RunStderrPath :=
                  filepathJoin (logFileCase preserveDir w tc).testCase.PreservationDir
                    STDERR_NAME }] ∧
    (∀ s1 ∈ tc.SeedFilePaths, ∀ s2 ∈ tc.SeedFilePaths,
      (∀ c ∈ s1.data, c ≠ '_') → (∀ c ∈ s2.data, c ≠ '_') →
      seedStorageName s1 = seedStorageName s2 → s1 = s2) ∧
    (∀ s ∈ tc.SeedFilePaths, ∀ rest, s.data = '/' :: rest →
      seedStorageName s ≠ BUG_DESC_NAME ∧ seedStorageName s ≠ STDOUT_NAME ∧
      seedStorageName s ≠ STDERR_NAME ∧
      ((filepathBase tc.FuzzFilePath).data.head? ≠ some '_' →
        seedStorageName s ≠ filepathBase tc.FuzzFilePath)) := by
  obtain ⟨hem, hdir, hact⟩ := logFileCase_clean preserveDir w tc _ rfl hbug herr
  refine ⟨hem, ?_, ?_, ?_⟩
  · rw [hdir]
    exact hact
  · intro s1 _ s2 _ h1 h2 h
    exact seedStorageName_injective s1 s2 h1 h2 h
  · intro s _ rest hs
    have hhead := seedStorageName_absolute s rest hs
    refine ⟨?_, ?_, ?_, ?_⟩
    · intro e
      rw [e] at hhead
      exact absurd hhead (by decide)
    · intro e
      rw [e] at hhead
      exact absurd hhead (by decide)
    · intro e
      rw [e] at hhead
      exact absurd hhead (by decide)
    · intro hne e
      rw [e] at hhead
      exact hne hhead

theorem seeds_preserved_witness :
    (logFileCase "/s/crashes" exampleResultWorld exampleCrash).actions
      = [FsAction.mkdir "/s/crashes/1700000000_1_a.js",
         FsAction.writeFile "/s/crashes/1700000000_1_a.js/_seeds_a.js" "/seeds/a.js",
         FsAction.rename "/s/test_cases/1_a.js" "/s/crashes/1700000000_1_a.js/1_a.js",
         FsAction.writeLines "/s/crashes/1700000000_1_a.js/stdout.data" [],
         FsAction.writeLines "/s/crashes/1700000000_1_a.js/stderr.data" [],
         FsAction.writeDescriptor "/s/crashes/1700000000_1_a.js/bugdesc.json"
           exampleDescriptor] :=
  (seeds_preserved "/s/crashes" exampleResultWorld exampleCrash (by decide)
    (by decide)).2.1.trans (by decide)

/-- C22, counterexample. Two seeds of one crash whose paths differ only in where they have
`/` and where `_` are stored under the same name: no error is reported, and
the copy of the first is overwritten by the copy of the second. -/
theorem seed_copies_collide :
    exampleTwoSeedCrash.SeedFilePaths = ["/a/b_c", "/a_b/c"] ∧
    exampleTwoSeedCrash.ExitCode ∈ bugExitCodes ∧
    seedStorageName "/a/b_c" = seedStorageName "/a_b/c" ∧
    (logFileCase "/s/crashes" exampleResultWorld exampleTwoSeedCrash).errors = [] ∧
    (logFileCase "/s/crashes" exampleResultWorld exampleTwoSeedCrash).actions
      = [FsAction.mkdir "/s/crashes/1700000000_1_a.js",
         FsAction.writeFile "/s/crashes/1700000000_1_a.js/_a_b_c" "/a/b_c",
         FsAction.writeFile "/s/crashes/1700000000_1_a.js/_a_b_c" "/a_b/c",
         FsAction.rename "/s/test_cases/1_a.js" "/s/crashes/1700000000_1_a.js/1_a.js",
         FsAction.writeLines "/s/crashes/1700000000_1_a.js/stdout.data" [],
         FsAction.writeLines "/s/crashes/1700000000_1_a.js/stderr.data" [],
         FsAction.writeDescriptor "/s/crashes/1700000000_1_a.js/bugdesc.json"
           { exampleDescriptor with
             SeedFileNames := ["_a_b_c", "_a_b_c"],
             OriginalSeedPaths := ["/a/b_c", "/a_b/c"] }] := by
  decide

/-! ## The directories `get_shelljs_paths` looks into -/

/-- The probes of the walk from `/a/b/c/d/x.js` up to `/a/b`. -/
theorem shelljs_probes_example :
    get_shelljs_probes 3 "/a/b/" "/a/b/c/./d/x.js"
      = some ["/a/b/c/d/shell.js", "/a/b/c/shell.js", "/a/b/shell.js"] := by
  decide

end Malamute
